import Mathlib

/-! Nautylus: generational arena, graph store and vector index.

A shallow embedding of `src/slab.c`, `include/nautylus/ids.h`, `src/graph.c` and
`src/vector.c`; the conventions for the vector index and for `float` are stated with its
definitions.

Conventions of the embedding:
* C unsigned integers are `Nat`; 32-bit arithmetic that can wrap is reduced with `u32`.
* C arrays are total functions `Nat → α`; a pointer into an arena's `data` array is the
  slot index it points at, and `NULL` is `none`.
* `memset(ptr, 0, item_size)` writes the all-zero record `0`.
* A `double` is carried as its 64-bit pattern; the code only copies it.
* The two `while` loops of `nty_node_destroy` take a fuel argument; `none` means the fuel
  ran out before the loop condition became false.
-/

namespace Nautylus

/-! ## include/nautylus/ids.h -/

abbrev UINT32_MAX : Nat := 4294967295

abbrev NTY_ID_INDEX_BITS : Nat := 32

abbrev NTY_ID_INDEX_MASK : Nat := 4294967295

/-- Truncation of an arithmetic result to `uint32_t`. -/
def u32 (x : Nat) : Nat := x % 4294967296

/-- Slot index encoded in an identifier: `raw == 0 ? UINT32_MAX : raw - 1` with
`raw = id & NTY_ID_INDEX_MASK`. -/
def nty_id_index (id : Nat) : Nat :=
  if id &&& NTY_ID_INDEX_MASK = 0 then UINT32_MAX else (id &&& NTY_ID_INDEX_MASK) - 1

/-- Generation encoded in an identifier: `(uint32_t)(id >> NTY_ID_INDEX_BITS)`; for a 64-bit
identifier the cast loses nothing. -/
def nty_id_generation (id : Nat) : Nat := id >>> NTY_ID_INDEX_BITS

/-! ## src/nautylus_slab.h, src/slab.c -/

abbrev NTY_SLAB_NO_FREE : Nat := 4294967295

/-- The arena `struct nty_slab`; `α` is the record type stored in `data`. -/
structure nty_slab_t (α : Type) where
  data : Nat → α
  next_free : Nat → Nat
  generation : Nat → Nat
  occupied : Nat → Bool
  item_size : Nat
  capacity : Nat
  next_unused : Nat
  free_head : Nat
  count : Nat

section slab
variable {α : Type} [Zero α]

/-- Initialisation `nty_slab_init`: `none` is the `false` return; the four arrays come from
`calloc`. -/
def nty_slab_init (item_size capacity : Nat) : Option (nty_slab_t α) :=
  if item_size = 0 ∨ capacity = 0 then none
  else some
    { data := fun _ => 0
      next_free := fun _ => 0
      generation := fun _ => 0
      occupied := fun _ => false
      item_size := item_size
      capacity := capacity
      next_unused := 0
      free_head := NTY_SLAB_NO_FREE
      count := 0 }

/-- Slot selection `nty_slab_next_index`: the returned index and the updated arena. -/
def nty_slab_next_index (s : nty_slab_t α) : Nat × nty_slab_t α :=
  if s.free_head ≠ NTY_SLAB_NO_FREE then
    (s.free_head, { s with free_head := s.next_free s.free_head })
  else if s.next_unused < s.capacity then
    (s.next_unused, { s with next_unused := u32 (s.next_unused + 1) })
  else (NTY_SLAB_NO_FREE, s)

/-- Generation issued by an allocation that finds `generation` in the slot:
`generation == 0 ? 1 : generation + 1` in 32 bits. -/
def next_generation (generation : Nat) : Nat :=
  if generation = 0 then 1 else u32 (generation + 1)

/-- Allocation `nty_slab_alloc`: returned identifier (`0` on failure), the record pointer
written to `*out_ptr`, and the updated arena. -/
def nty_slab_alloc (s : nty_slab_t α) : Nat × Nat × nty_slab_t α :=
  if (nty_slab_next_index s).1 = NTY_SLAB_NO_FREE then (0, 0, (nty_slab_next_index s).2)
  else
    ((next_generation ((nty_slab_next_index s).2.generation (nty_slab_next_index s).1)
        <<< NTY_ID_INDEX_BITS) ||| u32 ((nty_slab_next_index s).1 + 1),
     (nty_slab_next_index s).1,
     { (nty_slab_next_index s).2 with
        generation := Function.update (nty_slab_next_index s).2.generation
          (nty_slab_next_index s).1
          (next_generation ((nty_slab_next_index s).2.generation (nty_slab_next_index s).1))
        occupied := Function.update (nty_slab_next_index s).2.occupied
          (nty_slab_next_index s).1 true
        count := u32 ((nty_slab_next_index s).2.count + 1)
        data := Function.update (nty_slab_next_index s).2.data (nty_slab_next_index s).1 0 })

/-- Validation `nty_slab_exists`. -/
def nty_slab_exists (s : nty_slab_t α) (id : Nat) : Bool :=
  if nty_id_index id = UINT32_MAX ∨ nty_id_index id ≥ s.capacity then false
  else if s.occupied (nty_id_index id) = false then false
  else decide (s.generation (nty_id_index id) = nty_id_generation id)

/-- Release `nty_slab_free`: the success flag and the updated arena. -/
def nty_slab_free (s : nty_slab_t α) (id : Nat) : Bool × nty_slab_t α :=
  if nty_id_index id = UINT32_MAX ∨ nty_id_index id ≥ s.capacity then (false, s)
  else if s.occupied (nty_id_index id) = false then (false, s)
  else if s.generation (nty_id_index id) ≠ nty_id_generation id then (false, s)
  else
    (true,
     { s with
        data := Function.update s.data (nty_id_index id) 0
        occupied := Function.update s.occupied (nty_id_index id) false
        next_free := Function.update s.next_free (nty_id_index id) s.free_head
        free_head := nty_id_index id
        count := u32 (s.count + 4294967295) })

/-- Lookup `nty_slab_get` / `nty_slab_get_const`: the slot the returned pointer addresses. -/
def nty_slab_get (s : nty_slab_t α) (id : Nat) : Option Nat :=
  if nty_slab_exists s id = false then none else some (nty_id_index id)

end slab

/-! ## include/nautylus/graph.h -/

/-- Record `struct nty_node`. -/
structure nty_node_t where
  id : Nat
  out_head : Nat
  out_tail : Nat
  in_head : Nat
  in_tail : Nat
deriving DecidableEq

/-- Record `struct nty_edge`; `from_` and `to_` are the C fields `from` and `to`. -/
structure nty_edge_t where
  id : Nat
  from_ : Nat
  to_ : Nat
  type : Nat
  weight : Nat
  timestamp : Nat
  out_prev : Nat
  out_next : Nat
  in_prev : Nat
  in_next : Nat
deriving DecidableEq

/-- Record `struct nty_property`. -/
structure nty_property_t where
  id : Nat
  owner : Nat
  key : Nat
  value : Nat
deriving DecidableEq

instance : Zero nty_node_t := ⟨⟨0, 0, 0, 0, 0⟩⟩

instance : Zero nty_edge_t := ⟨⟨0, 0, 0, 0, 0, 0, 0, 0, 0, 0⟩⟩

instance : Zero nty_property_t := ⟨⟨0, 0, 0, 0⟩⟩

/-- Iterator `struct nty_neighbor_iter`. -/
structure nty_neighbor_iter_t where
  current : Nat
  outgoing : Bool
deriving DecidableEq

/-! ## src/graph.c -/

/-- The store `struct nty_graph`. -/
structure nty_graph_t where
  nodes : nty_slab_t nty_node_t
  edges : nty_slab_t nty_edge_t
  properties : nty_slab_t nty_property_t
  node_order : Nat → Nat
  edge_order : Nat → Nat
  property_order : Nat → Nat
  node_order_len : Nat
  edge_order_len : Nat
  property_order_len : Nat
  node_order_cap : Nat
  edge_order_cap : Nat
  property_order_cap : Nat

def nty_graph_get_node (g : nty_graph_t) (node_id : Nat) : Option Nat :=
  nty_slab_get g.nodes node_id

def nty_graph_get_node_const (g : nty_graph_t) (node_id : Nat) : Option Nat :=
  nty_slab_get g.nodes node_id

def nty_graph_get_edge (g : nty_graph_t) (edge_id : Nat) : Option Nat :=
  nty_slab_get g.edges edge_id

/-- A write through a `nty_node_t *` that addresses slot `p`. -/
def set_node (g : nty_graph_t) (p : Nat) (f : nty_node_t → nty_node_t) : nty_graph_t :=
  { g with nodes := { g.nodes with data := Function.update g.nodes.data p (f (g.nodes.data p)) } }

/-- A write through a `nty_edge_t *` that addresses slot `p`. -/
def set_edge (g : nty_graph_t) (p : Nat) (f : nty_edge_t → nty_edge_t) : nty_graph_t :=
  { g with edges := { g.edges with data := Function.update g.edges.data p (f (g.edges.data p)) } }

/-- A write through a `nty_property_t *` that addresses slot `p`. -/
def set_property (g : nty_graph_t) (p : Nat) (f : nty_property_t → nty_property_t) :
    nty_graph_t :=
  { g with properties :=
      { g.properties with
        data := Function.update g.properties.data p (f (g.properties.data p)) } }

/-- Append `nty_order_append`: success flag, array and length afterwards. -/
def nty_order_append (order : Nat → Nat) (cap len id : Nat) : Bool × (Nat → Nat) × Nat :=
  if len ≥ cap then (false, order, len)
  else (true, Function.update order len id, len + 1)

/-- The scan of `nty_order_remove`: first position `j` with `i ≤ j < i + n` and
`order[j] == id`. -/
def order_find (order : Nat → Nat) (id : Nat) : Nat → Nat → Option Nat
  | 0, _ => none
  | n + 1, i => if order i = id then some i else order_find order id n (i + 1)

/-- Removal `nty_order_remove`: array and length afterwards; the `memmove` shifts the
entries after the hit down by one. -/
def nty_order_remove (order : Nat → Nat) (len id : Nat) : (Nat → Nat) × Nat :=
  if len = 0 then (order, len)
  else
    match order_find order id len 0 with
    | none => (order, len)
    | some i => (fun j => if i ≤ j ∧ j < len - 1 then order (j + 1) else order j, len - 1)

/-- Construction `nty_graph_create`; `none` is the `NULL` return. The arenas receive the
capacities cast to `uint32_t`, the order arrays the `size_t` capacities. -/
def nty_graph_create (node_capacity edge_capacity property_capacity : Nat) :
    Option nty_graph_t :=
  match (nty_slab_init 40 (u32 node_capacity) : Option (nty_slab_t nty_node_t)),
        (nty_slab_init 80 (u32 edge_capacity) : Option (nty_slab_t nty_edge_t)),
        (nty_slab_init 32 (u32 property_capacity) : Option (nty_slab_t nty_property_t)) with
  | some n, some e, some p =>
    some
      { nodes := n
        edges := e
        properties := p
        node_order := fun _ => 0
        edge_order := fun _ => 0
        property_order := fun _ => 0
        node_order_len := 0
        edge_order_len := 0
        property_order_len := 0
        node_order_cap := node_capacity
        edge_order_cap := edge_capacity
        property_order_cap := property_capacity }
  | _, _, _ => none

/-- Lines 104-111 of `nty_edge_unlink`: bypass the edge in the `out_next` direction; `ep` is
the `edge` pointer and `fp` the `from` pointer. -/
def unlink_out_prev (g : nty_graph_t) (ep fp : Nat) : nty_graph_t :=
  if (g.edges.data ep).out_prev ≠ 0 then
    match nty_graph_get_edge g (g.edges.data ep).out_prev with
    | some pp => set_edge g pp (fun e => { e with out_next := (g.edges.data ep).out_next })
    | none => g
  else set_node g fp (fun n => { n with out_head := (g.edges.data ep).out_next })

/-- Lines 112-119 of `nty_edge_unlink`: bypass the edge in the `out_prev` direction. -/
def unlink_out_next (g : nty_graph_t) (ep fp : Nat) : nty_graph_t :=
  if (g.edges.data ep).out_next ≠ 0 then
    match nty_graph_get_edge g (g.edges.data ep).out_next with
    | some np => set_edge g np (fun e => { e with out_prev := (g.edges.data ep).out_prev })
    | none => g
  else set_node g fp (fun n => { n with out_tail := (g.edges.data ep).out_prev })

/-- First half of `nty_edge_unlink` (the `if (from)` block). -/
def unlink_out (g : nty_graph_t) (ep : Nat) : nty_graph_t :=
  match nty_graph_get_node g (g.edges.data ep).from_ with
  | none => g
  | some fp => unlink_out_next (unlink_out_prev g ep fp) ep fp

/-- Lines 124-131 of `nty_edge_unlink`: bypass the edge in the `in_next` direction; `tp` is
the `to` pointer. -/
def unlink_in_prev (g : nty_graph_t) (ep tp : Nat) : nty_graph_t :=
  if (g.edges.data ep).in_prev ≠ 0 then
    match nty_graph_get_edge g (g.edges.data ep).in_prev with
    | some pp => set_edge g pp (fun e => { e with in_next := (g.edges.data ep).in_next })
    | none => g
  else set_node g tp (fun n => { n with in_head := (g.edges.data ep).in_next })

/-- Lines 132-139 of `nty_edge_unlink`: bypass the edge in the `in_prev` direction. -/
def unlink_in_next (g : nty_graph_t) (ep tp : Nat) : nty_graph_t :=
  if (g.edges.data ep).in_next ≠ 0 then
    match nty_graph_get_edge g (g.edges.data ep).in_next with
    | some np => set_edge g np (fun e => { e with in_prev := (g.edges.data ep).in_prev })
    | none => g
  else set_node g tp (fun n => { n with in_tail := (g.edges.data ep).in_prev })

/-- Second half of `nty_edge_unlink` (the `if (to)` block). -/
def unlink_in (g : nty_graph_t) (ep : Nat) : nty_graph_t :=
  match nty_graph_get_node g (g.edges.data ep).to_ with
  | none => g
  | some tp => unlink_in_next (unlink_in_prev g ep tp) ep tp

/-- Detachment `nty_edge_unlink`; `ep` is the (non-null) `edge` pointer. -/
def nty_edge_unlink (g : nty_graph_t) (ep : Nat) : nty_graph_t :=
  unlink_in (unlink_out g ep) ep

/-- Creation `nty_node_create`: returned identifier and the store afterwards. -/
def nty_node_create (g : nty_graph_t) : Nat × nty_graph_t :=
  if (nty_slab_alloc g.nodes).1 = 0 then (0, { g with nodes := (nty_slab_alloc g.nodes).2.2 })
  else
    let id := (nty_slab_alloc g.nodes).1
    let g1 := set_node { g with nodes := (nty_slab_alloc g.nodes).2.2 }
      (nty_slab_alloc g.nodes).2.1 (fun n => { n with id := id })
    if (nty_order_append g1.node_order g1.node_order_cap g1.node_order_len id).1 = false then
      (0, { g1 with nodes := (nty_slab_free g1.nodes id).2 })
    else
      (id,
       { g1 with
          node_order :=
            (nty_order_append g1.node_order g1.node_order_cap g1.node_order_len id).2.1
          node_order_len :=
            (nty_order_append g1.node_order g1.node_order_cap g1.node_order_len id).2.2 })

/-- Destruction `nty_edge_destroy`: success flag and the store afterwards. -/
def nty_edge_destroy (g : nty_graph_t) (edge_id : Nat) : Bool × nty_graph_t :=
  match nty_graph_get_edge g edge_id with
  | none => (false, g)
  | some ep =>
    let g1 := nty_edge_unlink g ep
    if (nty_slab_free g1.edges edge_id).1 = false then
      (false, { g1 with edges := (nty_slab_free g1.edges edge_id).2 })
    else
      (true,
       { g1 with
          edges := (nty_slab_free g1.edges edge_id).2
          edge_order := (nty_order_remove g1.edge_order g1.edge_order_len edge_id).1
          edge_order_len := (nty_order_remove g1.edge_order g1.edge_order_len edge_id).2 })

/-- The loop `while (node->out_head) nty_edge_destroy(graph, node->out_head);` with `np` the
`node` pointer. -/
def destroy_out_loop : Nat → nty_graph_t → Nat → Option nty_graph_t
  | 0, _, _ => none
  | fuel + 1, g, np =>
    if (g.nodes.data np).out_head ≠ 0 then
      destroy_out_loop fuel (nty_edge_destroy g (g.nodes.data np).out_head).2 np
    else some g

/-- The loop `while (node->in_head) nty_edge_destroy(graph, node->in_head);`. -/
def destroy_in_loop : Nat → nty_graph_t → Nat → Option nty_graph_t
  | 0, _, _ => none
  | fuel + 1, g, np =>
    if (g.nodes.data np).in_head ≠ 0 then
      destroy_in_loop fuel (nty_edge_destroy g (g.nodes.data np).in_head).2 np
    else some g

/-- Destruction `nty_node_destroy`: success flag and the store afterwards; `none` when a
cascade loop did not finish within `fuel` iterations. -/
def nty_node_destroy (fuel : Nat) (g : nty_graph_t) (node_id : Nat) :
    Option (Bool × nty_graph_t) :=
  match nty_graph_get_node g node_id with
  | none => some (false, g)
  | some np =>
    match destroy_out_loop fuel g np with
    | none => none
    | some g1 =>
      match destroy_in_loop fuel g1 np with
      | none => none
      | some g2 =>
        if (nty_slab_free g2.nodes node_id).1 = false then
          some (false, { g2 with nodes := (nty_slab_free g2.nodes node_id).2 })
        else
          some (true,
            { g2 with
              nodes := (nty_slab_free g2.nodes node_id).2
              node_order := (nty_order_remove g2.node_order g2.node_order_len node_id).1
              node_order_len := (nty_order_remove g2.node_order g2.node_order_len node_id).2 })

/-- Lines 224-231 of `nty_edge_create`: make the edge `id` the successor of the current
outgoing tail of the node addressed by `fp`, or the head of an empty list. -/
def link_out_prev (g : nty_graph_t) (fp id : Nat) : nty_graph_t :=
  if (g.nodes.data fp).out_tail ≠ 0 then
    match nty_graph_get_edge g (g.nodes.data fp).out_tail with
    | some pp => set_edge g pp (fun e => { e with out_next := id })
    | none => g
  else set_node g fp (fun n => { n with out_head := id })

/-- Lines 224-232 of `nty_edge_create`: link the edge `id` at the tail of the outgoing list
of the node addressed by `fp`. -/
def link_out (g : nty_graph_t) (fp id : Nat) : nty_graph_t :=
  set_node (link_out_prev g fp id) fp (fun n => { n with out_tail := id })

/-- Lines 233-240 of `nty_edge_create`: make the edge `id` the successor of the current
incoming tail of the node addressed by `tp`, or the head of an empty list. -/
def link_in_prev (g : nty_graph_t) (tp id : Nat) : nty_graph_t :=
  if (g.nodes.data tp).in_tail ≠ 0 then
    match nty_graph_get_edge g (g.nodes.data tp).in_tail with
    | some pp => set_edge g pp (fun e => { e with in_next := id })
    | none => g
  else set_node g tp (fun n => { n with in_head := id })

/-- Lines 233-241 of `nty_edge_create`: link the edge `id` at the tail of the incoming list
of the node addressed by `tp`. -/
def link_in (g : nty_graph_t) (tp id : Nat) : nty_graph_t :=
  set_node (link_in_prev g tp id) tp (fun n => { n with in_tail := id })

/-- Lines 214-223 of `nty_edge_create`: fill in the freshly allocated record addressed by
`ep`; `fp` and `tp` are the `from_node` and `to_node` pointers. -/
def edge_init (g : nty_graph_t) (ep id from_ to_ type weight timestamp fp tp : Nat) :
    nty_graph_t :=
  set_edge g ep (fun e =>
    { e with
      id := id
      from_ := from_
      to_ := to_
      type := type
      weight := weight
      timestamp := timestamp
      out_prev := (g.nodes.data fp).out_tail
      out_next := 0
      in_prev := (g.nodes.data tp).in_tail
      in_next := 0 })

/-- Lines 214-241 of `nty_edge_create`: the store once the new record is filled in and linked
into both lists; `a` is the result of the arena allocation. -/
def edge_linked (g : nty_graph_t) (a : Nat × Nat × nty_slab_t nty_edge_t)
    (from_ to_ type weight timestamp fp tp : Nat) : nty_graph_t :=
  link_in
    (link_out (edge_init { g with edges := a.2.2 } a.2.1 a.1 from_ to_ type weight timestamp fp tp)
      fp a.1)
    tp a.1

/-- Creation `nty_edge_create`: returned identifier and the store afterwards. -/
def nty_edge_create (g : nty_graph_t) (from_ to_ type weight timestamp : Nat) :
    Nat × nty_graph_t :=
  match nty_graph_get_node g from_, nty_graph_get_node g to_ with
  | some fp, some tp =>
    if (nty_slab_alloc g.edges).1 = 0 then
      (0, { g with edges := (nty_slab_alloc g.edges).2.2 })
    else
      let id := (nty_slab_alloc g.edges).1
      let ep := (nty_slab_alloc g.edges).2.1
      let g3 := edge_linked g (nty_slab_alloc g.edges) from_ to_ type weight timestamp fp tp
      if (nty_order_append g3.edge_order g3.edge_order_cap g3.edge_order_len id).1 = false then
        let g4 := nty_edge_unlink g3 ep
        (0, { g4 with edges := (nty_slab_free g4.edges id).2 })
      else
        (id,
         { g3 with
            edge_order :=
              (nty_order_append g3.edge_order g3.edge_order_cap g3.edge_order_len id).2.1
            edge_order_len :=
              (nty_order_append g3.edge_order g3.edge_order_cap g3.edge_order_len id).2.2 })
  | _, _ => (0, g)

/-- Creation `nty_property_create`: returned identifier and the store afterwards. -/
def nty_property_create (g : nty_graph_t) (owner key value : Nat) : Nat × nty_graph_t :=
  if (nty_slab_alloc g.properties).1 = 0 then
    (0, { g with properties := (nty_slab_alloc g.properties).2.2 })
  else
    let id := (nty_slab_alloc g.properties).1
    let g1 := set_property { g with properties := (nty_slab_alloc g.properties).2.2 }
      (nty_slab_alloc g.properties).2.1
      (fun p => { p with id := id, owner := owner, key := key, value := value })
    if (nty_order_append g1.property_order g1.property_order_cap g1.property_order_len id).1
        = false then
      (0, { g1 with properties := (nty_slab_free g1.properties id).2 })
    else
      (id,
       { g1 with
          property_order :=
            (nty_order_append g1.property_order g1.property_order_cap
              g1.property_order_len id).2.1
          property_order_len :=
            (nty_order_append g1.property_order g1.property_order_cap
              g1.property_order_len id).2.2 })

/-- Destruction `nty_property_destroy`: success flag and the store afterwards. -/
def nty_property_destroy (g : nty_graph_t) (prop_id : Nat) : Bool × nty_graph_t :=
  if (nty_slab_free g.properties prop_id).1 = false then
    (false, { g with properties := (nty_slab_free g.properties prop_id).2 })
  else
    (true,
     { g with
        properties := (nty_slab_free g.properties prop_id).2
        property_order :=
          (nty_order_remove g.property_order g.property_order_len prop_id).1
        property_order_len :=
          (nty_order_remove g.property_order g.property_order_len prop_id).2 })

def nty_node_exists (g : nty_graph_t) (node_id : Nat) : Bool := nty_slab_exists g.nodes node_id

def nty_edge_exists (g : nty_graph_t) (edge_id : Nat) : Bool := nty_slab_exists g.edges edge_id

def nty_property_exists (g : nty_graph_t) (prop_id : Nat) : Bool :=
  nty_slab_exists g.properties prop_id

/-- Copy-out `nty_node_get`: `none` is the `false` return. -/
def nty_node_get (g : nty_graph_t) (node_id : Nat) : Option nty_node_t :=
  (nty_slab_get g.nodes node_id).map g.nodes.data

/-- Copy-out `nty_edge_get`. -/
def nty_edge_get (g : nty_graph_t) (edge_id : Nat) : Option nty_edge_t :=
  (nty_slab_get g.edges edge_id).map g.edges.data

/-- Copy-out `nty_property_get`. -/
def nty_property_get (g : nty_graph_t) (prop_id : Nat) : Option nty_property_t :=
  (nty_slab_get g.properties prop_id).map g.properties.data

def nty_graph_node_count (g : nty_graph_t) : Nat := g.nodes.count

def nty_graph_edge_count (g : nty_graph_t) : Nat := g.edges.count

def nty_graph_property_count (g : nty_graph_t) : Nat := g.properties.count

/-- The `while (iter->index < len)` loop shared by the three `*_iter_next` functions, run
from index `i` with `n = len - i` entries left: the yielded identifier (`none` for `false`)
and the index afterwards. -/
def iter_next_loop {α : Type} [Zero α] (s : nty_slab_t α) (order : Nat → Nat) :
    Nat → Nat → Option Nat × Nat
  | 0, i => (none, i)
  | n + 1, i =>
    if nty_slab_exists s (order i) then (some (order i), i + 1)
    else iter_next_loop s order n (i + 1)

def nty_graph_nodes (_g : nty_graph_t) : Nat := 0

def nty_graph_edges (_g : nty_graph_t) : Nat := 0

def nty_graph_properties (_g : nty_graph_t) : Nat := 0

def nty_node_iter_next (g : nty_graph_t) (iter : Nat) : Option Nat × Nat :=
  iter_next_loop g.nodes g.node_order (g.node_order_len - iter) iter

def nty_edge_iter_next (g : nty_graph_t) (iter : Nat) : Option Nat × Nat :=
  iter_next_loop g.edges g.edge_order (g.edge_order_len - iter) iter

def nty_property_iter_next (g : nty_graph_t) (iter : Nat) : Option Nat × Nat :=
  iter_next_loop g.properties g.property_order (g.property_order_len - iter) iter

def nty_node_out_edges (g : nty_graph_t) (node : Nat) : nty_neighbor_iter_t :=
  { outgoing := true
    current :=
      match nty_graph_get_node_const g node with
      | some p => (g.nodes.data p).out_head
      | none => 0 }

def nty_node_in_edges (g : nty_graph_t) (node : Nat) : nty_neighbor_iter_t :=
  { outgoing := false
    current :=
      match nty_graph_get_node_const g node with
      | some p => (g.nodes.data p).in_head
      | none => 0 }

/-- Step `nty_neighbor_iter_next`: the yielded edge (`none` for `false`) and the iterator
afterwards. -/
def nty_neighbor_iter_next (g : nty_graph_t) (iter : nty_neighbor_iter_t) :
    Option Nat × nty_neighbor_iter_t :=
  if iter.current = 0 then (none, iter)
  else
    match nty_graph_get_edge g iter.current with
    | none => (none, iter)
    | some ep =>
      (some iter.current,
       { iter with
          current :=
            if iter.outgoing then (g.edges.data ep).out_next else (g.edges.data ep).in_next })

/-! ## Client loops

The way the tests drive the iterators: `while (next(graph, &iter, &id)) { ... }`, collecting
the yielded identifiers. -/

/-- Identifiers yielded by at most `fuel` calls of an entity `*_iter_next`, stopping at the
first `false`. -/
def iter_collect (next : Nat → Option Nat × Nat) : Nat → Nat → List Nat
  | 0, _ => []
  | fuel + 1, it =>
    match next it with
    | (some id, it') => id :: iter_collect next fuel it'
    | (none, _) => []

/-- Full walk of the node collection: every call advances the index, so
`node_order_len + 1` calls reach the first `false`. -/
def node_iteration (g : nty_graph_t) : List Nat :=
  iter_collect (nty_node_iter_next g) (g.node_order_len + 1) (nty_graph_nodes g)

def edge_iteration (g : nty_graph_t) : List Nat :=
  iter_collect (nty_edge_iter_next g) (g.edge_order_len + 1) (nty_graph_edges g)

def property_iteration (g : nty_graph_t) : List Nat :=
  iter_collect (nty_property_iter_next g) (g.property_order_len + 1) (nty_graph_properties g)

/-- Identifiers yielded by at most `fuel` calls of `nty_neighbor_iter_next`, stopping at the
first `false`. -/
def neighbor_collect (g : nty_graph_t) : Nat → nty_neighbor_iter_t → List Nat
  | 0, _ => []
  | fuel + 1, it =>
    match nty_neighbor_iter_next g it with
    | (some e, it') => e :: neighbor_collect g fuel it'
    | (none, _) => []

/-! ## Reachable states -/

/-- One public mutating call on a store. -/
inductive Step : nty_graph_t → nty_graph_t → Prop
  | node_create (g : nty_graph_t) : Step g (nty_node_create g).2
  | node_destroy (g : nty_graph_t) (fuel id : Nat) (r : Bool × nty_graph_t) :
      nty_node_destroy fuel g id = some r → Step g r.2
  | edge_create (g : nty_graph_t) (from_ to_ type weight timestamp : Nat) :
      Step g (nty_edge_create g from_ to_ type weight timestamp).2
  | edge_destroy (g : nty_graph_t) (id : Nat) : Step g (nty_edge_destroy g id).2
  | property_create (g : nty_graph_t) (owner key value : Nat) :
      Step g (nty_property_create g owner key value).2
  | property_destroy (g : nty_graph_t) (id : Nat) : Step g (nty_property_destroy g id).2

/-- States reachable from a freshly created store by finitely many public mutating calls. -/
inductive Reachable : nty_graph_t → Prop
  | init (node_capacity edge_capacity property_capacity : Nat) (g : nty_graph_t) :
      nty_graph_create node_capacity edge_capacity property_capacity = some g → Reachable g
  | step (g g' : nty_graph_t) : Reachable g → Step g g' → Reachable g'

/-- Finitely many public calls from `g` to `g'` such that `P` holds after each of them. -/
inductive StepsWhile (P : nty_graph_t → Prop) : nty_graph_t → nty_graph_t → Prop
  | refl (g : nty_graph_t) : StepsWhile P g g
  | step (g g' g'' : nty_graph_t) : StepsWhile P g g' → Step g' g'' → P g'' →
      StepsWhile P g g''

/-- One call on an arena. -/
inductive SlabOp where
  | alloc : SlabOp
  | free (id : Nat) : SlabOp
deriving DecidableEq

section slab_trace
variable {α : Type} [Zero α]

/-- The arena after one call. -/
def slab_step (s : nty_slab_t α) : SlabOp → nty_slab_t α
  | SlabOp.alloc => (nty_slab_alloc s).2.2
  | SlabOp.free id => (nty_slab_free s id).2

/-- The arena after a sequence of calls. -/
def slab_run (s : nty_slab_t α) : List SlabOp → nty_slab_t α
  | [] => s
  | op :: ops => slab_run (slab_step s op) ops

/-- The identifiers returned by the successful allocations of a sequence of calls, in the
order of the calls. -/
def slab_issued (s : nty_slab_t α) : List SlabOp → List Nat
  | [] => []
  | SlabOp.alloc :: ops =>
    if (nty_slab_alloc s).1 = 0 then slab_issued (nty_slab_alloc s).2.2 ops
    else (nty_slab_alloc s).1 :: slab_issued (nty_slab_alloc s).2.2 ops
  | SlabOp.free id :: ops => slab_issued (nty_slab_free s id).2 ops

/-- Arena states reachable from `nty_slab_init` with a `uint32_t` capacity. -/
def SlabReachable (s : nty_slab_t α) : Prop :=
  ∃ item_size capacity s0 ops, capacity < 4294967296 ∧
    nty_slab_init item_size capacity = some s0 ∧ s = slab_run s0 ops

/-- One allocation followed by the release of the identifier it returned. -/
def alloc_free_cycle (s : nty_slab_t α) : nty_slab_t α :=
  (nty_slab_free (nty_slab_alloc s).2.2 (nty_slab_alloc s).1).2

end slab_trace

/-! ## Invariants -/

/-- The entries `order[i], ..., order[i + n - 1]` of an order array. -/
def order_seg (order : Nat → Nat) (i n : Nat) : List Nat := (List.range' i n).map order

/-- The recorded part `order[0 .. len)` of an order array. -/
def order_list (order : Nat → Nat) (len : Nat) : List Nat := order_seg order 0 len

/-- Successor of `e` in `l`, `0` when there is none. -/
def next_in : List Nat → Nat → Nat
  | [], _ => 0
  | x :: xs, e => if x = e then xs.headD 0 else next_in xs e

/-- Predecessor of `e` in `l` when `p` precedes the head of `l`; `0` when `e` is absent. -/
def prev_aux (p : Nat) : List Nat → Nat → Nat
  | [], _ => 0
  | x :: xs, e => if x = e then p else prev_aux x xs e

/-- Predecessor of `e` in `l`, `0` when there is none. -/
def prev_in (l : List Nat) (e : Nat) : Nat := prev_aux 0 l e

/-- The free list threaded through `next_free` from `head` visits exactly `l`. -/
def FreeChain (next_free : Nat → Nat) : Nat → List Nat → Prop
  | h, [] => h = NTY_SLAB_NO_FREE
  | h, x :: xs => h = x ∧ FreeChain next_free (next_free x) xs

/-- Well-formedness of an arena. -/
structure SlabInv {α : Type} (s : nty_slab_t α) : Prop where
  cap_pos : 0 < s.capacity
  cap_lt : s.capacity < 4294967296
  nu_le : s.next_unused ≤ s.capacity
  occ_lt : ∀ i, s.occupied i = true → i < s.next_unused
  gen_lt : ∀ i, s.generation i < 4294967296
  free_list : ∃ fl : List Nat, FreeChain s.next_free s.free_head fl ∧ fl.Nodup ∧
    (∀ i, i ∈ fl ↔ (i < s.next_unused ∧ s.occupied i = false)) ∧
    s.count + fl.length = s.next_unused

/-- Agreement of an arena with its creation-order array. -/
structure OrderInv {α : Type} [Zero α] (s : nty_slab_t α) (order : Nat → Nat) (len cap : Nat) :
    Prop where
  nodup : (order_list order len).Nodup
  mem_iff : ∀ id, id ∈ order_list order len ↔ nty_slab_exists s id = true
  len_eq : len = s.count
  cap_le : s.capacity ≤ cap

/-- The node record an identifier addresses. -/
def node_rec (g : nty_graph_t) (n : Nat) : nty_node_t := g.nodes.data (nty_id_index n)

/-- The edge record an identifier addresses. -/
def edge_rec (g : nty_graph_t) (e : Nat) : nty_edge_t := g.edges.data (nty_id_index e)

/-- The property record an identifier addresses. -/
def property_rec (g : nty_graph_t) (p : Nat) : nty_property_t :=
  g.properties.data (nty_id_index p)

/-- The recorded edges, in creation order. -/
def edge_list (g : nty_graph_t) : List Nat := order_list g.edge_order g.edge_order_len

/-- The recorded edges whose `from` is `n`, in creation order. -/
def out_list (g : nty_graph_t) (n : Nat) : List Nat :=
  (edge_list g).filter (fun e => decide ((edge_rec g e).from_ = n))

/-- The recorded edges whose `to` is `n`, in creation order. -/
def in_list (g : nty_graph_t) (n : Nat) : List Nat :=
  (edge_list g).filter (fun e => decide ((edge_rec g e).to_ = n))

/-- Well-formedness of a store. -/
structure GraphInv (g : nty_graph_t) : Prop where
  nodes_inv : SlabInv g.nodes
  edges_inv : SlabInv g.edges
  props_inv : SlabInv g.properties
  node_order_inv : OrderInv g.nodes g.node_order g.node_order_len g.node_order_cap
  edge_order_inv : OrderInv g.edges g.edge_order g.edge_order_len g.edge_order_cap
  prop_order_inv :
    OrderInv g.properties g.property_order g.property_order_len g.property_order_cap
  node_id : ∀ n, nty_slab_exists g.nodes n = true → (node_rec g n).id = n
  prop_id : ∀ p, nty_slab_exists g.properties p = true → (property_rec g p).id = p
  edge_id : ∀ e, nty_slab_exists g.edges e = true → (edge_rec g e).id = e
  edge_from : ∀ e, nty_slab_exists g.edges e = true →
    nty_slab_exists g.nodes (edge_rec g e).from_ = true
  edge_to : ∀ e, nty_slab_exists g.edges e = true →
    nty_slab_exists g.nodes (edge_rec g e).to_ = true
  out_head : ∀ n, nty_slab_exists g.nodes n = true →
    (node_rec g n).out_head = (out_list g n).headD 0
  out_tail : ∀ n, nty_slab_exists g.nodes n = true →
    (node_rec g n).out_tail = (out_list g n).getLastD 0
  in_head : ∀ n, nty_slab_exists g.nodes n = true →
    (node_rec g n).in_head = (in_list g n).headD 0
  in_tail : ∀ n, nty_slab_exists g.nodes n = true →
    (node_rec g n).in_tail = (in_list g n).getLastD 0
  out_prev : ∀ e, nty_slab_exists g.edges e = true →
    (edge_rec g e).out_prev = prev_in (out_list g (edge_rec g e).from_) e
  out_next : ∀ e, nty_slab_exists g.edges e = true →
    (edge_rec g e).out_next = next_in (out_list g (edge_rec g e).from_) e
  in_prev : ∀ e, nty_slab_exists g.edges e = true →
    (edge_rec g e).in_prev = prev_in (in_list g (edge_rec g e).to_) e
  in_next : ∀ e, nty_slab_exists g.edges e = true →
    (edge_rec g e).in_next = next_in (in_list g (edge_rec g e).to_) e

/-- The store `g'` differs from `g` at most in the contents of node and edge records. -/
def RecordsOnly (g g' : nty_graph_t) : Prop :=
  ∃ (N : Nat → nty_node_t) (E : Nat → nty_edge_t),
    g' = { g with nodes := { g.nodes with data := N }, edges := { g.edges with data := E } }

/-- The caller-visible payload of two edge records agrees (everything but the four list
links). -/
def SamePayload (r r' : nty_edge_t) : Prop :=
  r'.id = r.id ∧ r'.from_ = r.from_ ∧ r'.to_ = r.to_ ∧ r'.type = r.type ∧
    r'.weight = r.weight ∧ r'.timestamp = r.timestamp

/-- The store `g'` differs from `g` at most in the edge arena, the edge order array and the
contents of node records. -/
def EdgeOpFrame (g g' : nty_graph_t) : Prop :=
  g'.nodes = { g.nodes with data := g'.nodes.data } ∧ g'.properties = g.properties ∧
    g'.node_order = g.node_order ∧ g'.property_order = g.property_order ∧
    g'.node_order_len = g.node_order_len ∧ g'.property_order_len = g.property_order_len ∧
    g'.node_order_cap = g.node_order_cap ∧ g'.edge_order_cap = g.edge_order_cap ∧
    g'.property_order_cap = g.property_order_cap

/-! ## Observations used in the statements -/

/-- The `from` field that `nty_edge_get` copies out, if the edge exists. -/
def edge_from_id (g : nty_graph_t) (e : Nat) : Option Nat :=
  (nty_edge_get g e).map (fun r => r.from_)

/-- The `to` field that `nty_edge_get` copies out, if the edge exists. -/
def edge_to_id (g : nty_graph_t) (e : Nat) : Option Nat :=
  (nty_edge_get g e).map (fun r => r.to_)

/-- Each of the three iteration sequences of `g'` is the sequence of `g` with the
identifiers that no longer exist in `g'` deleted. -/
def SurvivorOrder (g g' : nty_graph_t) : Prop :=
  node_iteration g' = (node_iteration g).filter (fun x => nty_node_exists g' x) ∧
    edge_iteration g' = (edge_iteration g).filter (fun x => nty_edge_exists g' x) ∧
    property_iteration g' = (property_iteration g).filter (fun x => nty_property_exists g' x)

/-- The arena rejects the old identifier `id` through `nty_slab_exists`, `nty_slab_get` and
`nty_slab_free`, and accepts the different identifier `id'`. -/
def StaleRejected {α : Type} [Zero α] (s : nty_slab_t α) (id id' : Nat) : Prop :=
  id' ≠ id ∧ nty_slab_exists s id = false ∧ nty_slab_get s id = none ∧
    (nty_slab_free s id).1 = false ∧ (nty_slab_free s id).2 = s ∧
    nty_slab_exists s id' = true ∧ nty_slab_get s id' = some (nty_id_index id')

/-- No live node identifier uses the slot of `id`. -/
def NodeSlotIdle (id : Nat) (g : nty_graph_t) : Prop :=
  ∀ y, nty_node_exists g y = true → nty_id_index y ≠ nty_id_index id

/-- No live edge identifier uses the slot of `id`. -/
def EdgeSlotIdle (id : Nat) (g : nty_graph_t) : Prop :=
  ∀ y, nty_edge_exists g y = true → nty_id_index y ≠ nty_id_index id

/-- No live property identifier uses the slot of `id`. -/
def PropertySlotIdle (id : Nat) (g : nty_graph_t) : Prop :=
  ∀ y, nty_property_exists g y = true → nty_id_index y ≠ nty_id_index id

/-- The old node identifier `id` is rejected by the arena and by `nty_node_exists`,
`nty_node_get` and `nty_node_destroy`; the new identifier `id'` is accepted by all of
them. -/
def NodeHandleStale (g : nty_graph_t) (id id' : Nat) : Prop :=
  StaleRejected g.nodes id id' ∧ nty_node_exists g id = false ∧ nty_node_get g id = none ∧
    (∀ fuel, nty_node_destroy fuel g id = some (false, g)) ∧
    nty_node_exists g id' = true ∧ (nty_node_get g id').isSome = true ∧
    (∀ fuel, nty_graph_edge_count g < fuel → ∃ g', nty_node_destroy fuel g id' = some (true, g'))

/-- The old edge identifier `id` is rejected by the arena and by `nty_edge_exists`,
`nty_edge_get` and `nty_edge_destroy`; the new identifier `id'` is accepted by all of
them. -/
def EdgeHandleStale (g : nty_graph_t) (id id' : Nat) : Prop :=
  StaleRejected g.edges id id' ∧ nty_edge_exists g id = false ∧ nty_edge_get g id = none ∧
    nty_edge_destroy g id = (false, g) ∧
    nty_edge_exists g id' = true ∧ (nty_edge_get g id').isSome = true ∧
    (nty_edge_destroy g id').1 = true

/-- The old property identifier `id` is rejected by the arena and by `nty_property_exists`,
`nty_property_get` and `nty_property_destroy`; the new identifier `id'` is accepted by all
of them. -/
def PropertyHandleStale (g : nty_graph_t) (id id' : Nat) : Prop :=
  StaleRejected g.properties id id' ∧ nty_property_exists g id = false ∧
    nty_property_get g id = none ∧ nty_property_destroy g id = (false, g) ∧
    nty_property_exists g id' = true ∧ (nty_property_get g id').isSome = true ∧
    (nty_property_destroy g id').1 = true

/-- What one public call can do to the validation state of an arena: the capacity stays, a
slot that is free afterwards kept its generation, and an identifier that stopped existing
left its slot free. -/
def ArenaStep {α : Type} [Zero α] (s s' : nty_slab_t α) : Prop :=
  s'.capacity = s.capacity ∧
    (∀ i, s'.occupied i = false → s'.generation i = s.generation i) ∧
    (∀ x, nty_slab_exists s x = true → nty_slab_exists s' x = false →
      s'.occupied (nty_id_index x) = false)

/-! ## Example stores

The scenario of `tests/c/test_graph.c` (`test_basic`): capacities 8, nodes `a`, `b`, `c`,
edges `a -> b` and `a -> c`; and a store with a single self-loop `a -> a`. -/

/-- The store returned by `nty_graph_create(8, 8, 8)`. -/
def ex_g0 : nty_graph_t :=
  { nodes :=
      { data := fun _ => 0, next_free := fun _ => 0, generation := fun _ => 0,
        occupied := fun _ => false, item_size := 40, capacity := 8, next_unused := 0,
        free_head := NTY_SLAB_NO_FREE, count := 0 }
    edges :=
      { data := fun _ => 0, next_free := fun _ => 0, generation := fun _ => 0,
        occupied := fun _ => false, item_size := 80, capacity := 8, next_unused := 0,
        free_head := NTY_SLAB_NO_FREE, count := 0 }
    properties :=
      { data := fun _ => 0, next_free := fun _ => 0, generation := fun _ => 0,
        occupied := fun _ => false, item_size := 32, capacity := 8, next_unused := 0,
        free_head := NTY_SLAB_NO_FREE, count := 0 }
    node_order := fun _ => 0
    edge_order := fun _ => 0
    property_order := fun _ => 0
    node_order_len := 0
    edge_order_len := 0
    property_order_len := 0
    node_order_cap := 8
    edge_order_cap := 8
    property_order_cap := 8 }

/-- The identifier of generation 1 in slot 0: the first node, edge or property of a store. -/
abbrev ex_a : Nat := 4294967297

/-- The identifier of generation 1 in slot 1. -/
abbrev ex_b : Nat := 4294967298

/-- The identifier of generation 1 in slot 2. -/
abbrev ex_c : Nat := 4294967299

/-- After creating node `a`. -/
def ex_g1 : nty_graph_t := (nty_node_create ex_g0).2

/-- After creating node `b`. -/
def ex_g2 : nty_graph_t := (nty_node_create ex_g1).2

/-- After creating node `c`. -/
def ex_g3 : nty_graph_t := (nty_node_create ex_g2).2

/-- After creating the edge `a -> b` (type 1, weight 0.5, timestamp 10). -/
def ex_g4 : nty_graph_t := (nty_edge_create ex_g3 ex_a ex_b 1 4602678819172646912 10).2

/-- After creating the edge `a -> c` (type 2, weight 1.0, timestamp 20). -/
def ex_g5 : nty_graph_t := (nty_edge_create ex_g4 ex_a ex_c 2 4607182418800017408 20).2

/-- One node `a` with a self-loop `a -> a`. -/
def ex_loop : nty_graph_t := (nty_edge_create ex_g1 ex_a ex_a 1 0 0).2

/-- The example store after `nty_node_destroy(c)`, which also removes the edge `a -> c`. -/
def ex_g6 : nty_graph_t := ((nty_node_destroy 3 ex_g5 ex_c).getD (false, ex_g5)).2

/-- The store `ex_g6` after `nty_property_create(a, 7, 0.0)`. -/
def ex_g7 : nty_graph_t := (nty_property_create ex_g6 ex_a 7 0).2

/-- The arena filled in by `nty_slab_init(&slab, 40, 1)`: a single slot. -/
def ex_slab : nty_slab_t nty_node_t :=
  { data := fun _ => 0, next_free := fun _ => 0, generation := fun _ => 0,
    occupied := fun _ => false, item_size := 40, capacity := 1, next_unused := 0,
    free_head := NTY_SLAB_NO_FREE, count := 0 }

/-! ## The type `float`

A `float` is carried as its IEEE 754 binary32 bit pattern; `memcpy` and `memset` move the
pattern. Subtraction, multiplication and addition round to nearest, ties to even, each
operation rounded to binary32 on its own. Every NaN result is the canonical quiet NaN: the
code tests a computed NaN with `isnan` and never copies it out. -/

/-- The pattern of `INFINITY`, `0x7F800000`. -/
abbrev F32_INFINITY : Nat := 2139095040

/-- The pattern of the canonical quiet NaN, `0x7FC00000`. -/
abbrev F32_NAN : Nat := 2143289344

def f32_sign (x : Nat) : Nat := x / 2147483648 % 2

def f32_exp (x : Nat) : Nat := x / 8388608 % 256

def f32_mant (x : Nat) : Nat := x % 8388608

/-- The macro `isnan`. -/
def f32_isnan (x : Nat) : Bool := decide (f32_exp x = 255 ∧ f32_mant x ≠ 0)

def f32_isinf (x : Nat) : Bool := decide (f32_exp x = 255 ∧ f32_mant x = 0)

/-- Magnitude of a finite `float` in units of `2^-149`. -/
def f32_units (x : Nat) : Nat :=
  if f32_exp x = 0 then f32_mant x else (8388608 + f32_mant x) <<< (f32_exp x - 1)

/-- Value of a finite `float` in units of `2^-149`. -/
def f32_signed_units (x : Nat) : Int :=
  if f32_sign x = 1 then -(f32_units x : Int) else (f32_units x : Int)

/-- Number of low bits to drop from `n` to leave at most 24: the least `s` below 1024 with
`n >> s < 2^24`, found by bisection. -/
def f32_excess (n : Nat) : Nat :=
  [512, 256, 128, 64, 32, 16, 8, 4, 2, 1].foldl
    (fun s step => if 16777216 ≤ n >>> (s + step - 1) then s + step else s) 0

/-- The quotient `n / 2^drop` rounded to nearest, ties to even. -/
def f32_rne (n drop : Nat) : Nat :=
  if 1 <<< drop < 2 * (n - (n >>> drop) <<< drop) ∨
      (2 * (n - (n >>> drop) <<< drop) = 1 <<< drop ∧ (n >>> drop) % 2 = 1)
  then (n >>> drop) + 1
  else n >>> drop

/-- The `float` nearest to `(-1)^sign * n * 2^-(149 + t)`, ties to even, overflow to
infinity. With `e` bits dropped beyond `t` the exponent field is `e` plus the carry out
of the 23 stored bits of the rounded quotient. -/
def f32_round (sign n t : Nat) : Nat :=
  sign * 2147483648 +
    (if F32_INFINITY ≤
        f32_excess (n >>> t) * 8388608 + f32_rne n (t + f32_excess (n >>> t))
      then F32_INFINITY
      else f32_excess (n >>> t) * 8388608 + f32_rne n (t + f32_excess (n >>> t)))

/-- Unary minus: the sign bit flipped. -/
def f32_neg (x : Nat) : Nat := if f32_sign x = 1 then x - 2147483648 else x + 2147483648

/-- The operator `+` on `float`. -/
def f32_add (a b : Nat) : Nat :=
  if f32_isnan a ∨ f32_isnan b then F32_NAN
  else if f32_isinf a then
    if f32_isinf b ∧ f32_sign a ≠ f32_sign b then F32_NAN
    else f32_sign a * 2147483648 + F32_INFINITY
  else if f32_isinf b then f32_sign b * 2147483648 + F32_INFINITY
  else if f32_signed_units a + f32_signed_units b = 0 then
    if f32_sign a = 1 ∧ f32_sign b = 1 then 2147483648 else 0
  else
    f32_round (if f32_signed_units a + f32_signed_units b < 0 then 1 else 0)
      (f32_signed_units a + f32_signed_units b).natAbs 0

/-- The operator `-` on `float`. -/
def f32_sub (a b : Nat) : Nat := if f32_isnan b then F32_NAN else f32_add a (f32_neg b)

/-- The operator `*` on `float`. -/
def f32_mul (a b : Nat) : Nat :=
  if f32_isnan a ∨ f32_isnan b then F32_NAN
  else if f32_isinf a ∨ f32_isinf b then
    if f32_units a = 0 ∨ f32_units b = 0 then F32_NAN
    else (f32_sign a + f32_sign b) % 2 * 2147483648 + F32_INFINITY
  else f32_round ((f32_sign a + f32_sign b) % 2) (f32_units a * f32_units b) 149

/-- Position of a `float` that is not a NaN in the order of the values: the magnitude bits
with the sign applied, so that both zeros are at `0`. -/
def f32_key (x : Nat) : Int :=
  if f32_sign x = 1 then -((x % 2147483648 : Nat) : Int) else ((x % 2147483648 : Nat) : Int)

/-- The operator `<` on `float`; `a > b` is `f32_lt b a`. -/
def f32_lt (a b : Nat) : Bool :=
  !f32_isnan a && !f32_isnan b && decide (f32_key a < f32_key b)

/-- The macro `isfinite`: neither an infinity nor a NaN. -/
def f32_isfinite (x : Nat) : Bool := decide (f32_exp x ≠ 255)

/-- The operator `==` on `float`. -/
def f32_eq (a b : Nat) : Bool :=
  !f32_isnan a && !f32_isnan b && decide (f32_key a = f32_key b)

/-! ## include/nautylus/vector.h, src/vector.c

Conventions of the embedding of the vector index:
* `size_t` is 64 bits wide; `count++` is reduced with `usize` and `count--` is `usize_dec`.
* `ids` and `data` are total functions; `index->data + slot * index->dimension` is the
  offset `slot * dimension` into `data`, and the offsets are not reduced: the embedding
  covers indexes whose `capacity * dimension` floats fit the buffer `calloc` returned.
* A `const float *` or `float *` argument is the array it points to; all pointer
  arguments are non-`NULL`.
* `qsort` is insertion sort with the comparison function of the call. -/

/-- Truncation of an arithmetic result to `size_t`. -/
def usize (x : Nat) : Nat := x % 18446744073709551616

/-- The decrement `x--` of a `size_t`: `0` wraps to `SIZE_MAX`. -/
def usize_dec (x : Nat) : Nat := if x = 0 then 18446744073709551615 else x - 1

/-- The index `struct nty_vector_index`. -/
structure nty_vector_index_t where
  dimension : Nat
  capacity : Nat
  count : Nat
  ids : Nat → Nat
  data : Nat → Nat

/-- Construction `nty_vector_index_create`; `none` is the `NULL` return. Both arrays come
from `calloc`. -/
def nty_vector_index_create (dimension capacity : Nat) : Option nty_vector_index_t :=
  if dimension = 0 ∨ capacity = 0 then none
  else some
    { dimension := dimension
      capacity := capacity
      count := 0
      ids := fun _ => 0
      data := fun _ => 0 }

def nty_vector_index_dimension (index : nty_vector_index_t) : Nat := index.dimension

def nty_vector_index_capacity (index : nty_vector_index_t) : Nat := index.capacity

def nty_vector_index_count (index : nty_vector_index_t) : Nat := index.count

/-- The `for` loop of `nty_vector_index_find` from slot `i` with `n = capacity - i` slots
left, and the `return index->capacity` after it. -/
def find_loop (index : nty_vector_index_t) (node_id : Nat) : Nat → Nat → Nat
  | 0, _ => index.capacity
  | n + 1, i => if index.ids i = node_id then i else find_loop index node_id n (i + 1)

/-- Search `nty_vector_index_find`. -/
def nty_vector_index_find (index : nty_vector_index_t) (node_id : Nat) : Nat :=
  find_loop index node_id index.capacity 0

/-- The `for` loop of `nty_vector_index_set` from slot `i` with `n = capacity - i` slots
left: the value of `slot` after the loop and the updated index. -/
def set_loop (index : nty_vector_index_t) (node_id : Nat) : Nat → Nat → Nat × nty_vector_index_t
  | 0, _ => (index.capacity, index)
  | n + 1, i =>
    if index.ids i = 0 then
      (i,
       { index with
          ids := Function.update index.ids i node_id
          count := usize (index.count + 1) })
    else set_loop index node_id n (i + 1)

/-- The call `memcpy(dst + dst_off, src + src_off, n * sizeof(float))`. -/
def memcpy_f32 (dst : Nat → Nat) (dst_off : Nat) (src : Nat → Nat) (src_off n : Nat) :
    Nat → Nat :=
  fun i => if dst_off ≤ i ∧ i < dst_off + n then src (src_off + (i - dst_off)) else dst i

/-- The call `memset(dst + dst_off, 0, n * sizeof(float))`. -/
def memset_f32 (dst : Nat → Nat) (dst_off n : Nat) : Nat → Nat :=
  fun i => if dst_off ≤ i ∧ i < dst_off + n then 0 else dst i

/-- The value of `slot` and the index before the second `if (slot == index->capacity)` of
`nty_vector_index_set`. -/
def set_slot (index : nty_vector_index_t) (node_id : Nat) : Nat × nty_vector_index_t :=
  if nty_vector_index_find index node_id = index.capacity then
    set_loop index node_id index.capacity 0
  else (nty_vector_index_find index node_id, index)

/-- Upsert `nty_vector_index_set`: the returned flag and the updated index. -/
def nty_vector_index_set (index : nty_vector_index_t) (node_id : Nat) (vector : Nat → Nat) :
    Bool × nty_vector_index_t :=
  if node_id = 0 then (false, index)
  else if (set_slot index node_id).1 = (set_slot index node_id).2.capacity then
    (false, (set_slot index node_id).2)
  else
    (true,
     { (set_slot index node_id).2 with
        data := memcpy_f32 (set_slot index node_id).2.data
          ((set_slot index node_id).1 * (set_slot index node_id).2.dimension) vector 0
          (set_slot index node_id).2.dimension })

/-- Copy-out `nty_vector_index_get`: the returned flag and the array `out_vector` after the
call. -/
def nty_vector_index_get (index : nty_vector_index_t) (node_id : Nat) (out_vector : Nat → Nat) :
    Bool × (Nat → Nat) :=
  if node_id = 0 then (false, out_vector)
  else if nty_vector_index_find index node_id = index.capacity then (false, out_vector)
  else
    (true,
     memcpy_f32 out_vector 0 index.data
       (nty_vector_index_find index node_id * index.dimension) index.dimension)

/-- Removal `nty_vector_index_remove`: the returned flag and the updated index. -/
def nty_vector_index_remove (index : nty_vector_index_t) (node_id : Nat) :
    Bool × nty_vector_index_t :=
  if node_id = 0 then (false, index)
  else if nty_vector_index_find index node_id = index.capacity then (false, index)
  else
    (true,
     { index with
        ids := Function.update index.ids (nty_vector_index_find index node_id) 0
        data := memset_f32 index.data
          (nty_vector_index_find index node_id * index.dimension) index.dimension
        count := usize_dec index.count })

/-- Record `struct nty_candidate`. -/
structure nty_candidate_t where
  id : Nat
  distance : Nat
deriving DecidableEq

/-- Comparison `nty_candidate_cmp`. -/
def nty_candidate_cmp (left right : nty_candidate_t) : Int :=
  if f32_lt left.distance right.distance then -1
  else if f32_lt right.distance left.distance then 1
  else if left.id < right.id then -1
  else if left.id > right.id then 1
  else 0

/-- The inner `for` loop of `nty_vector_index_knn` from component `d` with `n` components
left: the value of `dist` after the loop. -/
def dist_loop (vec query : Nat → Nat) : Nat → Nat → Nat → Nat
  | 0, _, dist => dist
  | n + 1, d, dist =>
    dist_loop vec query n (d + 1)
      (f32_add dist (f32_mul (f32_sub (vec d) (query d)) (f32_sub (vec d) (query d))))

/-- The value stored in `candidates[used].distance` for slot `i`: the accumulated `dist`
with a NaN replaced by `INFINITY`. -/
def knn_distance (index : nty_vector_index_t) (query : Nat → Nat) (i : Nat) : Nat :=
  if f32_isnan
      (dist_loop (fun d => index.data (i * index.dimension + d)) query index.dimension 0 0)
  then F32_INFINITY
  else dist_loop (fun d => index.data (i * index.dimension + d)) query index.dimension 0 0

/-- The outer `for` loop of `nty_vector_index_knn` from slot `i` with `n = capacity - i`
slots left; `candidates` holds `candidates[0 .. used)`. `none` means that the loop stored
a candidate at or beyond `candidates[index->count]`, past the end of the buffer. -/
def knn_loop (index : nty_vector_index_t) (query : Nat → Nat) :
    Nat → Nat → List nty_candidate_t → Option (List nty_candidate_t)
  | 0, _, candidates => some candidates
  | n + 1, i, candidates =>
    if index.ids i = 0 then knn_loop index query n (i + 1) candidates
    else if index.count ≤ candidates.length then none
    else
      knn_loop index query n (i + 1)
        (candidates ++ [{ id := index.ids i, distance := knn_distance index query i }])

/-- The call `qsort(candidates, used, sizeof(nty_candidate_t), nty_candidate_cmp)`. -/
def qsort_candidates (candidates : List nty_candidate_t) : List nty_candidate_t :=
  candidates.insertionSort (fun a b => nty_candidate_cmp a b ≤ 0)

/-- Search `nty_vector_index_knn`: the candidates copied to `out_ids[i]` and
`out_distances[i]` for `i < out_count`, in that order; the returned `out_count` is the
length of the list. `none` means a store past the end of the candidate buffer. -/
def nty_vector_index_knn (index : nty_vector_index_t) (query : Nat → Nat) (k : Nat) :
    Option (List nty_candidate_t) :=
  if k = 0 then some []
  else
    (knn_loop index query index.capacity 0 []).map
      (fun candidates =>
        (qsort_candidates candidates).take
          (if k < candidates.length then k else candidates.length))

/-! ## Reachable states of the vector index -/

/-- One public mutating call on a vector index. -/
inductive VectorStep : nty_vector_index_t → nty_vector_index_t → Prop
  | set (index : nty_vector_index_t) (node_id : Nat) (vector : Nat → Nat) :
      VectorStep index (nty_vector_index_set index node_id vector).2
  | remove (index : nty_vector_index_t) (node_id : Nat) :
      VectorStep index (nty_vector_index_remove index node_id).2

/-- States reachable from `nty_vector_index_create` by `nty_vector_index_set` and
`nty_vector_index_remove` calls, for sizes whose data buffer of
`capacity * dimension * sizeof(float)` bytes fits `size_t`. -/
inductive VectorReachable : nty_vector_index_t → Prop
  | init (dimension capacity : Nat) (index : nty_vector_index_t) :
      capacity * dimension * 4 < 18446744073709551616 →
      nty_vector_index_create dimension capacity = some index → VectorReachable index
  | step (index index' : nty_vector_index_t) :
      VectorReachable index → VectorStep index index' → VectorReachable index'

/-! ## Invariant of the slot table -/

/-- Number of slots below `capacity` that hold a non-zero identifier. -/
def used_slots (ids : Nat → Nat) (capacity : Nat) : Nat :=
  ((List.range capacity).filter (fun i => decide (ids i ≠ 0))).length

/-- The slot-table invariant: a non-zero identifier occupies at most one slot and `count`
is the number of occupied slots. -/
structure VectorInv (index : nty_vector_index_t) : Prop where
  cap_lt : index.capacity < 18446744073709551616
  inj : ∀ i j, i < index.capacity → j < index.capacity → index.ids i ≠ 0 →
    index.ids i = index.ids j → i = j
  count_eq : index.count = used_slots index.ids index.capacity

/-- The vector `nty_vector_index_get` copies out for `node_id`, as a list of `dimension`
floats; `none` when the call returns `false`. -/
def stored_vector (index : nty_vector_index_t) (node_id : Nat) : Option (List Nat) :=
  if (nty_vector_index_get index node_id (fun _ => 0)).1 = true then
    some ((List.range index.dimension).map (nty_vector_index_get index node_id (fun _ => 0)).2)
  else none

/-- Squared Euclidean distance between `x` and `y` over `dimension` components in `float`
arithmetic, the components taken in index order. -/
def squared_euclidean (x y : Nat → Nat) (dimension : Nat) : Nat :=
  (List.range dimension).foldl
    (fun acc d => f32_add acc (f32_mul (f32_sub (x d) (y d)) (f32_sub (x d) (y d)))) 0

/-- The candidates of the occupied slots, in slot order. -/
def occupied_candidates (index : nty_vector_index_t) (query : Nat → Nat) :
    List nty_candidate_t :=
  ((List.range index.capacity).filter (fun i => decide (index.ids i ≠ 0))).map
    (fun i => { id := index.ids i, distance := knn_distance index query i })

/-- The distance `nty_vector_index_knn` reports for the vector `v`: the squared Euclidean
distance to the query, with a NaN replaced by `INFINITY`. -/
def reported_distance (v : List Nat) (query : Nat → Nat) : Nat :=
  if f32_isnan (squared_euclidean (fun d => v.getD d 0) query v.length) then F32_INFINITY
  else squared_euclidean (fun d => v.getD d 0) query v.length

/-- The order of the integer keys `(f32_key distance, id)`, not strict. -/
def KeyLe (a b : nty_candidate_t) : Prop :=
  f32_key a.distance < f32_key b.distance ∨
    (f32_key a.distance = f32_key b.distance ∧ a.id ≤ b.id)

instance (a b : nty_candidate_t) : Decidable (KeyLe a b) := by
  unfold KeyLe; exact inferInstance

/-- The key order of the results: distance ascending, then identifier ascending. -/
def KeyLt (a b : nty_candidate_t) : Prop :=
  f32_lt a.distance b.distance = true ∨
    (f32_eq a.distance b.distance = true ∧ a.id < b.id)

instance (a b : nty_candidate_t) : Decidable (KeyLt a b) := by
  unfold KeyLt; exact inferInstance

/-! ## Example indexes

The index of `test_knn_tiebreak`: dimension 2, capacity 4, vectors `1 -> (0, 0)`,
`3 -> (1, 0)`, `2 -> (-1, 0)`; and the same mapping entered in another order. -/

/-- The array of a `float[2]` or `float[3]` literal. -/
def vec_of (l : List Nat) : Nat → Nat := fun d => l.getD d 0

/-- The pattern of `1.0f`. -/
abbrev F32_ONE : Nat := 1065353216

/-- The pattern of `-1.0f`. -/
abbrev F32_MINUS_ONE : Nat := 3212836864

/-- The index returned by `nty_vector_index_create(2, 4)`. -/
def ex_v0 : nty_vector_index_t :=
  { dimension := 2, capacity := 4, count := 0, ids := fun _ => 0, data := fun _ => 0 }

/-- After `set(1, (0, 0))`. -/
def ex_v1 : nty_vector_index_t := (nty_vector_index_set ex_v0 1 (vec_of [0, 0])).2

/-- After `set(3, (1, 0))`. -/
def ex_v2 : nty_vector_index_t := (nty_vector_index_set ex_v1 3 (vec_of [F32_ONE, 0])).2

/-- After `set(2, (-1, 0))`. -/
def ex_v3 : nty_vector_index_t :=
  (nty_vector_index_set ex_v2 2 (vec_of [F32_MINUS_ONE, 0])).2

/-- The same mapping as `ex_v3` entered in another order, with an extra identifier 9 that
is removed again: the slots hold 2, nothing, 3, 1. -/
def ex_u5 : nty_vector_index_t :=
  (nty_vector_index_remove
    (nty_vector_index_set
      (nty_vector_index_set
        (nty_vector_index_set
          (nty_vector_index_set ex_v0 2 (vec_of [F32_MINUS_ONE, 0])).2
          9 (vec_of [F32_ONE, F32_ONE])).2
        3 (vec_of [F32_ONE, 0])).2
      1 (vec_of [0, 0])).2
    9).2

/-- The two-dimensional index after `set(1, (NaN, 0))` and `set(2, (1, 0))`. -/
def ex_m2 : nty_vector_index_t :=
  (nty_vector_index_set (nty_vector_index_set ex_v0 1 (vec_of [F32_NAN, 0])).2 2
    (vec_of [F32_ONE, 0])).2

/-- The index returned by `nty_vector_index_create(1, 1)`. -/
def ex_w0 : nty_vector_index_t :=
  { dimension := 1, capacity := 1, count := 0, ids := fun _ => 0, data := fun _ => 0 }

/-- After `set(5, (1))`: the index is full. -/
def ex_w1 : nty_vector_index_t := (nty_vector_index_set ex_w0 5 (vec_of [F32_ONE])).2

/-- After `set(5, (NaN))` on the empty one-slot index. -/
def ex_n1 : nty_vector_index_t := (nty_vector_index_set ex_w0 5 (vec_of [F32_NAN])).2

/-! ## History of an arena

Quantities that the claims about the allocation policy speak of and the arena does not
store: the slots released and not yet reused, and the latest identifier issued for a
slot. -/

section slab_history
variable {α : Type} [Zero α]

/-- The slot indices released by a successful `nty_slab_free` and not issued again since,
the most recently released first, after a sequence of calls that starts with the list
`released`. -/
def slab_released (s : nty_slab_t α) : List SlabOp → List Nat → List Nat
  | [], released => released
  | SlabOp.alloc :: ops, released =>
    if (nty_slab_alloc s).1 = 0 then slab_released (nty_slab_alloc s).2.2 ops released
    else
      slab_released (nty_slab_alloc s).2.2 ops
        (released.erase (nty_id_index (nty_slab_alloc s).1))
  | SlabOp.free id :: ops, released =>
    if (nty_slab_free s id).1 = true then
      slab_released (nty_slab_free s id).2 ops (nty_id_index id :: released)
    else slab_released (nty_slab_free s id).2 ops released

end slab_history

/-- The latest identifier in `issued` whose slot index is `i`. -/
def last_issued (issued : List Nat) (i : Nat) : Option Nat :=
  issued.reverse.find? (fun x => decide (nty_id_index x = i))

/-- The arena filled in by `nty_slab_init(&slab, 40, 3)`. -/
def ex_slab3 : nty_slab_t nty_node_t :=
  { data := fun _ => 0, next_free := fun _ => 0, generation := fun _ => 0,
    occupied := fun _ => false, item_size := 40, capacity := 3, next_unused := 0,
    free_head := NTY_SLAB_NO_FREE, count := 0 }

/-- Allocate `a` and `b` (slots 0 and 1), then free `a`, then free `b`. -/
def ex_ops : List SlabOp := [SlabOp.alloc, SlabOp.alloc, SlabOp.free ex_a, SlabOp.free ex_b]

/-! ## Repeated reuse of a slot

A slot can be released and taken into use again any number of times between the destruction
of an identifier and the creation that returns a later identifier of the same slot. The
definitions below follow a sequence of public calls state by state and count how often a
slot goes from free to occupied. -/

/-- A chain of public calls from `g`: `trace` lists the store after each call. -/
def StepChain : nty_graph_t → List nty_graph_t → Prop
  | _, [] => True
  | g, g' :: rest => Step g g' ∧ StepChain g' rest

/-- The number of calls of a chain from `g` that take slot `i` of an arena into use: the
slot is not occupied before the call and occupied after it. `occupied` selects the `occupied`
table of the arena. -/
def slot_uses (occupied : nty_graph_t → Nat → Bool) (i : Nat) :
    nty_graph_t → List nty_graph_t → Nat
  | _, [] => 0
  | g, g' :: rest =>
    (if occupied g i = false ∧ occupied g' i = true then 1 else 0) +
      slot_uses occupied i g' rest

/-- What one public call does to the generations of an arena: the generation of a slot that
the call takes into use advances by `next_generation`, every other generation stays. -/
def SlotStep {α : Type} (s s' : nty_slab_t α) : Prop :=
  ∀ i, s'.generation i =
    if s.occupied i = false ∧ s'.occupied i = true then next_generation (s.generation i)
    else s.generation i

/-- The node identifier `id` is rejected by the arena (`nty_slab_exists`, `nty_slab_get`,
`nty_slab_free`) and by `nty_node_exists`, `nty_node_get` and `nty_node_destroy`. -/
def NodeRejected (g : nty_graph_t) (id : Nat) : Prop :=
  nty_slab_exists g.nodes id = false ∧ nty_slab_get g.nodes id = none ∧
    nty_slab_free g.nodes id = (false, g.nodes) ∧ nty_node_exists g id = false ∧
    nty_node_get g id = none ∧ ∀ fuel, nty_node_destroy fuel g id = some (false, g)

/-- The edge identifier `id` is rejected by the arena and by `nty_edge_exists`,
`nty_edge_get` and `nty_edge_destroy`. -/
def EdgeRejected (g : nty_graph_t) (id : Nat) : Prop :=
  nty_slab_exists g.edges id = false ∧ nty_slab_get g.edges id = none ∧
    nty_slab_free g.edges id = (false, g.edges) ∧ nty_edge_exists g id = false ∧
    nty_edge_get g id = none ∧ nty_edge_destroy g id = (false, g)

/-- The property identifier `id` is rejected by the arena and by `nty_property_exists`,
`nty_property_get` and `nty_property_destroy`. -/
def PropertyRejected (g : nty_graph_t) (id : Nat) : Prop :=
  nty_slab_exists g.properties id = false ∧ nty_slab_get g.properties id = none ∧
    nty_slab_free g.properties id = (false, g.properties) ∧
    nty_property_exists g id = false ∧ nty_property_get g id = none ∧
    nty_property_destroy g id = (false, g)

/-- One `nty_node_create` followed by `nty_node_destroy` of the identifier it returned. -/
def node_create_destroy (g : nty_graph_t) : nty_graph_t :=
  ((nty_node_destroy 1 (nty_node_create g).2 (nty_node_create g).1).getD
    (false, (nty_node_create g).2)).2

/-- The store returned by `nty_graph_create(1, 1, 1)`: one slot per arena. -/
def ex_one : nty_graph_t :=
  { nodes :=
      { data := fun _ => 0, next_free := fun _ => 0, generation := fun _ => 0,
        occupied := fun _ => false, item_size := 40, capacity := 1, next_unused := 0,
        free_head := NTY_SLAB_NO_FREE, count := 0 }
    edges :=
      { data := fun _ => 0, next_free := fun _ => 0, generation := fun _ => 0,
        occupied := fun _ => false, item_size := 80, capacity := 1, next_unused := 0,
        free_head := NTY_SLAB_NO_FREE, count := 0 }
    properties :=
      { data := fun _ => 0, next_free := fun _ => 0, generation := fun _ => 0,
        occupied := fun _ => false, item_size := 32, capacity := 1, next_unused := 0,
        free_head := NTY_SLAB_NO_FREE, count := 0 }
    node_order := fun _ => 0
    edge_order := fun _ => 0
    property_order := fun _ => 0
    node_order_len := 0
    edge_order_len := 0
    property_order_len := 0
    node_order_cap := 1
    edge_order_cap := 1
    property_order_cap := 1 }

/-- The store `ex_g7` after a `nty_node_create` that reuses slot 2 with generation 2. -/
def ex_g8 : nty_graph_t := (nty_node_create ex_g7).2

/-- The identifier of generation 2 in slot 2. -/
abbrev ex_c2 : Nat := 8589934595

/-- The identifier of generation 3 in slot 2. -/
abbrev ex_c3 : Nat := 12884901891

/-- The store `ex_g8` after `nty_node_destroy` of the node of generation 2 in slot 2. -/
def ex_g9 : nty_graph_t := ((nty_node_destroy 3 ex_g8 ex_c2).getD (false, ex_g8)).2

/-! # Theorems

Everything below is proved about the definitions above; no further definitions follow. -/

/-! ## Identifier arithmetic -/

theorem nty_id_index_eq (id : Nat) :
    nty_id_index id =
      if id % 4294967296 = 0 then 4294967295 else id % 4294967296 - 1 := by
  have h : id &&& 4294967295 = id % 4294967296 := Nat.and_pow_two_sub_one_eq_mod id 32
  simp only [nty_id_index, h]

theorem nty_id_generation_eq (id : Nat) : nty_id_generation id = id / 4294967296 := by
  simp only [nty_id_generation, Nat.shiftRight_eq_div_pow]
  rfl

theorem make_id_eq (g x : Nat) (hx : x < 4294967296) :
    (g <<< NTY_ID_INDEX_BITS) ||| x = 4294967296 * g + x := by
  have h := Nat.mul_add_lt_is_or (i := 32) (b := x) (by simpa using hx) g
  simp only [NTY_ID_INDEX_BITS, Nat.shiftLeft_eq]
  rw [Nat.mul_comm g, ← h]

theorem make_id_index (g i : Nat) (hi : i < 4294967295) :
    nty_id_index ((g <<< NTY_ID_INDEX_BITS) ||| u32 (i + 1)) = i := by
  have hu : u32 (i + 1) = i + 1 := by unfold u32; omega
  rw [hu, make_id_eq g (i + 1) (by omega), nty_id_index_eq]
  have : (4294967296 * g + (i + 1)) % 4294967296 = i + 1 := by omega
  rw [this]; simp

theorem make_id_generation (g i : Nat) (hi : i < 4294967295) :
    nty_id_generation ((g <<< NTY_ID_INDEX_BITS) ||| u32 (i + 1)) = g := by
  have hu : u32 (i + 1) = i + 1 := by unfold u32; omega
  rw [hu, make_id_eq g (i + 1) (by omega), nty_id_generation_eq]
  omega

theorem make_id_ne_zero (g i : Nat) (hi : i < 4294967295) :
    (g <<< NTY_ID_INDEX_BITS) ||| u32 (i + 1) ≠ 0 := by
  have hu : u32 (i + 1) = i + 1 := by unfold u32; omega
  rw [hu, make_id_eq g (i + 1) (by omega)]
  omega

theorem id_eq_of_index_generation (a b : Nat) (ha : nty_id_index a ≠ 4294967295)
    (hi : nty_id_index a = nty_id_index b) (hg : nty_id_generation a = nty_id_generation b) :
    a = b := by
  rw [nty_id_index_eq] at ha
  rw [nty_id_index_eq, nty_id_index_eq] at hi
  rw [nty_id_generation_eq, nty_id_generation_eq] at hg
  by_cases h1 : a % 4294967296 = 0
  · simp [h1] at ha
  · by_cases h2 : b % 4294967296 = 0
    · simp only [h1, h2, if_true, if_false] at hi
      omega
    · simp only [h1, h2, if_false] at hi
      omega

theorem nty_id_index_zero : nty_id_index 0 = 4294967295 := by
  rw [nty_id_index_eq]; rfl

theorem next_generation_ne (g : Nat) : next_generation g ≠ g := by
  unfold next_generation u32
  split <;> omega

theorem next_generation_lt (g : Nat) : next_generation g < 4294967296 := by
  unfold next_generation u32
  split <;> omega

theorem next_generation_eq (g : Nat) :
    next_generation g = (g + 1) % 4294967296 := by
  unfold next_generation u32
  split <;> omega

/-! ## Arena validation -/

section slab
variable {α : Type}

theorem exists_iff (s : nty_slab_t α) (id : Nat) :
    nty_slab_exists s id = true ↔
      nty_id_index id ≠ 4294967295 ∧ nty_id_index id < s.capacity ∧
        s.occupied (nty_id_index id) = true ∧
        s.generation (nty_id_index id) = nty_id_generation id := by
  unfold nty_slab_exists
  by_cases h0 : nty_id_index id = 4294967295
  · simp [h0]
  · by_cases hc : nty_id_index id < s.capacity
    · cases ho : s.occupied (nty_id_index id)
      · simp [h0, hc, ho]
      · simp [h0, hc, ho, Nat.not_le.mpr hc]
    · simp [h0, hc, Nat.not_lt.mp hc]

theorem exists_zero (s : nty_slab_t α) : nty_slab_exists s 0 = false := by
  cases h : nty_slab_exists s 0
  · rfl
  · rw [exists_iff] at h
    exact absurd nty_id_index_zero h.1

theorem exists_inj (s : nty_slab_t α) (a b : Nat) (ha : nty_slab_exists s a = true)
    (hb : nty_slab_exists s b = true) (hi : nty_id_index a = nty_id_index b) : a = b := by
  rw [exists_iff] at ha hb
  apply id_eq_of_index_generation a b ha.1 hi
  rw [← ha.2.2.2, ← hb.2.2.2, hi]

theorem exists_congr (s t : nty_slab_t α) (hc : t.capacity = s.capacity)
    (ho : t.occupied = s.occupied) (hg : t.generation = s.generation) (id : Nat) :
    nty_slab_exists t id = nty_slab_exists s id := by
  unfold nty_slab_exists
  rw [hc, ho, hg]

theorem get_eq_some (s : nty_slab_t α) (id : Nat) (h : nty_slab_exists s id = true) :
    nty_slab_get s id = some (nty_id_index id) := by
  simp [nty_slab_get, h]

theorem get_eq_none (s : nty_slab_t α) (id : Nat) (h : nty_slab_exists s id = false) :
    nty_slab_get s id = none := by
  simp [nty_slab_get, h]

variable [Zero α]

theorem free_fst (s : nty_slab_t α) (id : Nat) :
    (nty_slab_free s id).1 = nty_slab_exists s id := by
  unfold nty_slab_free nty_slab_exists
  by_cases h1 : nty_id_index id = UINT32_MAX ∨ nty_id_index id ≥ s.capacity
  · simp only [h1, if_true]
  · simp only [h1, if_false]
    by_cases h2 : s.occupied (nty_id_index id) = false
    · simp only [h2, if_true]
    · simp only [h2, if_false]
      by_cases h3 : s.generation (nty_id_index id) = nty_id_generation id
      · simp [h3]
      · simp [h3]

theorem free_of_not_exists (s : nty_slab_t α) (id : Nat) (h : nty_slab_exists s id = false) :
    nty_slab_free s id = (false, s) := by
  have h0 := free_fst s id
  rw [h] at h0
  unfold nty_slab_free at h0 ⊢
  split
  · rfl
  · split
    · rfl
    · split
      · rfl
      · rename_i h1 h2 h3
        simp [h1, h2, h3] at h0

theorem free_of_exists (s : nty_slab_t α) (id : Nat) (h : nty_slab_exists s id = true) :
    nty_slab_free s id =
      (true,
       { s with
          data := Function.update s.data (nty_id_index id) 0
          occupied := Function.update s.occupied (nty_id_index id) false
          next_free := Function.update s.next_free (nty_id_index id) s.free_head
          free_head := nty_id_index id
          count := u32 (s.count + 4294967295) }) := by
  rw [exists_iff] at h
  obtain ⟨h1, h2, h3, h4⟩ := h
  unfold nty_slab_free
  have hc : ¬(nty_id_index id = UINT32_MAX ∨ nty_id_index id ≥ s.capacity) := by
    push_neg; exact ⟨h1, h2⟩
  simp [hc, h3, h4]

end slab

section slab
variable {α : Type} [Zero α]

theorem freeChain_update (nf : Nat → Nat) (i v : Nat) :
    ∀ (l : List Nat) (h : Nat), i ∉ l → (FreeChain (Function.update nf i v) h l ↔ FreeChain nf h l)
  | [], h, _ => Iff.rfl
  | x :: xs, h, hi => by
    have hx : x ≠ i := fun e => hi (by simp [e])
    have hxs : i ∉ xs := fun e => hi (by simp [e])
    simp only [FreeChain, Function.update_noteq hx]
    rw [freeChain_update nf i v xs (nf x) hxs]

theorem init_inv (item_size capacity : Nat) (s : nty_slab_t α) (hc : capacity < 4294967296)
    (h : nty_slab_init item_size capacity = some s) : SlabInv s := by
  unfold nty_slab_init at h
  split at h
  · cases h
  · rename_i h0
    push_neg at h0
    cases h
    refine ⟨by simpa using Nat.pos_of_ne_zero h0.2, hc, Nat.zero_le _, ?_, ?_, ?_⟩
    · intro i hi; cases hi
    · intro i; show 0 < 4294967296; decide
    · exact ⟨[], rfl, List.nodup_nil, by intro i; simp, rfl⟩

/-- Closed form of `nty_slab_alloc` on a well-formed arena. -/
theorem alloc_spec (s : nty_slab_t α) (h : SlabInv s) :
    (s.count = s.capacity ∧ nty_slab_alloc s = (0, 0, s)) ∨
    (s.count < s.capacity ∧ ∃ p fh nu, p < s.capacity ∧ s.occupied p = false ∧
      nty_slab_alloc s =
        ((next_generation (s.generation p) <<< NTY_ID_INDEX_BITS) ||| u32 (p + 1), p,
          { data := Function.update s.data p 0
            next_free := s.next_free
            generation := Function.update s.generation p (next_generation (s.generation p))
            occupied := Function.update s.occupied p true
            item_size := s.item_size
            capacity := s.capacity
            next_unused := nu
            free_head := fh
            count := s.count + 1 }) ∧
      SlabInv
          ({ data := Function.update s.data p 0
             next_free := s.next_free
             generation := Function.update s.generation p (next_generation (s.generation p))
             occupied := Function.update s.occupied p true
             item_size := s.item_size
             capacity := s.capacity
             next_unused := nu
             free_head := fh
             count := s.count + 1 } : nty_slab_t α)) := by
  obtain ⟨hcp, hcl, hnu, hocc, hgen, fl, hch, hnd, hmem, hcnt⟩ := h
  cases fl with
  | nil =>
    have hfh : s.free_head = 4294967295 := hch
    simp only [List.length_nil, Nat.add_zero] at hcnt
    by_cases hlt : s.next_unused < s.capacity
    · right
      refine ⟨by omega, s.next_unused, s.free_head, s.next_unused + 1, hlt, ?_, ?_, ?_⟩
      · cases ho : s.occupied s.next_unused
        · rfl
        · have := hocc _ ho; omega
      · have hu : u32 (s.next_unused + 1) = s.next_unused + 1 := by unfold u32; omega
        have hu2 : u32 (s.count + 1) = s.count + 1 := by unfold u32; omega
        have hne : s.next_unused ≠ 4294967295 := by omega
        simp only [nty_slab_alloc, nty_slab_next_index, hfh, ne_eq, not_true_eq_false,
          if_false, hlt, if_true, hne, hu, hu2]
      · refine ⟨hcp, hcl, hlt, ?_, ?_, [], hfh, List.nodup_nil, ?_, by simp [hcnt]⟩
        · intro i hi
          by_cases hin : i = s.next_unused
          · simp [hin]
          · simp only [Function.update_noteq hin] at hi
            have := hocc i hi
            show i < s.next_unused + 1
            omega
        · intro i
          by_cases hin : i = s.next_unused
          · rw [hin]; simp only [Function.update_same]; exact next_generation_lt _
          · simp only [Function.update_noteq hin]; exact hgen i
        · intro i
          simp only [List.not_mem_nil, false_iff, not_and, Bool.not_eq_false]
          intro hi
          by_cases hin : i = s.next_unused
          · rw [hin]; exact Function.update_same _ _ _
          · rw [Function.update_noteq hin]
            have hi' : i < s.next_unused := by omega
            cases ho : s.occupied i
            · exact absurd ((hmem i).2 ⟨hi', ho⟩) (List.not_mem_nil i)
            · rfl
    · left
      have : s.next_unused = s.capacity := by omega
      refine ⟨by omega, ?_⟩
      simp only [nty_slab_alloc, nty_slab_next_index, hfh, ne_eq, not_true_eq_false,
        if_false, hlt, if_true]
  | cons x xs =>
    obtain ⟨hfh, hch'⟩ := hch
    have hx := (hmem x).1 (by simp)
    have hxne : x ≠ 4294967295 := by omega
    have hxnd := List.nodup_cons.mp hnd
    simp only [List.length_cons] at hcnt
    right
    refine ⟨by omega, x, s.next_free x, s.next_unused, by omega, hx.2, ?_, ?_⟩
    · have hu2 : u32 (s.count + 1) = s.count + 1 := by unfold u32; omega
      simp only [nty_slab_alloc, nty_slab_next_index, hfh, ne_eq, hxne, not_false_eq_true,
        if_true, if_false, hu2]
    · refine ⟨hcp, hcl, hnu, ?_, ?_, xs, hch', hxnd.2, ?_, by simp only; omega⟩
      · intro i hi
        by_cases hin : i = x
        · rw [hin]; exact hx.1
        · simp only [Function.update_noteq hin] at hi
          exact hocc i hi
      · intro i
        by_cases hin : i = x
        · rw [hin]; simp only [Function.update_same]; exact next_generation_lt _
        · simp only [Function.update_noteq hin]; exact hgen i
      · intro i
        by_cases hin : i = x
        · rw [hin]
          simp only [Function.update_same]
          constructor
          · intro hm; exact absurd hm hxnd.1
          · rintro ⟨-, hf⟩; cases hf
        · simp only [Function.update_noteq hin]
          rw [← hmem i]
          simp [hin]

theorem alloc_fail_iff (s : nty_slab_t α) (h : SlabInv s) :
    (nty_slab_alloc s).1 = 0 ↔ s.count = s.capacity := by
  rcases alloc_spec s h with ⟨h1, h2⟩ | ⟨h1, p, fh, nu, hp, -, h2, -⟩
  · rw [h2]; simp [h1]
  · rw [h2]
    constructor
    · intro h0
      exact absurd h0 (make_id_ne_zero _ p (by have := h.cap_lt; omega))
    · intro h0; omega

theorem alloc_fail_state (s : nty_slab_t α) (h : SlabInv s) (h0 : (nty_slab_alloc s).1 = 0) :
    (nty_slab_alloc s).2.2 = s := by
  rcases alloc_spec s h with ⟨-, h2⟩ | ⟨h1, -⟩
  · rw [h2]
  · have := (alloc_fail_iff s h).1 h0
    omega

theorem alloc_inv (s : nty_slab_t α) (h : SlabInv s) : SlabInv (nty_slab_alloc s).2.2 := by
  rcases alloc_spec s h with ⟨-, h2⟩ | ⟨-, p, fh, nu, -, -, h2, h3⟩
  · rw [h2]; exact h
  · rw [h2]; exact h3

/-- Summary of a successful `nty_slab_alloc` on a well-formed arena. -/
theorem alloc_ok (s : nty_slab_t α) (h : SlabInv s) (h0 : (nty_slab_alloc s).1 ≠ 0) :
    nty_id_index (nty_slab_alloc s).1 = (nty_slab_alloc s).2.1 ∧
    nty_id_generation (nty_slab_alloc s).1 =
      next_generation (s.generation (nty_slab_alloc s).2.1) ∧
    (nty_slab_alloc s).2.1 < s.capacity ∧
    s.occupied (nty_slab_alloc s).2.1 = false ∧
    (nty_slab_alloc s).2.2.data = Function.update s.data (nty_slab_alloc s).2.1 0 ∧
    (nty_slab_alloc s).2.2.generation =
      Function.update s.generation (nty_slab_alloc s).2.1
        (next_generation (s.generation (nty_slab_alloc s).2.1)) ∧
    (nty_slab_alloc s).2.2.occupied = Function.update s.occupied (nty_slab_alloc s).2.1 true ∧
    (nty_slab_alloc s).2.2.capacity = s.capacity ∧
    (nty_slab_alloc s).2.2.count = s.count + 1 ∧
    (nty_slab_alloc s).2.2.item_size = s.item_size ∧
    s.count < s.capacity := by
  rcases alloc_spec s h with ⟨-, h2⟩ | ⟨h1, p, fh, nu, hp, ho, h2, -⟩
  · rw [h2] at h0; exact absurd rfl h0
  · rw [h2]
    have hp' : p < 4294967295 := by have := h.cap_lt; omega
    exact ⟨make_id_index _ p hp', make_id_generation _ p hp', hp, ho, rfl, rfl, rfl, rfl, rfl,
      rfl, h1⟩

theorem alloc_exists_iff (s : nty_slab_t α) (h : SlabInv s) (h0 : (nty_slab_alloc s).1 ≠ 0)
    (x : Nat) :
    nty_slab_exists (nty_slab_alloc s).2.2 x = true ↔
      (x = (nty_slab_alloc s).1 ∨ nty_slab_exists s x = true) := by
  obtain ⟨hi, hg, hp, ho, -, hgen, hocc, hcap, -, -, -⟩ := alloc_ok s h h0
  have hpm : (nty_slab_alloc s).2.1 ≠ 4294967295 := by have := h.cap_lt; omega
  rw [exists_iff, exists_iff, hgen, hocc, hcap]
  by_cases hx : nty_id_index x = (nty_slab_alloc s).2.1
  · rw [hx]
    simp only [Function.update_same, ho]
    constructor
    · rintro ⟨-, -, -, h4⟩
      left
      apply id_eq_of_index_generation x _ (by rw [hx]; exact hpm) (by rw [hx, hi])
      rw [hg, ← h4]
    · rintro (h5 | h5)
      · refine ⟨hpm, hp, trivial, ?_⟩
        rw [h5, hg]
      · exact absurd h5.2.2.1 (by simp)
  · simp only [Function.update_noteq hx]
    constructor
    · intro h5; exact Or.inr h5
    · rintro (h5 | h5)
      · rw [h5, hi] at hx; exact absurd rfl hx
      · exact h5

theorem alloc_fresh (s : nty_slab_t α) (h : SlabInv s) (h0 : (nty_slab_alloc s).1 ≠ 0) :
    nty_slab_exists s (nty_slab_alloc s).1 = false := by
  obtain ⟨hi, -, -, ho, -⟩ := alloc_ok s h h0
  cases hx : nty_slab_exists s (nty_slab_alloc s).1
  · rfl
  · rw [exists_iff, hi, ho] at hx
    exact absurd hx.2.2.1 (by simp)

omit [Zero α] in
theorem free_list_length_lt (s : nty_slab_t α) (fl : List Nat) (hnd : fl.Nodup)
    (hmem : ∀ i, i ∈ fl ↔ (i < s.next_unused ∧ s.occupied i = false)) (p : Nat)
    (hp : s.occupied p = true) (hlt : p < s.next_unused) : fl.length < s.next_unused := by
  have hpn : p ∉ fl := by
    intro hm
    have := ((hmem p).1 hm).2
    rw [hp] at this; cases this
  have hnd' : (p :: fl).Nodup := List.nodup_cons.mpr ⟨hpn, hnd⟩
  have hsub : (p :: fl) ⊆ List.range s.next_unused := by
    intro i hi
    rw [List.mem_range]
    rcases List.mem_cons.mp hi with hi | hi
    · rw [hi]; exact hlt
    · exact ((hmem i).1 hi).1
  have := (List.subperm_of_subset hnd' hsub).length_le
  simp only [List.length_cons, List.length_range] at this
  omega

theorem free_inv (s : nty_slab_t α) (h : SlabInv s) (id : Nat) :
    SlabInv (nty_slab_free s id).2 := by
  cases hx : nty_slab_exists s id
  · rw [free_of_not_exists s id hx]; exact h
  · rw [free_of_exists s id hx]
    obtain ⟨hcp, hcl, hnu, hocc, hgen, fl, hch, hnd, hmem, hcnt⟩ := h
    rw [exists_iff] at hx
    obtain ⟨-, hic, hio, -⟩ := hx
    have hlt := hocc _ hio
    have hfl := free_list_length_lt s fl hnd hmem _ hio hlt
    have hpn : nty_id_index id ∉ fl := by
      intro hm
      have := ((hmem _).1 hm).2
      rw [hio] at this; cases this
    refine ⟨hcp, hcl, hnu, ?_, hgen, nty_id_index id :: fl, ?_, List.nodup_cons.mpr ⟨hpn, hnd⟩,
      ?_, ?_⟩
    · intro i hi
      by_cases hin : i = nty_id_index id
      · rw [hin]; exact hlt
      · simp only [Function.update_noteq hin] at hi
        exact hocc i hi
    · refine ⟨rfl, ?_⟩
      simp only [Function.update_same]
      exact (freeChain_update s.next_free _ _ fl _ hpn).2 hch
    · intro i
      by_cases hin : i = nty_id_index id
      · rw [hin]; simp [hlt]
      · simp only [Function.update_noteq hin, List.mem_cons, hin, false_or]
        exact hmem i
    · simp only [List.length_cons]
      unfold u32
      omega

/-- Summary of a successful `nty_slab_free` on a well-formed arena. -/
theorem free_ok (s : nty_slab_t α) (h : SlabInv s) (id : Nat)
    (hx : nty_slab_exists s id = true) :
    (nty_slab_free s id).1 = true ∧
    (nty_slab_free s id).2.data = Function.update s.data (nty_id_index id) 0 ∧
    (nty_slab_free s id).2.generation = s.generation ∧
    (nty_slab_free s id).2.occupied = Function.update s.occupied (nty_id_index id) false ∧
    (nty_slab_free s id).2.capacity = s.capacity ∧
    (nty_slab_free s id).2.count + 1 = s.count ∧
    (nty_slab_free s id).2.item_size = s.item_size := by
  rw [free_of_exists s id hx]
  refine ⟨rfl, rfl, rfl, rfl, rfl, ?_, rfl⟩
  obtain ⟨hcp, hcl, hnu, hocc, hgen, fl, hch, hnd, hmem, hcnt⟩ := h
  rw [exists_iff] at hx
  obtain ⟨-, hic, hio, -⟩ := hx
  have hfl := free_list_length_lt s fl hnd hmem _ hio (hocc _ hio)
  show u32 (s.count + 4294967295) + 1 = s.count
  unfold u32
  omega

theorem free_exists_iff (s : nty_slab_t α) (id : Nat) (hx : nty_slab_exists s id = true)
    (x : Nat) :
    nty_slab_exists (nty_slab_free s id).2 x = true ↔
      (nty_slab_exists s x = true ∧ x ≠ id) := by
  rw [free_of_exists s id hx]
  rw [exists_iff, exists_iff]
  simp only
  by_cases hi : nty_id_index x = nty_id_index id
  · rw [hi]
    simp only [Function.update_same]
    constructor
    · rintro ⟨-, -, h3, -⟩; cases h3
    · rintro ⟨h5, h6⟩
      exfalso
      apply h6
      apply exists_inj s x id _ hx hi
      rw [exists_iff, hi]; exact h5
  · simp only [Function.update_noteq hi]
    constructor
    · intro h5
      refine ⟨h5, ?_⟩
      intro e; rw [e] at hi; exact hi rfl
    · intro h5; exact h5.1

end slab

/-! ## Order arrays -/

theorem order_seg_zero (o : Nat → Nat) (i : Nat) : order_seg o i 0 = [] := rfl

theorem order_seg_succ (o : Nat → Nat) (i n : Nat) :
    order_seg o i (n + 1) = o i :: order_seg o (i + 1) n := by
  simp [order_seg, List.range'_succ]

theorem order_seg_concat (o : Nat → Nat) (i n : Nat) :
    order_seg o i (n + 1) = order_seg o i n ++ [o (i + n)] := by
  simp [order_seg, List.range'_concat]

theorem order_seg_length (o : Nat → Nat) (i n : Nat) : (order_seg o i n).length = n := by
  simp [order_seg]

theorem order_seg_congr (o o' : Nat → Nat) (i n : Nat)
    (h : ∀ j, i ≤ j → j < i + n → o j = o' j) : order_seg o i n = order_seg o' i n := by
  unfold order_seg
  apply List.map_congr_left
  intro j hj
  rw [List.mem_range'_1] at hj
  exact h j hj.1 hj.2

theorem order_seg_shift (o : Nat → Nat) : ∀ (n i : Nat),
    order_seg (fun j => o (j + 1)) i n = order_seg o (i + 1) n
  | 0, _ => rfl
  | n + 1, i => by
    rw [order_seg_succ, order_seg_succ, order_seg_shift o n (i + 1)]

theorem order_list_length (o : Nat → Nat) (len : Nat) : (order_list o len).length = len :=
  order_seg_length o 0 len

theorem order_append_ok (o : Nat → Nat) (cap len id : Nat) (h : len < cap) :
    nty_order_append o cap len id = (true, Function.update o len id, len + 1) := by
  unfold nty_order_append
  simp [Nat.not_le.mpr h]

theorem order_list_append (o : Nat → Nat) (len id : Nat) :
    order_list (Function.update o len id) (len + 1) = order_list o len ++ [id] := by
  unfold order_list
  rw [order_seg_concat, Nat.zero_add, Function.update_same]
  congr 1
  apply order_seg_congr
  intro j _ hj
  exact Function.update_noteq (by omega) _ _

theorem order_find_none (o : Nat → Nat) (id : Nat) : ∀ (n i : Nat),
    order_find o id n i = none → id ∉ order_seg o i n
  | 0, _, _ => by simp [order_seg]
  | n + 1, i, h => by
    rw [order_seg_succ]
    unfold order_find at h
    split at h
    · cases h
    · rename_i hne
      simp only [List.mem_cons, not_or]
      exact ⟨fun e => hne e.symm, order_find_none o id n (i + 1) h⟩

theorem order_find_some (o : Nat → Nat) (id : Nat) : ∀ (n i k : Nat),
    order_find o id n i = some k → i ≤ k ∧ k < i + n ∧ o k = id
  | 0, _, _, h => by cases h
  | n + 1, i, k, h => by
    unfold order_find at h
    split at h
    · rename_i he
      cases h
      exact ⟨Nat.le_refl _, by omega, he⟩
    · have := order_find_some o id n (i + 1) k h
      omega

theorem order_find_erase (o : Nat → Nat) (id len : Nat) : ∀ (n i k : Nat),
    order_find o id n i = some k → len = i + n →
      order_seg (fun j => if k ≤ j ∧ j < len - 1 then o (j + 1) else o j) i (n - 1) =
        (order_seg o i n).erase id
  | 0, _, _, h, _ => by cases h
  | n + 1, i, k, h, hl => by
    unfold order_find at h
    rw [order_seg_succ o i n]
    split at h
    · rename_i he
      cases h
      rw [← he, List.erase_cons_head]
      simp only [Nat.add_sub_cancel]
      rw [← order_seg_shift o n i]
      apply order_seg_congr
      intro j h1 h2
      have : i ≤ j ∧ j < len - 1 := ⟨h1, by omega⟩
      simp [this]
    · rename_i hne
      have hk := order_find_some o id n (i + 1) k h
      have ih := order_find_erase o id len n (i + 1) k h (by omega)
      have hn : n = (n - 1) + 1 := by omega
      rw [List.erase_cons_tail (by simpa using hne)]
      simp only [Nat.add_sub_cancel]
      rw [hn, order_seg_succ, ← hn, ih]
      have : ¬(k ≤ i ∧ i < len - 1) := by omega
      simp [this]

theorem order_remove_list (o : Nat → Nat) (len id : Nat) :
    order_list (nty_order_remove o len id).1 (nty_order_remove o len id).2 =
      (order_list o len).erase id := by
  unfold nty_order_remove order_list
  by_cases h0 : len = 0
  · simp [h0, order_seg]
  · simp only [h0, if_false]
    cases hf : order_find o id len 0 with
    | none =>
      simp only
      rw [List.erase_of_not_mem (order_find_none o id len 0 hf)]
    | some k =>
      simp only
      exact order_find_erase o id len len 0 k hf (by omega)

theorem order_remove_len (o : Nat → Nat) (len id : Nat) (h : id ∈ order_list o len) :
    (nty_order_remove o len id).2 + 1 = len := by
  unfold nty_order_remove
  by_cases h0 : len = 0
  · rw [h0] at h; simp [order_list, order_seg] at h
  · simp only [h0, if_false]
    cases hf : order_find o id len 0 with
    | none => exact absurd h (order_find_none o id len 0 hf)
    | some k => simp only; omega

theorem order_remove_of_not_mem (o : Nat → Nat) (len id : Nat) (h : id ∉ order_list o len) :
    nty_order_remove o len id = (o, len) := by
  unfold nty_order_remove
  by_cases h0 : len = 0
  · simp [h0]
  · simp only [h0, if_false]
    cases hf : order_find o id len 0 with
    | none => rfl
    | some k =>
      exfalso
      apply h
      have hk := order_find_some o id len 0 k hf
      unfold order_list order_seg
      rw [List.mem_map]
      exact ⟨k, by rw [List.mem_range'_1]; omega, hk.2.2⟩

/-! ## Neighbours in a duplicate-free list -/

theorem headD_mem_or (l : List Nat) : l.headD 0 = 0 ∨ l.headD 0 ∈ l := by
  cases l with
  | nil => left; rfl
  | cons a as => right; simp

theorem headD_eq_zero_iff (l : List Nat) (h0 : 0 ∉ l) : l.headD 0 = 0 ↔ l = [] := by
  cases l with
  | nil => simp
  | cons a as =>
    simp only [List.headD_cons, reduceCtorEq, iff_false]
    intro e; apply h0; simp [e]

theorem getLastD_cons (a d : Nat) (l : List Nat) : (a :: l).getLastD d = l.getLastD a := by
  cases l <;> rfl

theorem getLastD_mem_or (l : List Nat) : ∀ d, l.getLastD d = d ∨ l.getLastD d ∈ l := by
  induction l with
  | nil => intro d; left; rfl
  | cons a as ih =>
    intro d
    rw [getLastD_cons]
    right
    rcases ih a with h | h
    · rw [h]; simp
    · exact List.mem_cons_of_mem _ h

theorem getLastD_cons_mem (a : Nat) (l : List Nat) (d : Nat) :
    (a :: l).getLastD d ∈ a :: l := by
  rw [getLastD_cons]
  rcases getLastD_mem_or l a with h | h
  · rw [h]; simp
  · exact List.mem_cons_of_mem _ h

theorem getLastD_eq_zero_iff (l : List Nat) (h0 : 0 ∉ l) : l.getLastD 0 = 0 ↔ l = [] := by
  cases l with
  | nil => simp
  | cons a as =>
    simp only [reduceCtorEq, iff_false]
    intro e
    rw [getLastD_cons] at e
    rcases getLastD_mem_or as a with h | h
    · rw [h] at e; apply h0; simp [e]
    · rw [e] at h; apply h0; exact List.mem_cons_of_mem _ h

theorem getLastD_append_singleton (l : List Nat) (a d : Nat) : (l ++ [a]).getLastD d = a := by
  induction l generalizing d with
  | nil => rfl
  | cons b bs ih => rw [List.cons_append, getLastD_cons, ih]

theorem headD_append_singleton (l : List Nat) (a : Nat) :
    (l ++ [a]).headD 0 = if l = [] then a else l.headD 0 := by
  cases l <;> simp

theorem next_in_of_not_mem (l : List Nat) (e : Nat) (h : e ∉ l) : next_in l e = 0 := by
  induction l with
  | nil => rfl
  | cons a as ih =>
    simp only [List.mem_cons, not_or] at h
    simp only [next_in, Ne.symm h.1, if_false]
    exact ih h.2

theorem prev_aux_of_not_mem (l : List Nat) (e : Nat) (h : e ∉ l) : ∀ p, prev_aux p l e = 0 := by
  induction l with
  | nil => intro p; rfl
  | cons a as ih =>
    intro p
    simp only [List.mem_cons, not_or] at h
    simp only [prev_aux, Ne.symm h.1, if_false]
    exact ih h.2 a

theorem next_in_mem_or (l : List Nat) (e : Nat) : next_in l e = 0 ∨ next_in l e ∈ l := by
  induction l with
  | nil => left; rfl
  | cons a as ih =>
    simp only [next_in]
    split
    · rcases headD_mem_or as with h | h
      · left; exact h
      · right; exact List.mem_cons_of_mem _ h
    · rcases ih with h | h
      · left; exact h
      · right; exact List.mem_cons_of_mem _ h

theorem prev_aux_mem (l : List Nat) (e : Nat) (h : e ∈ l) :
    ∀ p, prev_aux p l e = p ∨ prev_aux p l e ∈ l := by
  induction l with
  | nil => cases h
  | cons a as ih =>
    intro p
    simp only [prev_aux]
    split
    · left; rfl
    · rename_i hne
      have hm : e ∈ as := by
        rcases List.mem_cons.mp h with h | h
        · exact absurd h.symm hne
        · exact h
      right
      rcases ih hm a with h | h
      · rw [h]; simp
      · exact List.mem_cons_of_mem _ h

theorem prev_in_mem_or (l : List Nat) (e : Nat) : prev_in l e = 0 ∨ prev_in l e ∈ l := by
  by_cases h : e ∈ l
  · exact prev_aux_mem l e h 0
  · left; exact prev_aux_of_not_mem l e h 0

theorem next_in_ne_self (l : List Nat) (hnd : l.Nodup) (e : Nat) (h : e ∈ l) :
    next_in l e ≠ e ∨ next_in l e = 0 := by
  induction l with
  | nil => cases h
  | cons a as ih =>
    have hc := List.nodup_cons.mp hnd
    simp only [next_in]
    split
    · rename_i he
      rcases headD_mem_or as with h1 | h1
      · right; exact h1
      · left; intro e1; rw [e1, ← he] at h1; exact hc.1 h1
    · rename_i hne
      have hm : e ∈ as := by
        rcases List.mem_cons.mp h with h | h
        · exact absurd h.symm hne
        · exact h
      exact ih hc.2 hm

theorem prev_aux_ne_self (l : List Nat) (hnd : l.Nodup) (e : Nat) (h : e ∈ l) :
    ∀ p, p ≠ e → prev_aux p l e ≠ e := by
  induction l with
  | nil => cases h
  | cons a as ih =>
    intro p hp
    have hc := List.nodup_cons.mp hnd
    simp only [prev_aux]
    split
    · exact hp
    · rename_i hne
      have hm : e ∈ as := by
        rcases List.mem_cons.mp h with h | h
        · exact absurd h.symm hne
        · exact h
      exact ih hc.2 hm a hne

theorem prev_in_eq_zero_iff (l : List Nat) (h0 : 0 ∉ l) (e : Nat) (h : e ∈ l) :
    prev_in l e = 0 ↔ l.headD 0 = e := by
  cases l with
  | nil => cases h
  | cons a as =>
    simp only [prev_in, prev_aux, List.headD_cons]
    split
    · rename_i he
      simp [he]
    · rename_i hne
      simp only [hne, iff_false]
      have hm : e ∈ as := by
        rcases List.mem_cons.mp h with h | h
        · exact absurd h.symm hne
        · exact h
      intro e0
      rcases prev_aux_mem as e hm a with h1 | h1
      · rw [h1] at e0; apply h0; simp [e0]
      · rw [e0] at h1; apply h0; exact List.mem_cons_of_mem _ h1

theorem next_in_eq_zero_iff (l : List Nat) (hnd : l.Nodup) (h0 : 0 ∉ l) (e : Nat)
    (h : e ∈ l) : ∀ d, next_in l e = 0 ↔ l.getLastD d = e := by
  induction l with
  | nil => cases h
  | cons a as ih =>
    intro d
    have hc := List.nodup_cons.mp hnd
    have h0' : 0 ∉ as := fun hm => h0 (List.mem_cons_of_mem _ hm)
    rw [getLastD_cons]
    simp only [next_in]
    split
    · rename_i he
      rw [headD_eq_zero_iff as h0']
      constructor
      · intro e1; rw [e1]; exact he
      · intro e1
        cases as with
        | nil => rfl
        | cons b bs =>
          exfalso
          have h1 := getLastD_cons_mem b bs a
          rw [e1, ← he] at h1
          exact hc.1 h1
    · rename_i hne
      have hm : e ∈ as := by
        rcases List.mem_cons.mp h with h | h
        · exact absurd h.symm hne
        · exact h
      exact ih hc.2 h0' hm a

theorem mem_of_mem_cons_ne {a e : Nat} {l : List Nat} (h : e ∈ a :: l) (hne : ¬a = e) :
    e ∈ l := by
  rcases List.mem_cons.mp h with h | h
  · exact absurd h.symm hne
  · exact h

/-! ### Removing an element -/

theorem prev_aux_erase (l : List Nat) (e x : Nat) (hnd : l.Nodup) (h0 : 0 ∉ l) (he : e ∈ l)
    (hx : x ∈ l) (hxe : x ≠ e) :
    ∀ p, prev_aux p (l.erase e) x = if x = next_in l e then prev_aux p l e else prev_aux p l x := by
  induction l with
  | nil => cases he
  | cons a as ih =>
    intro p
    have hc := List.nodup_cons.mp hnd
    have h0' : 0 ∉ as := fun hm => h0 (List.mem_cons_of_mem _ hm)
    by_cases hae : a = e
    · subst hae
      have hxa : x ∈ as := mem_of_mem_cons_ne hx (fun e1 => hxe e1.symm)
      rw [List.erase_cons_head]
      simp only [next_in, prev_aux, if_true]
      cases as with
      | nil => cases hxa
      | cons b bs =>
        simp only [List.headD_cons, prev_aux]
        have hax : ¬a = x := fun e1 => hxe e1.symm
        by_cases hbx : b = x
        · simp [hbx]
        · have : ¬x = b := fun e1 => hbx e1.symm
          simp [hbx, this, hax]
    · have hea : e ∈ as := mem_of_mem_cons_ne he hae
      rw [List.erase_cons_tail (by simpa using hae)]
      simp only [next_in, prev_aux, hae, if_false]
      by_cases hax : a = x
      · simp only [hax, if_true]
        have : ¬x = next_in as e := by
          intro e1
          rcases next_in_mem_or as e with h1 | h1
          · rw [← e1, ← hax] at h1; apply h0; simp [h1]
          · rw [← e1, ← hax] at h1; exact hc.1 h1
        simp [this]
      · simp only [hax, if_false]
        exact ih hc.2 h0' hea (mem_of_mem_cons_ne hx hax) a

theorem prev_in_erase (l : List Nat) (e x : Nat) (hnd : l.Nodup) (h0 : 0 ∉ l) (he : e ∈ l)
    (hx : x ∈ l) (hxe : x ≠ e) :
    prev_in (l.erase e) x = if x = next_in l e then prev_in l e else prev_in l x :=
  prev_aux_erase l e x hnd h0 he hx hxe 0

theorem next_in_erase_aux (l : List Nat) (e x : Nat) (hnd : l.Nodup) (he : e ∈ l)
    (hx : x ∈ l) (hxe : x ≠ e) :
    ∀ p, p ∉ l →
      next_in (l.erase e) x = if x = prev_aux p l e then next_in l e else next_in l x := by
  induction l with
  | nil => cases he
  | cons a as ih =>
    intro p hp
    have hc := List.nodup_cons.mp hnd
    by_cases hae : a = e
    · subst hae
      rw [List.erase_cons_head]
      have hxp : ¬x = p := fun e1 => hp (e1 ▸ hx)
      have hax : ¬a = x := fun e1 => hxe e1.symm
      simp [next_in, prev_aux, hxp, hax]
    · have hea : e ∈ as := mem_of_mem_cons_ne he hae
      rw [List.erase_cons_tail (by simpa using hae)]
      simp only [next_in, prev_aux, hae, if_false]
      by_cases hax : a = x
      · simp only [hax, if_true]
        subst hax
        cases as with
        | nil => cases hea
        | cons b bs =>
          by_cases hbe : b = e
          · subst hbe
            simp [prev_aux, next_in]
          · have hne : ¬a = prev_aux b bs e := by
              intro e1
              have hm : e ∈ bs := mem_of_mem_cons_ne hea hbe
              rcases prev_aux_mem bs e hm b with h1 | h1
              · rw [h1] at e1; apply hc.1; simp [e1]
              · rw [← e1] at h1; exact hc.1 (List.mem_cons_of_mem _ h1)
            rw [List.erase_cons_tail (by simpa using hbe)]
            simp [prev_aux, hbe, hne]
      · simp only [hax, if_false]
        exact ih hc.2 hea (mem_of_mem_cons_ne hx hax) a hc.1

theorem next_in_erase (l : List Nat) (e x : Nat) (hnd : l.Nodup) (h0 : 0 ∉ l) (he : e ∈ l)
    (hx : x ∈ l) (hxe : x ≠ e) :
    next_in (l.erase e) x = if x = prev_in l e then next_in l e else next_in l x :=
  next_in_erase_aux l e x hnd he hx hxe 0 h0

theorem headD_erase (l : List Nat) (e : Nat) (h0 : 0 ∉ l) (he : e ∈ l) :
    (l.erase e).headD 0 = if prev_in l e = 0 then next_in l e else l.headD 0 := by
  cases l with
  | nil => cases he
  | cons a as =>
    by_cases hae : a = e
    · subst hae
      simp [prev_in, prev_aux, next_in]
    · have hea : e ∈ as := mem_of_mem_cons_ne he hae
      rw [List.erase_cons_tail (by simpa using hae)]
      have : ¬prev_in (a :: as) e = 0 := by
        rw [prev_in_eq_zero_iff _ h0 e he]
        simpa using hae
      simp [this]

theorem getLastD_erase (l : List Nat) (e : Nat) (hnd : l.Nodup) (h0 : 0 ∉ l) (he : e ∈ l) :
    ∀ p, (l.erase e).getLastD p =
      if next_in l e = 0 then prev_aux p l e else l.getLastD p := by
  induction l with
  | nil => cases he
  | cons a as ih =>
    intro p
    have hc := List.nodup_cons.mp hnd
    have h0' : 0 ∉ as := fun hm => h0 (List.mem_cons_of_mem _ hm)
    by_cases hae : a = e
    · subst hae
      rw [List.erase_cons_head]
      simp only [next_in, prev_aux, if_true]
      cases as with
      | nil => simp
      | cons b bs =>
        have hb : ¬b = 0 := fun e1 => h0' (by simp [e1])
        simp only [List.headD_cons, hb, if_false]
        rw [getLastD_cons, getLastD_cons, getLastD_cons]
    · have hea : e ∈ as := mem_of_mem_cons_ne he hae
      rw [List.erase_cons_tail (by simpa using hae)]
      simp only [next_in, prev_aux, hae, if_false]
      rw [getLastD_cons, getLastD_cons]
      exact ih hc.2 h0' hea a

/-! ### Appending an element -/

theorem next_in_append_new (l : List Nat) (a : Nat) (ha : a ∉ l) : next_in (l ++ [a]) a = 0 := by
  induction l with
  | nil => simp [next_in]
  | cons b bs ih =>
    simp only [List.mem_cons, not_or] at ha
    simp only [List.cons_append, next_in, Ne.symm ha.1, if_false]
    exact ih ha.2

theorem next_in_append_old (l : List Nat) (a x : Nat) (hnd : l.Nodup) (hx : x ∈ l) :
    ∀ d, next_in (l ++ [a]) x = if x = l.getLastD d then a else next_in l x := by
  induction l with
  | nil => cases hx
  | cons b bs ih =>
    intro d
    have hc := List.nodup_cons.mp hnd
    rw [getLastD_cons]
    simp only [List.cons_append, next_in]
    by_cases hbx : b = x
    · subst hbx
      simp only [if_true]
      cases bs with
      | nil => simp
      | cons c cs =>
        have : ¬b = (c :: cs).getLastD b := by
          intro e1
          have := getLastD_cons_mem c cs b
          rw [← e1] at this
          exact hc.1 this
        rw [if_neg this]
        rfl
    · simp only [hbx, if_false]
      exact ih hc.2 (mem_of_mem_cons_ne hx hbx) b

theorem prev_aux_append_new (l : List Nat) (a : Nat) (ha : a ∉ l) :
    ∀ p, prev_aux p (l ++ [a]) a = l.getLastD p := by
  induction l with
  | nil => intro p; simp [prev_aux]
  | cons b bs ih =>
    intro p
    simp only [List.mem_cons, not_or] at ha
    rw [getLastD_cons]
    simp only [List.cons_append, prev_aux, Ne.symm ha.1, if_false]
    exact ih ha.2 b

theorem prev_aux_append_old (l : List Nat) (a x : Nat) (hx : x ∈ l) :
    ∀ p, prev_aux p (l ++ [a]) x = prev_aux p l x := by
  induction l with
  | nil => cases hx
  | cons b bs ih =>
    intro p
    simp only [List.cons_append, prev_aux]
    by_cases hbx : b = x
    · simp [hbx]
    · simp only [hbx, if_false]
      exact ih (mem_of_mem_cons_ne hx hbx) b

/-! ### Walking a list through its successor function -/

theorem next_in_head (a : Nat) (l : List Nat) : next_in (a :: l) a = l.headD 0 := by
  simp [next_in]

theorem next_in_cons_of_mem (a x : Nat) (l : List Nat) (hnd : (a :: l).Nodup) (hx : x ∈ l) :
    next_in (a :: l) x = next_in l x := by
  have hc := List.nodup_cons.mp hnd
  have : ¬a = x := fun e => hc.1 (e ▸ hx)
  simp [next_in, this]

theorem filter_erase_comm (p : Nat → Bool) (l : List Nat) (e : Nat) :
    (l.erase e).filter p = (l.filter p).erase e := by
  rw [List.erase_filter]

theorem erase_of_filter_false (p : Nat → Bool) (l : List Nat) (e : Nat) (h : p e = false) :
    (l.erase e).filter p = l.filter p := by
  rw [filter_erase_comm]
  apply List.erase_of_not_mem
  intro hm
  rw [List.mem_filter] at hm
  rw [h] at hm
  cases hm.2

/-! ## Record writes -/

theorem recordsOnly_refl (g : nty_graph_t) : RecordsOnly g g := ⟨g.nodes.data, g.edges.data, rfl⟩

theorem recordsOnly_trans {g g' g'' : nty_graph_t} (h1 : RecordsOnly g g')
    (h2 : RecordsOnly g' g'') : RecordsOnly g g'' := by
  obtain ⟨N, E, rfl⟩ := h1
  obtain ⟨N', E', rfl⟩ := h2
  exact ⟨N', E', rfl⟩

theorem recordsOnly_set_node (g : nty_graph_t) (p : Nat) (f : nty_node_t → nty_node_t) :
    RecordsOnly g (set_node g p f) := ⟨_, g.edges.data, rfl⟩

theorem recordsOnly_set_edge (g : nty_graph_t) (p : Nat) (f : nty_edge_t → nty_edge_t) :
    RecordsOnly g (set_edge g p f) := ⟨g.nodes.data, _, rfl⟩

theorem recordsOnly_unlink_out_prev (g : nty_graph_t) (ep fp : Nat) :
    RecordsOnly g (unlink_out_prev g ep fp) := by
  unfold unlink_out_prev
  split
  · split
    · exact recordsOnly_set_edge _ _ _
    · exact recordsOnly_refl g
  · exact recordsOnly_set_node _ _ _

theorem recordsOnly_unlink_out_next (g : nty_graph_t) (ep fp : Nat) :
    RecordsOnly g (unlink_out_next g ep fp) := by
  unfold unlink_out_next
  split
  · split
    · exact recordsOnly_set_edge _ _ _
    · exact recordsOnly_refl g
  · exact recordsOnly_set_node _ _ _

theorem recordsOnly_unlink_out (g : nty_graph_t) (ep : Nat) :
    RecordsOnly g (unlink_out g ep) := by
  unfold unlink_out
  split
  · exact recordsOnly_refl g
  · exact recordsOnly_trans (recordsOnly_unlink_out_prev g ep _)
      (recordsOnly_unlink_out_next _ ep _)

theorem recordsOnly_link_out_prev (g : nty_graph_t) (fp id : Nat) :
    RecordsOnly g (link_out_prev g fp id) := by
  unfold link_out_prev
  split
  · split
    · exact recordsOnly_set_edge _ _ _
    · exact recordsOnly_refl g
  · exact recordsOnly_set_node _ _ _

theorem recordsOnly_link_out (g : nty_graph_t) (fp id : Nat) :
    RecordsOnly g (link_out g fp id) :=
  recordsOnly_trans (recordsOnly_link_out_prev g fp id) (recordsOnly_set_node _ _ _)

theorem unlink_out_prev_edges (g : nty_graph_t) (ep fp : Nat)
    (hop : (g.edges.data ep).out_prev = 0 ∨
      nty_slab_exists g.edges (g.edges.data ep).out_prev = true) (i : Nat) :
    (unlink_out_prev g ep fp).edges.data i =
      { g.edges.data i with
        out_next :=
          if (g.edges.data ep).out_prev ≠ 0 ∧ i = nty_id_index (g.edges.data ep).out_prev then
            (g.edges.data ep).out_next
          else (g.edges.data i).out_next } := by
  unfold unlink_out_prev
  by_cases h0 : (g.edges.data ep).out_prev = 0
  · simp [h0, set_node]
  · have hx : nty_slab_exists g.edges (g.edges.data ep).out_prev = true := by
      rcases hop with h | h
      · exact absurd h h0
      · exact h
    simp only [ne_eq, h0, not_false_eq_true, if_true, nty_graph_get_edge, get_eq_some _ _ hx,
      true_and, set_edge]
    by_cases hi : i = nty_id_index (g.edges.data ep).out_prev
    · subst hi; simp
    · simp [hi]

theorem unlink_out_prev_nodes (g : nty_graph_t) (ep fp : Nat) (i : Nat) :
    (unlink_out_prev g ep fp).nodes.data i =
      { g.nodes.data i with
        out_head :=
          if (g.edges.data ep).out_prev = 0 ∧ i = fp then (g.edges.data ep).out_next
          else (g.nodes.data i).out_head } := by
  unfold unlink_out_prev
  by_cases h0 : (g.edges.data ep).out_prev = 0
  · simp only [h0, ne_eq, not_true_eq_false, if_false, true_and, set_node]
    by_cases hi : i = fp
    · subst hi; simp
    · simp [hi]
  · simp only [ne_eq, h0, not_false_eq_true, if_true, false_and, if_false]
    split <;> rfl

theorem unlink_out_next_edges (g : nty_graph_t) (ep fp : Nat)
    (hon : (g.edges.data ep).out_next = 0 ∨
      nty_slab_exists g.edges (g.edges.data ep).out_next = true) (i : Nat) :
    (unlink_out_next g ep fp).edges.data i =
      { g.edges.data i with
        out_prev :=
          if (g.edges.data ep).out_next ≠ 0 ∧ i = nty_id_index (g.edges.data ep).out_next then
            (g.edges.data ep).out_prev
          else (g.edges.data i).out_prev } := by
  unfold unlink_out_next
  by_cases h0 : (g.edges.data ep).out_next = 0
  · simp [h0, set_node]
  · have hx : nty_slab_exists g.edges (g.edges.data ep).out_next = true := by
      rcases hon with h | h
      · exact absurd h h0
      · exact h
    simp only [ne_eq, h0, not_false_eq_true, if_true, nty_graph_get_edge, get_eq_some _ _ hx,
      true_and, set_edge]
    by_cases hi : i = nty_id_index (g.edges.data ep).out_next
    · subst hi; simp
    · simp [hi]

theorem unlink_out_next_nodes (g : nty_graph_t) (ep fp : Nat) (i : Nat) :
    (unlink_out_next g ep fp).nodes.data i =
      { g.nodes.data i with
        out_tail :=
          if (g.edges.data ep).out_next = 0 ∧ i = fp then (g.edges.data ep).out_prev
          else (g.nodes.data i).out_tail } := by
  unfold unlink_out_next
  by_cases h0 : (g.edges.data ep).out_next = 0
  · simp only [h0, ne_eq, not_true_eq_false, if_false, true_and, set_node]
    by_cases hi : i = fp
    · subst hi; simp
    · simp [hi]
  · simp only [ne_eq, h0, not_false_eq_true, if_true, false_and, if_false]
    split <;> rfl

theorem link_out_edges (g : nty_graph_t) (fp id : Nat)
    (hot : (g.nodes.data fp).out_tail = 0 ∨
      nty_slab_exists g.edges (g.nodes.data fp).out_tail = true) (i : Nat) :
    (link_out g fp id).edges.data i =
      { g.edges.data i with
        out_next :=
          if (g.nodes.data fp).out_tail ≠ 0 ∧ i = nty_id_index (g.nodes.data fp).out_tail then id
          else (g.edges.data i).out_next } := by
  unfold link_out link_out_prev
  by_cases h0 : (g.nodes.data fp).out_tail = 0
  · simp [h0, set_node]
  · have hx : nty_slab_exists g.edges (g.nodes.data fp).out_tail = true := by
      rcases hot with h | h
      · exact absurd h h0
      · exact h
    simp only [ne_eq, h0, not_false_eq_true, if_true, nty_graph_get_edge, get_eq_some _ _ hx,
      true_and, set_edge, set_node]
    by_cases hi : i = nty_id_index (g.nodes.data fp).out_tail
    · subst hi; simp
    · simp [hi]

theorem link_out_nodes (g : nty_graph_t) (fp id : Nat) (i : Nat) :
    (link_out g fp id).nodes.data i =
      { g.nodes.data i with
        out_head :=
          if (g.nodes.data fp).out_tail = 0 ∧ i = fp then id else (g.nodes.data i).out_head
        out_tail := if i = fp then id else (g.nodes.data i).out_tail } := by
  unfold link_out link_out_prev
  by_cases h0 : (g.nodes.data fp).out_tail = 0
  · simp only [h0, ne_eq, not_true_eq_false, if_false, if_true, set_node]
    by_cases hi : i = fp
    · subst hi; simp
    · simp [hi]
  · simp only [ne_eq, h0, not_false_eq_true, if_true, if_false]
    by_cases hi : i = fp
    · subst hi
      split <;> simp [set_node, set_edge]
    · split <;> simp [set_node, set_edge, hi]

theorem recordsOnly_unlink_in_prev (g : nty_graph_t) (ep tp : Nat) :
    RecordsOnly g (unlink_in_prev g ep tp) := by
  unfold unlink_in_prev
  split
  · split
    · exact recordsOnly_set_edge _ _ _
    · exact recordsOnly_refl g
  · exact recordsOnly_set_node _ _ _

theorem recordsOnly_unlink_in_next (g : nty_graph_t) (ep tp : Nat) :
    RecordsOnly g (unlink_in_next g ep tp) := by
  unfold unlink_in_next
  split
  · split
    · exact recordsOnly_set_edge _ _ _
    · exact recordsOnly_refl g
  · exact recordsOnly_set_node _ _ _

theorem recordsOnly_unlink_in (g : nty_graph_t) (ep : Nat) :
    RecordsOnly g (unlink_in g ep) := by
  unfold unlink_in
  split
  · exact recordsOnly_refl g
  · exact recordsOnly_trans (recordsOnly_unlink_in_prev g ep _)
      (recordsOnly_unlink_in_next _ ep _)

theorem recordsOnly_link_in_prev (g : nty_graph_t) (tp id : Nat) :
    RecordsOnly g (link_in_prev g tp id) := by
  unfold link_in_prev
  split
  · split
    · exact recordsOnly_set_edge _ _ _
    · exact recordsOnly_refl g
  · exact recordsOnly_set_node _ _ _

theorem recordsOnly_link_in (g : nty_graph_t) (tp id : Nat) :
    RecordsOnly g (link_in g tp id) :=
  recordsOnly_trans (recordsOnly_link_in_prev g tp id) (recordsOnly_set_node _ _ _)

theorem unlink_in_prev_edges (g : nty_graph_t) (ep tp : Nat)
    (hop : (g.edges.data ep).in_prev = 0 ∨
      nty_slab_exists g.edges (g.edges.data ep).in_prev = true) (i : Nat) :
    (unlink_in_prev g ep tp).edges.data i =
      { g.edges.data i with
        in_next :=
          if (g.edges.data ep).in_prev ≠ 0 ∧ i = nty_id_index (g.edges.data ep).in_prev then
            (g.edges.data ep).in_next
          else (g.edges.data i).in_next } := by
  unfold unlink_in_prev
  by_cases h0 : (g.edges.data ep).in_prev = 0
  · simp [h0, set_node]
  · have hx : nty_slab_exists g.edges (g.edges.data ep).in_prev = true := by
      rcases hop with h | h
      · exact absurd h h0
      · exact h
    simp only [ne_eq, h0, not_false_eq_true, if_true, nty_graph_get_edge, get_eq_some _ _ hx,
      true_and, set_edge]
    by_cases hi : i = nty_id_index (g.edges.data ep).in_prev
    · subst hi; simp
    · simp [hi]

theorem unlink_in_prev_nodes (g : nty_graph_t) (ep tp : Nat) (i : Nat) :
    (unlink_in_prev g ep tp).nodes.data i =
      { g.nodes.data i with
        in_head :=
          if (g.edges.data ep).in_prev = 0 ∧ i = tp then (g.edges.data ep).in_next
          else (g.nodes.data i).in_head } := by
  unfold unlink_in_prev
  by_cases h0 : (g.edges.data ep).in_prev = 0
  · simp only [h0, ne_eq, not_true_eq_false, if_false, true_and, set_node]
    by_cases hi : i = tp
    · subst hi; simp
    · simp [hi]
  · simp only [ne_eq, h0, not_false_eq_true, if_true, false_and, if_false]
    split <;> rfl

theorem unlink_in_next_edges (g : nty_graph_t) (ep tp : Nat)
    (hon : (g.edges.data ep).in_next = 0 ∨
      nty_slab_exists g.edges (g.edges.data ep).in_next = true) (i : Nat) :
    (unlink_in_next g ep tp).edges.data i =
      { g.edges.data i with
        in_prev :=
          if (g.edges.data ep).in_next ≠ 0 ∧ i = nty_id_index (g.edges.data ep).in_next then
            (g.edges.data ep).in_prev
          else (g.edges.data i).in_prev } := by
  unfold unlink_in_next
  by_cases h0 : (g.edges.data ep).in_next = 0
  · simp [h0, set_node]
  · have hx : nty_slab_exists g.edges (g.edges.data ep).in_next = true := by
      rcases hon with h | h
      · exact absurd h h0
      · exact h
    simp only [ne_eq, h0, not_false_eq_true, if_true, nty_graph_get_edge, get_eq_some _ _ hx,
      true_and, set_edge]
    by_cases hi : i = nty_id_index (g.edges.data ep).in_next
    · subst hi; simp
    · simp [hi]

theorem unlink_in_next_nodes (g : nty_graph_t) (ep tp : Nat) (i : Nat) :
    (unlink_in_next g ep tp).nodes.data i =
      { g.nodes.data i with
        in_tail :=
          if (g.edges.data ep).in_next = 0 ∧ i = tp then (g.edges.data ep).in_prev
          else (g.nodes.data i).in_tail } := by
  unfold unlink_in_next
  by_cases h0 : (g.edges.data ep).in_next = 0
  · simp only [h0, ne_eq, not_true_eq_false, if_false, true_and, set_node]
    by_cases hi : i = tp
    · subst hi; simp
    · simp [hi]
  · simp only [ne_eq, h0, not_false_eq_true, if_true, false_and, if_false]
    split <;> rfl

theorem link_in_edges (g : nty_graph_t) (tp id : Nat)
    (hot : (g.nodes.data tp).in_tail = 0 ∨
      nty_slab_exists g.edges (g.nodes.data tp).in_tail = true) (i : Nat) :
    (link_in g tp id).edges.data i =
      { g.edges.data i with
        in_next :=
          if (g.nodes.data tp).in_tail ≠ 0 ∧ i = nty_id_index (g.nodes.data tp).in_tail then id
          else (g.edges.data i).in_next } := by
  unfold link_in link_in_prev
  by_cases h0 : (g.nodes.data tp).in_tail = 0
  · simp [h0, set_node]
  · have hx : nty_slab_exists g.edges (g.nodes.data tp).in_tail = true := by
      rcases hot with h | h
      · exact absurd h h0
      · exact h
    simp only [ne_eq, h0, not_false_eq_true, if_true, nty_graph_get_edge, get_eq_some _ _ hx,
      true_and, set_edge, set_node]
    by_cases hi : i = nty_id_index (g.nodes.data tp).in_tail
    · subst hi; simp
    · simp [hi]

theorem link_in_nodes (g : nty_graph_t) (tp id : Nat) (i : Nat) :
    (link_in g tp id).nodes.data i =
      { g.nodes.data i with
        in_head :=
          if (g.nodes.data tp).in_tail = 0 ∧ i = tp then id else (g.nodes.data i).in_head
        in_tail := if i = tp then id else (g.nodes.data i).in_tail } := by
  unfold link_in link_in_prev
  by_cases h0 : (g.nodes.data tp).in_tail = 0
  · simp only [h0, ne_eq, not_true_eq_false, if_false, if_true, set_node]
    by_cases hi : i = tp
    · subst hi; simp
    · simp [hi]
  · simp only [ne_eq, h0, not_false_eq_true, if_true, if_false]
    by_cases hi : i = tp
    · subst hi
      split <;> simp [set_node, set_edge]
    · split <;> simp [set_node, set_edge, hi]

theorem recordsOnly_unlink (g : nty_graph_t) (ep : Nat) : RecordsOnly g (nty_edge_unlink g ep) :=
  recordsOnly_trans (recordsOnly_unlink_out g ep) (recordsOnly_unlink_in _ ep)

/-! ## Frame facts -/

theorem recordsOnly_exists_edges {g g' : nty_graph_t} (h : RecordsOnly g g') (x : Nat) :
    nty_slab_exists g'.edges x = nty_slab_exists g.edges x := by
  obtain ⟨N, E, rfl⟩ := h; rfl

theorem recordsOnly_exists_nodes {g g' : nty_graph_t} (h : RecordsOnly g g') (x : Nat) :
    nty_slab_exists g'.nodes x = nty_slab_exists g.nodes x := by
  obtain ⟨N, E, rfl⟩ := h; rfl

theorem recordsOnly_edge_list {g g' : nty_graph_t} (h : RecordsOnly g g') :
    edge_list g' = edge_list g := by
  obtain ⟨N, E, rfl⟩ := h; rfl

theorem slabInv_data {α : Type} (s : nty_slab_t α) (d : Nat → α) (h : SlabInv s) :
    SlabInv { s with data := d } :=
  ⟨h.cap_pos, h.cap_lt, h.nu_le, h.occ_lt, h.gen_lt, h.free_list⟩

theorem exists_data {α : Type} (s : nty_slab_t α) (d : Nat → α) (x : Nat) :
    nty_slab_exists { s with data := d } x = nty_slab_exists s x := rfl

theorem free_data {α : Type} [Zero α] (s : nty_slab_t α) (d : Nat → α) (id : Nat) :
    nty_slab_free { s with data := d } id =
      ((nty_slab_free s id).1,
        { (nty_slab_free s id).2 with
          data := if nty_slab_exists s id = true then Function.update d (nty_id_index id) 0
            else d }) := by
  cases hx : nty_slab_exists s id
  · have hx' : nty_slab_exists { s with data := d } id = false := hx
    rw [free_of_not_exists _ _ hx', free_of_not_exists _ _ hx]
    simp
  · have hx' : nty_slab_exists { s with data := d } id = true := hx
    rw [free_of_exists _ _ hx', free_of_exists _ _ hx]
    simp

/-! ## Consequences of the store invariant -/

theorem edge_list_mem {g : nty_graph_t} (h : GraphInv g) (x : Nat) :
    x ∈ edge_list g ↔ nty_slab_exists g.edges x = true :=
  h.edge_order_inv.mem_iff x

theorem edge_list_nodup {g : nty_graph_t} (h : GraphInv g) : (edge_list g).Nodup :=
  h.edge_order_inv.nodup

theorem live_index_inj {α : Type} (s : nty_slab_t α) (a b : Nat)
    (ha : nty_slab_exists s a = true) (hb : b = 0 ∨ nty_slab_exists s b = true) :
    (b ≠ 0 ∧ nty_id_index a = nty_id_index b) ↔ a = b := by
  constructor
  · rintro ⟨h0, hi⟩
    rcases hb with hb | hb
    · exact absurd hb h0
    · exact exists_inj s a b ha hb hi
  · intro e
    subst e
    refine ⟨?_, rfl⟩
    intro e0
    rw [e0, exists_zero] at ha
    cases ha

theorem live_index_inj' {α : Type} (s : nty_slab_t α) (a b : Nat)
    (ha : nty_slab_exists s a = true) (hb : nty_slab_exists s b = true) :
    nty_id_index a = nty_id_index b ↔ a = b :=
  ⟨exists_inj s a b ha hb, fun e => by rw [e]⟩

theorem mem_out_list {g : nty_graph_t} (h : GraphInv g) (x n : Nat) :
    x ∈ out_list g n ↔ (nty_slab_exists g.edges x = true ∧ (edge_rec g x).from_ = n) := by
  unfold out_list
  rw [List.mem_filter, edge_list_mem h]
  simp

theorem out_list_nodup {g : nty_graph_t} (h : GraphInv g) (n : Nat) : (out_list g n).Nodup :=
  (edge_list_nodup h).filter _

theorem zero_not_mem_out_list {g : nty_graph_t} (h : GraphInv g) (n : Nat) :
    0 ∉ out_list g n := by
  intro hm
  have := ((mem_out_list h 0 n).1 hm).1
  rw [exists_zero] at this
  cases this

theorem self_mem_out_list {g : nty_graph_t} (h : GraphInv g) (e : Nat)
    (he : nty_slab_exists g.edges e = true) : e ∈ out_list g (edge_rec g e).from_ :=
  (mem_out_list h e _).2 ⟨he, rfl⟩

theorem out_prev_live {g : nty_graph_t} (h : GraphInv g) (e : Nat)
    (he : nty_slab_exists g.edges e = true) :
    (edge_rec g e).out_prev = 0 ∨ nty_slab_exists g.edges (edge_rec g e).out_prev = true := by
  rw [h.out_prev e he]
  rcases prev_in_mem_or (out_list g (edge_rec g e).from_) e with h1 | h1
  · exact Or.inl h1
  · exact Or.inr ((mem_out_list h _ _).1 h1).1

theorem out_next_live {g : nty_graph_t} (h : GraphInv g) (e : Nat)
    (he : nty_slab_exists g.edges e = true) :
    (edge_rec g e).out_next = 0 ∨ nty_slab_exists g.edges (edge_rec g e).out_next = true := by
  rw [h.out_next e he]
  rcases next_in_mem_or (out_list g (edge_rec g e).from_) e with h1 | h1
  · exact Or.inl h1
  · exact Or.inr ((mem_out_list h _ _).1 h1).1

theorem out_tail_live {g : nty_graph_t} (h : GraphInv g) (n : Nat)
    (hn : nty_slab_exists g.nodes n = true) :
    (node_rec g n).out_tail = 0 ∨ nty_slab_exists g.edges (node_rec g n).out_tail = true := by
  rw [h.out_tail n hn]
  rcases getLastD_mem_or (out_list g n) 0 with h1 | h1
  · exact Or.inl h1
  · exact Or.inr ((mem_out_list h _ _).1 h1).1

theorem out_head_live {g : nty_graph_t} (h : GraphInv g) (n : Nat)
    (hn : nty_slab_exists g.nodes n = true) :
    (node_rec g n).out_head = 0 ∨ nty_slab_exists g.edges (node_rec g n).out_head = true := by
  rw [h.out_head n hn]
  rcases headD_mem_or (out_list g n) with h1 | h1
  · exact Or.inl h1
  · exact Or.inr ((mem_out_list h _ _).1 h1).1

/-- Closed form of the edge records after the block of `nty_edge_unlink` for one list. -/
theorem unlink_out_edges (g : nty_graph_t) (ep : Nat)
    (hf : nty_slab_exists g.nodes (g.edges.data ep).from_ = true)
    (hop : (g.edges.data ep).out_prev = 0 ∨
      nty_slab_exists g.edges (g.edges.data ep).out_prev = true)
    (hon : (g.edges.data ep).out_next = 0 ∨
      nty_slab_exists g.edges (g.edges.data ep).out_next = true) (i : Nat) :
    (unlink_out g ep).edges.data i =
      { g.edges.data i with
        out_next :=
          if (g.edges.data ep).out_prev ≠ 0 ∧ i = nty_id_index (g.edges.data ep).out_prev then
            (g.edges.data ep).out_next
          else (g.edges.data i).out_next
        out_prev :=
          if (g.edges.data ep).out_next ≠ 0 ∧ i = nty_id_index (g.edges.data ep).out_next then
            (g.edges.data ep).out_prev
          else (g.edges.data i).out_prev } := by
  unfold unlink_out
  simp only [nty_graph_get_node, get_eq_some _ _ hf]
  have ha := unlink_out_prev_edges g ep (nty_id_index (g.edges.data ep).from_) hop
  have hex := recordsOnly_exists_edges
    (recordsOnly_unlink_out_prev g ep (nty_id_index (g.edges.data ep).from_))
  have hn : ((unlink_out_prev g ep (nty_id_index (g.edges.data ep).from_)).edges.data ep).out_next
      = (g.edges.data ep).out_next := by
    rw [ha]; simp
  have hp : ((unlink_out_prev g ep (nty_id_index (g.edges.data ep).from_)).edges.data ep).out_prev
      = (g.edges.data ep).out_prev := by
    rw [ha]
  rw [unlink_out_next_edges _ ep _ (by rw [hn, hex]; exact hon) i, ha i, hn, hp]

/-- Closed form of the node records after the block of `nty_edge_unlink` for one list. -/
theorem unlink_out_nodes (g : nty_graph_t) (ep : Nat)
    (hf : nty_slab_exists g.nodes (g.edges.data ep).from_ = true)
    (hop : (g.edges.data ep).out_prev = 0 ∨
      nty_slab_exists g.edges (g.edges.data ep).out_prev = true) (i : Nat) :
    (unlink_out g ep).nodes.data i =
      { g.nodes.data i with
        out_head :=
          if (g.edges.data ep).out_prev = 0 ∧ i = nty_id_index (g.edges.data ep).from_ then
            (g.edges.data ep).out_next
          else (g.nodes.data i).out_head
        out_tail :=
          if (g.edges.data ep).out_next = 0 ∧ i = nty_id_index (g.edges.data ep).from_ then
            (g.edges.data ep).out_prev
          else (g.nodes.data i).out_tail } := by
  unfold unlink_out
  simp only [nty_graph_get_node, get_eq_some _ _ hf]
  have ha := unlink_out_prev_edges g ep (nty_id_index (g.edges.data ep).from_) hop
  have hn : ((unlink_out_prev g ep (nty_id_index (g.edges.data ep).from_)).edges.data ep).out_next
      = (g.edges.data ep).out_next := by
    rw [ha]; simp
  have hp : ((unlink_out_prev g ep (nty_id_index (g.edges.data ep).from_)).edges.data ep).out_prev
      = (g.edges.data ep).out_prev := by
    rw [ha]
  rw [unlink_out_next_nodes, unlink_out_prev_nodes, hn, hp]

theorem mem_in_list {g : nty_graph_t} (h : GraphInv g) (x n : Nat) :
    x ∈ in_list g n ↔ (nty_slab_exists g.edges x = true ∧ (edge_rec g x).to_ = n) := by
  unfold in_list
  rw [List.mem_filter, edge_list_mem h]
  simp

theorem in_list_nodup {g : nty_graph_t} (h : GraphInv g) (n : Nat) : (in_list g n).Nodup :=
  (edge_list_nodup h).filter _

theorem zero_not_mem_in_list {g : nty_graph_t} (h : GraphInv g) (n : Nat) :
    0 ∉ in_list g n := by
  intro hm
  have := ((mem_in_list h 0 n).1 hm).1
  rw [exists_zero] at this
  cases this

theorem self_mem_in_list {g : nty_graph_t} (h : GraphInv g) (e : Nat)
    (he : nty_slab_exists g.edges e = true) : e ∈ in_list g (edge_rec g e).to_ :=
  (mem_in_list h e _).2 ⟨he, rfl⟩

theorem in_prev_live {g : nty_graph_t} (h : GraphInv g) (e : Nat)
    (he : nty_slab_exists g.edges e = true) :
    (edge_rec g e).in_prev = 0 ∨ nty_slab_exists g.edges (edge_rec g e).in_prev = true := by
  rw [h.in_prev e he]
  rcases prev_in_mem_or (in_list g (edge_rec g e).to_) e with h1 | h1
  · exact Or.inl h1
  · exact Or.inr ((mem_in_list h _ _).1 h1).1

theorem in_next_live {g : nty_graph_t} (h : GraphInv g) (e : Nat)
    (he : nty_slab_exists g.edges e = true) :
    (edge_rec g e).in_next = 0 ∨ nty_slab_exists g.edges (edge_rec g e).in_next = true := by
  rw [h.in_next e he]
  rcases next_in_mem_or (in_list g (edge_rec g e).to_) e with h1 | h1
  · exact Or.inl h1
  · exact Or.inr ((mem_in_list h _ _).1 h1).1

theorem in_tail_live {g : nty_graph_t} (h : GraphInv g) (n : Nat)
    (hn : nty_slab_exists g.nodes n = true) :
    (node_rec g n).in_tail = 0 ∨ nty_slab_exists g.edges (node_rec g n).in_tail = true := by
  rw [h.in_tail n hn]
  rcases getLastD_mem_or (in_list g n) 0 with h1 | h1
  · exact Or.inl h1
  · exact Or.inr ((mem_in_list h _ _).1 h1).1

theorem in_head_live {g : nty_graph_t} (h : GraphInv g) (n : Nat)
    (hn : nty_slab_exists g.nodes n = true) :
    (node_rec g n).in_head = 0 ∨ nty_slab_exists g.edges (node_rec g n).in_head = true := by
  rw [h.in_head n hn]
  rcases headD_mem_or (in_list g n) with h1 | h1
  · exact Or.inl h1
  · exact Or.inr ((mem_in_list h _ _).1 h1).1

/-- Closed form of the edge records after the block of `nty_edge_unlink` for one list. -/
theorem unlink_in_edges (g : nty_graph_t) (ep : Nat)
    (hf : nty_slab_exists g.nodes (g.edges.data ep).to_ = true)
    (hop : (g.edges.data ep).in_prev = 0 ∨
      nty_slab_exists g.edges (g.edges.data ep).in_prev = true)
    (hon : (g.edges.data ep).in_next = 0 ∨
      nty_slab_exists g.edges (g.edges.data ep).in_next = true) (i : Nat) :
    (unlink_in g ep).edges.data i =
      { g.edges.data i with
        in_next :=
          if (g.edges.data ep).in_prev ≠ 0 ∧ i = nty_id_index (g.edges.data ep).in_prev then
            (g.edges.data ep).in_next
          else (g.edges.data i).in_next
        in_prev :=
          if (g.edges.data ep).in_next ≠ 0 ∧ i = nty_id_index (g.edges.data ep).in_next then
            (g.edges.data ep).in_prev
          else (g.edges.data i).in_prev } := by
  unfold unlink_in
  simp only [nty_graph_get_node, get_eq_some _ _ hf]
  have ha := unlink_in_prev_edges g ep (nty_id_index (g.edges.data ep).to_) hop
  have hex := recordsOnly_exists_edges
    (recordsOnly_unlink_in_prev g ep (nty_id_index (g.edges.data ep).to_))
  have hn : ((unlink_in_prev g ep (nty_id_index (g.edges.data ep).to_)).edges.data ep).in_next
      = (g.edges.data ep).in_next := by
    rw [ha]; simp
  have hp : ((unlink_in_prev g ep (nty_id_index (g.edges.data ep).to_)).edges.data ep).in_prev
      = (g.edges.data ep).in_prev := by
    rw [ha]
  rw [unlink_in_next_edges _ ep _ (by rw [hn, hex]; exact hon) i, ha i, hn, hp]

/-- Closed form of the node records after the block of `nty_edge_unlink` for one list. -/
theorem unlink_in_nodes (g : nty_graph_t) (ep : Nat)
    (hf : nty_slab_exists g.nodes (g.edges.data ep).to_ = true)
    (hop : (g.edges.data ep).in_prev = 0 ∨
      nty_slab_exists g.edges (g.edges.data ep).in_prev = true) (i : Nat) :
    (unlink_in g ep).nodes.data i =
      { g.nodes.data i with
        in_head :=
          if (g.edges.data ep).in_prev = 0 ∧ i = nty_id_index (g.edges.data ep).to_ then
            (g.edges.data ep).in_next
          else (g.nodes.data i).in_head
        in_tail :=
          if (g.edges.data ep).in_next = 0 ∧ i = nty_id_index (g.edges.data ep).to_ then
            (g.edges.data ep).in_prev
          else (g.nodes.data i).in_tail } := by
  unfold unlink_in
  simp only [nty_graph_get_node, get_eq_some _ _ hf]
  have ha := unlink_in_prev_edges g ep (nty_id_index (g.edges.data ep).to_) hop
  have hn : ((unlink_in_prev g ep (nty_id_index (g.edges.data ep).to_)).edges.data ep).in_next
      = (g.edges.data ep).in_next := by
    rw [ha]; simp
  have hp : ((unlink_in_prev g ep (nty_id_index (g.edges.data ep).to_)).edges.data ep).in_prev
      = (g.edges.data ep).in_prev := by
    rw [ha]
  rw [unlink_in_next_nodes, unlink_in_prev_nodes, hn, hp]

/-- Closed form of the edge records after `nty_edge_unlink` of a live edge. -/
theorem unlink_edges {g : nty_graph_t} (h : GraphInv g) (e : Nat)
    (he : nty_slab_exists g.edges e = true) (i : Nat) :
    (nty_edge_unlink g (nty_id_index e)).edges.data i =
      { g.edges.data i with
        out_next :=
          if (edge_rec g e).out_prev ≠ 0 ∧ i = nty_id_index (edge_rec g e).out_prev then
            (edge_rec g e).out_next
          else (g.edges.data i).out_next
        out_prev :=
          if (edge_rec g e).out_next ≠ 0 ∧ i = nty_id_index (edge_rec g e).out_next then
            (edge_rec g e).out_prev
          else (g.edges.data i).out_prev
        in_next :=
          if (edge_rec g e).in_prev ≠ 0 ∧ i = nty_id_index (edge_rec g e).in_prev then
            (edge_rec g e).in_next
          else (g.edges.data i).in_next
        in_prev :=
          if (edge_rec g e).in_next ≠ 0 ∧ i = nty_id_index (edge_rec g e).in_next then
            (edge_rec g e).in_prev
          else (g.edges.data i).in_prev } := by
  have ho := unlink_out_edges g (nty_id_index e) (h.edge_from e he) (out_prev_live h e he)
    (out_next_live h e he)
  have hr := recordsOnly_unlink_out g (nty_id_index e)
  have hexe := recordsOnly_exists_edges hr
  have hexn := recordsOnly_exists_nodes hr
  unfold nty_edge_unlink
  have h1 : ((unlink_out g (nty_id_index e)).edges.data (nty_id_index e)).to_ =
      (edge_rec g e).to_ := by rw [ho]; rfl
  have h2 : ((unlink_out g (nty_id_index e)).edges.data (nty_id_index e)).in_prev =
      (edge_rec g e).in_prev := by rw [ho]; rfl
  have h3 : ((unlink_out g (nty_id_index e)).edges.data (nty_id_index e)).in_next =
      (edge_rec g e).in_next := by rw [ho]; rfl
  rw [unlink_in_edges _ _ (by rw [h1, hexn]; exact h.edge_to e he)
    (by rw [h2, hexe]; exact in_prev_live h e he)
    (by rw [h3, hexe]; exact in_next_live h e he) i, h2, h3, ho i]
  rfl

/-- Closed form of the node records after `nty_edge_unlink` of a live edge. -/
theorem unlink_nodes {g : nty_graph_t} (h : GraphInv g) (e : Nat)
    (he : nty_slab_exists g.edges e = true) (i : Nat) :
    (nty_edge_unlink g (nty_id_index e)).nodes.data i =
      { g.nodes.data i with
        out_head :=
          if (edge_rec g e).out_prev = 0 ∧ i = nty_id_index (edge_rec g e).from_ then
            (edge_rec g e).out_next
          else (g.nodes.data i).out_head
        out_tail :=
          if (edge_rec g e).out_next = 0 ∧ i = nty_id_index (edge_rec g e).from_ then
            (edge_rec g e).out_prev
          else (g.nodes.data i).out_tail
        in_head :=
          if (edge_rec g e).in_prev = 0 ∧ i = nty_id_index (edge_rec g e).to_ then
            (edge_rec g e).in_next
          else (g.nodes.data i).in_head
        in_tail :=
          if (edge_rec g e).in_next = 0 ∧ i = nty_id_index (edge_rec g e).to_ then
            (edge_rec g e).in_prev
          else (g.nodes.data i).in_tail } := by
  have ho := unlink_out_edges g (nty_id_index e) (h.edge_from e he) (out_prev_live h e he)
    (out_next_live h e he)
  have hn := unlink_out_nodes g (nty_id_index e) (h.edge_from e he) (out_prev_live h e he)
  have hr := recordsOnly_unlink_out g (nty_id_index e)
  have hexe := recordsOnly_exists_edges hr
  have hexn := recordsOnly_exists_nodes hr
  unfold nty_edge_unlink
  have h1 : ((unlink_out g (nty_id_index e)).edges.data (nty_id_index e)).to_ =
      (edge_rec g e).to_ := by rw [ho]; rfl
  have h2 : ((unlink_out g (nty_id_index e)).edges.data (nty_id_index e)).in_prev =
      (edge_rec g e).in_prev := by rw [ho]; rfl
  have h3 : ((unlink_out g (nty_id_index e)).edges.data (nty_id_index e)).in_next =
      (edge_rec g e).in_next := by rw [ho]; rfl
  rw [unlink_in_nodes _ _ (by rw [h1, hexn]; exact h.edge_to e he)
    (by rw [h2, hexe]; exact in_prev_live h e he) i, h1, h2, h3, hn i]
  rfl

/-- Closed form of `nty_edge_destroy` on a live edge. -/
theorem edge_destroy_form (g : nty_graph_t) (e : Nat)
    (he : nty_slab_exists g.edges e = true) :
    nty_edge_destroy g e =
      (true,
       { g with
          nodes := { g.nodes with data := (nty_edge_unlink g (nty_id_index e)).nodes.data }
          edges :=
            { (nty_slab_free g.edges e).2 with
              data := Function.update (nty_edge_unlink g (nty_id_index e)).edges.data
                (nty_id_index e) 0 }
          edge_order := (nty_order_remove g.edge_order g.edge_order_len e).1
          edge_order_len := (nty_order_remove g.edge_order g.edge_order_len e).2 }) := by
  obtain ⟨N, E, hu⟩ := recordsOnly_unlink g (nty_id_index e)
  unfold nty_edge_destroy
  simp only [nty_graph_get_edge, get_eq_some _ _ he]
  rw [hu]
  simp only [free_data, he, if_true, free_fst]
  simp

theorem orderInv_data {α : Type} [Zero α] {s : nty_slab_t α} {o : Nat → Nat} {len cap : Nat}
    (d : Nat → α) (h : OrderInv s o len cap) : OrderInv { s with data := d } o len cap :=
  ⟨h.nodup, h.mem_iff, h.len_eq, h.cap_le⟩

theorem edge_destroy_fst {g : nty_graph_t} (e : Nat) (he : nty_slab_exists g.edges e = true) :
    (nty_edge_destroy g e).1 = true := by
  rw [edge_destroy_form g e he]

theorem edge_destroy_exists_edges {g : nty_graph_t} (e : Nat)
    (he : nty_slab_exists g.edges e = true) (x : Nat) :
    nty_slab_exists (nty_edge_destroy g e).2.edges x = true ↔
      (nty_slab_exists g.edges x = true ∧ x ≠ e) := by
  rw [edge_destroy_form g e he]
  exact free_exists_iff g.edges e he x

theorem edge_destroy_exists_nodes {g : nty_graph_t} (e : Nat)
    (he : nty_slab_exists g.edges e = true) (x : Nat) :
    nty_slab_exists (nty_edge_destroy g e).2.nodes x = nty_slab_exists g.nodes x := by
  rw [edge_destroy_form g e he]
  rfl

theorem edge_destroy_edge_list {g : nty_graph_t} (e : Nat)
    (he : nty_slab_exists g.edges e = true) :
    edge_list (nty_edge_destroy g e).2 = (edge_list g).erase e := by
  rw [edge_destroy_form g e he]
  exact order_remove_list g.edge_order g.edge_order_len e

theorem edge_destroy_edge_rec {g : nty_graph_t} (h : GraphInv g) (e : Nat)
    (he : nty_slab_exists g.edges e = true) (x : Nat)
    (hx : nty_slab_exists g.edges x = true) (hxe : x ≠ e) :
    edge_rec (nty_edge_destroy g e).2 x =
      { edge_rec g x with
        out_next :=
          if x = (edge_rec g e).out_prev then (edge_rec g e).out_next
          else (edge_rec g x).out_next
        out_prev :=
          if x = (edge_rec g e).out_next then (edge_rec g e).out_prev
          else (edge_rec g x).out_prev
        in_next :=
          if x = (edge_rec g e).in_prev then (edge_rec g e).in_next
          else (edge_rec g x).in_next
        in_prev :=
          if x = (edge_rec g e).in_next then (edge_rec g e).in_prev
          else (edge_rec g x).in_prev } := by
  have hi : nty_id_index x ≠ nty_id_index e := fun e1 => hxe (exists_inj _ _ _ hx he e1)
  rw [edge_destroy_form g e he]
  unfold edge_rec
  simp only [Function.update_noteq hi]
  rw [unlink_edges h e he]
  have h1 := live_index_inj g.edges x _ hx (out_prev_live h e he)
  have h2 := live_index_inj g.edges x _ hx (out_next_live h e he)
  have h3 := live_index_inj g.edges x _ hx (in_prev_live h e he)
  have h4 := live_index_inj g.edges x _ hx (in_next_live h e he)
  simp only [h1, h2, h3, h4]
  rfl

theorem edge_destroy_node_rec {g : nty_graph_t} (h : GraphInv g) (e : Nat)
    (he : nty_slab_exists g.edges e = true) (n : Nat)
    (hn : nty_slab_exists g.nodes n = true) :
    node_rec (nty_edge_destroy g e).2 n =
      { node_rec g n with
        out_head :=
          if (edge_rec g e).out_prev = 0 ∧ n = (edge_rec g e).from_ then (edge_rec g e).out_next
          else (node_rec g n).out_head
        out_tail :=
          if (edge_rec g e).out_next = 0 ∧ n = (edge_rec g e).from_ then (edge_rec g e).out_prev
          else (node_rec g n).out_tail
        in_head :=
          if (edge_rec g e).in_prev = 0 ∧ n = (edge_rec g e).to_ then (edge_rec g e).in_next
          else (node_rec g n).in_head
        in_tail :=
          if (edge_rec g e).in_next = 0 ∧ n = (edge_rec g e).to_ then (edge_rec g e).in_prev
          else (node_rec g n).in_tail } := by
  rw [edge_destroy_form g e he]
  unfold node_rec
  simp only
  rw [unlink_nodes h e he]
  have h1 := live_index_inj' g.nodes n _ hn (h.edge_from e he)
  have h2 := live_index_inj' g.nodes n _ hn (h.edge_to e he)
  simp only [h1, h2]

theorem edge_destroy_out_list {g : nty_graph_t} (h : GraphInv g) (e : Nat)
    (he : nty_slab_exists g.edges e = true) (n : Nat) :
    out_list (nty_edge_destroy g e).2 n = (out_list g n).erase e := by
  unfold out_list
  rw [edge_destroy_edge_list e he, List.erase_filter]
  apply List.filter_congr
  intro x hx
  have hx' := (List.Nodup.mem_erase_iff (edge_list_nodup h)).1 hx
  have hxl := (edge_list_mem h x).1 hx'.2
  rw [edge_destroy_edge_rec h e he x hxl hx'.1]

theorem edge_destroy_out_list_other {g : nty_graph_t} (h : GraphInv g) (e : Nat)
    (he : nty_slab_exists g.edges e = true) (n : Nat) (hn : n ≠ (edge_rec g e).from_) :
    out_list (nty_edge_destroy g e).2 n = out_list g n := by
  rw [edge_destroy_out_list h e he]
  apply List.erase_of_not_mem
  intro hm
  exact hn ((mem_out_list h e n).1 hm).2.symm

theorem edge_destroy_in_list {g : nty_graph_t} (h : GraphInv g) (e : Nat)
    (he : nty_slab_exists g.edges e = true) (n : Nat) :
    in_list (nty_edge_destroy g e).2 n = (in_list g n).erase e := by
  unfold in_list
  rw [edge_destroy_edge_list e he, List.erase_filter]
  apply List.filter_congr
  intro x hx
  have hx' := (List.Nodup.mem_erase_iff (edge_list_nodup h)).1 hx
  have hxl := (edge_list_mem h x).1 hx'.2
  rw [edge_destroy_edge_rec h e he x hxl hx'.1]

theorem edge_destroy_in_list_other {g : nty_graph_t} (h : GraphInv g) (e : Nat)
    (he : nty_slab_exists g.edges e = true) (n : Nat) (hn : n ≠ (edge_rec g e).to_) :
    in_list (nty_edge_destroy g e).2 n = in_list g n := by
  rw [edge_destroy_in_list h e he]
  apply List.erase_of_not_mem
  intro hm
  exact hn ((mem_in_list h e n).1 hm).2.symm

theorem live_ne_zero {α : Type} (s : nty_slab_t α) (x : Nat)
    (hx : nty_slab_exists s x = true) : x ≠ 0 := by
  intro e; rw [e, exists_zero] at hx; cases hx

theorem edge_destroy_out_head {g : nty_graph_t} (h : GraphInv g) (e : Nat)
    (he : nty_slab_exists g.edges e = true) (n : Nat)
    (hn : nty_slab_exists g.nodes n = true) :
    (node_rec (nty_edge_destroy g e).2 n).out_head =
      (out_list (nty_edge_destroy g e).2 n).headD 0 := by
  rw [edge_destroy_node_rec h e he n hn, edge_destroy_out_list h e he]
  simp only
  by_cases hnf : n = (edge_rec g e).from_
  · rw [hnf, headD_erase _ e (zero_not_mem_out_list h _) (self_mem_out_list h e he),
      ← h.out_prev e he, ← h.out_next e he, ← h.out_head _ (h.edge_from e he)]
    simp
  · rw [List.erase_of_not_mem (fun hm => hnf ((mem_out_list h e n).1 hm).2.symm)]
    simp only [hnf, and_false, if_false]
    exact h.out_head n hn

theorem edge_destroy_out_tail {g : nty_graph_t} (h : GraphInv g) (e : Nat)
    (he : nty_slab_exists g.edges e = true) (n : Nat)
    (hn : nty_slab_exists g.nodes n = true) :
    (node_rec (nty_edge_destroy g e).2 n).out_tail =
      (out_list (nty_edge_destroy g e).2 n).getLastD 0 := by
  rw [edge_destroy_node_rec h e he n hn, edge_destroy_out_list h e he]
  simp only
  by_cases hnf : n = (edge_rec g e).from_
  · have hp : prev_aux 0 (out_list g (edge_rec g e).from_) e = (edge_rec g e).out_prev :=
      (h.out_prev e he).symm
    rw [hnf, getLastD_erase _ e (out_list_nodup h _) (zero_not_mem_out_list h _)
      (self_mem_out_list h e he) 0, hp, ← h.out_next e he, ← h.out_tail _ (h.edge_from e he)]
    simp
  · rw [List.erase_of_not_mem (fun hm => hnf ((mem_out_list h e n).1 hm).2.symm)]
    simp only [hnf, and_false, if_false]
    exact h.out_tail n hn

theorem edge_destroy_out_prev {g : nty_graph_t} (h : GraphInv g) (e : Nat)
    (he : nty_slab_exists g.edges e = true) (x : Nat)
    (hx : nty_slab_exists g.edges x = true) (hxe : x ≠ e) :
    (edge_rec (nty_edge_destroy g e).2 x).out_prev =
      prev_in (out_list (nty_edge_destroy g e).2 (edge_rec (nty_edge_destroy g e).2 x).from_) x := by
  rw [edge_destroy_edge_rec h e he x hx hxe, edge_destroy_out_list h e he]
  simp only
  by_cases hf : (edge_rec g x).from_ = (edge_rec g e).from_
  · have hxm : x ∈ out_list g (edge_rec g e).from_ := (mem_out_list h x _).2 ⟨hx, hf⟩
    rw [hf, prev_in_erase _ e x (out_list_nodup h _) (zero_not_mem_out_list h _)
      (self_mem_out_list h e he) hxm hxe, ← h.out_prev e he, ← h.out_next e he]
    have := h.out_prev x hx
    rw [hf] at this
    rw [← this]
  · rw [List.erase_of_not_mem (fun hm => hf ((mem_out_list h e _).1 hm).2.symm)]
    have hne : ¬x = (edge_rec g e).out_next := by
      intro e1
      have h1 := h.out_next e he
      rw [← e1] at h1
      rcases next_in_mem_or (out_list g (edge_rec g e).from_) e with h2 | h2
      · rw [← h1] at h2; exact live_ne_zero _ _ hx h2
      · rw [← h1] at h2; exact hf ((mem_out_list h x _).1 h2).2
    rw [if_neg hne]
    exact h.out_prev x hx

theorem edge_destroy_out_next {g : nty_graph_t} (h : GraphInv g) (e : Nat)
    (he : nty_slab_exists g.edges e = true) (x : Nat)
    (hx : nty_slab_exists g.edges x = true) (hxe : x ≠ e) :
    (edge_rec (nty_edge_destroy g e).2 x).out_next =
      next_in (out_list (nty_edge_destroy g e).2 (edge_rec (nty_edge_destroy g e).2 x).from_) x := by
  rw [edge_destroy_edge_rec h e he x hx hxe, edge_destroy_out_list h e he]
  simp only
  by_cases hf : (edge_rec g x).from_ = (edge_rec g e).from_
  · have hxm : x ∈ out_list g (edge_rec g e).from_ := (mem_out_list h x _).2 ⟨hx, hf⟩
    rw [hf, next_in_erase _ e x (out_list_nodup h _) (zero_not_mem_out_list h _)
      (self_mem_out_list h e he) hxm hxe, ← h.out_prev e he, ← h.out_next e he]
    have := h.out_next x hx
    rw [hf] at this
    rw [← this]
  · rw [List.erase_of_not_mem (fun hm => hf ((mem_out_list h e _).1 hm).2.symm)]
    have hne : ¬x = (edge_rec g e).out_prev := by
      intro e1
      have h1 := h.out_prev e he
      rw [← e1] at h1
      rcases prev_in_mem_or (out_list g (edge_rec g e).from_) e with h2 | h2
      · rw [← h1] at h2; exact live_ne_zero _ _ hx h2
      · rw [← h1] at h2; exact hf ((mem_out_list h x _).1 h2).2
    rw [if_neg hne]
    exact h.out_next x hx

theorem edge_destroy_in_head {g : nty_graph_t} (h : GraphInv g) (e : Nat)
    (he : nty_slab_exists g.edges e = true) (n : Nat)
    (hn : nty_slab_exists g.nodes n = true) :
    (node_rec (nty_edge_destroy g e).2 n).in_head =
      (in_list (nty_edge_destroy g e).2 n).headD 0 := by
  rw [edge_destroy_node_rec h e he n hn, edge_destroy_in_list h e he]
  simp only
  by_cases hnf : n = (edge_rec g e).to_
  · rw [hnf, headD_erase _ e (zero_not_mem_in_list h _) (self_mem_in_list h e he),
      ← h.in_prev e he, ← h.in_next e he, ← h.in_head _ (h.edge_to e he)]
    simp
  · rw [List.erase_of_not_mem (fun hm => hnf ((mem_in_list h e n).1 hm).2.symm)]
    simp only [hnf, and_false, if_false]
    exact h.in_head n hn

theorem edge_destroy_in_tail {g : nty_graph_t} (h : GraphInv g) (e : Nat)
    (he : nty_slab_exists g.edges e = true) (n : Nat)
    (hn : nty_slab_exists g.nodes n = true) :
    (node_rec (nty_edge_destroy g e).2 n).in_tail =
      (in_list (nty_edge_destroy g e).2 n).getLastD 0 := by
  rw [edge_destroy_node_rec h e he n hn, edge_destroy_in_list h e he]
  simp only
  by_cases hnf : n = (edge_rec g e).to_
  · have hp : prev_aux 0 (in_list g (edge_rec g e).to_) e = (edge_rec g e).in_prev :=
      (h.in_prev e he).symm
    rw [hnf, getLastD_erase _ e (in_list_nodup h _) (zero_not_mem_in_list h _)
      (self_mem_in_list h e he) 0, hp, ← h.in_next e he, ← h.in_tail _ (h.edge_to e he)]
    simp
  · rw [List.erase_of_not_mem (fun hm => hnf ((mem_in_list h e n).1 hm).2.symm)]
    simp only [hnf, and_false, if_false]
    exact h.in_tail n hn

theorem edge_destroy_in_prev {g : nty_graph_t} (h : GraphInv g) (e : Nat)
    (he : nty_slab_exists g.edges e = true) (x : Nat)
    (hx : nty_slab_exists g.edges x = true) (hxe : x ≠ e) :
    (edge_rec (nty_edge_destroy g e).2 x).in_prev =
      prev_in (in_list (nty_edge_destroy g e).2 (edge_rec (nty_edge_destroy g e).2 x).to_) x := by
  rw [edge_destroy_edge_rec h e he x hx hxe, edge_destroy_in_list h e he]
  simp only
  by_cases hf : (edge_rec g x).to_ = (edge_rec g e).to_
  · have hxm : x ∈ in_list g (edge_rec g e).to_ := (mem_in_list h x _).2 ⟨hx, hf⟩
    rw [hf, prev_in_erase _ e x (in_list_nodup h _) (zero_not_mem_in_list h _)
      (self_mem_in_list h e he) hxm hxe, ← h.in_prev e he, ← h.in_next e he]
    have := h.in_prev x hx
    rw [hf] at this
    rw [← this]
  · rw [List.erase_of_not_mem (fun hm => hf ((mem_in_list h e _).1 hm).2.symm)]
    have hne : ¬x = (edge_rec g e).in_next := by
      intro e1
      have h1 := h.in_next e he
      rw [← e1] at h1
      rcases next_in_mem_or (in_list g (edge_rec g e).to_) e with h2 | h2
      · rw [← h1] at h2; exact live_ne_zero _ _ hx h2
      · rw [← h1] at h2; exact hf ((mem_in_list h x _).1 h2).2
    rw [if_neg hne]
    exact h.in_prev x hx

theorem edge_destroy_in_next {g : nty_graph_t} (h : GraphInv g) (e : Nat)
    (he : nty_slab_exists g.edges e = true) (x : Nat)
    (hx : nty_slab_exists g.edges x = true) (hxe : x ≠ e) :
    (edge_rec (nty_edge_destroy g e).2 x).in_next =
      next_in (in_list (nty_edge_destroy g e).2 (edge_rec (nty_edge_destroy g e).2 x).to_) x := by
  rw [edge_destroy_edge_rec h e he x hx hxe, edge_destroy_in_list h e he]
  simp only
  by_cases hf : (edge_rec g x).to_ = (edge_rec g e).to_
  · have hxm : x ∈ in_list g (edge_rec g e).to_ := (mem_in_list h x _).2 ⟨hx, hf⟩
    rw [hf, next_in_erase _ e x (in_list_nodup h _) (zero_not_mem_in_list h _)
      (self_mem_in_list h e he) hxm hxe, ← h.in_prev e he, ← h.in_next e he]
    have := h.in_next x hx
    rw [hf] at this
    rw [← this]
  · rw [List.erase_of_not_mem (fun hm => hf ((mem_in_list h e _).1 hm).2.symm)]
    have hne : ¬x = (edge_rec g e).in_prev := by
      intro e1
      have h1 := h.in_prev e he
      rw [← e1] at h1
      rcases prev_in_mem_or (in_list g (edge_rec g e).to_) e with h2 | h2
      · rw [← h1] at h2; exact live_ne_zero _ _ hx h2
      · rw [← h1] at h2; exact hf ((mem_in_list h x _).1 h2).2
    rw [if_neg hne]
    exact h.in_next x hx

/-- The store invariant survives `nty_edge_destroy`. -/
theorem edge_destroy_inv {g : nty_graph_t} (h : GraphInv g) (e : Nat) :
    GraphInv (nty_edge_destroy g e).2 := by
  cases he : nty_slab_exists g.edges e
  · have : nty_edge_destroy g e = (false, g) := by
      unfold nty_edge_destroy
      simp only [nty_graph_get_edge, get_eq_none _ _ he]
    rw [this]; exact h
  · have hxe := edge_destroy_exists_edges e he
    have hxn := edge_destroy_exists_nodes e he
    have hform := edge_destroy_form g e he
    have hem : e ∈ order_list g.edge_order g.edge_order_len := (edge_list_mem h e).2 he
    refine
      { nodes_inv := by rw [hform]; exact slabInv_data _ _ h.nodes_inv
        edges_inv := by rw [hform]; exact slabInv_data _ _ (free_inv g.edges h.edges_inv e)
        props_inv := by rw [hform]; exact h.props_inv
        node_order_inv := by rw [hform]; exact orderInv_data _ h.node_order_inv
        edge_order_inv := ?_
        prop_order_inv := by rw [hform]; exact h.prop_order_inv
        node_id := ?_
        prop_id := by rw [hform]; exact h.prop_id
        edge_id := ?_
        edge_from := ?_
        edge_to := ?_
        out_head := fun n hn => edge_destroy_out_head h e he n (by rw [← hxn]; exact hn)
        out_tail := fun n hn => edge_destroy_out_tail h e he n (by rw [← hxn]; exact hn)
        in_head := fun n hn => edge_destroy_in_head h e he n (by rw [← hxn]; exact hn)
        in_tail := fun n hn => edge_destroy_in_tail h e he n (by rw [← hxn]; exact hn)
        out_prev := fun x hx =>
          edge_destroy_out_prev h e he x ((hxe x).1 hx).1 ((hxe x).1 hx).2
        out_next := fun x hx =>
          edge_destroy_out_next h e he x ((hxe x).1 hx).1 ((hxe x).1 hx).2
        in_prev := fun x hx =>
          edge_destroy_in_prev h e he x ((hxe x).1 hx).1 ((hxe x).1 hx).2
        in_next := fun x hx =>
          edge_destroy_in_next h e he x ((hxe x).1 hx).1 ((hxe x).1 hx).2 }
    · have hl : order_list (nty_edge_destroy g e).2.edge_order
          (nty_edge_destroy g e).2.edge_order_len =
          (order_list g.edge_order g.edge_order_len).erase e := edge_destroy_edge_list e he
      have hfo := free_ok g.edges h.edges_inv e he
      have hrl := order_remove_len g.edge_order g.edge_order_len e hem
      have hlen := h.edge_order_inv.len_eq
      have e1 : (nty_edge_destroy g e).2.edge_order_len =
          (nty_order_remove g.edge_order g.edge_order_len e).2 := by rw [hform]
      have e2 : (nty_edge_destroy g e).2.edges.count = (nty_slab_free g.edges e).2.count := by
        rw [hform]
      have e3 : (nty_edge_destroy g e).2.edges.capacity = g.edges.capacity := by
        rw [hform]; exact hfo.2.2.2.2.1
      have e4 : (nty_edge_destroy g e).2.edge_order_cap = g.edge_order_cap := by rw [hform]
      refine ⟨?_, ?_, ?_, ?_⟩
      · rw [hl]; exact h.edge_order_inv.nodup.erase e
      · intro x
        rw [hl, List.Nodup.mem_erase_iff h.edge_order_inv.nodup, hxe x,
          h.edge_order_inv.mem_iff]
        exact And.comm
      · have := hfo.2.2.2.2.2.1
        omega
      · rw [e3, e4]; exact h.edge_order_inv.cap_le
    · intro n hn
      rw [hxn] at hn
      rw [edge_destroy_node_rec h e he n hn]
      exact h.node_id n hn
    · intro x hx
      obtain ⟨hx1, hx2⟩ := (hxe x).1 hx
      rw [edge_destroy_edge_rec h e he x hx1 hx2]
      exact h.edge_id x hx1
    · intro x hx
      obtain ⟨hx1, hx2⟩ := (hxe x).1 hx
      rw [edge_destroy_edge_rec h e he x hx1 hx2, hxn]
      exact h.edge_from x hx1
    · intro x hx
      obtain ⟨hx1, hx2⟩ := (hxe x).1 hx
      rw [edge_destroy_edge_rec h e he x hx1 hx2, hxn]
      exact h.edge_to x hx1

theorem recordsOnly_edge_linked (g : nty_graph_t) (a : Nat × Nat × nty_slab_t nty_edge_t)
    (f t ty w ts fp tp : Nat) :
    RecordsOnly { g with edges := a.2.2 } (edge_linked g a f t ty w ts fp tp) := by
  unfold edge_linked edge_init
  exact recordsOnly_trans (recordsOnly_trans (recordsOnly_set_edge _ _ _)
    (recordsOnly_link_out _ _ _)) (recordsOnly_link_in _ _ _)

theorem live_index_ne_alloc {α : Type} [Zero α] (s : nty_slab_t α) (hs : SlabInv s)
    (h0 : (nty_slab_alloc s).1 ≠ 0) (x : Nat) (hx : nty_slab_exists s x = true) :
    nty_id_index x ≠ (nty_slab_alloc s).2.1 := by
  intro e
  have ho := (alloc_ok s hs h0).2.2.2.1
  rw [exists_iff, e, ho] at hx
  exact absurd hx.2.2.1 (by simp)

/-- Closed form of the edge records once the new edge is linked. -/
theorem edge_linked_edges {g : nty_graph_t} (h : GraphInv g) (f t ty w ts : Nat)
    (hf : nty_slab_exists g.nodes f = true) (ht : nty_slab_exists g.nodes t = true)
    (hc : (nty_slab_alloc g.edges).1 ≠ 0) (i : Nat) :
    (edge_linked g (nty_slab_alloc g.edges) f t ty w ts (nty_id_index f)
        (nty_id_index t)).edges.data i =
      if i = (nty_slab_alloc g.edges).2.1 then
        { id := (nty_slab_alloc g.edges).1
          from_ := f
          to_ := t
          type := ty
          weight := w
          timestamp := ts
          out_prev := (node_rec g f).out_tail
          out_next := 0
          in_prev := (node_rec g t).in_tail
          in_next := 0 }
      else
        { g.edges.data i with
          out_next :=
            if (node_rec g f).out_tail ≠ 0 ∧ i = nty_id_index (node_rec g f).out_tail then
              (nty_slab_alloc g.edges).1
            else (g.edges.data i).out_next
          in_next :=
            if (node_rec g t).in_tail ≠ 0 ∧ i = nty_id_index (node_rec g t).in_tail then
              (nty_slab_alloc g.edges).1
            else (g.edges.data i).in_next } := by
  have hex : ∀ x, nty_slab_exists g.edges x = true →
      nty_slab_exists (nty_slab_alloc g.edges).2.2 x = true :=
    fun x hx => (alloc_exists_iff g.edges h.edges_inv hc x).2 (Or.inr hx)
  have hot : (node_rec g f).out_tail = 0 ∨
      nty_slab_exists (nty_slab_alloc g.edges).2.2 (node_rec g f).out_tail = true := by
    rcases out_tail_live h f hf with h1 | h1
    · exact Or.inl h1
    · exact Or.inr (hex _ h1)
  have hit : (node_rec g t).in_tail = 0 ∨
      nty_slab_exists (nty_slab_alloc g.edges).2.2 (node_rec g t).in_tail = true := by
    rcases in_tail_live h t ht with h1 | h1
    · exact Or.inl h1
    · exact Or.inr (hex _ h1)
  have hd := (alloc_ok g.edges h.edges_inv hc).2.2.2.2.1
  unfold edge_linked
  obtain ⟨G1, hG1⟩ : ∃ G1, G1 = edge_init { g with edges := (nty_slab_alloc g.edges).2.2 }
      (nty_slab_alloc g.edges).2.1 (nty_slab_alloc g.edges).1 f t ty w ts (nty_id_index f)
      (nty_id_index t) := ⟨_, rfl⟩
  rw [← hG1]
  have hG1n : G1.nodes = g.nodes := by rw [hG1]; rfl
  have hG1x : G1.edges = { (nty_slab_alloc g.edges).2.2 with data := G1.edges.data } := by
    rw [hG1]; rfl
  have hG1d : G1.edges.data = Function.update g.edges.data (nty_slab_alloc g.edges).2.1
      { id := (nty_slab_alloc g.edges).1
        from_ := f
        to_ := t
        type := ty
        weight := w
        timestamp := ts
        out_prev := (node_rec g f).out_tail
        out_next := 0
        in_prev := (node_rec g t).in_tail
        in_next := 0 } := by
    rw [hG1]
    unfold edge_init set_edge node_rec
    simp only [hd, Function.update_same, Function.update_idem]
  have hot1 : (G1.nodes.data (nty_id_index f)).out_tail = 0 ∨
      nty_slab_exists G1.edges (G1.nodes.data (nty_id_index f)).out_tail = true := by
    rw [hG1n, hG1x]; exact hot
  have hG2t : ((link_out G1 (nty_id_index f) (nty_slab_alloc g.edges).1).nodes.data
      (nty_id_index t)).in_tail = (node_rec g t).in_tail := by
    rw [link_out_nodes, hG1n]; rfl
  have hG2x : ∀ x, nty_slab_exists (link_out G1 (nty_id_index f)
      (nty_slab_alloc g.edges).1).edges x = nty_slab_exists (nty_slab_alloc g.edges).2.2 x := by
    intro x
    rw [recordsOnly_exists_edges (recordsOnly_link_out _ _ _), hG1x]
    rfl
  rw [link_in_edges _ _ _ (by rw [hG2t, hG2x]; exact hit), hG2t,
    link_out_edges G1 _ _ hot1, hG1n, hG1d]
  by_cases hi : i = (nty_slab_alloc g.edges).2.1
  · subst hi
    have h1 : ¬((node_rec g f).out_tail ≠ 0 ∧
        (nty_slab_alloc g.edges).2.1 = nty_id_index (node_rec g f).out_tail) := by
      rintro ⟨h1, h2⟩
      rcases out_tail_live h f hf with h3 | h3
      · exact h1 h3
      · exact live_index_ne_alloc _ h.edges_inv hc _ h3 h2.symm
    have h2 : ¬((node_rec g t).in_tail ≠ 0 ∧
        (nty_slab_alloc g.edges).2.1 = nty_id_index (node_rec g t).in_tail) := by
      rintro ⟨h1, h2⟩
      rcases in_tail_live h t ht with h3 | h3
      · exact h1 h3
      · exact live_index_ne_alloc _ h.edges_inv hc _ h3 h2.symm
    unfold node_rec at h1 h2 ⊢
    simp only [Function.update_same, if_true, h1, h2, if_false]
  · unfold node_rec
    simp only [Function.update_noteq hi, hi, if_false]

/-- Closed form of the node records once the new edge is linked. -/
theorem edge_linked_nodes (g : nty_graph_t) (a : Nat × Nat × nty_slab_t nty_edge_t)
    (f t ty w ts : Nat) (i : Nat) :
    (edge_linked g a f t ty w ts (nty_id_index f) (nty_id_index t)).nodes.data i =
      { g.nodes.data i with
        out_head :=
          if (node_rec g f).out_tail = 0 ∧ i = nty_id_index f then a.1
          else (g.nodes.data i).out_head
        out_tail := if i = nty_id_index f then a.1 else (g.nodes.data i).out_tail
        in_head :=
          if (node_rec g t).in_tail = 0 ∧ i = nty_id_index t then a.1
          else (g.nodes.data i).in_head
        in_tail := if i = nty_id_index t then a.1 else (g.nodes.data i).in_tail } := by
  unfold edge_linked
  rw [link_in_nodes, link_out_nodes, link_out_nodes]
  rfl

theorem edge_create_no_node (g : nty_graph_t) (f t ty w ts : Nat)
    (hn : nty_slab_exists g.nodes f = false ∨ nty_slab_exists g.nodes t = false) :
    nty_edge_create g f t ty w ts = (0, g) := by
  unfold nty_edge_create nty_graph_get_node
  rcases hn with hn | hn
  · rw [get_eq_none _ _ hn]
  · rw [get_eq_none _ _ hn]
    split <;> simp_all

theorem edge_create_full {g : nty_graph_t} (h : GraphInv g) (f t ty w ts : Nat)
    (hc : (nty_slab_alloc g.edges).1 = 0) :
    nty_edge_create g f t ty w ts = (0, g) := by
  have hs := alloc_fail_state g.edges h.edges_inv hc
  unfold nty_edge_create
  split
  · simp only [hc, if_true, hs]
  · rfl

/-- Closed form of a successful `nty_edge_create`. -/
theorem edge_create_form {g : nty_graph_t} (h : GraphInv g) (f t ty w ts : Nat)
    (hf : nty_slab_exists g.nodes f = true) (ht : nty_slab_exists g.nodes t = true)
    (hc : (nty_slab_alloc g.edges).1 ≠ 0) :
    nty_edge_create g f t ty w ts =
      ((nty_slab_alloc g.edges).1,
       { edge_linked g (nty_slab_alloc g.edges) f t ty w ts (nty_id_index f) (nty_id_index t) with
          edge_order := Function.update g.edge_order g.edge_order_len (nty_slab_alloc g.edges).1
          edge_order_len := g.edge_order_len + 1 }) := by
  obtain ⟨N, E, hr⟩ := recordsOnly_edge_linked g (nty_slab_alloc g.edges) f t ty w ts
    (nty_id_index f) (nty_id_index t)
  have hlt : g.edge_order_len < g.edge_order_cap := by
    have h1 := (alloc_ok g.edges h.edges_inv hc).2.2.2.2.2.2.2.2.2.2
    have h2 := h.edge_order_inv.len_eq
    have h3 := h.edge_order_inv.cap_le
    omega
  unfold nty_edge_create nty_graph_get_node
  rw [get_eq_some _ _ hf, get_eq_some _ _ ht]
  simp only [hc, if_false]
  rw [hr]
  simp only [order_append_ok _ _ _ _ hlt]
  simp

theorem edge_create_exists_edges {g : nty_graph_t} (h : GraphInv g) (f t ty w ts : Nat)
    (hf : nty_slab_exists g.nodes f = true) (ht : nty_slab_exists g.nodes t = true)
    (hc : (nty_slab_alloc g.edges).1 ≠ 0) (x : Nat) :
    nty_slab_exists (nty_edge_create g f t ty w ts).2.edges x = true ↔
      (x = (nty_slab_alloc g.edges).1 ∨ nty_slab_exists g.edges x = true) := by
  rw [edge_create_form h f t ty w ts hf ht hc, ← alloc_exists_iff g.edges h.edges_inv hc]
  obtain ⟨N, E, hr⟩ := recordsOnly_edge_linked g (nty_slab_alloc g.edges) f t ty w ts
    (nty_id_index f) (nty_id_index t)
  rw [hr]
  rfl

theorem edge_create_exists_nodes {g : nty_graph_t} (h : GraphInv g) (f t ty w ts : Nat)
    (hf : nty_slab_exists g.nodes f = true) (ht : nty_slab_exists g.nodes t = true)
    (hc : (nty_slab_alloc g.edges).1 ≠ 0) (x : Nat) :
    nty_slab_exists (nty_edge_create g f t ty w ts).2.nodes x = nty_slab_exists g.nodes x := by
  rw [edge_create_form h f t ty w ts hf ht hc]
  obtain ⟨N, E, hr⟩ := recordsOnly_edge_linked g (nty_slab_alloc g.edges) f t ty w ts
    (nty_id_index f) (nty_id_index t)
  rw [hr]
  rfl

theorem edge_create_edge_list {g : nty_graph_t} (h : GraphInv g) (f t ty w ts : Nat)
    (hf : nty_slab_exists g.nodes f = true) (ht : nty_slab_exists g.nodes t = true)
    (hc : (nty_slab_alloc g.edges).1 ≠ 0) :
    edge_list (nty_edge_create g f t ty w ts).2 =
      edge_list g ++ [(nty_slab_alloc g.edges).1] := by
  rw [edge_create_form h f t ty w ts hf ht hc]
  exact order_list_append g.edge_order g.edge_order_len _

theorem edge_create_edge_rec_new {g : nty_graph_t} (h : GraphInv g) (f t ty w ts : Nat)
    (hf : nty_slab_exists g.nodes f = true) (ht : nty_slab_exists g.nodes t = true)
    (hc : (nty_slab_alloc g.edges).1 ≠ 0) :
    edge_rec (nty_edge_create g f t ty w ts).2 (nty_slab_alloc g.edges).1 =
      { id := (nty_slab_alloc g.edges).1
        from_ := f
        to_ := t
        type := ty
        weight := w
        timestamp := ts
        out_prev := (node_rec g f).out_tail
        out_next := 0
        in_prev := (node_rec g t).in_tail
        in_next := 0 } := by
  rw [edge_create_form h f t ty w ts hf ht hc]
  unfold edge_rec
  simp only
  rw [edge_linked_edges h f t ty w ts hf ht hc, (alloc_ok g.edges h.edges_inv hc).1]
  simp

theorem edge_create_edge_rec_old {g : nty_graph_t} (h : GraphInv g) (f t ty w ts : Nat)
    (hf : nty_slab_exists g.nodes f = true) (ht : nty_slab_exists g.nodes t = true)
    (hc : (nty_slab_alloc g.edges).1 ≠ 0) (x : Nat) (hx : nty_slab_exists g.edges x = true) :
    edge_rec (nty_edge_create g f t ty w ts).2 x =
      { edge_rec g x with
        out_next :=
          if x = (node_rec g f).out_tail then (nty_slab_alloc g.edges).1
          else (edge_rec g x).out_next
        in_next :=
          if x = (node_rec g t).in_tail then (nty_slab_alloc g.edges).1
          else (edge_rec g x).in_next } := by
  rw [edge_create_form h f t ty w ts hf ht hc]
  unfold edge_rec
  simp only
  rw [edge_linked_edges h f t ty w ts hf ht hc,
    if_neg (live_index_ne_alloc g.edges h.edges_inv hc x hx)]
  have h1 := live_index_inj g.edges x _ hx (out_tail_live h f hf)
  have h2 := live_index_inj g.edges x _ hx (in_tail_live h t ht)
  simp only [h1, h2]

theorem edge_create_node_rec {g : nty_graph_t} (h : GraphInv g) (f t ty w ts : Nat)
    (hf : nty_slab_exists g.nodes f = true) (ht : nty_slab_exists g.nodes t = true)
    (hc : (nty_slab_alloc g.edges).1 ≠ 0) (n : Nat) (hn : nty_slab_exists g.nodes n = true) :
    node_rec (nty_edge_create g f t ty w ts).2 n =
      { node_rec g n with
        out_head :=
          if (node_rec g f).out_tail = 0 ∧ n = f then (nty_slab_alloc g.edges).1
          else (node_rec g n).out_head
        out_tail := if n = f then (nty_slab_alloc g.edges).1 else (node_rec g n).out_tail
        in_head :=
          if (node_rec g t).in_tail = 0 ∧ n = t then (nty_slab_alloc g.edges).1
          else (node_rec g n).in_head
        in_tail := if n = t then (nty_slab_alloc g.edges).1 else (node_rec g n).in_tail } := by
  rw [edge_create_form h f t ty w ts hf ht hc]
  unfold node_rec
  simp only
  rw [edge_linked_nodes]
  have h1 := live_index_inj' g.nodes n _ hn hf
  have h2 := live_index_inj' g.nodes n _ hn ht
  simp only [h1, h2]
  rfl

theorem alloc_not_mem_edge_list {g : nty_graph_t} (h : GraphInv g)
    (hc : (nty_slab_alloc g.edges).1 ≠ 0) : (nty_slab_alloc g.edges).1 ∉ edge_list g := by
  intro hm
  have := (edge_list_mem h _).1 hm
  rw [alloc_fresh g.edges h.edges_inv hc] at this
  cases this

theorem edge_create_out_list {g : nty_graph_t} (h : GraphInv g) (f t ty w ts : Nat)
    (hf : nty_slab_exists g.nodes f = true) (ht : nty_slab_exists g.nodes t = true)
    (hc : (nty_slab_alloc g.edges).1 ≠ 0) (n : Nat) :
    out_list (nty_edge_create g f t ty w ts).2 n =
      out_list g n ++ (if f = n then [(nty_slab_alloc g.edges).1] else []) := by
  unfold out_list
  rw [edge_create_edge_list h f t ty w ts hf ht hc, List.filter_append]
  congr 1
  · apply List.filter_congr
    intro x hx
    rw [edge_create_edge_rec_old h f t ty w ts hf ht hc x ((edge_list_mem h x).1 hx)]
  · rw [List.filter_singleton, edge_create_edge_rec_new h f t ty w ts hf ht hc]
    simp only
    by_cases hfn : f = n
    · simp [hfn]
    · simp [hfn]

theorem alloc_not_mem_out_list {g : nty_graph_t} (h : GraphInv g)
    (hc : (nty_slab_alloc g.edges).1 ≠ 0) (n : Nat) :
    (nty_slab_alloc g.edges).1 ∉ out_list g n := by
  intro hm
  have := ((mem_out_list h _ n).1 hm).1
  rw [alloc_fresh g.edges h.edges_inv hc] at this
  cases this

theorem edge_create_in_list {g : nty_graph_t} (h : GraphInv g) (f t ty w ts : Nat)
    (hf : nty_slab_exists g.nodes f = true) (ht : nty_slab_exists g.nodes t = true)
    (hc : (nty_slab_alloc g.edges).1 ≠ 0) (n : Nat) :
    in_list (nty_edge_create g f t ty w ts).2 n =
      in_list g n ++ (if t = n then [(nty_slab_alloc g.edges).1] else []) := by
  unfold in_list
  rw [edge_create_edge_list h f t ty w ts hf ht hc, List.filter_append]
  congr 1
  · apply List.filter_congr
    intro x hx
    rw [edge_create_edge_rec_old h f t ty w ts hf ht hc x ((edge_list_mem h x).1 hx)]
  · rw [List.filter_singleton, edge_create_edge_rec_new h f t ty w ts hf ht hc]
    simp only
    by_cases hfn : t = n
    · simp [hfn]
    · simp [hfn]

theorem alloc_not_mem_in_list {g : nty_graph_t} (h : GraphInv g)
    (hc : (nty_slab_alloc g.edges).1 ≠ 0) (n : Nat) :
    (nty_slab_alloc g.edges).1 ∉ in_list g n := by
  intro hm
  have := ((mem_in_list h _ n).1 hm).1
  rw [alloc_fresh g.edges h.edges_inv hc] at this
  cases this

theorem edge_create_out_head {g : nty_graph_t} (h : GraphInv g) (f t ty w ts : Nat)
    (hf : nty_slab_exists g.nodes f = true) (ht : nty_slab_exists g.nodes t = true)
    (hc : (nty_slab_alloc g.edges).1 ≠ 0) (n : Nat) (hn : nty_slab_exists g.nodes n = true) :
    (node_rec (nty_edge_create g f t ty w ts).2 n).out_head =
      (out_list (nty_edge_create g f t ty w ts).2 n).headD 0 := by
  rw [edge_create_node_rec h f t ty w ts hf ht hc n hn,
    edge_create_out_list h f t ty w ts hf ht hc]
  simp only
  by_cases hnf : n = f
  · subst hnf
    simp only [if_true, and_true, headD_append_singleton]
    rw [h.out_tail n hn]
    simp only [getLastD_eq_zero_iff _ (zero_not_mem_out_list h n), h.out_head n hn]
  · have hnf' : ¬f = n := fun e => hnf e.symm
    simp only [hnf, hnf', and_false, if_false, List.append_nil]
    exact h.out_head n hn

theorem edge_create_out_tail {g : nty_graph_t} (h : GraphInv g) (f t ty w ts : Nat)
    (hf : nty_slab_exists g.nodes f = true) (ht : nty_slab_exists g.nodes t = true)
    (hc : (nty_slab_alloc g.edges).1 ≠ 0) (n : Nat) (hn : nty_slab_exists g.nodes n = true) :
    (node_rec (nty_edge_create g f t ty w ts).2 n).out_tail =
      (out_list (nty_edge_create g f t ty w ts).2 n).getLastD 0 := by
  rw [edge_create_node_rec h f t ty w ts hf ht hc n hn,
    edge_create_out_list h f t ty w ts hf ht hc]
  simp only
  by_cases hnf : n = f
  · subst hnf
    simp only [if_true, getLastD_append_singleton]
  · have hnf' : ¬f = n := fun e => hnf e.symm
    simp only [hnf, hnf', if_false, List.append_nil]
    exact h.out_tail n hn

theorem edge_create_out_prev_new {g : nty_graph_t} (h : GraphInv g) (f t ty w ts : Nat)
    (hf : nty_slab_exists g.nodes f = true) (ht : nty_slab_exists g.nodes t = true)
    (hc : (nty_slab_alloc g.edges).1 ≠ 0) :
    (edge_rec (nty_edge_create g f t ty w ts).2 (nty_slab_alloc g.edges).1).out_prev =
      prev_in (out_list (nty_edge_create g f t ty w ts).2
        (edge_rec (nty_edge_create g f t ty w ts).2 (nty_slab_alloc g.edges).1).from_)
        (nty_slab_alloc g.edges).1 := by
  rw [edge_create_edge_rec_new h f t ty w ts hf ht hc,
    edge_create_out_list h f t ty w ts hf ht hc]
  simp only [if_true]
  unfold prev_in
  rw [prev_aux_append_new _ _ (alloc_not_mem_out_list h hc f) 0]
  exact h.out_tail f hf

theorem edge_create_out_next_new {g : nty_graph_t} (h : GraphInv g) (f t ty w ts : Nat)
    (hf : nty_slab_exists g.nodes f = true) (ht : nty_slab_exists g.nodes t = true)
    (hc : (nty_slab_alloc g.edges).1 ≠ 0) :
    (edge_rec (nty_edge_create g f t ty w ts).2 (nty_slab_alloc g.edges).1).out_next =
      next_in (out_list (nty_edge_create g f t ty w ts).2
        (edge_rec (nty_edge_create g f t ty w ts).2 (nty_slab_alloc g.edges).1).from_)
        (nty_slab_alloc g.edges).1 := by
  rw [edge_create_edge_rec_new h f t ty w ts hf ht hc,
    edge_create_out_list h f t ty w ts hf ht hc]
  simp only [if_true]
  rw [next_in_append_new _ _ (alloc_not_mem_out_list h hc f)]

theorem edge_create_out_prev_old {g : nty_graph_t} (h : GraphInv g) (f t ty w ts : Nat)
    (hf : nty_slab_exists g.nodes f = true) (ht : nty_slab_exists g.nodes t = true)
    (hc : (nty_slab_alloc g.edges).1 ≠ 0) (x : Nat) (hx : nty_slab_exists g.edges x = true) :
    (edge_rec (nty_edge_create g f t ty w ts).2 x).out_prev =
      prev_in (out_list (nty_edge_create g f t ty w ts).2
        (edge_rec (nty_edge_create g f t ty w ts).2 x).from_) x := by
  rw [edge_create_edge_rec_old h f t ty w ts hf ht hc x hx,
    edge_create_out_list h f t ty w ts hf ht hc]
  simp only
  by_cases hfx : f = (edge_rec g x).from_
  · simp only [hfx, if_true]
    unfold prev_in
    rw [prev_aux_append_old _ _ x (self_mem_out_list h x hx) 0]
    exact h.out_prev x hx
  · simp only [hfx, if_false, List.append_nil]
    exact h.out_prev x hx

theorem edge_create_out_next_old {g : nty_graph_t} (h : GraphInv g) (f t ty w ts : Nat)
    (hf : nty_slab_exists g.nodes f = true) (ht : nty_slab_exists g.nodes t = true)
    (hc : (nty_slab_alloc g.edges).1 ≠ 0) (x : Nat) (hx : nty_slab_exists g.edges x = true) :
    (edge_rec (nty_edge_create g f t ty w ts).2 x).out_next =
      next_in (out_list (nty_edge_create g f t ty w ts).2
        (edge_rec (nty_edge_create g f t ty w ts).2 x).from_) x := by
  rw [edge_create_edge_rec_old h f t ty w ts hf ht hc x hx,
    edge_create_out_list h f t ty w ts hf ht hc]
  simp only
  by_cases hfx : f = (edge_rec g x).from_
  · simp only [hfx, if_true]
    rw [next_in_append_old _ _ x (out_list_nodup h _) (self_mem_out_list h x hx) 0,
      ← hfx, ← h.out_tail f hf, hfx, ← h.out_next x hx]
  · simp only [hfx, if_false, List.append_nil]
    have hne : ¬x = (node_rec g f).out_tail := by
      intro e1
      have h1 := h.out_tail f hf
      rw [← e1] at h1
      rcases getLastD_mem_or (out_list g f) 0 with h2 | h2
      · rw [← h1] at h2; exact live_ne_zero _ _ hx h2
      · rw [← h1] at h2; exact hfx ((mem_out_list h x _).1 h2).2.symm
    rw [if_neg hne]
    exact h.out_next x hx

theorem edge_create_in_head {g : nty_graph_t} (h : GraphInv g) (f t ty w ts : Nat)
    (hf : nty_slab_exists g.nodes f = true) (ht : nty_slab_exists g.nodes t = true)
    (hc : (nty_slab_alloc g.edges).1 ≠ 0) (n : Nat) (hn : nty_slab_exists g.nodes n = true) :
    (node_rec (nty_edge_create g f t ty w ts).2 n).in_head =
      (in_list (nty_edge_create g f t ty w ts).2 n).headD 0 := by
  rw [edge_create_node_rec h f t ty w ts hf ht hc n hn,
    edge_create_in_list h f t ty w ts hf ht hc]
  simp only
  by_cases hnf : n = t
  · subst hnf
    simp only [if_true, and_true, headD_append_singleton]
    rw [h.in_tail n hn]
    simp only [getLastD_eq_zero_iff _ (zero_not_mem_in_list h n), h.in_head n hn]
  · have hnf' : ¬t = n := fun e => hnf e.symm
    simp only [hnf, hnf', and_false, if_false, List.append_nil]
    exact h.in_head n hn

theorem edge_create_in_tail {g : nty_graph_t} (h : GraphInv g) (f t ty w ts : Nat)
    (hf : nty_slab_exists g.nodes f = true) (ht : nty_slab_exists g.nodes t = true)
    (hc : (nty_slab_alloc g.edges).1 ≠ 0) (n : Nat) (hn : nty_slab_exists g.nodes n = true) :
    (node_rec (nty_edge_create g f t ty w ts).2 n).in_tail =
      (in_list (nty_edge_create g f t ty w ts).2 n).getLastD 0 := by
  rw [edge_create_node_rec h f t ty w ts hf ht hc n hn,
    edge_create_in_list h f t ty w ts hf ht hc]
  simp only
  by_cases hnf : n = t
  · subst hnf
    simp only [if_true, getLastD_append_singleton]
  · have hnf' : ¬t = n := fun e => hnf e.symm
    simp only [hnf, hnf', if_false, List.append_nil]
    exact h.in_tail n hn

theorem edge_create_in_prev_new {g : nty_graph_t} (h : GraphInv g) (f t ty w ts : Nat)
    (hf : nty_slab_exists g.nodes f = true) (ht : nty_slab_exists g.nodes t = true)
    (hc : (nty_slab_alloc g.edges).1 ≠ 0) :
    (edge_rec (nty_edge_create g f t ty w ts).2 (nty_slab_alloc g.edges).1).in_prev =
      prev_in (in_list (nty_edge_create g f t ty w ts).2
        (edge_rec (nty_edge_create g f t ty w ts).2 (nty_slab_alloc g.edges).1).to_)
        (nty_slab_alloc g.edges).1 := by
  rw [edge_create_edge_rec_new h f t ty w ts hf ht hc,
    edge_create_in_list h f t ty w ts hf ht hc]
  simp only [if_true]
  unfold prev_in
  rw [prev_aux_append_new _ _ (alloc_not_mem_in_list h hc t) 0]
  exact h.in_tail t ht

theorem edge_create_in_next_new {g : nty_graph_t} (h : GraphInv g) (f t ty w ts : Nat)
    (hf : nty_slab_exists g.nodes f = true) (ht : nty_slab_exists g.nodes t = true)
    (hc : (nty_slab_alloc g.edges).1 ≠ 0) :
    (edge_rec (nty_edge_create g f t ty w ts).2 (nty_slab_alloc g.edges).1).in_next =
      next_in (in_list (nty_edge_create g f t ty w ts).2
        (edge_rec (nty_edge_create g f t ty w ts).2 (nty_slab_alloc g.edges).1).to_)
        (nty_slab_alloc g.edges).1 := by
  rw [edge_create_edge_rec_new h f t ty w ts hf ht hc,
    edge_create_in_list h f t ty w ts hf ht hc]
  simp only [if_true]
  rw [next_in_append_new _ _ (alloc_not_mem_in_list h hc t)]

theorem edge_create_in_prev_old {g : nty_graph_t} (h : GraphInv g) (f t ty w ts : Nat)
    (hf : nty_slab_exists g.nodes f = true) (ht : nty_slab_exists g.nodes t = true)
    (hc : (nty_slab_alloc g.edges).1 ≠ 0) (x : Nat) (hx : nty_slab_exists g.edges x = true) :
    (edge_rec (nty_edge_create g f t ty w ts).2 x).in_prev =
      prev_in (in_list (nty_edge_create g f t ty w ts).2
        (edge_rec (nty_edge_create g f t ty w ts).2 x).to_) x := by
  rw [edge_create_edge_rec_old h f t ty w ts hf ht hc x hx,
    edge_create_in_list h f t ty w ts hf ht hc]
  simp only
  by_cases hfx : t = (edge_rec g x).to_
  · simp only [hfx, if_true]
    unfold prev_in
    rw [prev_aux_append_old _ _ x (self_mem_in_list h x hx) 0]
    exact h.in_prev x hx
  · simp only [hfx, if_false, List.append_nil]
    exact h.in_prev x hx

theorem edge_create_in_next_old {g : nty_graph_t} (h : GraphInv g) (f t ty w ts : Nat)
    (hf : nty_slab_exists g.nodes f = true) (ht : nty_slab_exists g.nodes t = true)
    (hc : (nty_slab_alloc g.edges).1 ≠ 0) (x : Nat) (hx : nty_slab_exists g.edges x = true) :
    (edge_rec (nty_edge_create g f t ty w ts).2 x).in_next =
      next_in (in_list (nty_edge_create g f t ty w ts).2
        (edge_rec (nty_edge_create g f t ty w ts).2 x).to_) x := by
  rw [edge_create_edge_rec_old h f t ty w ts hf ht hc x hx,
    edge_create_in_list h f t ty w ts hf ht hc]
  simp only
  by_cases hfx : t = (edge_rec g x).to_
  · simp only [hfx, if_true]
    rw [next_in_append_old _ _ x (in_list_nodup h _) (self_mem_in_list h x hx) 0,
      ← hfx, ← h.in_tail t ht, hfx, ← h.in_next x hx]
  · simp only [hfx, if_false, List.append_nil]
    have hne : ¬x = (node_rec g t).in_tail := by
      intro e1
      have h1 := h.in_tail t ht
      rw [← e1] at h1
      rcases getLastD_mem_or (in_list g t) 0 with h2 | h2
      · rw [← h1] at h2; exact live_ne_zero _ _ hx h2
      · rw [← h1] at h2; exact hfx ((mem_in_list h x _).1 h2).2.symm
    rw [if_neg hne]
    exact h.in_next x hx

/-- The store invariant survives `nty_edge_create`. -/
theorem edge_create_inv {g : nty_graph_t} (h : GraphInv g) (f t ty w ts : Nat) :
    GraphInv (nty_edge_create g f t ty w ts).2 := by
  by_cases hf : nty_slab_exists g.nodes f = true
  swap
  · rw [edge_create_no_node g f t ty w ts (Or.inl (by simpa using hf))]; exact h
  by_cases ht : nty_slab_exists g.nodes t = true
  swap
  · rw [edge_create_no_node g f t ty w ts (Or.inr (by simpa using ht))]; exact h
  by_cases hc : (nty_slab_alloc g.edges).1 = 0
  · rw [edge_create_full h f t ty w ts hc]; exact h
  have hxe := edge_create_exists_edges h f t ty w ts hf ht hc
  have hxn := edge_create_exists_nodes h f t ty w ts hf ht hc
  have hform := edge_create_form h f t ty w ts hf ht hc
  obtain ⟨N, E, hr⟩ := recordsOnly_edge_linked g (nty_slab_alloc g.edges) f t ty w ts
    (nty_id_index f) (nty_id_index t)
  have hao := alloc_ok g.edges h.edges_inv hc
  refine
    { nodes_inv := by rw [hform, hr]; exact slabInv_data _ _ h.nodes_inv
      edges_inv := by
        rw [hform, hr]; exact slabInv_data _ _ (alloc_inv g.edges h.edges_inv)
      props_inv := by rw [hform, hr]; exact h.props_inv
      node_order_inv := by rw [hform, hr]; exact orderInv_data _ h.node_order_inv
      edge_order_inv := ?_
      prop_order_inv := by rw [hform, hr]; exact h.prop_order_inv
      node_id := ?_
      prop_id := by rw [hform, hr]; exact h.prop_id
      edge_id := ?_
      edge_from := ?_
      edge_to := ?_
      out_head := fun n hn => edge_create_out_head h f t ty w ts hf ht hc n (by rw [← hxn]; exact hn)
      out_tail := fun n hn => edge_create_out_tail h f t ty w ts hf ht hc n (by rw [← hxn]; exact hn)
      in_head := fun n hn => edge_create_in_head h f t ty w ts hf ht hc n (by rw [← hxn]; exact hn)
      in_tail := fun n hn => edge_create_in_tail h f t ty w ts hf ht hc n (by rw [← hxn]; exact hn)
      out_prev := ?_
      out_next := ?_
      in_prev := ?_
      in_next := ?_ }
  · have hl : order_list (nty_edge_create g f t ty w ts).2.edge_order
        (nty_edge_create g f t ty w ts).2.edge_order_len =
        order_list g.edge_order g.edge_order_len ++ [(nty_slab_alloc g.edges).1] :=
      edge_create_edge_list h f t ty w ts hf ht hc
    have e1 : (nty_edge_create g f t ty w ts).2.edge_order_len = g.edge_order_len + 1 := by
      rw [hform]
    have e2 : (nty_edge_create g f t ty w ts).2.edges.count = g.edges.count + 1 := by
      rw [hform, hr]; exact hao.2.2.2.2.2.2.2.2.1
    have e3 : (nty_edge_create g f t ty w ts).2.edges.capacity = g.edges.capacity := by
      rw [hform, hr]; exact hao.2.2.2.2.2.2.2.1
    have e4 : (nty_edge_create g f t ty w ts).2.edge_order_cap = g.edge_order_cap := by
      rw [hform, hr]
    refine ⟨?_, ?_, ?_, ?_⟩
    · rw [hl]
      apply List.Nodup.append h.edge_order_inv.nodup (List.nodup_singleton _)
      intro a ha hb
      rw [List.mem_singleton] at hb
      rw [hb] at ha
      exact alloc_not_mem_edge_list h hc ha
    · intro x
      rw [hl, hxe x, List.mem_append, List.mem_singleton, h.edge_order_inv.mem_iff]
      exact Or.comm
    · have := h.edge_order_inv.len_eq
      omega
    · rw [e3, e4]; exact h.edge_order_inv.cap_le
  · intro n hn
    rw [hxn] at hn
    rw [edge_create_node_rec h f t ty w ts hf ht hc n hn]
    exact h.node_id n hn
  · intro x hx
    rcases (hxe x).1 hx with hx1 | hx1
    · rw [hx1, edge_create_edge_rec_new h f t ty w ts hf ht hc]
    · rw [edge_create_edge_rec_old h f t ty w ts hf ht hc x hx1]
      exact h.edge_id x hx1
  · intro x hx
    rcases (hxe x).1 hx with hx1 | hx1
    · rw [hx1, edge_create_edge_rec_new h f t ty w ts hf ht hc, hxn]; exact hf
    · rw [edge_create_edge_rec_old h f t ty w ts hf ht hc x hx1, hxn]
      exact h.edge_from x hx1
  · intro x hx
    rcases (hxe x).1 hx with hx1 | hx1
    · rw [hx1, edge_create_edge_rec_new h f t ty w ts hf ht hc, hxn]; exact ht
    · rw [edge_create_edge_rec_old h f t ty w ts hf ht hc x hx1, hxn]
      exact h.edge_to x hx1
  · intro x hx
    rcases (hxe x).1 hx with hx1 | hx1
    · rw [hx1]; exact edge_create_out_prev_new h f t ty w ts hf ht hc
    · exact edge_create_out_prev_old h f t ty w ts hf ht hc x hx1
  · intro x hx
    rcases (hxe x).1 hx with hx1 | hx1
    · rw [hx1]; exact edge_create_out_next_new h f t ty w ts hf ht hc
    · exact edge_create_out_next_old h f t ty w ts hf ht hc x hx1
  · intro x hx
    rcases (hxe x).1 hx with hx1 | hx1
    · rw [hx1]; exact edge_create_in_prev_new h f t ty w ts hf ht hc
    · exact edge_create_in_prev_old h f t ty w ts hf ht hc x hx1
  · intro x hx
    rcases (hxe x).1 hx with hx1 | hx1
    · rw [hx1]; exact edge_create_in_next_new h f t ty w ts hf ht hc
    · exact edge_create_in_next_old h f t ty w ts hf ht hc x hx1

/-! ## Node and property creation, property destruction -/

theorem node_create_full {g : nty_graph_t} (h : GraphInv g)
    (hc : (nty_slab_alloc g.nodes).1 = 0) : nty_node_create g = (0, g) := by
  have hs := alloc_fail_state g.nodes h.nodes_inv hc
  unfold nty_node_create
  simp only [hc, if_true, hs]

/-- Closed form of a successful `nty_node_create`. -/
theorem node_create_form {g : nty_graph_t} (h : GraphInv g)
    (hc : (nty_slab_alloc g.nodes).1 ≠ 0) :
    nty_node_create g =
      ((nty_slab_alloc g.nodes).1,
       { g with
          nodes :=
            { (nty_slab_alloc g.nodes).2.2 with
              data := Function.update g.nodes.data (nty_slab_alloc g.nodes).2.1
                { id := (nty_slab_alloc g.nodes).1
                  out_head := 0
                  out_tail := 0
                  in_head := 0
                  in_tail := 0 } }
          node_order := Function.update g.node_order g.node_order_len (nty_slab_alloc g.nodes).1
          node_order_len := g.node_order_len + 1 }) := by
  have hao := alloc_ok g.nodes h.nodes_inv hc
  have hlt : g.node_order_len < g.node_order_cap := by
    have h1 := hao.2.2.2.2.2.2.2.2.2.2
    have h2 := h.node_order_inv.len_eq
    have h3 := h.node_order_inv.cap_le
    omega
  unfold nty_node_create set_node
  simp only [hc, if_false, order_append_ok _ _ _ _ hlt, hao.2.2.2.2.1, Function.update_same,
    Function.update_idem]
  simp
  rfl

theorem prop_create_full {g : nty_graph_t} (h : GraphInv g) (o k v : Nat)
    (hc : (nty_slab_alloc g.properties).1 = 0) : nty_property_create g o k v = (0, g) := by
  have hs := alloc_fail_state g.properties h.props_inv hc
  unfold nty_property_create
  simp only [hc, if_true, hs]

/-- Closed form of a successful `nty_property_create`. -/
theorem prop_create_form {g : nty_graph_t} (h : GraphInv g) (o k v : Nat)
    (hc : (nty_slab_alloc g.properties).1 ≠ 0) :
    nty_property_create g o k v =
      ((nty_slab_alloc g.properties).1,
       { g with
          properties :=
            { (nty_slab_alloc g.properties).2.2 with
              data := Function.update g.properties.data (nty_slab_alloc g.properties).2.1
                { id := (nty_slab_alloc g.properties).1
                  owner := o
                  key := k
                  value := v } }
          property_order :=
            Function.update g.property_order g.property_order_len
              (nty_slab_alloc g.properties).1
          property_order_len := g.property_order_len + 1 }) := by
  have hao := alloc_ok g.properties h.props_inv hc
  have hlt : g.property_order_len < g.property_order_cap := by
    have h1 := hao.2.2.2.2.2.2.2.2.2.2
    have h2 := h.prop_order_inv.len_eq
    have h3 := h.prop_order_inv.cap_le
    omega
  unfold nty_property_create set_property
  simp only [hc, if_false, order_append_ok _ _ _ _ hlt, hao.2.2.2.2.1, Function.update_same,
    Function.update_idem]
  simp

/-- Appending a freshly allocated identifier keeps an order array in step with its arena. -/
theorem orderInv_alloc {α : Type} [Zero α] {s : nty_slab_t α} {o : Nat → Nat} {len cap : Nat}
    (hs : SlabInv s) (h : OrderInv s o len cap) (hc : (nty_slab_alloc s).1 ≠ 0)
    (d : Nat → α) :
    OrderInv { (nty_slab_alloc s).2.2 with data := d }
      (Function.update o len (nty_slab_alloc s).1) (len + 1) cap := by
  have hao := alloc_ok s hs hc
  refine ⟨?_, ?_, ?_, ?_⟩
  · rw [order_list_append]
    apply List.Nodup.append h.nodup (List.nodup_singleton _)
    intro a ha hb
    rw [List.mem_singleton] at hb
    rw [hb, h.mem_iff, alloc_fresh s hs hc] at ha
    cases ha
  · intro x
    rw [order_list_append, List.mem_append, List.mem_singleton, h.mem_iff]
    show _ ↔ nty_slab_exists (nty_slab_alloc s).2.2 x = true
    rw [alloc_exists_iff s hs hc]
    exact Or.comm
  · have := h.len_eq
    have := hao.2.2.2.2.2.2.2.2.1
    simp only
    omega
  · have := hao.2.2.2.2.2.2.2.1
    have := h.cap_le
    simp only
    omega

/-- Removing a freed identifier keeps an order array in step with its arena. -/
theorem orderInv_free {α : Type} [Zero α] {s : nty_slab_t α} {o : Nat → Nat} {len cap : Nat}
    (hs : SlabInv s) (h : OrderInv s o len cap) (id : Nat)
    (hx : nty_slab_exists s id = true) (d : Nat → α) :
    OrderInv { (nty_slab_free s id).2 with data := d }
      (nty_order_remove o len id).1 (nty_order_remove o len id).2 cap := by
  have hfo := free_ok s hs id hx
  have hem : id ∈ order_list o len := (h.mem_iff id).2 hx
  refine ⟨?_, ?_, ?_, ?_⟩
  · rw [order_remove_list]; exact h.nodup.erase id
  · intro x
    rw [order_remove_list, List.Nodup.mem_erase_iff h.nodup, h.mem_iff]
    show _ ↔ nty_slab_exists (nty_slab_free s id).2 x = true
    rw [free_exists_iff s id hx]
    exact And.comm
  · have := order_remove_len o len id hem
    have := h.len_eq
    have := hfo.2.2.2.2.2.1
    simp only
    omega
  · have := hfo.2.2.2.2.1
    have := h.cap_le
    simp only
    omega

theorem out_list_eq_nil_of_not_node {g : nty_graph_t} (h : GraphInv g) (n : Nat)
    (hn : nty_slab_exists g.nodes n = false) : out_list g n = [] := by
  rw [List.eq_nil_iff_forall_not_mem]
  intro x hx
  obtain ⟨h1, h2⟩ := (mem_out_list h x n).1 hx
  have := h.edge_from x h1
  rw [h2, hn] at this
  cases this

theorem in_list_eq_nil_of_not_node {g : nty_graph_t} (h : GraphInv g) (n : Nat)
    (hn : nty_slab_exists g.nodes n = false) : in_list g n = [] := by
  rw [List.eq_nil_iff_forall_not_mem]
  intro x hx
  obtain ⟨h1, h2⟩ := (mem_in_list h x n).1 hx
  have := h.edge_to x h1
  rw [h2, hn] at this
  cases this

/-- The store invariant survives `nty_node_create`. -/
theorem node_create_inv {g : nty_graph_t} (h : GraphInv g) : GraphInv (nty_node_create g).2 := by
  by_cases hc : (nty_slab_alloc g.nodes).1 = 0
  · rw [node_create_full h hc]; exact h
  have hform := node_create_form h hc
  have hao := alloc_ok g.nodes h.nodes_inv hc
  have hxn : ∀ x, nty_slab_exists (nty_node_create g).2.nodes x = true ↔
      (x = (nty_slab_alloc g.nodes).1 ∨ nty_slab_exists g.nodes x = true) := by
    intro x
    rw [hform, ← alloc_exists_iff g.nodes h.nodes_inv hc]
    rfl
  have hnew : node_rec (nty_node_create g).2 (nty_slab_alloc g.nodes).1 =
      { id := (nty_slab_alloc g.nodes).1, out_head := 0, out_tail := 0, in_head := 0,
        in_tail := 0 } := by
    rw [hform]
    unfold node_rec
    simp only
    rw [hao.1, Function.update_same]
  have hold : ∀ n, nty_slab_exists g.nodes n = true →
      node_rec (nty_node_create g).2 n = node_rec g n := by
    intro n hn
    rw [hform]
    unfold node_rec
    simp only [Function.update_noteq (live_index_ne_alloc g.nodes h.nodes_inv hc n hn)]
  have hol : ∀ n, out_list (nty_node_create g).2 n = out_list g n := by
    intro n; rw [hform]; rfl
  have hil : ∀ n, in_list (nty_node_create g).2 n = in_list g n := by
    intro n; rw [hform]; rfl
  have her : ∀ x, edge_rec (nty_node_create g).2 x = edge_rec g x := by
    intro x; rw [hform]; rfl
  have hxe : ∀ x, nty_slab_exists (nty_node_create g).2.edges x = nty_slab_exists g.edges x := by
    intro x; rw [hform]
  have hfresh := alloc_fresh g.nodes h.nodes_inv hc
  refine
    { nodes_inv := by rw [hform]; exact slabInv_data _ _ (alloc_inv g.nodes h.nodes_inv)
      edges_inv := by rw [hform]; exact h.edges_inv
      props_inv := by rw [hform]; exact h.props_inv
      node_order_inv := by
        rw [hform]; exact orderInv_alloc h.nodes_inv h.node_order_inv hc _
      edge_order_inv := by rw [hform]; exact h.edge_order_inv
      prop_order_inv := by rw [hform]; exact h.prop_order_inv
      node_id := ?_
      prop_id := by rw [hform]; exact h.prop_id
      edge_id := fun x hx => by rw [her]; exact h.edge_id x (by rw [← hxe]; exact hx)
      edge_from := fun x hx => by
        rw [her, hxn]; exact Or.inr (h.edge_from x (by rw [← hxe]; exact hx))
      edge_to := fun x hx => by
        rw [her, hxn]; exact Or.inr (h.edge_to x (by rw [← hxe]; exact hx))
      out_head := ?_
      out_tail := ?_
      in_head := ?_
      in_tail := ?_
      out_prev := fun x hx => by
        rw [her, hol]; exact h.out_prev x (by rw [← hxe]; exact hx)
      out_next := fun x hx => by
        rw [her, hol]; exact h.out_next x (by rw [← hxe]; exact hx)
      in_prev := fun x hx => by
        rw [her, hil]; exact h.in_prev x (by rw [← hxe]; exact hx)
      in_next := fun x hx => by
        rw [her, hil]; exact h.in_next x (by rw [← hxe]; exact hx) }
  · intro n hn
    rcases (hxn n).1 hn with h1 | h1
    · rw [h1, hnew]
    · rw [hold n h1]; exact h.node_id n h1
  · intro n hn
    rcases (hxn n).1 hn with h1 | h1
    · rw [h1, hnew, hol, out_list_eq_nil_of_not_node h _ hfresh]; rfl
    · rw [hold n h1, hol]; exact h.out_head n h1
  · intro n hn
    rcases (hxn n).1 hn with h1 | h1
    · rw [h1, hnew, hol, out_list_eq_nil_of_not_node h _ hfresh]; rfl
    · rw [hold n h1, hol]; exact h.out_tail n h1
  · intro n hn
    rcases (hxn n).1 hn with h1 | h1
    · rw [h1, hnew, hil, in_list_eq_nil_of_not_node h _ hfresh]; rfl
    · rw [hold n h1, hil]; exact h.in_head n h1
  · intro n hn
    rcases (hxn n).1 hn with h1 | h1
    · rw [h1, hnew, hil, in_list_eq_nil_of_not_node h _ hfresh]; rfl
    · rw [hold n h1, hil]; exact h.in_tail n h1

/-- The store invariant survives `nty_property_create`. -/
theorem prop_create_inv {g : nty_graph_t} (h : GraphInv g) (o k v : Nat) :
    GraphInv (nty_property_create g o k v).2 := by
  by_cases hc : (nty_slab_alloc g.properties).1 = 0
  · rw [prop_create_full h o k v hc]; exact h
  have hform := prop_create_form h o k v hc
  have hao := alloc_ok g.properties h.props_inv hc
  rw [hform]
  refine
    { nodes_inv := h.nodes_inv
      edges_inv := h.edges_inv
      props_inv := slabInv_data _ _ (alloc_inv g.properties h.props_inv)
      node_order_inv := h.node_order_inv
      edge_order_inv := h.edge_order_inv
      prop_order_inv := orderInv_alloc h.props_inv h.prop_order_inv hc _
      node_id := h.node_id
      prop_id := ?_
      edge_id := h.edge_id
      edge_from := h.edge_from
      edge_to := h.edge_to
      out_head := h.out_head
      out_tail := h.out_tail
      in_head := h.in_head
      in_tail := h.in_tail
      out_prev := h.out_prev
      out_next := h.out_next
      in_prev := h.in_prev
      in_next := h.in_next }
  intro p hp
  have hp' : nty_slab_exists (nty_slab_alloc g.properties).2.2 p = true := hp
  rw [alloc_exists_iff g.properties h.props_inv hc] at hp'
  unfold property_rec
  simp only
  rcases hp' with h1 | h1
  · rw [h1, hao.1, Function.update_same]
  · rw [Function.update_noteq (live_index_ne_alloc g.properties h.props_inv hc p h1)]
    exact h.prop_id p h1

theorem prop_destroy_absent (g : nty_graph_t) (id : Nat)
    (hx : nty_slab_exists g.properties id = false) :
    nty_property_destroy g id = (false, g) := by
  unfold nty_property_destroy
  rw [free_of_not_exists _ _ hx]
  simp

/-- Closed form of a successful `nty_property_destroy`. -/
theorem prop_destroy_form (g : nty_graph_t) (id : Nat)
    (hx : nty_slab_exists g.properties id = true) :
    nty_property_destroy g id =
      (true,
       { g with
          properties := (nty_slab_free g.properties id).2
          property_order := (nty_order_remove g.property_order g.property_order_len id).1
          property_order_len := (nty_order_remove g.property_order g.property_order_len id).2 })
    := by
  unfold nty_property_destroy
  have := free_fst g.properties id
  rw [hx] at this
  simp [this]

/-- The store invariant survives `nty_property_destroy`. -/
theorem prop_destroy_inv {g : nty_graph_t} (h : GraphInv g) (id : Nat) :
    GraphInv (nty_property_destroy g id).2 := by
  cases hx : nty_slab_exists g.properties id
  · rw [prop_destroy_absent g id hx]; exact h
  rw [prop_destroy_form g id hx]
  refine
    { nodes_inv := h.nodes_inv
      edges_inv := h.edges_inv
      props_inv := free_inv g.properties h.props_inv id
      node_order_inv := h.node_order_inv
      edge_order_inv := h.edge_order_inv
      prop_order_inv := orderInv_free h.props_inv h.prop_order_inv id hx _
      node_id := h.node_id
      prop_id := ?_
      edge_id := h.edge_id
      edge_from := h.edge_from
      edge_to := h.edge_to
      out_head := h.out_head
      out_tail := h.out_tail
      in_head := h.in_head
      in_tail := h.in_tail
      out_prev := h.out_prev
      out_next := h.out_next
      in_prev := h.in_prev
      in_next := h.in_next }
  intro p hp
  have hp' : nty_slab_exists (nty_slab_free g.properties id).2 p = true := hp
  rw [free_exists_iff g.properties id hx] at hp'
  have hi : nty_id_index p ≠ nty_id_index id :=
    fun e => hp'.2 (exists_inj _ _ _ hp'.1 hx e)
  unfold property_rec
  simp only
  rw [(free_ok g.properties h.props_inv id hx).2.1, Function.update_noteq hi]
  exact h.prop_id p hp'.1

theorem init_not_exists {α : Type} [Zero α] (item_size capacity : Nat) (s : nty_slab_t α)
    (h : nty_slab_init item_size capacity = some s) (x : Nat) :
    nty_slab_exists s x = false := by
  unfold nty_slab_init at h
  split at h
  · cases h
  · cases h
    cases hx : nty_slab_exists _ x
    · rfl
    · rw [exists_iff] at hx
      exact absurd hx.2.2.1 (by simp)

theorem init_orderInv {α : Type} [Zero α] (item_size c : Nat) (s : nty_slab_t α)
    (h : nty_slab_init item_size (u32 c) = some s) (o : Nat → Nat) : OrderInv s o 0 c := by
  refine ⟨List.nodup_nil, ?_, ?_, ?_⟩
  · intro x
    rw [init_not_exists _ _ s h x]
    simp [order_list, order_seg]
  · unfold nty_slab_init at h
    split at h
    · cases h
    · cases h; rfl
  · unfold nty_slab_init at h
    split at h
    · cases h
    · cases h
      exact Nat.mod_le _ _

/-- A freshly created store satisfies the store invariant. -/
theorem graph_create_inv (nc ec pc : Nat) (g : nty_graph_t)
    (h : nty_graph_create nc ec pc = some g) : GraphInv g := by
  unfold nty_graph_create at h
  split at h
  · rename_i n e p hn he hp
    cases h
    have hlt : ∀ c, u32 c < 4294967296 := fun c => Nat.mod_lt _ (by decide)
    have hnx := init_not_exists _ _ n hn
    have hex := init_not_exists _ _ e he
    have hpx := init_not_exists _ _ p hp
    refine
      { nodes_inv := init_inv _ _ n (hlt nc) hn
        edges_inv := init_inv _ _ e (hlt ec) he
        props_inv := init_inv _ _ p (hlt pc) hp
        node_order_inv := init_orderInv _ _ n hn _
        edge_order_inv := init_orderInv _ _ e he _
        prop_order_inv := init_orderInv _ _ p hp _
        node_id := fun x hx => by rw [hnx] at hx; cases hx
        prop_id := fun x hx => by rw [hpx] at hx; cases hx
        edge_id := fun x hx => by rw [hex] at hx; cases hx
        edge_from := fun x hx => by rw [hex] at hx; cases hx
        edge_to := fun x hx => by rw [hex] at hx; cases hx
        out_head := fun x hx => by rw [hnx] at hx; cases hx
        out_tail := fun x hx => by rw [hnx] at hx; cases hx
        in_head := fun x hx => by rw [hnx] at hx; cases hx
        in_tail := fun x hx => by rw [hnx] at hx; cases hx
        out_prev := fun x hx => by rw [hex] at hx; cases hx
        out_next := fun x hx => by rw [hex] at hx; cases hx
        in_prev := fun x hx => by rw [hex] at hx; cases hx
        in_next := fun x hx => by rw [hex] at hx; cases hx }
  · cases h

/-! ## Cascading deletion -/

theorem edgeOpFrame_refl (g : nty_graph_t) : EdgeOpFrame g g :=
  ⟨rfl, rfl, rfl, rfl, rfl, rfl, rfl, rfl, rfl⟩

theorem edgeOpFrame_trans {g g' g'' : nty_graph_t} (h1 : EdgeOpFrame g g')
    (h2 : EdgeOpFrame g' g'') : EdgeOpFrame g g'' := by
  obtain ⟨a1, a2, a3, a4, a5, a6, a7, a8, a9⟩ := h1
  obtain ⟨b1, b2, b3, b4, b5, b6, b7, b8, b9⟩ := h2
  refine ⟨?_, b2.trans a2, b3.trans a3, b4.trans a4, b5.trans a5, b6.trans a6, b7.trans a7,
    b8.trans a8, b9.trans a9⟩
  rw [b1, a1]

theorem edgeOpFrame_exists_nodes {g g' : nty_graph_t} (h : EdgeOpFrame g g') (x : Nat) :
    nty_slab_exists g'.nodes x = nty_slab_exists g.nodes x := by
  rw [h.1]; rfl

theorem edge_destroy_absent (g : nty_graph_t) (e : Nat)
    (he : nty_slab_exists g.edges e = false) : nty_edge_destroy g e = (false, g) := by
  unfold nty_edge_destroy
  simp only [nty_graph_get_edge, get_eq_none _ _ he]

theorem edge_destroy_frame (g : nty_graph_t) (e : Nat) :
    EdgeOpFrame g (nty_edge_destroy g e).2 := by
  cases he : nty_slab_exists g.edges e
  · rw [edge_destroy_absent g e he]; exact edgeOpFrame_refl g
  · rw [edge_destroy_form g e he]
    exact ⟨rfl, rfl, rfl, rfl, rfl, rfl, rfl, rfl, rfl⟩

theorem samePayload_refl (r : nty_edge_t) : SamePayload r r := ⟨rfl, rfl, rfl, rfl, rfl, rfl⟩

theorem samePayload_trans {r r' r'' : nty_edge_t} (h1 : SamePayload r r')
    (h2 : SamePayload r' r'') : SamePayload r r'' :=
  ⟨h2.1.trans h1.1, h2.2.1.trans h1.2.1, h2.2.2.1.trans h1.2.2.1,
    h2.2.2.2.1.trans h1.2.2.2.1, h2.2.2.2.2.1.trans h1.2.2.2.2.1,
    h2.2.2.2.2.2.trans h1.2.2.2.2.2⟩

theorem edge_destroy_payload {g : nty_graph_t} (h : GraphInv g) (e : Nat)
    (he : nty_slab_exists g.edges e = true) (x : Nat)
    (hx : nty_slab_exists g.edges x = true) (hxe : x ≠ e) :
    SamePayload (edge_rec g x) (edge_rec (nty_edge_destroy g e).2 x) := by
  rw [edge_destroy_edge_rec h e he x hx hxe]
  exact ⟨rfl, rfl, rfl, rfl, rfl, rfl⟩

/-- What the out-list loop of `nty_node_destroy` has done when it finishes. -/
theorem destroy_out_loop_spec (n : Nat) : ∀ (fuel : Nat) (g g' : nty_graph_t), GraphInv g →
    nty_slab_exists g.nodes n = true → destroy_out_loop fuel g (nty_id_index n) = some g' →
    GraphInv g' ∧ EdgeOpFrame g g' ∧
      edge_list g' = (edge_list g).filter (fun x => !decide ((edge_rec g x).from_ = n)) ∧
      ∀ x ∈ edge_list g', SamePayload (edge_rec g x) (edge_rec g' x)
  | 0, _, _, _, _, hl => by cases hl
  | fuel + 1, g, g', h, hn, hl => by
    unfold destroy_out_loop at hl
    have hh := h.out_head n hn
    unfold node_rec at hh
    by_cases h0 : (g.nodes.data (nty_id_index n)).out_head = 0
    · simp only [h0, ne_eq, not_true_eq_false, if_false, Option.some.injEq] at hl
      subst hl
      refine ⟨h, edgeOpFrame_refl g, ?_, fun x _ => samePayload_refl _⟩
      rw [hh, headD_eq_zero_iff _ (zero_not_mem_out_list h n)] at h0
      symm
      rw [List.filter_eq_self]
      intro x hx
      have : x ∉ out_list g n := by rw [h0]; exact List.not_mem_nil x
      rw [mem_out_list h] at this
      have hxl := (edge_list_mem h x).1 hx
      simp only [Bool.not_eq_true', decide_eq_false_iff_not]
      exact fun e1 => this ⟨hxl, e1⟩
    · simp only [ne_eq, h0, not_false_eq_true, if_true] at hl
      have hm : (g.nodes.data (nty_id_index n)).out_head ∈ out_list g n := by
        rcases headD_mem_or (out_list g n) with h1 | h1
        · rw [← hh] at h1; exact absurd h1 h0
        · rw [← hh] at h1; exact h1
      obtain ⟨he, hfe⟩ := (mem_out_list h _ n).1 hm
      have h1 := edge_destroy_inv h (g.nodes.data (nty_id_index n)).out_head
      have hn1 : nty_slab_exists
          (nty_edge_destroy g (g.nodes.data (nty_id_index n)).out_head).2.nodes n = true := by
        rw [edge_destroy_exists_nodes _ he]; exact hn
      obtain ⟨i1, i2, i3, i4⟩ := destroy_out_loop_spec n fuel _ g' h1 hn1 hl
      have hmem1 : ∀ x, x ∈ edge_list
          (nty_edge_destroy g (g.nodes.data (nty_id_index n)).out_head).2 →
          nty_slab_exists g.edges x = true ∧ x ≠ (g.nodes.data (nty_id_index n)).out_head := by
        intro x hx
        rw [edge_list_mem h1, edge_destroy_exists_edges _ he] at hx
        exact hx
      have hl1 : edge_list g' =
          (edge_list g).filter (fun x => !decide ((edge_rec g x).from_ = n)) := by
        rw [i3]
        have : List.filter (fun x => !decide ((edge_rec
            (nty_edge_destroy g (g.nodes.data (nty_id_index n)).out_head).2 x).from_ = n))
            (edge_list (nty_edge_destroy g (g.nodes.data (nty_id_index n)).out_head).2) =
            List.filter (fun x => !decide ((edge_rec g x).from_ = n))
            (edge_list (nty_edge_destroy g (g.nodes.data (nty_id_index n)).out_head).2) := by
          apply List.filter_congr
          intro x hx
          obtain ⟨hx1, hx2⟩ := hmem1 x hx
          rw [(edge_destroy_payload h _ he x hx1 hx2).2.1]
        rw [this, edge_destroy_edge_list _ he]
        apply erase_of_filter_false
        simp [hfe]
      refine ⟨i1, edgeOpFrame_trans (edge_destroy_frame g _) i2, hl1, ?_⟩
      intro x hx
      have hx1 : x ∈ edge_list (nty_edge_destroy g (g.nodes.data (nty_id_index n)).out_head).2 := by
        rw [i3] at hx
        exact (List.mem_filter.1 hx).1
      obtain ⟨hx2, hx3⟩ := hmem1 x hx1
      exact samePayload_trans (edge_destroy_payload h _ he x hx2 hx3) (i4 x hx)

/-- The out-list loop of `nty_node_destroy` finishes within one more iteration than the list
has entries. -/
theorem destroy_out_loop_terminates (n : Nat) : ∀ (fuel : Nat) (g : nty_graph_t), GraphInv g →
    nty_slab_exists g.nodes n = true → (out_list g n).length < fuel →
    ∃ g', destroy_out_loop fuel g (nty_id_index n) = some g'
  | 0, _, _, _, hl => by cases hl
  | fuel + 1, g, h, hn, hl => by
    unfold destroy_out_loop
    have hh := h.out_head n hn
    unfold node_rec at hh
    by_cases h0 : (g.nodes.data (nty_id_index n)).out_head = 0
    · exact ⟨g, by simp [h0]⟩
    · simp only [ne_eq, h0, not_false_eq_true, if_true]
      have hm : (g.nodes.data (nty_id_index n)).out_head ∈ out_list g n := by
        rcases headD_mem_or (out_list g n) with h1 | h1
        · rw [← hh] at h1; exact absurd h1 h0
        · rw [← hh] at h1; exact h1
      obtain ⟨he, hfe⟩ := (mem_out_list h _ n).1 hm
      have h1 := edge_destroy_inv h (g.nodes.data (nty_id_index n)).out_head
      have hn1 : nty_slab_exists
          (nty_edge_destroy g (g.nodes.data (nty_id_index n)).out_head).2.nodes n = true := by
        rw [edge_destroy_exists_nodes _ he]; exact hn
      apply destroy_out_loop_terminates n fuel _ h1 hn1
      rw [edge_destroy_out_list h _ he, List.length_erase_of_mem hm]
      have : 0 < (out_list g n).length := List.length_pos_of_mem hm
      omega

/-- What the in-list loop of `nty_node_destroy` has done when it finishes. -/
theorem destroy_in_loop_spec (n : Nat) : ∀ (fuel : Nat) (g g' : nty_graph_t), GraphInv g →
    nty_slab_exists g.nodes n = true → destroy_in_loop fuel g (nty_id_index n) = some g' →
    GraphInv g' ∧ EdgeOpFrame g g' ∧
      edge_list g' = (edge_list g).filter (fun x => !decide ((edge_rec g x).to_ = n)) ∧
      ∀ x ∈ edge_list g', SamePayload (edge_rec g x) (edge_rec g' x)
  | 0, _, _, _, _, hl => by cases hl
  | fuel + 1, g, g', h, hn, hl => by
    unfold destroy_in_loop at hl
    have hh := h.in_head n hn
    unfold node_rec at hh
    by_cases h0 : (g.nodes.data (nty_id_index n)).in_head = 0
    · simp only [h0, ne_eq, not_true_eq_false, if_false, Option.some.injEq] at hl
      subst hl
      refine ⟨h, edgeOpFrame_refl g, ?_, fun x _ => samePayload_refl _⟩
      rw [hh, headD_eq_zero_iff _ (zero_not_mem_in_list h n)] at h0
      symm
      rw [List.filter_eq_self]
      intro x hx
      have : x ∉ in_list g n := by rw [h0]; exact List.not_mem_nil x
      rw [mem_in_list h] at this
      have hxl := (edge_list_mem h x).1 hx
      simp only [Bool.not_eq_true', decide_eq_false_iff_not]
      exact fun e1 => this ⟨hxl, e1⟩
    · simp only [ne_eq, h0, not_false_eq_true, if_true] at hl
      have hm : (g.nodes.data (nty_id_index n)).in_head ∈ in_list g n := by
        rcases headD_mem_or (in_list g n) with h1 | h1
        · rw [← hh] at h1; exact absurd h1 h0
        · rw [← hh] at h1; exact h1
      obtain ⟨he, hfe⟩ := (mem_in_list h _ n).1 hm
      have h1 := edge_destroy_inv h (g.nodes.data (nty_id_index n)).in_head
      have hn1 : nty_slab_exists
          (nty_edge_destroy g (g.nodes.data (nty_id_index n)).in_head).2.nodes n = true := by
        rw [edge_destroy_exists_nodes _ he]; exact hn
      obtain ⟨i1, i2, i3, i4⟩ := destroy_in_loop_spec n fuel _ g' h1 hn1 hl
      have hmem1 : ∀ x, x ∈ edge_list
          (nty_edge_destroy g (g.nodes.data (nty_id_index n)).in_head).2 →
          nty_slab_exists g.edges x = true ∧ x ≠ (g.nodes.data (nty_id_index n)).in_head := by
        intro x hx
        rw [edge_list_mem h1, edge_destroy_exists_edges _ he] at hx
        exact hx
      have hl1 : edge_list g' =
          (edge_list g).filter (fun x => !decide ((edge_rec g x).to_ = n)) := by
        rw [i3]
        have : List.filter (fun x => !decide ((edge_rec
            (nty_edge_destroy g (g.nodes.data (nty_id_index n)).in_head).2 x).to_ = n))
            (edge_list (nty_edge_destroy g (g.nodes.data (nty_id_index n)).in_head).2) =
            List.filter (fun x => !decide ((edge_rec g x).to_ = n))
            (edge_list (nty_edge_destroy g (g.nodes.data (nty_id_index n)).in_head).2) := by
          apply List.filter_congr
          intro x hx
          obtain ⟨hx1, hx2⟩ := hmem1 x hx
          rw [(edge_destroy_payload h _ he x hx1 hx2).2.2.1]
        rw [this, edge_destroy_edge_list _ he]
        apply erase_of_filter_false
        simp [hfe]
      refine ⟨i1, edgeOpFrame_trans (edge_destroy_frame g _) i2, hl1, ?_⟩
      intro x hx
      have hx1 : x ∈ edge_list (nty_edge_destroy g (g.nodes.data (nty_id_index n)).in_head).2 := by
        rw [i3] at hx
        exact (List.mem_filter.1 hx).1
      obtain ⟨hx2, hx3⟩ := hmem1 x hx1
      exact samePayload_trans (edge_destroy_payload h _ he x hx2 hx3) (i4 x hx)

/-- The in-list loop of `nty_node_destroy` finishes within one more iteration than the list
has entries. -/
theorem destroy_in_loop_terminates (n : Nat) : ∀ (fuel : Nat) (g : nty_graph_t), GraphInv g →
    nty_slab_exists g.nodes n = true → (in_list g n).length < fuel →
    ∃ g', destroy_in_loop fuel g (nty_id_index n) = some g'
  | 0, _, _, _, hl => by cases hl
  | fuel + 1, g, h, hn, hl => by
    unfold destroy_in_loop
    have hh := h.in_head n hn
    unfold node_rec at hh
    by_cases h0 : (g.nodes.data (nty_id_index n)).in_head = 0
    · exact ⟨g, by simp [h0]⟩
    · simp only [ne_eq, h0, not_false_eq_true, if_true]
      have hm : (g.nodes.data (nty_id_index n)).in_head ∈ in_list g n := by
        rcases headD_mem_or (in_list g n) with h1 | h1
        · rw [← hh] at h1; exact absurd h1 h0
        · rw [← hh] at h1; exact h1
      obtain ⟨he, hfe⟩ := (mem_in_list h _ n).1 hm
      have h1 := edge_destroy_inv h (g.nodes.data (nty_id_index n)).in_head
      have hn1 : nty_slab_exists
          (nty_edge_destroy g (g.nodes.data (nty_id_index n)).in_head).2.nodes n = true := by
        rw [edge_destroy_exists_nodes _ he]; exact hn
      apply destroy_in_loop_terminates n fuel _ h1 hn1
      rw [edge_destroy_in_list h _ he, List.length_erase_of_mem hm]
      have : 0 < (in_list g n).length := List.length_pos_of_mem hm
      omega

theorem node_destroy_absent (fuel : Nat) (g : nty_graph_t) (n : Nat)
    (hn : nty_slab_exists g.nodes n = false) : nty_node_destroy fuel g n = some (false, g) := by
  unfold nty_node_destroy
  simp only [nty_graph_get_node, get_eq_none _ _ hn]

/-- Shape of a finished `nty_node_destroy` on a live node. -/
theorem node_destroy_form (fuel : Nat) (g : nty_graph_t) (n : Nat) (r : Bool × nty_graph_t)
    (hn : nty_slab_exists g.nodes n = true) (hr : nty_node_destroy fuel g n = some r) :
    ∃ g1 g2, destroy_out_loop fuel g (nty_id_index n) = some g1 ∧
      destroy_in_loop fuel g1 (nty_id_index n) = some g2 ∧
      r = ((nty_slab_free g2.nodes n).1,
        if (nty_slab_free g2.nodes n).1 = false then
          { g2 with nodes := (nty_slab_free g2.nodes n).2 }
        else
          { g2 with
            nodes := (nty_slab_free g2.nodes n).2
            node_order := (nty_order_remove g2.node_order g2.node_order_len n).1
            node_order_len := (nty_order_remove g2.node_order g2.node_order_len n).2 }) := by
  unfold nty_node_destroy at hr
  simp only [nty_graph_get_node, get_eq_some _ _ hn] at hr
  cases h1 : destroy_out_loop fuel g (nty_id_index n) with
  | none => rw [h1] at hr; cases hr
  | some g1 =>
    rw [h1] at hr
    simp only at hr
    cases h2 : destroy_in_loop fuel g1 (nty_id_index n) with
    | none => rw [h2] at hr; cases hr
    | some g2 =>
      rw [h2] at hr
      simp only at hr
      refine ⟨g1, g2, rfl, h2, ?_⟩
      cases h3 : (nty_slab_free g2.nodes n).1
      · simp only [h3, if_true, Option.some.injEq] at hr
        rw [← hr]; simp
      · simp only [h3, Bool.true_eq_false, if_false, Option.some.injEq] at hr
        rw [← hr]; simp

/-- After both cascade loops no recorded edge touches the node. -/
theorem cascade_edges {g g1 g2 : nty_graph_t} (n : Nat) (fuel : Nat) (h : GraphInv g)
    (hn : nty_slab_exists g.nodes n = true)
    (h1 : destroy_out_loop fuel g (nty_id_index n) = some g1)
    (h2 : destroy_in_loop fuel g1 (nty_id_index n) = some g2) :
    GraphInv g2 ∧ EdgeOpFrame g g2 ∧
      edge_list g2 = (edge_list g).filter
        (fun x => !decide ((edge_rec g x).from_ = n) && !decide ((edge_rec g x).to_ = n)) ∧
      (∀ x ∈ edge_list g2, SamePayload (edge_rec g x) (edge_rec g2 x)) ∧
      (∀ x ∈ edge_list g2, (edge_rec g2 x).from_ ≠ n ∧ (edge_rec g2 x).to_ ≠ n) := by
  obtain ⟨a1, a2, a3, a4⟩ := destroy_out_loop_spec n fuel g g1 h hn h1
  have hn1 : nty_slab_exists g1.nodes n = true := by
    rw [edgeOpFrame_exists_nodes a2]; exact hn
  obtain ⟨b1, b2, b3, b4⟩ := destroy_in_loop_spec n fuel g1 g2 a1 hn1 h2
  have hl : edge_list g2 = (edge_list g).filter
      (fun x => !decide ((edge_rec g x).from_ = n) && !decide ((edge_rec g x).to_ = n)) := by
    rw [b3]
    have : List.filter (fun x => !decide ((edge_rec g1 x).to_ = n)) (edge_list g1) =
        List.filter (fun x => !decide ((edge_rec g x).to_ = n)) (edge_list g1) := by
      apply List.filter_congr
      intro x hx
      rw [(a4 x hx).2.2.1]
    rw [this, a3, List.filter_filter]
    apply List.filter_congr
    intro x _
    exact Bool.and_comm _ _
  have hp : ∀ x ∈ edge_list g2, SamePayload (edge_rec g x) (edge_rec g2 x) := by
    intro x hx
    have hx1 : x ∈ edge_list g1 := by
      rw [b3] at hx; exact (List.mem_filter.1 hx).1
    exact samePayload_trans (a4 x hx1) (b4 x hx)
  refine ⟨b1, edgeOpFrame_trans a2 b2, hl, hp, ?_⟩
  intro x hx
  have hx' := hx
  rw [hl, List.mem_filter] at hx'
  have hc := hx'.2
  simp only [Bool.and_eq_true, Bool.not_eq_true', decide_eq_false_iff_not] at hc
  rw [(hp x hx).2.1, (hp x hx).2.2.1]
  exact hc

/-- Freeing a node that no recorded edge touches keeps the store invariant. -/
theorem node_free_inv {g : nty_graph_t} (h : GraphInv g) (n : Nat)
    (hn : nty_slab_exists g.nodes n = true)
    (hno : ∀ x ∈ edge_list g, (edge_rec g x).from_ ≠ n ∧ (edge_rec g x).to_ ≠ n) :
    GraphInv
      { g with
        nodes := (nty_slab_free g.nodes n).2
        node_order := (nty_order_remove g.node_order g.node_order_len n).1
        node_order_len := (nty_order_remove g.node_order g.node_order_len n).2 } := by
  have hx : ∀ m, nty_slab_exists (nty_slab_free g.nodes n).2 m = true ↔
      (nty_slab_exists g.nodes m = true ∧ m ≠ n) := free_exists_iff g.nodes n hn
  have hrec : ∀ m, nty_slab_exists g.nodes m = true → m ≠ n →
      (nty_slab_free g.nodes n).2.data (nty_id_index m) = node_rec g m := by
    intro m hm hmn
    have hi : nty_id_index m ≠ nty_id_index n := fun e => hmn (exists_inj _ _ _ hm hn e)
    rw [(free_ok g.nodes h.nodes_inv n hn).2.1, Function.update_noteq hi]
    rfl
  refine
    { nodes_inv := free_inv g.nodes h.nodes_inv n
      edges_inv := h.edges_inv
      props_inv := h.props_inv
      node_order_inv := orderInv_free h.nodes_inv h.node_order_inv n hn _
      edge_order_inv := h.edge_order_inv
      prop_order_inv := h.prop_order_inv
      node_id := ?_
      prop_id := h.prop_id
      edge_id := h.edge_id
      edge_from := ?_
      edge_to := ?_
      out_head := ?_
      out_tail := ?_
      in_head := ?_
      in_tail := ?_
      out_prev := h.out_prev
      out_next := h.out_next
      in_prev := h.in_prev
      in_next := h.in_next }
  · intro m hm
    obtain ⟨h1, h2⟩ := (hx m).1 hm
    show ((nty_slab_free g.nodes n).2.data (nty_id_index m)).id = m
    rw [hrec m h1 h2]; exact h.node_id m h1
  · intro x hxe
    have hxe' : nty_slab_exists g.edges x = true := hxe
    show nty_slab_exists (nty_slab_free g.nodes n).2 (edge_rec g x).from_ = true
    rw [hx]
    exact ⟨h.edge_from x hxe', (hno x ((edge_list_mem h x).2 hxe')).1⟩
  · intro x hxe
    have hxe' : nty_slab_exists g.edges x = true := hxe
    show nty_slab_exists (nty_slab_free g.nodes n).2 (edge_rec g x).to_ = true
    rw [hx]
    exact ⟨h.edge_to x hxe', (hno x ((edge_list_mem h x).2 hxe')).2⟩
  · intro m hm
    obtain ⟨h1, h2⟩ := (hx m).1 hm
    show ((nty_slab_free g.nodes n).2.data (nty_id_index m)).out_head = (out_list g m).headD 0
    rw [hrec m h1 h2]; exact h.out_head m h1
  · intro m hm
    obtain ⟨h1, h2⟩ := (hx m).1 hm
    show ((nty_slab_free g.nodes n).2.data (nty_id_index m)).out_tail =
      (out_list g m).getLastD 0
    rw [hrec m h1 h2]; exact h.out_tail m h1
  · intro m hm
    obtain ⟨h1, h2⟩ := (hx m).1 hm
    show ((nty_slab_free g.nodes n).2.data (nty_id_index m)).in_head = (in_list g m).headD 0
    rw [hrec m h1 h2]; exact h.in_head m h1
  · intro m hm
    obtain ⟨h1, h2⟩ := (hx m).1 hm
    show ((nty_slab_free g.nodes n).2.data (nty_id_index m)).in_tail =
      (in_list g m).getLastD 0
    rw [hrec m h1 h2]; exact h.in_tail m h1

/-- Full description of a finished `nty_node_destroy` on a live node. -/
theorem node_destroy_spec {g : nty_graph_t} (h : GraphInv g) (fuel n : Nat)
    (r : Bool × nty_graph_t) (hn : nty_slab_exists g.nodes n = true)
    (hr : nty_node_destroy fuel g n = some r) :
    ∃ g2, GraphInv g2 ∧ EdgeOpFrame g g2 ∧
      edge_list g2 = (edge_list g).filter
        (fun x => !decide ((edge_rec g x).from_ = n) && !decide ((edge_rec g x).to_ = n)) ∧
      (∀ x ∈ edge_list g2, SamePayload (edge_rec g x) (edge_rec g2 x)) ∧
      (∀ x ∈ edge_list g2, (edge_rec g2 x).from_ ≠ n ∧ (edge_rec g2 x).to_ ≠ n) ∧
      r = (true,
        { g2 with
          nodes := (nty_slab_free g2.nodes n).2
          node_order := (nty_order_remove g2.node_order g2.node_order_len n).1
          node_order_len := (nty_order_remove g2.node_order g2.node_order_len n).2 }) := by
  obtain ⟨g1, g2, h1, h2, h3⟩ := node_destroy_form fuel g n r hn hr
  obtain ⟨c1, c2, c3, c4, c5⟩ := cascade_edges n fuel h hn h1 h2
  refine ⟨g2, c1, c2, c3, c4, c5, ?_⟩
  have hn2 : nty_slab_exists g2.nodes n = true := by
    rw [edgeOpFrame_exists_nodes c2]; exact hn
  have hf : (nty_slab_free g2.nodes n).1 = true := by rw [free_fst]; exact hn2
  rw [h3, hf]
  simp

/-- The store invariant survives `nty_node_destroy`. -/
theorem node_destroy_inv {g : nty_graph_t} (h : GraphInv g) (fuel n : Nat)
    (r : Bool × nty_graph_t) (hr : nty_node_destroy fuel g n = some r) : GraphInv r.2 := by
  cases hn : nty_slab_exists g.nodes n
  · rw [node_destroy_absent fuel g n hn] at hr
    cases hr; exact h
  · obtain ⟨g2, c1, c2, -, -, c5, c6⟩ := node_destroy_spec h fuel n r hn hr
    have hn2 : nty_slab_exists g2.nodes n = true := by
      rw [edgeOpFrame_exists_nodes c2]; exact hn
    rw [c6]
    exact node_free_inv c1 n hn2 c5

/-- Enough fuel makes `nty_node_destroy` return. -/
theorem node_destroy_terminates {g : nty_graph_t} (h : GraphInv g) (fuel n : Nat)
    (h1 : (out_list g n).length < fuel) (h2 : (in_list g n).length < fuel) :
    ∃ r, nty_node_destroy fuel g n = some r := by
  cases hn : nty_slab_exists g.nodes n
  · exact ⟨_, node_destroy_absent fuel g n hn⟩
  · obtain ⟨g1, hg1⟩ := destroy_out_loop_terminates n fuel g h hn h1
    obtain ⟨a1, a2, a3, a4⟩ := destroy_out_loop_spec n fuel g g1 h hn hg1
    have hn1 : nty_slab_exists g1.nodes n = true := by
      rw [edgeOpFrame_exists_nodes a2]; exact hn
    have hlen : (in_list g1 n).length ≤ (in_list g n).length := by
      have : in_list g1 n = (in_list g n).filter
          (fun x => !decide ((edge_rec g x).from_ = n)) := by
        unfold in_list
        have e1 : List.filter (fun e => decide ((edge_rec g1 e).to_ = n)) (edge_list g1) =
            List.filter (fun e => decide ((edge_rec g e).to_ = n)) (edge_list g1) := by
          apply List.filter_congr
          intro x hx
          rw [(a4 x hx).2.2.1]
        rw [e1, a3, List.filter_filter, List.filter_filter]
        apply List.filter_congr
        intro x _
        exact Bool.and_comm _ _
      rw [this]
      exact List.length_filter_le _ _
    obtain ⟨g2, hg2⟩ := destroy_in_loop_terminates n fuel g1 a1 hn1 (by omega)
    unfold nty_node_destroy
    simp only [nty_graph_get_node, get_eq_some _ _ hn, hg1, hg2]
    split
    · exact ⟨_, rfl⟩
    · exact ⟨_, rfl⟩

/-- Every reachable store satisfies the store invariant. -/
theorem reachable_inv {g : nty_graph_t} (hr : Reachable g) : GraphInv g := by
  induction hr with
  | init nc ec pc g h => exact graph_create_inv nc ec pc g h
  | step g g' _ hs ih =>
    cases hs with
    | node_create => exact node_create_inv ih
    | node_destroy fuel id r hr => exact node_destroy_inv ih fuel id r hr
    | edge_create f t ty w ts => exact edge_create_inv ih f t ty w ts
    | edge_destroy id => exact edge_destroy_inv ih id
    | property_create o k v => exact prop_create_inv ih o k v
    | property_destroy id => exact prop_destroy_inv ih id

/-! ## Iteration -/

theorem iter_collect_filter {α : Type} [Zero α] (s : nty_slab_t α) (o : Nat → Nat) (len : Nat) :
    ∀ (n i fuel : Nat), len = i + n → n < fuel →
      iter_collect (fun it => iter_next_loop s o (len - it) it) fuel i =
        (order_seg o i n).filter (fun x => nty_slab_exists s x)
  | 0, i, fuel, hl, hf => by
    obtain ⟨f, rfl⟩ : ∃ f, fuel = f + 1 := ⟨fuel - 1, by omega⟩
    have : len - i = 0 := by omega
    simp [iter_collect, this, iter_next_loop, order_seg]
  | n + 1, i, fuel, hl, hf => by
    obtain ⟨f, rfl⟩ : ∃ f, fuel = f + 1 := ⟨fuel - 1, by omega⟩
    have h1 : len - i = n + 1 := by omega
    have h2 : len - (i + 1) = n := by omega
    rw [order_seg_succ]
    cases hx : nty_slab_exists s (o i)
    · have ih := iter_collect_filter s o len n (i + 1) (f + 1) (by omega) (by omega)
      rw [List.filter_cons_of_neg (by simp [hx]), ← ih]
      simp only [iter_collect, h1, h2, iter_next_loop, hx]
      rfl
    · have ih := iter_collect_filter s o len n (i + 1) f (by omega) (by omega)
      rw [List.filter_cons_of_pos (by simp [hx]), ← ih]
      simp only [iter_collect, h1, iter_next_loop, hx, if_true]

theorem iteration_eq_order_list {α : Type} [Zero α] {s : nty_slab_t α} {o : Nat → Nat}
    {len cap : Nat} (h : OrderInv s o len cap) :
    iter_collect (fun it => iter_next_loop s o (len - it) it) (len + 1) 0 = order_list o len := by
  rw [iter_collect_filter s o len len 0 (len + 1) (by omega) (by omega)]
  unfold order_list
  rw [List.filter_eq_self]
  intro x hx
  exact (h.mem_iff x).1 hx

theorem node_iteration_eq {g : nty_graph_t} (h : GraphInv g) :
    node_iteration g = order_list g.node_order g.node_order_len :=
  iteration_eq_order_list h.node_order_inv

theorem edge_iteration_eq {g : nty_graph_t} (h : GraphInv g) :
    edge_iteration g = edge_list g :=
  iteration_eq_order_list h.edge_order_inv

theorem property_iteration_eq {g : nty_graph_t} (h : GraphInv g) :
    property_iteration g = order_list g.property_order g.property_order_len :=
  iteration_eq_order_list h.prop_order_inv

theorem next_in_append_mid (pre rest : List Nat) (x : Nat)
    (hnd : (pre ++ x :: rest).Nodup) : next_in (pre ++ x :: rest) x = rest.headD 0 := by
  induction pre with
  | nil => simp [next_in]
  | cons a as ih =>
    have hc := List.nodup_cons.mp hnd
    have hne : ¬a = x := by
      intro e
      apply hc.1
      rw [e]
      simp
    simp only [List.cons_append, next_in, hne, if_false]
    exact ih hc.2

theorem out_walk_suffix {g : nty_graph_t} (h : GraphInv g) (n : Nat) :
    ∀ (rest pre : List Nat) (fuel : Nat), out_list g n = pre ++ rest → rest.length < fuel →
      neighbor_collect g fuel { current := rest.headD 0, outgoing := true } = rest
  | [], _, fuel, _, hf => by
    obtain ⟨f, rfl⟩ : ∃ f, fuel = f + 1 := ⟨fuel - 1, by omega⟩
    simp [neighbor_collect, nty_neighbor_iter_next]
  | x :: rs, pre, fuel, hl, hf => by
    obtain ⟨f, rfl⟩ : ∃ f, fuel = f + 1 := ⟨fuel - 1, by omega⟩
    have hxm : x ∈ out_list g n := by rw [hl]; simp
    obtain ⟨hx, hfx⟩ := (mem_out_list h x n).1 hxm
    have hx0 : x ≠ 0 := live_ne_zero _ _ hx
    have hnext : (g.edges.data (nty_id_index x)).out_next = rs.headD 0 := by
      have h1 := h.out_next x hx
      rw [hfx, hl, next_in_append_mid pre rs x (by rw [← hl]; exact out_list_nodup h n)] at h1
      exact h1
    have ih := out_walk_suffix h n rs (pre ++ [x]) f (by rw [hl]; simp)
      (by simp only [List.length_cons] at hf; omega)
    simp only [neighbor_collect, nty_neighbor_iter_next, List.headD_cons, hx0, if_false,
      nty_graph_get_edge, get_eq_some _ _ hx]
    simp only [hnext, if_true]
    rw [ih]

/-- Walking the out-list of a live node visits exactly the recorded edges attached to it. -/
theorem out_walk_eq {g : nty_graph_t} (h : GraphInv g) (n : Nat)
    (hn : nty_slab_exists g.nodes n = true) (fuel : Nat) (hf : (out_list g n).length < fuel) :
    neighbor_collect g fuel (nty_node_out_edges g n) = out_list g n := by
  have h1 : nty_node_out_edges g n =
      { current := (out_list g n).headD 0, outgoing := true } := by
    unfold nty_node_out_edges
    simp only [nty_graph_get_node_const, get_eq_some _ _ hn]
    rw [← h.out_head n hn]
    rfl
  rw [h1]
  exact out_walk_suffix h n (out_list g n) [] fuel rfl hf

theorem out_list_length_le {g : nty_graph_t} (h : GraphInv g) (n : Nat) :
    (out_list g n).length ≤ g.edges.count := by
  have h1 : (edge_list g).length = g.edge_order_len := order_list_length _ _
  have h2 := h.edge_order_inv.len_eq
  have h3 : (out_list g n).length ≤ (edge_list g).length := List.length_filter_le _ _
  omega

theorem in_walk_suffix {g : nty_graph_t} (h : GraphInv g) (n : Nat) :
    ∀ (rest pre : List Nat) (fuel : Nat), in_list g n = pre ++ rest → rest.length < fuel →
      neighbor_collect g fuel { current := rest.headD 0, outgoing := false } = rest
  | [], _, fuel, _, hf => by
    obtain ⟨f, rfl⟩ : ∃ f, fuel = f + 1 := ⟨fuel - 1, by omega⟩
    simp [neighbor_collect, nty_neighbor_iter_next]
  | x :: rs, pre, fuel, hl, hf => by
    obtain ⟨f, rfl⟩ : ∃ f, fuel = f + 1 := ⟨fuel - 1, by omega⟩
    have hxm : x ∈ in_list g n := by rw [hl]; simp
    obtain ⟨hx, hfx⟩ := (mem_in_list h x n).1 hxm
    have hx0 : x ≠ 0 := live_ne_zero _ _ hx
    have hnext : (g.edges.data (nty_id_index x)).in_next = rs.headD 0 := by
      have h1 := h.in_next x hx
      rw [hfx, hl, next_in_append_mid pre rs x (by rw [← hl]; exact in_list_nodup h n)] at h1
      exact h1
    have ih := in_walk_suffix h n rs (pre ++ [x]) f (by rw [hl]; simp)
      (by simp only [List.length_cons] at hf; omega)
    simp only [neighbor_collect, nty_neighbor_iter_next, List.headD_cons, hx0, if_false,
      nty_graph_get_edge, get_eq_some _ _ hx]
    simp only [hnext, Bool.false_eq_true, if_false]
    rw [ih]

/-- Walking the in-list of a live node visits exactly the recorded edges attached to it. -/
theorem in_walk_eq {g : nty_graph_t} (h : GraphInv g) (n : Nat)
    (hn : nty_slab_exists g.nodes n = true) (fuel : Nat) (hf : (in_list g n).length < fuel) :
    neighbor_collect g fuel (nty_node_in_edges g n) = in_list g n := by
  have h1 : nty_node_in_edges g n =
      { current := (in_list g n).headD 0, outgoing := false } := by
    unfold nty_node_in_edges
    simp only [nty_graph_get_node_const, get_eq_some _ _ hn]
    rw [← h.in_head n hn]
    rfl
  rw [h1]
  exact in_walk_suffix h n (in_list g n) [] fuel rfl hf

theorem in_list_length_le {g : nty_graph_t} (h : GraphInv g) (n : Nat) :
    (in_list g n).length ≤ g.edges.count := by
  have h1 : (edge_list g).length = g.edge_order_len := order_list_length _ _
  have h2 := h.edge_order_inv.len_eq
  have h3 : (in_list g n).length ≤ (edge_list g).length := List.length_filter_le _ _
  omega

/-! ## Facts shared by the claims -/

theorem edge_get_eq {g : nty_graph_t} (e : Nat) (he : nty_slab_exists g.edges e = true) :
    nty_edge_get g e = some (edge_rec g e) := by
  unfold nty_edge_get
  rw [get_eq_some _ _ he]
  rfl

theorem edge_get_none {g : nty_graph_t} (e : Nat) (he : nty_slab_exists g.edges e = false) :
    nty_edge_get g e = none := by
  unfold nty_edge_get
  rw [get_eq_none _ _ he]
  rfl

theorem edge_get_some_iff {g : nty_graph_t} (e : Nat) (r : nty_edge_t) :
    nty_edge_get g e = some r ↔ (nty_slab_exists g.edges e = true ∧ edge_rec g e = r) := by
  cases he : nty_slab_exists g.edges e
  · rw [edge_get_none e he]; simp
  · rw [edge_get_eq e he]; simp

theorem edge_from_id_eq_some {g : nty_graph_t} (e n : Nat) :
    edge_from_id g e = some n ↔ (nty_slab_exists g.edges e = true ∧ (edge_rec g e).from_ = n) := by
  unfold edge_from_id
  cases he : nty_slab_exists g.edges e
  · rw [edge_get_none e he]; simp
  · rw [edge_get_eq e he]; simp

theorem edge_to_id_eq_some {g : nty_graph_t} (e n : Nat) :
    edge_to_id g e = some n ↔ (nty_slab_exists g.edges e = true ∧ (edge_rec g e).to_ = n) := by
  unfold edge_to_id
  cases he : nty_slab_exists g.edges e
  · rw [edge_get_none e he]; simp
  · rw [edge_get_eq e he]; simp

theorem out_list_eq_filter_from {g : nty_graph_t} (h : GraphInv g) (n : Nat) :
    out_list g n = (edge_list g).filter (fun e => decide (edge_from_id g e = some n)) := by
  unfold out_list
  apply List.filter_congr
  intro x hx
  have hxl := (edge_list_mem h x).1 hx
  have := edge_from_id_eq_some (g := g) x n
  simp only [hxl, true_and] at this
  simp only [this]

theorem in_list_eq_filter_to {g : nty_graph_t} (h : GraphInv g) (n : Nat) :
    in_list g n = (edge_list g).filter (fun e => decide (edge_to_id g e = some n)) := by
  unfold in_list
  apply List.filter_congr
  intro x hx
  have hxl := (edge_list_mem h x).1 hx
  have := edge_to_id_eq_some (g := g) x n
  simp only [hxl, true_and] at this
  simp only [this]

theorem edge_count_eq_length {g : nty_graph_t} (h : GraphInv g) :
    g.edges.count = (edge_list g).length := by
  have h1 : (edge_list g).length = g.edge_order_len := order_list_length _ _
  have h2 := h.edge_order_inv.len_eq
  omega

/-- Enough fuel: a finished `nty_node_destroy` on a live node, with everything known about
the store it leaves. -/
theorem node_destroy_total {g : nty_graph_t} (h : GraphInv g) (fuel n : Nat)
    (hn : nty_slab_exists g.nodes n = true) (hf : g.edges.count < fuel) :
    ∃ g2, GraphInv g2 ∧ EdgeOpFrame g g2 ∧
      edge_list g2 = (edge_list g).filter
        (fun x => !decide ((edge_rec g x).from_ = n) && !decide ((edge_rec g x).to_ = n)) ∧
      (∀ x ∈ edge_list g2, SamePayload (edge_rec g x) (edge_rec g2 x)) ∧
      (∀ x ∈ edge_list g2, (edge_rec g2 x).from_ ≠ n ∧ (edge_rec g2 x).to_ ≠ n) ∧
      nty_node_destroy fuel g n = some (true,
        { g2 with
          nodes := (nty_slab_free g2.nodes n).2
          node_order := (nty_order_remove g2.node_order g2.node_order_len n).1
          node_order_len := (nty_order_remove g2.node_order g2.node_order_len n).2 }) := by
  have h1 := out_list_length_le h n
  have h2 := in_list_length_le h n
  obtain ⟨r, hr⟩ := node_destroy_terminates h fuel n (by omega) (by omega)
  obtain ⟨g2, c1, c2, c3, c4, c5, c6⟩ := node_destroy_spec h fuel n r hn hr
  exact ⟨g2, c1, c2, c3, c4, c5, by rw [hr, c6]⟩

theorem filter_partition_length (p q : Nat → Bool) (l : List Nat) :
    (l.filter (fun x => !p x && !q x)).length +
      ((l.filter p).length + ((l.filter q).filter (fun x => !p x)).length) = l.length := by
  induction l with
  | nil => rfl
  | cons a as ih =>
    cases hp : p a <;> cases hq : q a <;>
      simp only [List.filter_cons, hp, hq, Bool.not_true, Bool.not_false, Bool.and_true,
        Bool.and_false, Bool.false_and, Bool.true_and, if_true, if_false, List.length_cons,
        Bool.false_eq_true] <;> omega

theorem ex_g1_reachable : Reachable ex_g1 :=
  Reachable.step _ _ (Reachable.init 8 8 8 ex_g0 rfl) (Step.node_create ex_g0)

theorem ex_g3_reachable : Reachable ex_g3 :=
  Reachable.step _ _ (Reachable.step _ _ ex_g1_reachable (Step.node_create ex_g1))
    (Step.node_create ex_g2)

theorem ex_g5_reachable : Reachable ex_g5 :=
  Reachable.step _ _
    (Reachable.step _ _ ex_g3_reachable
      (Step.edge_create ex_g3 ex_a ex_b 1 4602678819172646912 10))
    (Step.edge_create ex_g4 ex_a ex_c 2 4607182418800017408 20)

theorem ex_loop_reachable : Reachable ex_loop :=
  Reachable.step _ _ ex_g1_reachable (Step.edge_create ex_g1 ex_a ex_a 1 0 0)

/-! ## Claims -/

/-- C1. Referential integrity: in every state reachable from a freshly created graph by the
six public mutating calls, every existing edge can be read with `nty_edge_get`, and the
`from` and `to` it records both satisfy `nty_node_exists`. -/
theorem C1_referential_integrity (g : nty_graph_t) (hr : Reachable g) (e : Nat)
    (he : nty_edge_exists g e = true) :
    ∃ r, nty_edge_get g e = some r ∧ nty_node_exists g r.from_ = true ∧
      nty_node_exists g r.to_ = true := by
  have h := reachable_inv hr
  exact ⟨edge_rec g e, edge_get_eq e he, h.edge_from e he, h.edge_to e he⟩

/-- Witness for C1: the edge `a -> c` of the example store. -/
theorem C1_referential_integrity_witness :
    Reachable ex_g5 ∧ nty_edge_exists ex_g5 ex_b = true ∧
      ∃ r, nty_edge_get ex_g5 ex_b = some r ∧ nty_node_exists ex_g5 r.from_ = true ∧
        nty_node_exists ex_g5 r.to_ = true :=
  ⟨ex_g5_reachable, by decide,
    C1_referential_integrity ex_g5 ex_g5_reachable ex_b (by decide)⟩

/-- C2. Cascade precision (set): for a reachable state and an existing node `N`, with fuel
above the live edge count `nty_node_destroy(N)` returns `true`, and afterwards an edge
identifier exists if and only if it existed before with neither `from` nor `to` equal to
`N`. -/
theorem C2_cascade_set (g : nty_graph_t) (hr : Reachable g) (N fuel : Nat)
    (hN : nty_node_exists g N = true) (hf : nty_graph_edge_count g < fuel) :
    ∃ g', nty_node_destroy fuel g N = some (true, g') ∧
      ∀ e, nty_edge_exists g' e = true ↔
        ∃ r, nty_edge_get g e = some r ∧ r.from_ ≠ N ∧ r.to_ ≠ N := by
  have h := reachable_inv hr
  obtain ⟨g2, c1, _, c3, _, _, c6⟩ := node_destroy_total h fuel N hN hf
  refine ⟨_, c6, ?_⟩
  intro e
  show nty_slab_exists g2.edges e = true ↔ _
  rw [← edge_list_mem c1, c3, List.mem_filter, edge_list_mem h]
  simp only [Bool.and_eq_true, Bool.not_eq_true', decide_eq_false_iff_not]
  constructor
  · rintro ⟨h1, h2, h3⟩
    exact ⟨edge_rec g e, edge_get_eq e h1, h2, h3⟩
  · rintro ⟨r, h1, h2, h3⟩
    obtain ⟨h4, h5⟩ := (edge_get_some_iff e r).1 h1
    rw [h5]
    exact ⟨h4, h2, h3⟩

/-- Witness for C2: destroying node `a` of the example store. -/
theorem C2_cascade_set_witness :
    Reachable ex_g5 ∧ nty_node_exists ex_g5 ex_a = true ∧ nty_graph_edge_count ex_g5 < 3 ∧
      ∃ g', nty_node_destroy 3 ex_g5 ex_a = some (true, g') ∧
        ∀ e, nty_edge_exists g' e = true ↔
          ∃ r, nty_edge_get ex_g5 e = some r ∧ r.from_ ≠ ex_a ∧ r.to_ ≠ ex_a :=
  ⟨ex_g5_reachable, by decide, by decide,
    C2_cascade_set ex_g5 ex_g5_reachable ex_a 3 (by decide) (by decide)⟩

/-- C3, as stated, fails on a self-loop: the store holds one node `a` and one edge `a -> a`;
the outgoing walk and the incoming walk of `a` each yield that edge, so the total degree is
2, while destroying `a` lowers the edge count from 1 to 0. -/
theorem C3_cascade_count_counterexample :
    Reachable ex_loop ∧ nty_node_exists ex_loop ex_a = true ∧
      neighbor_collect ex_loop 2 (nty_node_out_edges ex_loop ex_a) = [ex_a] ∧
      neighbor_collect ex_loop 2 (nty_node_in_edges ex_loop ex_a) = [ex_a] ∧
      nty_graph_edge_count ex_loop = 1 ∧
      (nty_node_destroy 2 ex_loop ex_a).map (fun r => (r.1, nty_graph_edge_count r.2)) =
        some (true, 0) ∧
      ¬((nty_node_destroy 2 ex_loop ex_a).map (fun r => nty_graph_edge_count r.2 +
          ((neighbor_collect ex_loop 2 (nty_node_out_edges ex_loop ex_a)).length +
            (neighbor_collect ex_loop 2 (nty_node_in_edges ex_loop ex_a)).length)) =
        some (nty_graph_edge_count ex_loop)) :=
  ⟨ex_loop_reachable, by decide, by decide, by decide, by decide, by decide, by decide⟩

/-- C3, amended. Cascade precision (count): for a reachable state and an existing node `N`,
a successful `nty_node_destroy(N)` lowers `nty_graph_edge_count` by the number of edges in
`N`'s outgoing list plus the number of edges in `N`'s incoming list whose `from` is not `N`
(a self-loop sits in both lists and is removed once). -/
theorem C3_cascade_count (g : nty_graph_t) (hr : Reachable g) (N fuel : Nat)
    (hN : nty_node_exists g N = true) (hf : nty_graph_edge_count g < fuel) :
    ∃ g', nty_node_destroy fuel g N = some (true, g') ∧
      nty_graph_edge_count g' +
        ((neighbor_collect g fuel (nty_node_out_edges g N)).length +
          ((neighbor_collect g fuel (nty_node_in_edges g N)).filter
            (fun e => !decide (edge_from_id g e = some N))).length) =
        nty_graph_edge_count g := by
  have h := reachable_inv hr
  have hf' : g.edges.count < fuel := hf
  obtain ⟨g2, c1, _, c3, _, _, c6⟩ := node_destroy_total h fuel N hN hf
  refine ⟨_, c6, ?_⟩
  have ho := out_list_length_le h N
  have hi := in_list_length_le h N
  rw [out_walk_eq h N hN fuel (by omega), in_walk_eq h N hN fuel (by omega)]
  show g2.edges.count + _ = g.edges.count
  rw [edge_count_eq_length c1, edge_count_eq_length h, c3]
  have hin : (in_list g N).filter (fun e => !decide (edge_from_id g e = some N)) =
      (in_list g N).filter (fun e => !decide ((edge_rec g e).from_ = N)) := by
    apply List.filter_congr
    intro x hx
    have hxl := ((mem_in_list h x N).1 hx).1
    have := edge_from_id_eq_some (g := g) x N
    simp only [hxl, true_and] at this
    simp only [this]
  rw [hin]
  exact filter_partition_length (fun x => decide ((edge_rec g x).from_ = N))
    (fun x => decide ((edge_rec g x).to_ = N)) (edge_list g)

/-- Witness for the amended C3: destroying `a` in the self-loop store. -/
theorem C3_cascade_count_witness :
    Reachable ex_loop ∧ nty_node_exists ex_loop ex_a = true ∧
      nty_graph_edge_count ex_loop < 2 ∧
      ∃ g', nty_node_destroy 2 ex_loop ex_a = some (true, g') ∧
        nty_graph_edge_count g' +
          ((neighbor_collect ex_loop 2 (nty_node_out_edges ex_loop ex_a)).length +
            ((neighbor_collect ex_loop 2 (nty_node_in_edges ex_loop ex_a)).filter
              (fun e => !decide (edge_from_id ex_loop e = some ex_a))).length) =
          nty_graph_edge_count ex_loop :=
  ⟨ex_loop_reachable, by decide, by decide,
    C3_cascade_count ex_loop ex_loop_reachable ex_a 2 (by decide) (by decide)⟩

/-- C4. Adjacency lists: in a reachable state, for an existing node `n` and fuel above the
live edge count, the walk of `nty_node_out_edges(n)` with `nty_neighbor_iter_next` equals
the `nty_graph_edges` iteration restricted to the edges whose `from` is `n`, the walk of
`nty_node_in_edges(n)` equals that iteration restricted to the edges whose `to` is `n`, and
the iteration has no repetition, so each such edge appears exactly once in its walk and no
other identifier appears. -/
theorem C4_adjacency_lists (g : nty_graph_t) (hr : Reachable g) (n fuel : Nat)
    (hn : nty_node_exists g n = true) (hf : nty_graph_edge_count g < fuel) :
    neighbor_collect g fuel (nty_node_out_edges g n) =
        (edge_iteration g).filter (fun e => decide (edge_from_id g e = some n)) ∧
      neighbor_collect g fuel (nty_node_in_edges g n) =
        (edge_iteration g).filter (fun e => decide (edge_to_id g e = some n)) ∧
      (edge_iteration g).Nodup ∧
      (∀ e, (neighbor_collect g fuel (nty_node_out_edges g n)).count e =
        if edge_from_id g e = some n then 1 else 0) ∧
      (∀ e, (neighbor_collect g fuel (nty_node_in_edges g n)).count e =
        if edge_to_id g e = some n then 1 else 0) := by
  have h := reachable_inv hr
  have hf' : g.edges.count < fuel := hf
  have ho := out_list_length_le h n
  have hi := in_list_length_le h n
  rw [out_walk_eq h n hn fuel (by omega), in_walk_eq h n hn fuel (by omega),
    edge_iteration_eq h]
  refine ⟨out_list_eq_filter_from h n, in_list_eq_filter_to h n, edge_list_nodup h, ?_, ?_⟩
  · intro e
    by_cases hc : edge_from_id g e = some n
    · rw [if_pos hc]
      exact List.count_eq_one_of_mem (out_list_nodup h n)
        ((mem_out_list h e n).2 ((edge_from_id_eq_some e n).1 hc))
    · rw [if_neg hc]
      apply List.count_eq_zero_of_not_mem
      intro hm
      exact hc ((edge_from_id_eq_some e n).2 ((mem_out_list h e n).1 hm))
  · intro e
    by_cases hc : edge_to_id g e = some n
    · rw [if_pos hc]
      exact List.count_eq_one_of_mem (in_list_nodup h n)
        ((mem_in_list h e n).2 ((edge_to_id_eq_some e n).1 hc))
    · rw [if_neg hc]
      apply List.count_eq_zero_of_not_mem
      intro hm
      exact hc ((edge_to_id_eq_some e n).2 ((mem_in_list h e n).1 hm))

/-- Witness for C4: node `a` of the example store, whose outgoing walk is `a -> b`,
`a -> c`. -/
theorem C4_adjacency_lists_witness :
    Reachable ex_g5 ∧ neighbor_collect ex_g5 3 (nty_node_out_edges ex_g5 ex_a) = [ex_a, ex_b] ∧
      (neighbor_collect ex_g5 3 (nty_node_out_edges ex_g5 ex_a) =
          (edge_iteration ex_g5).filter (fun e => decide (edge_from_id ex_g5 e = some ex_a)) ∧
        neighbor_collect ex_g5 3 (nty_node_in_edges ex_g5 ex_a) =
          (edge_iteration ex_g5).filter (fun e => decide (edge_to_id ex_g5 e = some ex_a)) ∧
        (edge_iteration ex_g5).Nodup ∧
        (∀ e, (neighbor_collect ex_g5 3 (nty_node_out_edges ex_g5 ex_a)).count e =
          if edge_from_id ex_g5 e = some ex_a then 1 else 0) ∧
        (∀ e, (neighbor_collect ex_g5 3 (nty_node_in_edges ex_g5 ex_a)).count e =
          if edge_to_id ex_g5 e = some ex_a then 1 else 0)) :=
  ⟨ex_g5_reachable, by decide,
    C4_adjacency_lists ex_g5 ex_g5_reachable ex_a 3 (by decide) (by decide)⟩

theorem count_le_capacity {α : Type} {s : nty_slab_t α} (h : SlabInv s) :
    s.count ≤ s.capacity := by
  obtain ⟨fl, -, -, -, hc⟩ := h.free_list
  have := h.nu_le
  omega

theorem filter_eq_of_mem_iff (l l' : List Nat) (p q : Nat → Bool) (hl : l' = l.filter p)
    (hq : ∀ x, x ∈ l' ↔ q x = true) : l' = l.filter q := by
  rw [hl]
  apply List.filter_congr
  intro x hx
  cases hp : p x <;> cases hqx : q x
  · rfl
  · have := (hq x).2 hqx
    rw [hl, List.mem_filter, hp] at this
    exact absurd this.2 (by simp)
  · have := (hq x).1 (by rw [hl]; exact List.mem_filter.2 ⟨hx, hp⟩)
    rw [hqx] at this
    cases this
  · rfl

theorem erase_eq_filter_exists (l l' : List Nat) (a : Nat) (q : Nat → Bool) (hnd : l.Nodup)
    (hl : l' = l.erase a) (hq : ∀ x, x ∈ l' ↔ q x = true) : l' = l.filter q := by
  rw [hl, List.Nodup.erase_eq_filter hnd]
  apply List.filter_congr
  intro x hx
  cases hqx : q x
  · have : x ∉ l.erase a := by
      intro hm
      rw [← hl, hq, hqx] at hm
      cases hm
    rw [List.Nodup.mem_erase_iff hnd] at this
    have : x = a := by
      by_contra hne
      exact this ⟨hne, hx⟩
    simp [this]
  · have : x ∈ l.erase a := by rw [← hl, hq]; exact hqx
    rw [List.Nodup.mem_erase_iff hnd] at this
    simp [this.1]

theorem self_eq_filter_exists (l : List Nat) (q : Nat → Bool) (hq : ∀ x, x ∈ l → q x = true) :
    l = l.filter q := by
  symm
  rw [List.filter_eq_self]
  exact hq

/-- C7. Atomicity of failure: in a reachable state, whenever `nty_node_create`,
`nty_edge_create` or `nty_property_create` returns 0, or `nty_node_destroy`,
`nty_edge_destroy` or `nty_property_destroy` returns `false`, the whole store after the call
(arenas with generations and free lists, records, order arrays and lengths) equals the store
before it. -/
theorem C7_atomicity_of_failure (g : nty_graph_t) (hr : Reachable g) :
    ((nty_node_create g).1 = 0 → (nty_node_create g).2 = g) ∧
    (∀ from_ to_ type weight timestamp,
      (nty_edge_create g from_ to_ type weight timestamp).1 = 0 →
        (nty_edge_create g from_ to_ type weight timestamp).2 = g) ∧
    (∀ owner key value, (nty_property_create g owner key value).1 = 0 →
      (nty_property_create g owner key value).2 = g) ∧
    (∀ fuel id, nty_node_exists g id = false → nty_node_destroy fuel g id = some (false, g)) ∧
    (∀ fuel id r, nty_node_destroy fuel g id = some r → r.1 = false → r.2 = g) ∧
    (∀ id, (nty_edge_destroy g id).1 = false → (nty_edge_destroy g id).2 = g) ∧
    (∀ id, (nty_property_destroy g id).1 = false → (nty_property_destroy g id).2 = g) := by
  have h := reachable_inv hr
  refine ⟨?_, ?_, ?_, fun fuel id hn => node_destroy_absent fuel g id hn, ?_, ?_, ?_⟩
  · intro h0
    by_cases hc : (nty_slab_alloc g.nodes).1 = 0
    · rw [node_create_full h hc]
    · rw [node_create_form h hc] at h0
      exact absurd h0 hc
  · intro f t ty w ts h0
    by_cases hf : nty_slab_exists g.nodes f = true
    swap
    · rw [edge_create_no_node g f t ty w ts (Or.inl (by simpa using hf))]
    by_cases ht : nty_slab_exists g.nodes t = true
    swap
    · rw [edge_create_no_node g f t ty w ts (Or.inr (by simpa using ht))]
    by_cases hc : (nty_slab_alloc g.edges).1 = 0
    · rw [edge_create_full h f t ty w ts hc]
    · rw [edge_create_form h f t ty w ts hf ht hc] at h0
      exact absurd h0 hc
  · intro o k v h0
    by_cases hc : (nty_slab_alloc g.properties).1 = 0
    · rw [prop_create_full h o k v hc]
    · rw [prop_create_form h o k v hc] at h0
      exact absurd h0 hc
  · intro fuel id r hd h0
    cases hn : nty_slab_exists g.nodes id
    · rw [node_destroy_absent fuel g id hn] at hd
      cases hd; rfl
    · obtain ⟨g2, -, -, -, -, -, c6⟩ := node_destroy_spec h fuel id r hn hd
      rw [c6] at h0
      cases h0
  · intro id h0
    cases he : nty_slab_exists g.edges id
    · rw [edge_destroy_absent g id he]
    · rw [edge_destroy_form g id he] at h0
      cases h0
  · intro id h0
    cases hp : nty_slab_exists g.properties id
    · rw [prop_destroy_absent g id hp]
    · rw [prop_destroy_form g id hp] at h0
      cases h0

/-- Witness for C7: the example store, on which `nty_edge_create(a, 999, ...)` and
`nty_node_destroy(999)` fail. -/
theorem C7_atomicity_of_failure_witness :
    Reachable ex_g5 ∧ (nty_edge_create ex_g5 ex_a 999 1 0 0).1 = 0 ∧
      (nty_node_destroy 3 ex_g5 999).map (fun r => r.1) = some false ∧
      (((nty_node_create ex_g5).1 = 0 → (nty_node_create ex_g5).2 = ex_g5) ∧
      (∀ from_ to_ type weight timestamp,
        (nty_edge_create ex_g5 from_ to_ type weight timestamp).1 = 0 →
          (nty_edge_create ex_g5 from_ to_ type weight timestamp).2 = ex_g5) ∧
      (∀ owner key value, (nty_property_create ex_g5 owner key value).1 = 0 →
        (nty_property_create ex_g5 owner key value).2 = ex_g5) ∧
      (∀ fuel id, nty_node_exists ex_g5 id = false →
        nty_node_destroy fuel ex_g5 id = some (false, ex_g5)) ∧
      (∀ fuel id r, nty_node_destroy fuel ex_g5 id = some r → r.1 = false → r.2 = ex_g5) ∧
      (∀ id, (nty_edge_destroy ex_g5 id).1 = false → (nty_edge_destroy ex_g5 id).2 = ex_g5) ∧
      (∀ id, (nty_property_destroy ex_g5 id).1 = false →
        (nty_property_destroy ex_g5 id).2 = ex_g5)) :=
  ⟨ex_g5_reachable, by decide, by decide, C7_atomicity_of_failure ex_g5 ex_g5_reachable⟩

/-- C8. Endpoint check of `nty_edge_create`: in a reachable state and for all arguments, the
call returns a non-zero identifier if and only if `from` and `to` both satisfy
`nty_node_exists` and the live edge count is below the capacity of the edge arena; so it
returns 0 whenever an endpoint does not exist. -/
theorem C8_edge_create_endpoints (g : nty_graph_t) (hr : Reachable g)
    (from_ to_ type weight timestamp : Nat) :
    ((nty_edge_create g from_ to_ type weight timestamp).1 ≠ 0 ↔
      (nty_node_exists g from_ = true ∧ nty_node_exists g to_ = true ∧
        nty_graph_edge_count g < g.edges.capacity)) ∧
    ((nty_node_exists g from_ = false ∨ nty_node_exists g to_ = false) →
      (nty_edge_create g from_ to_ type weight timestamp).1 = 0) := by
  have h := reachable_inv hr
  have hle := count_le_capacity h.edges_inv
  have hfi := alloc_fail_iff g.edges h.edges_inv
  constructor
  · by_cases hf : nty_slab_exists g.nodes from_ = true
    swap
    · rw [edge_create_no_node g _ _ _ _ _ (Or.inl (by simpa using hf))]
      simp [nty_node_exists, hf]
    by_cases ht : nty_slab_exists g.nodes to_ = true
    swap
    · rw [edge_create_no_node g _ _ _ _ _ (Or.inr (by simpa using ht))]
      simp [nty_node_exists, ht]
    by_cases hc : (nty_slab_alloc g.edges).1 = 0
    · rw [edge_create_full h _ _ _ _ _ hc]
      have := hfi.1 hc
      simp only [ne_eq, not_true_eq_false, false_iff, not_and, not_lt]
      intro _ _
      show g.edges.capacity ≤ g.edges.count
      omega
    · rw [edge_create_form h _ _ _ _ _ hf ht hc]
      simp only [ne_eq, hc, not_false_eq_true, true_iff]
      refine ⟨hf, ht, ?_⟩
      show g.edges.count < g.edges.capacity
      have : g.edges.count ≠ g.edges.capacity := fun e => hc (hfi.2 e)
      omega
  · intro hn
    rw [edge_create_no_node g _ _ _ _ _ hn]

/-- C9. `nty_node_destroy` cannot fail partway: in a reachable state and for every
identifier, with fuel above the live edge count the call returns; it returns `true` if and
only if `nty_node_exists(id)` held before (so the `return false` after `nty_slab_free` is
never taken), and after `true` the identifier no longer exists, `nty_graph_node_count` has
dropped by exactly 1 and every other identifier exists exactly if it did before. -/
theorem C9_node_destroy_total (g : nty_graph_t) (hr : Reachable g) (id fuel : Nat)
    (hf : nty_graph_edge_count g < fuel) :
    ∃ r, nty_node_destroy fuel g id = some r ∧
      (r.1 = true ↔ nty_node_exists g id = true) ∧
      (r.1 = true →
        nty_node_exists r.2 id = false ∧
        nty_graph_node_count r.2 + 1 = nty_graph_node_count g ∧
        ∀ m, m ≠ id → nty_node_exists r.2 m = nty_node_exists g m) := by
  have h := reachable_inv hr
  cases hn : nty_slab_exists g.nodes id
  · refine ⟨_, node_destroy_absent fuel g id hn, ?_, ?_⟩
    · simp [nty_node_exists, hn]
    · intro h0; cases h0
  · obtain ⟨g2, c1, c2, -, -, -, c6⟩ := node_destroy_total h fuel id hn hf
    have hn2 : nty_slab_exists g2.nodes id = true := by
      rw [edgeOpFrame_exists_nodes c2]; exact hn
    have hx := free_exists_iff g2.nodes id hn2
    refine ⟨_, c6, ?_, ?_⟩
    · simp [nty_node_exists, hn]
    · intro _
      refine ⟨?_, ?_, ?_⟩
      · show nty_slab_exists (nty_slab_free g2.nodes id).2 id = false
        cases hc : nty_slab_exists (nty_slab_free g2.nodes id).2 id
        · rfl
        · exact absurd rfl ((hx id).1 hc).2
      · show (nty_slab_free g2.nodes id).2.count + 1 = g.nodes.count
        rw [(free_ok g2.nodes c1.nodes_inv id hn2).2.2.2.2.2.1, c2.1]
      · intro m hm
        show nty_slab_exists (nty_slab_free g2.nodes id).2 m = nty_slab_exists g.nodes m
        rw [← edgeOpFrame_exists_nodes c2 m]
        cases hc : nty_slab_exists g2.nodes m
        · cases hc' : nty_slab_exists (nty_slab_free g2.nodes id).2 m
          · rfl
          · have := ((hx m).1 hc').1
            rw [hc] at this; cases this
        · exact (hx m).2 ⟨hc, hm⟩

/-- Witness for C9: destroying node `a` of the example store. -/
theorem C9_node_destroy_total_witness :
    nty_graph_edge_count ex_g5 < 3 ∧
      ∃ r, nty_node_destroy 3 ex_g5 ex_a = some r ∧
        (r.1 = true ↔ nty_node_exists ex_g5 ex_a = true) ∧
        (r.1 = true →
          nty_node_exists r.2 ex_a = false ∧
          nty_graph_node_count r.2 + 1 = nty_graph_node_count ex_g5 ∧
          ∀ m, m ≠ ex_a → nty_node_exists r.2 m = nty_node_exists ex_g5 m) :=
  ⟨by decide, C9_node_destroy_total ex_g5 ex_g5_reachable ex_a 3 (by decide)⟩

/-- Witness for C8: in the example store `a -> 999` is refused and `b -> c` is accepted. -/
theorem C8_edge_create_endpoints_witness :
    (nty_edge_create ex_g5 ex_a 999 1 0 0).1 = 0 ∧ (nty_edge_create ex_g5 ex_b ex_c 1 0 0).1 ≠ 0 ∧
      (((nty_edge_create ex_g5 ex_b ex_c 1 0 0).1 ≠ 0 ↔
        (nty_node_exists ex_g5 ex_b = true ∧ nty_node_exists ex_g5 ex_c = true ∧
          nty_graph_edge_count ex_g5 < ex_g5.edges.capacity)) ∧
      ((nty_node_exists ex_g5 ex_b = false ∨ nty_node_exists ex_g5 ex_c = false) →
        (nty_edge_create ex_g5 ex_b ex_c 1 0 0).1 = 0)) :=
  ⟨by decide, by decide, C8_edge_create_endpoints ex_g5 ex_g5_reachable ex_b ex_c 1 0 0⟩

/-- C10. Order stability under destruction: in a reachable state, after a successful
`nty_node_destroy`, `nty_edge_destroy` or `nty_property_destroy` the iteration sequence of
each collection (nodes, edges, properties) is the sequence before the call with exactly the
identifiers that no longer exist deleted, the survivors keeping their relative order. -/
theorem C10_order_stability (g : nty_graph_t) (hr : Reachable g) :
    (∀ fuel id, nty_node_exists g id = true → nty_graph_edge_count g < fuel →
      ∃ g', nty_node_destroy fuel g id = some (true, g')) ∧
    (∀ fuel id g', nty_node_destroy fuel g id = some (true, g') → SurvivorOrder g g') ∧
    (∀ id, (nty_edge_destroy g id).1 = true → SurvivorOrder g (nty_edge_destroy g id).2) ∧
    (∀ id, (nty_property_destroy g id).1 = true →
      SurvivorOrder g (nty_property_destroy g id).2) := by
  have h := reachable_inv hr
  refine ⟨?_, ?_, ?_, ?_⟩
  · intro fuel id hn hf
    obtain ⟨g2, -, -, -, -, -, c6⟩ := node_destroy_total h fuel id hn hf
    exact ⟨_, c6⟩
  · intro fuel id g' hd
    have h' : GraphInv g' := node_destroy_inv h fuel id _ hd
    cases hn : nty_slab_exists g.nodes id
    · rw [node_destroy_absent fuel g id hn] at hd
      cases hd
    obtain ⟨g2, c1, c2, c3, -, -, c6⟩ := node_destroy_spec h fuel id _ hn hd
    obtain ⟨-, f2, f3, f4, f5, f6, -, -, -⟩ := c2
    have hg : g' = { g2 with
        nodes := (nty_slab_free g2.nodes id).2
        node_order := (nty_order_remove g2.node_order g2.node_order_len id).1
        node_order_len := (nty_order_remove g2.node_order g2.node_order_len id).2 } := by
      cases c6; rfl
    unfold SurvivorOrder
    rw [node_iteration_eq h', edge_iteration_eq h', property_iteration_eq h',
      node_iteration_eq h, edge_iteration_eq h, property_iteration_eq h]
    refine ⟨?_, ?_, ?_⟩
    · apply erase_eq_filter_exists _ _ id _ h.node_order_inv.nodup
      · rw [hg]
        simp only
        rw [order_remove_list, f3, f5]
      · exact h'.node_order_inv.mem_iff
    · apply filter_eq_of_mem_iff _ _ _ _ (by rw [hg]; exact c3)
      exact h'.edge_order_inv.mem_iff
    · have e1 : order_list g'.property_order g'.property_order_len =
          order_list g.property_order g.property_order_len := by
        rw [hg]; simp only; rw [f4, f6]
      rw [e1]
      apply self_eq_filter_exists
      intro x hx
      rw [← e1] at hx
      exact (h'.prop_order_inv.mem_iff x).1 hx
  · intro id hd
    have h' : GraphInv (nty_edge_destroy g id).2 := edge_destroy_inv h id
    cases he : nty_slab_exists g.edges id
    · rw [edge_destroy_absent g id he] at hd
      cases hd
    have hform := edge_destroy_form g id he
    unfold SurvivorOrder
    rw [node_iteration_eq h', edge_iteration_eq h', property_iteration_eq h',
      node_iteration_eq h, edge_iteration_eq h, property_iteration_eq h]
    refine ⟨?_, ?_, ?_⟩
    · have e1 : order_list (nty_edge_destroy g id).2.node_order
          (nty_edge_destroy g id).2.node_order_len =
          order_list g.node_order g.node_order_len := by
        rw [hform]
      rw [e1]
      apply self_eq_filter_exists
      intro x hx
      rw [← e1] at hx
      exact (h'.node_order_inv.mem_iff x).1 hx
    · apply erase_eq_filter_exists _ _ id _ (edge_list_nodup h)
        (edge_destroy_edge_list id he)
      exact h'.edge_order_inv.mem_iff
    · have e1 : order_list (nty_edge_destroy g id).2.property_order
          (nty_edge_destroy g id).2.property_order_len =
          order_list g.property_order g.property_order_len := by
        rw [hform]
      rw [e1]
      apply self_eq_filter_exists
      intro x hx
      rw [← e1] at hx
      exact (h'.prop_order_inv.mem_iff x).1 hx
  · intro id hd
    have h' : GraphInv (nty_property_destroy g id).2 := prop_destroy_inv h id
    cases hp : nty_slab_exists g.properties id
    · rw [prop_destroy_absent g id hp] at hd
      cases hd
    have hform := prop_destroy_form g id hp
    unfold SurvivorOrder
    rw [node_iteration_eq h', edge_iteration_eq h', property_iteration_eq h',
      node_iteration_eq h, edge_iteration_eq h, property_iteration_eq h]
    refine ⟨?_, ?_, ?_⟩
    · have e1 : order_list (nty_property_destroy g id).2.node_order
          (nty_property_destroy g id).2.node_order_len =
          order_list g.node_order g.node_order_len := by
        rw [hform]
      rw [e1]
      apply self_eq_filter_exists
      intro x hx
      rw [← e1] at hx
      exact (h'.node_order_inv.mem_iff x).1 hx
    · have e1 : edge_list (nty_property_destroy g id).2 = edge_list g := by
        rw [hform]; rfl
      rw [e1]
      apply self_eq_filter_exists
      intro x hx
      rw [← e1] at hx
      exact (h'.edge_order_inv.mem_iff x).1 hx
    · apply erase_eq_filter_exists _ _ id _ h.prop_order_inv.nodup
      · rw [hform]
        simp only
        rw [order_remove_list]
      · exact h'.prop_order_inv.mem_iff

/-- Witness for C10: in the example store the node sequence is `a, b, c` and the edge
sequence is `a -> b`, `a -> c`; destroying `a` leaves `b, c` and no edge, destroying the
first edge leaves the second. -/
theorem C10_order_stability_witness :
    node_iteration ex_g5 = [ex_a, ex_b, ex_c] ∧ edge_iteration ex_g5 = [ex_a, ex_b] ∧
      (nty_node_destroy 3 ex_g5 ex_a).map
        (fun r => (r.1, node_iteration r.2, edge_iteration r.2)) =
        some (true, [ex_b, ex_c], []) ∧
      edge_iteration (nty_edge_destroy ex_g5 ex_a).2 = [ex_b] ∧
      ((∀ fuel id, nty_node_exists ex_g5 id = true → nty_graph_edge_count ex_g5 < fuel →
          ∃ g', nty_node_destroy fuel ex_g5 id = some (true, g')) ∧
        (∀ fuel id g', nty_node_destroy fuel ex_g5 id = some (true, g') →
          SurvivorOrder ex_g5 g') ∧
        (∀ id, (nty_edge_destroy ex_g5 id).1 = true →
          SurvivorOrder ex_g5 (nty_edge_destroy ex_g5 id).2) ∧
        (∀ id, (nty_property_destroy ex_g5 id).1 = true →
          SurvivorOrder ex_g5 (nty_property_destroy ex_g5 id).2)) :=
  ⟨by decide, by decide, by decide, by decide, C10_order_stability ex_g5 ex_g5_reachable⟩

/-! ## Identifier reuse across generations -/

section slab
variable {α : Type} [Zero α]

theorem free_generation (s : nty_slab_t α) (id : Nat) :
    (nty_slab_free s id).2.generation = s.generation := by
  cases hx : nty_slab_exists s id
  · rw [free_of_not_exists s id hx]
  · rw [free_of_exists s id hx]

theorem free_capacity (s : nty_slab_t α) (id : Nat) :
    (nty_slab_free s id).2.capacity = s.capacity := by
  cases hx : nty_slab_exists s id
  · rw [free_of_not_exists s id hx]
  · rw [free_of_exists s id hx]

theorem alloc_capacity (s : nty_slab_t α) (h : SlabInv s) :
    (nty_slab_alloc s).2.2.capacity = s.capacity := by
  by_cases h0 : (nty_slab_alloc s).1 = 0
  · rw [alloc_fail_state s h h0]
  · exact (alloc_ok s h h0).2.2.2.2.2.2.2.1

/-- One allocate-and-release round on a single-slot arena advances the generation of the
slot by one modulo 2^32 and leaves the arena empty. -/
theorem cycle_step (s : nty_slab_t α) (h : SlabInv s) (hc : s.capacity = 1)
    (h0 : s.count = 0) :
    SlabInv (alloc_free_cycle s) ∧ (alloc_free_cycle s).capacity = 1 ∧
      (alloc_free_cycle s).count = 0 ∧
      (alloc_free_cycle s).generation 0 = (s.generation 0 + 1) % 4294967296 := by
  have hne : (nty_slab_alloc s).1 ≠ 0 := by
    intro e
    have := (alloc_fail_iff s h).1 e
    omega
  obtain ⟨a1, a2, a3, a4, a5, a6, a7, a8, a9, a10, a11⟩ := alloc_ok s h hne
  have hp : (nty_slab_alloc s).2.1 = 0 := by omega
  have hx : nty_slab_exists (nty_slab_alloc s).2.2 (nty_slab_alloc s).1 = true :=
    (alloc_exists_iff s h hne _).2 (Or.inl rfl)
  have hi := alloc_inv s h
  have hf := free_ok _ hi _ hx
  unfold alloc_free_cycle
  refine ⟨free_inv _ hi _, ?_, ?_, ?_⟩
  · rw [hf.2.2.2.2.1, a8, hc]
  · have := hf.2.2.2.2.2.1
    omega
  · rw [hf.2.2.1, a6, hp, Function.update_same, next_generation_eq]

theorem cycle_iterate (s : nty_slab_t α) (h : SlabInv s) (hc : s.capacity = 1)
    (h0 : s.count = 0) (hg : s.generation 0 = 0) : ∀ n : Nat,
    SlabInv (alloc_free_cycle^[n] s) ∧ (alloc_free_cycle^[n] s).capacity = 1 ∧
      (alloc_free_cycle^[n] s).count = 0 ∧
      (alloc_free_cycle^[n] s).generation 0 = n % 4294967296
  | 0 => ⟨h, hc, h0, by rw [Function.iterate_zero, id_eq, hg]⟩
  | n + 1 => by
    obtain ⟨i1, i2, i3, i4⟩ := cycle_iterate s h hc h0 hg n
    obtain ⟨j1, j2, j3, j4⟩ := cycle_step _ i1 i2 i3
    rw [Function.iterate_succ_apply']
    refine ⟨j1, j2, j3, ?_⟩
    rw [j4, i4]
    omega

theorem id_of_index_generation (id i gen : Nat) (hi : nty_id_index id = i)
    (hlt : i < 4294967295) (hg : nty_id_generation id = gen) :
    id = 4294967296 * gen + (i + 1) := by
  rw [nty_id_index_eq] at hi
  rw [nty_id_generation_eq] at hg
  by_cases h0 : id % 4294967296 = 0
  · simp only [h0, if_true] at hi
    omega
  · simp only [h0, if_false] at hi
    omega

/-- The identifier issued by the allocation that follows `n` allocate-and-release rounds on
a fresh single-slot arena. -/
theorem cycle_alloc_id (s : nty_slab_t α) (h : SlabInv s) (hc : s.capacity = 1)
    (h0 : s.count = 0) (hg : s.generation 0 = 0) (n : Nat) :
    (nty_slab_alloc (alloc_free_cycle^[n] s)).1 =
      4294967296 * ((n + 1) % 4294967296) + 1 := by
  obtain ⟨i1, i2, i3, i4⟩ := cycle_iterate s h hc h0 hg n
  have hne : (nty_slab_alloc (alloc_free_cycle^[n] s)).1 ≠ 0 := by
    intro e
    have := (alloc_fail_iff _ i1).1 e
    omega
  obtain ⟨a1, a2, a3, -⟩ := alloc_ok _ i1 hne
  have hp : (nty_slab_alloc (alloc_free_cycle^[n] s)).2.1 = 0 := by omega
  rw [hp] at a1 a2
  rw [i4, next_generation_eq] at a2
  have := id_of_index_generation _ 0 _ a1 (by decide) a2
  rw [this]
  omega

end slab

theorem ex_slab_init : nty_slab_init 40 1 = some ex_slab := rfl

/-- C6, as stated, fails when a slot's 32-bit generation wraps: on the single-slot arena of
`nty_slab_init(&slab, 40, 1)` the first allocation returns `0x1_0000_0001`, and after 2^32
rounds of allocating and freeing, the next allocation returns `0x1_0000_0001` again. -/
theorem C6_identifier_uniqueness_counterexample :
    nty_slab_init 40 1 = some ex_slab ∧ (nty_slab_alloc ex_slab).1 = 4294967297 ∧
      (nty_slab_alloc (alloc_free_cycle^[4294967296] ex_slab)).1 = 4294967297 := by
  refine ⟨rfl, by decide, ?_⟩
  rw [cycle_alloc_id ex_slab (init_inv 40 1 ex_slab (by decide) rfl) rfl rfl rfl 4294967296]

section slab
variable {α : Type} [Zero α]

theorem countP_index_append_singleton (prev : List Nat) (id i : Nat) :
    (prev ++ [id]).countP (fun x => decide (nty_id_index x = i)) =
      prev.countP (fun x => decide (nty_id_index x = i)) +
        (if nty_id_index id = i then 1 else 0) := by
  rw [List.countP_append]
  by_cases h : nty_id_index id = i
  · simp [List.countP_cons, h]
  · simp [List.countP_cons, h]

/-- Identifiers issued by a run stay pairwise different as long as no slot is handed out
more than 2^32 times. -/
theorem issued_nodup_aux : ∀ (ops : List SlabOp) (s : nty_slab_t α) (prev : List Nat),
    SlabInv s →
    (∀ i, s.generation i =
      prev.countP (fun x => decide (nty_id_index x = i)) % 4294967296) →
    (∀ id ∈ prev, ∃ k, 1 ≤ k ∧
      k ≤ prev.countP (fun x => decide (nty_id_index x = nty_id_index id)) ∧
      nty_id_generation id = k % 4294967296) →
    prev.Nodup →
    (∀ i, (prev ++ slab_issued s ops).countP (fun x => decide (nty_id_index x = i)) ≤
      4294967296) →
    (prev ++ slab_issued s ops).Nodup
  | [], s, prev, _, _, _, hnd, _ => by
    simpa [slab_issued] using hnd
  | SlabOp.free id :: ops, s, prev, hs, hg, hk, hnd, hb => by
    simp only [slab_issued] at hb ⊢
    exact issued_nodup_aux ops _ prev (free_inv s hs id)
      (by rw [free_generation]; exact hg) hk hnd hb
  | SlabOp.alloc :: ops, s, prev, hs, hg, hk, hnd, hb => by
    by_cases h0 : (nty_slab_alloc s).1 = 0
    · simp only [slab_issued, h0, if_true] at hb ⊢
      rw [alloc_fail_state s hs h0] at hb ⊢
      exact issued_nodup_aux ops s prev hs hg hk hnd hb
    · simp only [slab_issued, h0, if_false] at hb ⊢
      obtain ⟨a1, a2, a3, -, -, a6, -⟩ := alloc_ok s hs h0
      have hassoc : prev ++ (nty_slab_alloc s).1 :: slab_issued (nty_slab_alloc s).2.2 ops =
          (prev ++ [(nty_slab_alloc s).1]) ++ slab_issued (nty_slab_alloc s).2.2 ops := by
        simp
      rw [hassoc] at hb ⊢
      have hcnt : prev.countP (fun x => decide (nty_id_index x =
          nty_id_index (nty_slab_alloc s).1)) + 1 ≤ 4294967296 := by
        have h1 := hb (nty_id_index (nty_slab_alloc s).1)
        rw [List.countP_append, countP_index_append_singleton] at h1
        simp only [if_true] at h1
        omega
      have hgen : nty_id_generation (nty_slab_alloc s).1 =
          (prev.countP (fun x => decide (nty_id_index x =
            nty_id_index (nty_slab_alloc s).1)) + 1) % 4294967296 := by
        rw [a2, next_generation_eq, ← a1, hg]
        omega
      apply issued_nodup_aux ops _ _ (alloc_inv s hs)
      · intro i
        rw [a6, countP_index_append_singleton, a1]
        by_cases hi : (nty_slab_alloc s).2.1 = i
        · subst hi
          simp only [Function.update_same, if_true]
          rw [next_generation_eq, hg]
          omega
        · have hi' : i ≠ (nty_slab_alloc s).2.1 := fun e => hi e.symm
          simp only [Function.update_noteq hi', hi, if_false, Nat.add_zero]
          exact hg i
      · intro id hid
        rw [List.mem_append, List.mem_singleton] at hid
        rcases hid with hid | hid
        · obtain ⟨k, k1, k2, k3⟩ := hk id hid
          refine ⟨k, k1, ?_, k3⟩
          rw [countP_index_append_singleton]
          omega
        · rw [hid]
          refine ⟨_, ?_, ?_, hgen⟩
          · omega
          · rw [countP_index_append_singleton]
            simp
      · apply List.Nodup.append hnd (List.nodup_singleton _)
        intro x hx hx'
        rw [List.mem_singleton] at hx'
        rw [hx'] at hx
        obtain ⟨k, k1, k2, k3⟩ := hk _ hx
        rw [hgen] at k3
        omega
      · exact hb

end slab

/-- C6, amended. Identifier uniqueness: over any finite sequence of `nty_slab_alloc` and
`nty_slab_free` calls on an arena initialised with a `uint32_t` capacity, in which no slot
index is issued more than 2^32 times, every identifier returned by a successful allocation
differs from every identifier the arena returned earlier, live or freed. -/
theorem C6_identifier_uniqueness {α : Type} [Zero α] (item_size capacity : Nat)
    (s0 : nty_slab_t α) (ops : List SlabOp) (hcap : capacity < 4294967296)
    (hinit : nty_slab_init item_size capacity = some s0)
    (hbound : ∀ i, (slab_issued s0 ops).countP (fun x => decide (nty_id_index x = i)) ≤
      4294967296) :
    (slab_issued s0 ops).Nodup := by
  have hs := init_inv item_size capacity s0 hcap hinit
  have hg : ∀ i, s0.generation i = 0 := by
    intro i
    unfold nty_slab_init at hinit
    split at hinit
    · cases hinit
    · cases hinit; rfl
  have := issued_nodup_aux ops s0 [] hs (by intro i; rw [hg i]; rfl)
    (by intro id hid; cases hid) List.nodup_nil (by simpa using hbound)
  simpa using this

/-- Witness for the amended C6: allocate twice, free the first identifier, allocate again;
the three identifiers issued are slot 0 generation 1, slot 1 generation 1 and slot 0
generation 2. -/
theorem C6_identifier_uniqueness_witness :
    slab_issued ex_g0.nodes [SlabOp.alloc, SlabOp.alloc, SlabOp.free ex_a, SlabOp.alloc] =
        [4294967297, 4294967298, 8589934593] ∧
      (slab_issued ex_g0.nodes
        [SlabOp.alloc, SlabOp.alloc, SlabOp.free ex_a, SlabOp.alloc]).Nodup :=
  ⟨by decide,
    C6_identifier_uniqueness 40 8 ex_g0.nodes
      [SlabOp.alloc, SlabOp.alloc, SlabOp.free ex_a, SlabOp.alloc] (by decide) rfl
      (fun _ => Nat.le_trans (List.countP_le_length _) (by decide))⟩

/-! ## Stale handles -/

section slab
variable {α : Type} [Zero α]

theorem arenaStep_of_gen_eq (s s' : nty_slab_t α) (hc : s'.capacity = s.capacity)
    (hg : s'.generation = s.generation) : ArenaStep s s' := by
  refine ⟨hc, fun i _ => by rw [hg], ?_⟩
  intro x hx hx'
  rw [exists_iff] at hx
  obtain ⟨h1, h2, -, h4⟩ := hx
  cases ho : s'.occupied (nty_id_index x)
  · rfl
  · have : nty_slab_exists s' x = true := by
      rw [exists_iff, hc, hg]
      exact ⟨h1, h2, ho, h4⟩
    rw [hx'] at this
    cases this

theorem arenaStep_refl (s : nty_slab_t α) : ArenaStep s s := arenaStep_of_gen_eq s s rfl rfl

theorem arenaStep_free (s : nty_slab_t α) (id : Nat) (d : Nat → α) :
    ArenaStep s { (nty_slab_free s id).2 with data := d } :=
  arenaStep_of_gen_eq _ _ (free_capacity s id) (free_generation s id)

theorem arenaStep_data (s : nty_slab_t α) (d : Nat → α) : ArenaStep s { s with data := d } :=
  arenaStep_of_gen_eq _ _ rfl rfl

theorem arenaStep_alloc (s : nty_slab_t α) (h : SlabInv s) (d : Nat → α) :
    ArenaStep s { (nty_slab_alloc s).2.2 with data := d } := by
  by_cases h0 : (nty_slab_alloc s).1 = 0
  · rw [alloc_fail_state s h h0]
    exact arenaStep_data s d
  · obtain ⟨-, -, -, -, -, a6, a7, a8, -⟩ := alloc_ok s h h0
    refine ⟨a8, ?_, ?_⟩
    · intro i hi
      have hi' : (nty_slab_alloc s).2.2.occupied i = false := hi
      show (nty_slab_alloc s).2.2.generation i = s.generation i
      rw [a7] at hi'
      rw [a6]
      by_cases hp : i = (nty_slab_alloc s).2.1
      · rw [hp, Function.update_same] at hi'
        cases hi'
      · rw [Function.update_noteq hp]
    · intro x hx hx'
      have hx'' : nty_slab_exists (nty_slab_alloc s).2.2 x = false := hx'
      have := (alloc_exists_iff s h h0 x).2 (Or.inr hx)
      rw [hx''] at this
      cases this

omit [Zero α] in
/-- A slot that no live identifier uses is not occupied. -/
theorem idle_not_occupied (s : nty_slab_t α) (h : SlabInv s) (i : Nat)
    (hidle : ∀ y, nty_slab_exists s y = true → nty_id_index y ≠ i) : s.occupied i = false := by
  cases ho : s.occupied i
  · rfl
  · exfalso
    have hlt := h.occ_lt i ho
    have hnu := h.nu_le
    have hcap := h.cap_lt
    have hi : nty_id_index (4294967296 * s.generation i + (i + 1)) = i := by
      rw [nty_id_index_eq]
      have : (4294967296 * s.generation i + (i + 1)) % 4294967296 = i + 1 := by omega
      rw [this]; simp
    have hg : nty_id_generation (4294967296 * s.generation i + (i + 1)) = s.generation i := by
      rw [nty_id_generation_eq]; omega
    apply hidle (4294967296 * s.generation i + (i + 1)) _ hi
    rw [exists_iff, hi, hg]
    exact ⟨by omega, by omega, ho, rfl⟩

/-- The first allocation that reuses the slot of a freed identifier issues a different
identifier, and the arena then rejects the old one. -/
theorem stale_core (s : nty_slab_t α) (h : SlabInv s) (id : Nat)
    (hg : s.generation (nty_id_index id) = nty_id_generation id)
    (h0 : (nty_slab_alloc s).1 ≠ 0)
    (hi : nty_id_index (nty_slab_alloc s).1 = nty_id_index id) (d : Nat → α) :
    StaleRejected { (nty_slab_alloc s).2.2 with data := d } id (nty_slab_alloc s).1 := by
  obtain ⟨a1, a2, a3, -, -, a6, -⟩ := alloc_ok s h h0
  have hp : (nty_slab_alloc s).2.1 = nty_id_index id := by rw [← a1, hi]
  have hne : (nty_slab_alloc s).1 ≠ id := by
    intro e
    rw [e, hp, hg] at a2
    exact next_generation_ne _ a2.symm
  have hx : nty_slab_exists ({ (nty_slab_alloc s).2.2 with data := d } : nty_slab_t α) id =
      false := by
    cases hc : nty_slab_exists ({ (nty_slab_alloc s).2.2 with data := d } : nty_slab_t α) id
    · rfl
    · have hc' : nty_slab_exists (nty_slab_alloc s).2.2 id = true := hc
      rw [exists_iff, a6, ← hp, Function.update_same, hp, hg] at hc'
      exact absurd hc'.2.2.2 (next_generation_ne _)
  have hx' : nty_slab_exists ({ (nty_slab_alloc s).2.2 with data := d } : nty_slab_t α)
      (nty_slab_alloc s).1 = true :=
    (alloc_exists_iff s h h0 _).2 (Or.inl rfl)
  refine ⟨hne, hx, get_eq_none _ _ hx, ?_, ?_, hx', get_eq_some _ _ hx'⟩
  · rw [free_fst]; exact hx
  · rw [free_of_not_exists _ _ hx]

end slab

theorem edge_destroy_arena (g : nty_graph_t) (e : Nat) :
    (nty_edge_destroy g e).2.edges.generation = g.edges.generation ∧
      (nty_edge_destroy g e).2.edges.capacity = g.edges.capacity := by
  cases he : nty_slab_exists g.edges e
  · rw [edge_destroy_absent g e he]; exact ⟨rfl, rfl⟩
  · rw [edge_destroy_form g e he]
    exact ⟨free_generation g.edges e, free_capacity g.edges e⟩

theorem destroy_out_loop_arena : ∀ (fuel : Nat) (g g' : nty_graph_t) (np : Nat),
    destroy_out_loop fuel g np = some g' →
      g'.edges.generation = g.edges.generation ∧ g'.edges.capacity = g.edges.capacity
  | 0, _, _, _, hl => by cases hl
  | fuel + 1, g, g', np, hl => by
    unfold destroy_out_loop at hl
    split at hl
    · obtain ⟨i1, i2⟩ := destroy_out_loop_arena fuel _ g' np hl
      obtain ⟨j1, j2⟩ := edge_destroy_arena g (g.nodes.data np).out_head
      exact ⟨i1.trans j1, i2.trans j2⟩
    · cases hl; exact ⟨rfl, rfl⟩

theorem destroy_in_loop_arena : ∀ (fuel : Nat) (g g' : nty_graph_t) (np : Nat),
    destroy_in_loop fuel g np = some g' →
      g'.edges.generation = g.edges.generation ∧ g'.edges.capacity = g.edges.capacity
  | 0, _, _, _, hl => by cases hl
  | fuel + 1, g, g', np, hl => by
    unfold destroy_in_loop at hl
    split at hl
    · obtain ⟨i1, i2⟩ := destroy_in_loop_arena fuel _ g' np hl
      obtain ⟨j1, j2⟩ := edge_destroy_arena g (g.nodes.data np).in_head
      exact ⟨i1.trans j1, i2.trans j2⟩
    · cases hl; exact ⟨rfl, rfl⟩

/-- The store invariant survives every public call. -/
theorem step_inv {g g' : nty_graph_t} (h : GraphInv g) (hs : Step g g') : GraphInv g' := by
  cases hs with
  | node_create => exact node_create_inv h
  | node_destroy fuel id r hr => exact node_destroy_inv h fuel id r hr
  | edge_create f t ty w ts => exact edge_create_inv h f t ty w ts
  | edge_destroy id => exact edge_destroy_inv h id
  | property_create o k v => exact prop_create_inv h o k v
  | property_destroy id => exact prop_destroy_inv h id

/-- What a public call does to the three arenas. -/
theorem step_arena {g g' : nty_graph_t} (h : GraphInv g) (hs : Step g g') :
    ArenaStep g.nodes g'.nodes ∧ ArenaStep g.edges g'.edges ∧
      ArenaStep g.properties g'.properties := by
  cases hs with
  | node_create =>
    by_cases hc : (nty_slab_alloc g.nodes).1 = 0
    · rw [node_create_full h hc]
      exact ⟨arenaStep_refl _, arenaStep_refl _, arenaStep_refl _⟩
    · rw [node_create_form h hc]
      exact ⟨arenaStep_alloc _ h.nodes_inv _, arenaStep_refl _, arenaStep_refl _⟩
  | node_destroy fuel id r hr =>
    cases hn : nty_slab_exists g.nodes id
    · rw [node_destroy_absent fuel g id hn] at hr
      cases hr
      exact ⟨arenaStep_refl _, arenaStep_refl _, arenaStep_refl _⟩
    · obtain ⟨g1, g2, l1, l2, l3⟩ := node_destroy_form fuel g id r hn hr
      obtain ⟨-, c2, -, -, -⟩ := cascade_edges id fuel h hn l1 l2
      obtain ⟨o1, o2⟩ := destroy_out_loop_arena fuel g g1 _ l1
      obtain ⟨i1, i2⟩ := destroy_in_loop_arena fuel g1 g2 _ l2
      have hn' : r.2.nodes = (nty_slab_free g2.nodes id).2 := by
        rw [l3]; simp only; split <;> rfl
      have he' : r.2.edges = g2.edges := by
        rw [l3]; simp only; split <;> rfl
      have hp' : r.2.properties = g2.properties := by
        rw [l3]; simp only; split <;> rfl
      refine ⟨?_, ?_, ?_⟩
      · rw [hn']
        apply arenaStep_of_gen_eq
        · rw [free_capacity, c2.1]
        · rw [free_generation, c2.1]
      · rw [he']
        exact arenaStep_of_gen_eq _ _ (i2.trans o2) (i1.trans o1)
      · rw [hp', c2.2.1]
        exact arenaStep_refl _
  | edge_create f t ty w ts =>
    by_cases hf : nty_slab_exists g.nodes f = true
    swap
    · rw [edge_create_no_node g f t ty w ts (Or.inl (by simpa using hf))]
      exact ⟨arenaStep_refl _, arenaStep_refl _, arenaStep_refl _⟩
    by_cases ht : nty_slab_exists g.nodes t = true
    swap
    · rw [edge_create_no_node g f t ty w ts (Or.inr (by simpa using ht))]
      exact ⟨arenaStep_refl _, arenaStep_refl _, arenaStep_refl _⟩
    by_cases hc : (nty_slab_alloc g.edges).1 = 0
    · rw [edge_create_full h f t ty w ts hc]
      exact ⟨arenaStep_refl _, arenaStep_refl _, arenaStep_refl _⟩
    obtain ⟨N, E, hr⟩ := recordsOnly_edge_linked g (nty_slab_alloc g.edges) f t ty w ts
      (nty_id_index f) (nty_id_index t)
    rw [edge_create_form h f t ty w ts hf ht hc, hr]
    exact ⟨arenaStep_data _ _, arenaStep_alloc _ h.edges_inv _, arenaStep_refl _⟩
  | edge_destroy id =>
    cases he : nty_slab_exists g.edges id
    · rw [edge_destroy_absent g id he]
      exact ⟨arenaStep_refl _, arenaStep_refl _, arenaStep_refl _⟩
    · rw [edge_destroy_form g id he]
      exact ⟨arenaStep_data _ _, arenaStep_free _ _ _, arenaStep_refl _⟩
  | property_create o k v =>
    by_cases hc : (nty_slab_alloc g.properties).1 = 0
    · rw [prop_create_full h o k v hc]
      exact ⟨arenaStep_refl _, arenaStep_refl _, arenaStep_refl _⟩
    · rw [prop_create_form h o k v hc]
      exact ⟨arenaStep_refl _, arenaStep_refl _, arenaStep_alloc _ h.props_inv _⟩
  | property_destroy id =>
    cases hp : nty_slab_exists g.properties id
    · rw [prop_destroy_absent g id hp]
      exact ⟨arenaStep_refl _, arenaStep_refl _, arenaStep_refl _⟩
    · rw [prop_destroy_form g id hp]
      exact ⟨arenaStep_refl _, arenaStep_refl _,
        arenaStep_of_gen_eq _ _ (free_capacity _ _) (free_generation _ _)⟩

theorem destroyed_slot {α : Type} [Zero α] (s s' : nty_slab_t α) (hA : ArenaStep s s')
    (id : Nat) (hx : nty_slab_exists s id = true) (hnx : nty_slab_exists s' id = false) :
    s'.occupied (nty_id_index id) = false ∧
      s'.generation (nty_id_index id) = nty_id_generation id := by
  have ho := hA.2.2 id hx hnx
  refine ⟨ho, ?_⟩
  rw [hA.2.1 _ ho]
  exact ((exists_iff s id).1 hx).2.2.2

theorem stepsWhile_nodes (id : Nat) {g1 g2 : nty_graph_t}
    (hw : StepsWhile (NodeSlotIdle id) g1 g2) :
    GraphInv g1 → g1.nodes.occupied (nty_id_index id) = false →
    GraphInv g2 ∧ g2.nodes.occupied (nty_id_index id) = false ∧
      g2.nodes.generation (nty_id_index id) = g1.nodes.generation (nty_id_index id) := by
  induction hw with
  | refl => exact fun h1 hg => ⟨h1, hg, rfl⟩
  | step g' g'' _ hs hP ih =>
    intro h1 hg
    obtain ⟨i1, i2, i3⟩ := ih h1 hg
    have h'' := step_inv i1 hs
    have ho : g''.nodes.occupied (nty_id_index id) = false :=
      idle_not_occupied g''.nodes h''.nodes_inv _ hP
    refine ⟨h'', ho, ?_⟩
    rw [← i3]
    exact (step_arena i1 hs).1.2.1 _ ho

theorem stepsWhile_edges (id : Nat) {g1 g2 : nty_graph_t}
    (hw : StepsWhile (EdgeSlotIdle id) g1 g2) :
    GraphInv g1 → g1.edges.occupied (nty_id_index id) = false →
    GraphInv g2 ∧ g2.edges.occupied (nty_id_index id) = false ∧
      g2.edges.generation (nty_id_index id) = g1.edges.generation (nty_id_index id) := by
  induction hw with
  | refl => exact fun h1 hg => ⟨h1, hg, rfl⟩
  | step g' g'' _ hs hP ih =>
    intro h1 hg
    obtain ⟨i1, i2, i3⟩ := ih h1 hg
    have h'' := step_inv i1 hs
    have ho : g''.edges.occupied (nty_id_index id) = false :=
      idle_not_occupied g''.edges h''.edges_inv _ hP
    refine ⟨h'', ho, ?_⟩
    rw [← i3]
    exact (step_arena i1 hs).2.1.2.1 _ ho

theorem stepsWhile_properties (id : Nat) {g1 g2 : nty_graph_t}
    (hw : StepsWhile (PropertySlotIdle id) g1 g2) :
    GraphInv g1 → g1.properties.occupied (nty_id_index id) = false →
    GraphInv g2 ∧ g2.properties.occupied (nty_id_index id) = false ∧
      g2.properties.generation (nty_id_index id) = g1.properties.generation (nty_id_index id) := by
  induction hw with
  | refl => exact fun h1 hg => ⟨h1, hg, rfl⟩
  | step g' g'' _ hs hP ih =>
    intro h1 hg
    obtain ⟨i1, i2, i3⟩ := ih h1 hg
    have h'' := step_inv i1 hs
    have ho : g''.properties.occupied (nty_id_index id) = false :=
      idle_not_occupied g''.properties h''.props_inv _ hP
    refine ⟨h'', ho, ?_⟩
    rw [← i3]
    exact (step_arena i1 hs).2.2.2.1 _ ho

theorem node_get_none {g : nty_graph_t} (id : Nat) (hx : nty_slab_exists g.nodes id = false) :
    nty_node_get g id = none := by
  unfold nty_node_get
  rw [get_eq_none _ _ hx]
  rfl

theorem node_get_isSome {g : nty_graph_t} (id : Nat) (hx : nty_slab_exists g.nodes id = true) :
    (nty_node_get g id).isSome = true := by
  unfold nty_node_get
  rw [get_eq_some _ _ hx]
  rfl

theorem property_get_none {g : nty_graph_t} (id : Nat)
    (hx : nty_slab_exists g.properties id = false) : nty_property_get g id = none := by
  unfold nty_property_get
  rw [get_eq_none _ _ hx]
  rfl

theorem property_get_isSome {g : nty_graph_t} (id : Nat)
    (hx : nty_slab_exists g.properties id = true) :
    (nty_property_get g id).isSome = true := by
  unfold nty_property_get
  rw [get_eq_some _ _ hx]
  rfl

theorem idle_of_not_occupied {α : Type} (s : nty_slab_t α) (i : Nat)
    (ho : s.occupied i = false) (y : Nat) (hy : nty_slab_exists s y = true) :
    nty_id_index y ≠ i := by
  intro e
  have := ((exists_iff s y).1 hy).2.2.1
  rw [e, ho] at this
  cases this

theorem ex_g6_step : Step ex_g5 ex_g6 :=
  Step.node_destroy ex_g5 3 ex_c ((nty_node_destroy 3 ex_g5 ex_c).getD (false, ex_g5)) rfl

/-! ## Creation order and iteration completeness -/

theorem edge_create_nonzero {g : nty_graph_t} (h : GraphInv g) (f t ty w ts : Nat)
    (hne : (nty_edge_create g f t ty w ts).1 ≠ 0) :
    nty_slab_exists g.nodes f = true ∧ nty_slab_exists g.nodes t = true ∧
      (nty_slab_alloc g.edges).1 ≠ 0 := by
  refine ⟨?_, ?_, ?_⟩
  · cases hf : nty_slab_exists g.nodes f
    · rw [edge_create_no_node g f t ty w ts (Or.inl hf)] at hne
      exact absurd rfl hne
    · rfl
  · cases ht : nty_slab_exists g.nodes t
    · rw [edge_create_no_node g f t ty w ts (Or.inr ht)] at hne
      exact absurd rfl hne
    · rfl
  · intro hc
    rw [edge_create_full h f t ty w ts hc] at hne
    exact absurd rfl hne

theorem node_create_order {g : nty_graph_t} (h : GraphInv g)
    (hne : (nty_node_create g).1 ≠ 0) :
    node_iteration (nty_node_create g).2 = node_iteration g ++ [(nty_node_create g).1] ∧
      edge_iteration (nty_node_create g).2 = edge_iteration g ∧
      property_iteration (nty_node_create g).2 = property_iteration g := by
  have h' := node_create_inv h
  have hc : (nty_slab_alloc g.nodes).1 ≠ 0 := by
    intro hc
    rw [node_create_full h hc] at hne
    exact absurd rfl hne
  have hform := node_create_form h hc
  rw [node_iteration_eq h', edge_iteration_eq h', property_iteration_eq h',
    node_iteration_eq h, edge_iteration_eq h, property_iteration_eq h]
  rw [hform]
  exact ⟨order_list_append _ _ _, rfl, rfl⟩

theorem property_create_order {g : nty_graph_t} (h : GraphInv g) (o k v : Nat)
    (hne : (nty_property_create g o k v).1 ≠ 0) :
    property_iteration (nty_property_create g o k v).2 =
        property_iteration g ++ [(nty_property_create g o k v).1] ∧
      node_iteration (nty_property_create g o k v).2 = node_iteration g ∧
      edge_iteration (nty_property_create g o k v).2 = edge_iteration g := by
  have h' := prop_create_inv h o k v
  have hc : (nty_slab_alloc g.properties).1 ≠ 0 := by
    intro hc
    rw [prop_create_full h o k v hc] at hne
    exact absurd rfl hne
  have hform := prop_create_form h o k v hc
  rw [node_iteration_eq h', edge_iteration_eq h', property_iteration_eq h',
    node_iteration_eq h, edge_iteration_eq h, property_iteration_eq h]
  rw [hform]
  exact ⟨order_list_append _ _ _, rfl, rfl⟩

theorem edge_create_order {g : nty_graph_t} (h : GraphInv g) (f t ty w ts : Nat)
    (hne : (nty_edge_create g f t ty w ts).1 ≠ 0) :
    edge_iteration (nty_edge_create g f t ty w ts).2 =
        edge_iteration g ++ [(nty_edge_create g f t ty w ts).1] ∧
      node_iteration (nty_edge_create g f t ty w ts).2 = node_iteration g ∧
      property_iteration (nty_edge_create g f t ty w ts).2 = property_iteration g := by
  have h' := edge_create_inv h f t ty w ts
  obtain ⟨hf, ht, hc⟩ := edge_create_nonzero h f t ty w ts hne
  have hform := edge_create_form h f t ty w ts hf ht hc
  obtain ⟨N, E, hr⟩ := recordsOnly_edge_linked g (nty_slab_alloc g.edges) f t ty w ts
    (nty_id_index f) (nty_id_index t)
  rw [node_iteration_eq h', edge_iteration_eq h', property_iteration_eq h',
    node_iteration_eq h, edge_iteration_eq h, property_iteration_eq h]
  rw [hform, hr]
  exact ⟨order_list_append _ _ _, rfl, rfl⟩

theorem iter_next_loop_live {α : Type} [Zero α] (s : nty_slab_t α) (o : Nat → Nat) (n i : Nat)
    (hn : 0 < n) (hx : nty_slab_exists s (o i) = true) :
    iter_next_loop s o n i = (some (o i), i + 1) := by
  cases n with
  | zero => omega
  | succ m => simp [iter_next_loop, hx]

theorem order_list_mem_of_lt (o : Nat → Nat) (len i : Nat) (hi : i < len) :
    o i ∈ order_list o len := by
  simp only [order_list, order_seg, List.mem_map, List.mem_range']
  exact ⟨i, ⟨i, hi, by omega⟩, rfl⟩

/-- What `OrderInv` says about a full walk of a collection. -/
theorem iteration_complete {α : Type} [Zero α] {s : nty_slab_t α} {o : Nat → Nat}
    {len cap : Nat} (h : OrderInv s o len cap) :
    (iter_collect (fun it => iter_next_loop s o (len - it) it) (len + 1) 0).Nodup ∧
      (∀ id, id ∈ iter_collect (fun it => iter_next_loop s o (len - it) it) (len + 1) 0 ↔
        nty_slab_exists s id = true) ∧
      (iter_collect (fun it => iter_next_loop s o (len - it) it) (len + 1) 0).length =
        s.count ∧
      iter_collect (fun it => iter_next_loop s o (len - it) it) (len + 1) 0 =
        order_list o len ∧
      len = s.count ∧
      (∀ i, i < len → iter_next_loop s o (len - i) i = (some (o i), i + 1)) := by
  rw [iteration_eq_order_list h]
  refine ⟨h.nodup, h.mem_iff, ?_, rfl, h.len_eq, ?_⟩
  · rw [order_list_length]; exact h.len_eq
  · intro i hi
    exact iter_next_loop_live s o _ i (by omega)
      ((h.mem_iff _).1 (order_list_mem_of_lt o len i hi))

theorem ex_g6_reachable : Reachable ex_g6 :=
  Reachable.step ex_g5 ex_g6 ex_g5_reachable ex_g6_step

/-- C11. Creation order: in a reachable state, a `nty_node_create`, `nty_edge_create` or
`nty_property_create` that returns a non-zero identifier appends that identifier to the
iteration sequence of its collection and leaves the other two sequences as they were. -/
theorem C11_creation_order (g : nty_graph_t) (hr : Reachable g) :
    ((nty_node_create g).1 ≠ 0 →
      node_iteration (nty_node_create g).2 = node_iteration g ++ [(nty_node_create g).1] ∧
      edge_iteration (nty_node_create g).2 = edge_iteration g ∧
      property_iteration (nty_node_create g).2 = property_iteration g) ∧
    (∀ from_ to_ type weight timestamp,
      (nty_edge_create g from_ to_ type weight timestamp).1 ≠ 0 →
      edge_iteration (nty_edge_create g from_ to_ type weight timestamp).2 =
        edge_iteration g ++ [(nty_edge_create g from_ to_ type weight timestamp).1] ∧
      node_iteration (nty_edge_create g from_ to_ type weight timestamp).2 =
        node_iteration g ∧
      property_iteration (nty_edge_create g from_ to_ type weight timestamp).2 =
        property_iteration g) ∧
    (∀ owner key value,
      (nty_property_create g owner key value).1 ≠ 0 →
      property_iteration (nty_property_create g owner key value).2 =
        property_iteration g ++ [(nty_property_create g owner key value).1] ∧
      node_iteration (nty_property_create g owner key value).2 = node_iteration g ∧
      edge_iteration (nty_property_create g owner key value).2 = edge_iteration g) :=
  ⟨node_create_order (reachable_inv hr),
    fun f t ty w ts => edge_create_order (reachable_inv hr) f t ty w ts,
    fun o k v => property_create_order (reachable_inv hr) o k v⟩

/-- Witness for C11: in the example store after `nty_node_destroy(c)` the node sequence is
`a, b`; the next `nty_node_create` reuses slot 2 with generation 2 and the sequence becomes
`a, b, 0x2_0000_0003`; the next `nty_edge_create` reuses slot 1 of the edge arena. -/
theorem C11_creation_order_witness :
    node_iteration ex_g6 = [ex_a, ex_b] ∧ (nty_node_create ex_g6).1 = 8589934595 ∧
      node_iteration (nty_node_create ex_g6).2 = [ex_a, ex_b, 8589934595] ∧
      edge_iteration ex_g6 = [ex_a] ∧ (nty_edge_create ex_g6 ex_b ex_a 3 0 30).1 = 8589934594 ∧
      edge_iteration (nty_edge_create ex_g6 ex_b ex_a 3 0 30).2 = [ex_a, 8589934594] ∧
      (((nty_node_create ex_g6).1 ≠ 0 →
        node_iteration (nty_node_create ex_g6).2 =
          node_iteration ex_g6 ++ [(nty_node_create ex_g6).1] ∧
        edge_iteration (nty_node_create ex_g6).2 = edge_iteration ex_g6 ∧
        property_iteration (nty_node_create ex_g6).2 = property_iteration ex_g6) ∧
      (∀ from_ to_ type weight timestamp,
        (nty_edge_create ex_g6 from_ to_ type weight timestamp).1 ≠ 0 →
        edge_iteration (nty_edge_create ex_g6 from_ to_ type weight timestamp).2 =
          edge_iteration ex_g6 ++ [(nty_edge_create ex_g6 from_ to_ type weight timestamp).1] ∧
        node_iteration (nty_edge_create ex_g6 from_ to_ type weight timestamp).2 =
          node_iteration ex_g6 ∧
        property_iteration (nty_edge_create ex_g6 from_ to_ type weight timestamp).2 =
          property_iteration ex_g6) ∧
      (∀ owner key value,
        (nty_property_create ex_g6 owner key value).1 ≠ 0 →
        property_iteration (nty_property_create ex_g6 owner key value).2 =
          property_iteration ex_g6 ++ [(nty_property_create ex_g6 owner key value).1] ∧
        node_iteration (nty_property_create ex_g6 owner key value).2 = node_iteration ex_g6 ∧
        edge_iteration (nty_property_create ex_g6 owner key value).2 =
          edge_iteration ex_g6)) :=
  ⟨by decide, by decide, by decide, by decide, by decide, by decide,
    C11_creation_order ex_g6 ex_g6_reachable⟩

/-- C12. Iteration completeness: in a reachable state a full walk of the nodes (edges,
properties) yields every existing identifier of that kind exactly once and nothing else, so
its length is the live count; the walk equals the recorded part of the order array, whose
length is the arena's live count, and every `iter_next` call below that length yields the
entry at its index without skipping. -/
theorem C12_iteration_completeness (g : nty_graph_t) (hr : Reachable g) :
    ((node_iteration g).Nodup ∧
      (∀ id, id ∈ node_iteration g ↔ nty_node_exists g id = true) ∧
      (node_iteration g).length = nty_graph_node_count g ∧
      node_iteration g = order_list g.node_order g.node_order_len ∧
      g.node_order_len = g.nodes.count ∧
      (∀ i, i < g.node_order_len →
        nty_node_iter_next g i = (some (g.node_order i), i + 1))) ∧
    ((edge_iteration g).Nodup ∧
      (∀ id, id ∈ edge_iteration g ↔ nty_edge_exists g id = true) ∧
      (edge_iteration g).length = nty_graph_edge_count g ∧
      edge_iteration g = order_list g.edge_order g.edge_order_len ∧
      g.edge_order_len = g.edges.count ∧
      (∀ i, i < g.edge_order_len →
        nty_edge_iter_next g i = (some (g.edge_order i), i + 1))) ∧
    ((property_iteration g).Nodup ∧
      (∀ id, id ∈ property_iteration g ↔ nty_property_exists g id = true) ∧
      (property_iteration g).length = nty_graph_property_count g ∧
      property_iteration g = order_list g.property_order g.property_order_len ∧
      g.property_order_len = g.properties.count ∧
      (∀ i, i < g.property_order_len →
        nty_property_iter_next g i = (some (g.property_order i), i + 1))) :=
  ⟨iteration_complete (reachable_inv hr).node_order_inv,
    iteration_complete (reachable_inv hr).edge_order_inv,
    iteration_complete (reachable_inv hr).prop_order_inv⟩

/-- Witness for C12: the example store has the three nodes `a, b, c` and the two edges
`a -> b`, `a -> c`, and its counts are 3, 2 and 0. -/
theorem C12_iteration_completeness_witness :
    node_iteration ex_g5 = [ex_a, ex_b, ex_c] ∧ nty_graph_node_count ex_g5 = 3 ∧
      edge_iteration ex_g5 = [ex_a, ex_b] ∧ nty_graph_edge_count ex_g5 = 2 ∧
      property_iteration ex_g5 = [] ∧ nty_graph_property_count ex_g5 = 0 ∧
      (((node_iteration ex_g5).Nodup ∧
        (∀ id, id ∈ node_iteration ex_g5 ↔ nty_node_exists ex_g5 id = true) ∧
        (node_iteration ex_g5).length = nty_graph_node_count ex_g5 ∧
        node_iteration ex_g5 = order_list ex_g5.node_order ex_g5.node_order_len ∧
        ex_g5.node_order_len = ex_g5.nodes.count ∧
        (∀ i, i < ex_g5.node_order_len →
          nty_node_iter_next ex_g5 i = (some (ex_g5.node_order i), i + 1))) ∧
      ((edge_iteration ex_g5).Nodup ∧
        (∀ id, id ∈ edge_iteration ex_g5 ↔ nty_edge_exists ex_g5 id = true) ∧
        (edge_iteration ex_g5).length = nty_graph_edge_count ex_g5 ∧
        edge_iteration ex_g5 = order_list ex_g5.edge_order ex_g5.edge_order_len ∧
        ex_g5.edge_order_len = ex_g5.edges.count ∧
        (∀ i, i < ex_g5.edge_order_len →
          nty_edge_iter_next ex_g5 i = (some (ex_g5.edge_order i), i + 1))) ∧
      ((property_iteration ex_g5).Nodup ∧
        (∀ id, id ∈ property_iteration ex_g5 ↔ nty_property_exists ex_g5 id = true) ∧
        (property_iteration ex_g5).length = nty_graph_property_count ex_g5 ∧
        property_iteration ex_g5 = order_list ex_g5.property_order ex_g5.property_order_len ∧
        ex_g5.property_order_len = ex_g5.properties.count ∧
        (∀ i, i < ex_g5.property_order_len →
          nty_property_iter_next ex_g5 i = (some (ex_g5.property_order i), i + 1)))) :=
  ⟨by decide, by decide, by decide, by decide, by decide, by decide,
    C12_iteration_completeness ex_g5 ex_g5_reachable⟩

/-! ## Vector index: search, slot table -/

theorem find_loop_spec (index : nty_vector_index_t) (id : Nat) : ∀ n i : Nat,
    i + n = index.capacity →
    (find_loop index id n i = index.capacity ∧
        ∀ j, i ≤ j → j < index.capacity → index.ids j ≠ id) ∨
      (i ≤ find_loop index id n i ∧ find_loop index id n i < index.capacity ∧
        index.ids (find_loop index id n i) = id ∧
        ∀ j, i ≤ j → j < find_loop index id n i → index.ids j ≠ id)
  | 0, i, h => by
    left
    refine ⟨rfl, ?_⟩
    intro j h1 h2
    omega
  | n + 1, i, h => by
    unfold find_loop
    by_cases hi : index.ids i = id
    · rw [if_pos hi]
      right
      refine ⟨le_refl _, by omega, hi, ?_⟩
      intro j h1 h2
      omega
    · rw [if_neg hi]
      rcases find_loop_spec index id n (i + 1) (by omega) with ⟨h1, h2⟩ | ⟨h1, h2, h3, h4⟩
      · left
        refine ⟨h1, ?_⟩
        intro j hj1 hj2
        by_cases e : j = i
        · rw [e]; exact hi
        · exact h2 j (by omega) hj2
      · right
        refine ⟨by omega, h2, h3, ?_⟩
        intro j hj1 hj2
        by_cases e : j = i
        · rw [e]; exact hi
        · exact h4 j (by omega) hj2

theorem find_spec (index : nty_vector_index_t) (id : Nat) :
    (nty_vector_index_find index id = index.capacity ∧
        ∀ j, j < index.capacity → index.ids j ≠ id) ∨
      (nty_vector_index_find index id < index.capacity ∧
        index.ids (nty_vector_index_find index id) = id ∧
        ∀ j, j < nty_vector_index_find index id → index.ids j ≠ id) := by
  unfold nty_vector_index_find
  rcases find_loop_spec index id index.capacity 0 (by omega) with ⟨h1, h2⟩ | ⟨-, h2, h3, h4⟩
  · left
    exact ⟨h1, fun j hj => h2 j (Nat.zero_le _) hj⟩
  · right
    exact ⟨h2, h3, fun j hj => h4 j (Nat.zero_le _) hj⟩

theorem find_le (index : nty_vector_index_t) (id : Nat) :
    nty_vector_index_find index id ≤ index.capacity := by
  rcases find_spec index id with ⟨h, -⟩ | ⟨h, -⟩ <;> omega

/-- The search returns the first slot that holds the identifier. -/
theorem find_eq_of_first (index : nty_vector_index_t) (id r : Nat) (hr : r < index.capacity)
    (hid : index.ids r = id) (hfirst : ∀ j, j < r → index.ids j ≠ id) :
    nty_vector_index_find index id = r := by
  rcases find_spec index id with ⟨-, h2⟩ | ⟨h1, h2, h3⟩
  · exact absurd hid (h2 r hr)
  · rcases Nat.lt_trichotomy (nty_vector_index_find index id) r with h | h | h
    · exact absurd h2 (hfirst _ h)
    · exact h
    · exact absurd hid (h3 r h)

theorem find_eq_cap (index : nty_vector_index_t) (id : Nat)
    (h : ∀ j, j < index.capacity → index.ids j ≠ id) :
    nty_vector_index_find index id = index.capacity := by
  rcases find_spec index id with ⟨h1, -⟩ | ⟨h1, h2, -⟩
  · exact h1
  · exact absurd h2 (h _ h1)

theorem find_ne_cap_iff (index : nty_vector_index_t) (id : Nat) :
    nty_vector_index_find index id ≠ index.capacity ↔
      ∃ j, j < index.capacity ∧ index.ids j = id := by
  constructor
  · intro h
    rcases find_spec index id with ⟨h1, -⟩ | ⟨h1, h2, -⟩
    · exact absurd h1 h
    · exact ⟨_, h1, h2⟩
  · rintro ⟨j, hj, e⟩ h
    rcases find_spec index id with ⟨-, h2⟩ | ⟨h1, -, -⟩
    · exact h2 j hj e
    · omega

/-- The search reads the slot table and the capacity only. -/
theorem find_congr (index index' : nty_vector_index_t) (id : Nat)
    (hc : index'.capacity = index.capacity)
    (hids : ∀ j, j < index.capacity → index'.ids j = index.ids j) :
    nty_vector_index_find index' id = nty_vector_index_find index id := by
  rcases find_spec index id with ⟨h1, h2⟩ | ⟨h1, h2, h3⟩
  · rw [h1, ← hc]
    apply find_eq_cap
    intro j hj
    rw [hc] at hj
    rw [hids j hj]
    exact h2 j hj
  · apply find_eq_of_first
    · omega
    · rw [hids _ h1]; exact h2
    · intro j hj
      rw [hids j (by omega)]
      exact h3 j hj

theorem set_loop_eq (index : nty_vector_index_t) (id : Nat) : ∀ n i : Nat,
    i + n = index.capacity →
    set_loop index id n i =
      if find_loop index 0 n i = index.capacity then (index.capacity, index)
      else
        (find_loop index 0 n i,
         { index with
            ids := Function.update index.ids (find_loop index 0 n i) id
            count := usize (index.count + 1) })
  | 0, i, _ => by simp [set_loop, find_loop]
  | n + 1, i, h => by
    unfold set_loop find_loop
    by_cases hi : index.ids i = 0
    · rw [if_pos hi, if_pos hi, if_neg (by omega)]
    · rw [if_neg hi, if_neg hi]
      exact set_loop_eq index id n (i + 1) (by omega)

theorem set_slot_present (index : nty_vector_index_t) (id : Nat)
    (h : nty_vector_index_find index id ≠ index.capacity) :
    set_slot index id = (nty_vector_index_find index id, index) := by
  unfold set_slot
  rw [if_neg h]

theorem set_slot_full (index : nty_vector_index_t) (id : Nat)
    (h : nty_vector_index_find index id = index.capacity)
    (h0 : nty_vector_index_find index 0 = index.capacity) :
    set_slot index id = (index.capacity, index) := by
  unfold set_slot
  rw [if_pos h, set_loop_eq index id index.capacity 0 (by omega)]
  unfold nty_vector_index_find at h0
  rw [if_pos h0]

theorem set_slot_free (index : nty_vector_index_t) (id : Nat)
    (h : nty_vector_index_find index id = index.capacity)
    (h0 : nty_vector_index_find index 0 ≠ index.capacity) :
    set_slot index id =
      (nty_vector_index_find index 0,
       { index with
          ids := Function.update index.ids (nty_vector_index_find index 0) id
          count := usize (index.count + 1) }) := by
  unfold set_slot
  rw [if_pos h, set_loop_eq index id index.capacity 0 (by omega)]
  unfold nty_vector_index_find at h0 ⊢
  rw [if_neg h0]

theorem set_zero (index : nty_vector_index_t) (v : Nat → Nat) :
    nty_vector_index_set index 0 v = (false, index) := by
  unfold nty_vector_index_set
  rw [if_pos rfl]

/-- Closed form of `nty_vector_index_set` on an identifier that is in the table. -/
theorem set_present (index : nty_vector_index_t) (id : Nat) (v : Nat → Nat) (hid : id ≠ 0)
    (h : nty_vector_index_find index id ≠ index.capacity) :
    nty_vector_index_set index id v =
      (true,
       { index with
          data := memcpy_f32 index.data (nty_vector_index_find index id * index.dimension) v 0
            index.dimension }) := by
  unfold nty_vector_index_set
  rw [if_neg hid, set_slot_present index id h]
  simp only
  rw [if_neg h]

/-- Closed form of `nty_vector_index_set` on a new identifier when a slot is free. -/
theorem set_free (index : nty_vector_index_t) (id : Nat) (v : Nat → Nat) (hid : id ≠ 0)
    (h : nty_vector_index_find index id = index.capacity)
    (h0 : nty_vector_index_find index 0 ≠ index.capacity) :
    nty_vector_index_set index id v =
      (true,
       { index with
          ids := Function.update index.ids (nty_vector_index_find index 0) id
          count := usize (index.count + 1)
          data := memcpy_f32 index.data (nty_vector_index_find index 0 * index.dimension) v 0
            index.dimension }) := by
  unfold nty_vector_index_set
  rw [if_neg hid, set_slot_free index id h h0]
  simp only
  rw [if_neg h0]

/-- Closed form of `nty_vector_index_set` on a new identifier when no slot is free. -/
theorem set_full (index : nty_vector_index_t) (id : Nat) (v : Nat → Nat)
    (h : nty_vector_index_find index id = index.capacity)
    (h0 : nty_vector_index_find index 0 = index.capacity) :
    nty_vector_index_set index id v = (false, index) := by
  unfold nty_vector_index_set
  by_cases hid : id = 0
  · rw [if_pos hid]
  · rw [if_neg hid, set_slot_full index id h h0]
    simp

theorem remove_absent (index : nty_vector_index_t) (id : Nat)
    (h : id = 0 ∨ nty_vector_index_find index id = index.capacity) :
    nty_vector_index_remove index id = (false, index) := by
  unfold nty_vector_index_remove
  by_cases hid : id = 0
  · rw [if_pos hid]
  · rw [if_neg hid, if_pos (h.resolve_left hid)]

theorem remove_present (index : nty_vector_index_t) (id : Nat) (hid : id ≠ 0)
    (h : nty_vector_index_find index id ≠ index.capacity) :
    nty_vector_index_remove index id =
      (true,
       { index with
          ids := Function.update index.ids (nty_vector_index_find index id) 0
          data := memset_f32 index.data
            (nty_vector_index_find index id * index.dimension) index.dimension
          count := usize_dec index.count }) := by
  unfold nty_vector_index_remove
  rw [if_neg hid, if_neg h]

theorem get_absent (index : nty_vector_index_t) (id : Nat) (out : Nat → Nat)
    (h : id = 0 ∨ nty_vector_index_find index id = index.capacity) :
    nty_vector_index_get index id out = (false, out) := by
  unfold nty_vector_index_get
  by_cases hid : id = 0
  · rw [if_pos hid]
  · rw [if_neg hid, if_pos (h.resolve_left hid)]

theorem get_present (index : nty_vector_index_t) (id : Nat) (out : Nat → Nat) (hid : id ≠ 0)
    (h : nty_vector_index_find index id ≠ index.capacity) :
    nty_vector_index_get index id out =
      (true,
       memcpy_f32 out 0 index.data (nty_vector_index_find index id * index.dimension)
         index.dimension) := by
  unfold nty_vector_index_get
  rw [if_neg hid, if_neg h]

theorem get_fst_iff (index : nty_vector_index_t) (id : Nat) (out : Nat → Nat) :
    (nty_vector_index_get index id out).1 = true ↔
      id ≠ 0 ∧ nty_vector_index_find index id ≠ index.capacity := by
  by_cases hid : id = 0
  · rw [get_absent index id out (Or.inl hid)]; simp [hid]
  · by_cases h : nty_vector_index_find index id = index.capacity
    · rw [get_absent index id out (Or.inr h)]; simp [h]
    · rw [get_present index id out hid h]; simp [hid, h]

theorem memcpy_read (dst src : Nat → Nat) (off n d : Nat) (hd : d < n) :
    memcpy_f32 dst 0 src off n d = src (off + d) := by
  unfold memcpy_f32
  rw [if_pos ⟨Nat.zero_le _, by omega⟩]
  simp

theorem memcpy_write (dst src : Nat → Nat) (off n d : Nat) (hd : d < n) :
    memcpy_f32 dst off src 0 n (off + d) = src d := by
  unfold memcpy_f32
  rw [if_pos ⟨by omega, by omega⟩]
  simp

/-- Rows of different slots do not overlap. -/
theorem memcpy_other (dst src : Nat → Nat) (s s' dim d : Nat) (hne : s' ≠ s) (hd : d < dim) :
    memcpy_f32 dst (s * dim) src 0 dim (s' * dim + d) = dst (s' * dim + d) := by
  unfold memcpy_f32
  rw [if_neg]
  rintro ⟨h1, h2⟩
  rcases Nat.lt_or_gt_of_ne hne with h | h
  · have : (s' + 1) * dim ≤ s * dim := Nat.mul_le_mul_right _ h
    rw [Nat.add_mul, Nat.one_mul] at this
    omega
  · have : (s + 1) * dim ≤ s' * dim := Nat.mul_le_mul_right _ h
    rw [Nat.add_mul, Nat.one_mul] at this
    omega

theorem memset_other (dst : Nat → Nat) (s s' dim d : Nat) (hne : s' ≠ s) (hd : d < dim) :
    memset_f32 dst (s * dim) dim (s' * dim + d) = dst (s' * dim + d) := by
  unfold memset_f32
  rw [if_neg]
  rintro ⟨h1, h2⟩
  rcases Nat.lt_or_gt_of_ne hne with h | h
  · have : (s' + 1) * dim ≤ s * dim := Nat.mul_le_mul_right _ h
    rw [Nat.add_mul, Nat.one_mul] at this
    omega
  · have : (s + 1) * dim ≤ s' * dim := Nat.mul_le_mul_right _ h
    rw [Nat.add_mul, Nat.one_mul] at this
    omega

theorem memset_zero (dst : Nat → Nat) (off n d : Nat) (hd : d < n) :
    memset_f32 dst off n (off + d) = 0 := by
  unfold memset_f32
  rw [if_pos ⟨by omega, by omega⟩]

/-! ## Occupied slots -/

theorem used_slots_succ (ids : Nat → Nat) (c : Nat) :
    used_slots ids (c + 1) = used_slots ids c + (if ids c ≠ 0 then 1 else 0) := by
  unfold used_slots
  rw [List.range_succ, List.filter_append, List.length_append]
  by_cases h : ids c = 0
  · simp [h]
  · simp [h]

theorem used_slots_le (ids : Nat → Nat) : ∀ c : Nat, used_slots ids c ≤ c
  | 0 => by simp [used_slots]
  | c + 1 => by
    rw [used_slots_succ]
    have := used_slots_le ids c
    split <;> omega

theorem used_slots_congr (ids ids' : Nat → Nat) : ∀ c : Nat,
    (∀ j, j < c → ids' j = ids j) → used_slots ids' c = used_slots ids c
  | 0, _ => by simp [used_slots]
  | c + 1, h => by
    rw [used_slots_succ, used_slots_succ, used_slots_congr ids ids' c (fun j hj => h j (by omega)),
      h c (by omega)]

theorem used_slots_update (ids : Nat → Nat) (i v : Nat) : ∀ c : Nat,
    used_slots (Function.update ids i v) c + (if i < c ∧ ids i ≠ 0 then 1 else 0) =
      used_slots ids c + (if i < c ∧ v ≠ 0 then 1 else 0)
  | 0 => by simp [used_slots]
  | c + 1 => by
    rw [used_slots_succ, used_slots_succ]
    have ih := used_slots_update ids i v c
    by_cases hic : i = c
    · subst hic
      rw [Function.update_same]
      have e : used_slots (Function.update ids i v) i = used_slots ids i :=
        used_slots_congr ids _ i (fun j hj => Function.update_noteq (by omega) _ _)
      rw [e]
      by_cases h1 : ids i = 0 <;> by_cases h2 : v = 0 <;> simp [h1, h2]
    · rw [Function.update_noteq (Ne.symm hic)]
      by_cases hlt : i < c
      · have e1 : (i < c + 1) := by omega
        simp only [hlt, e1, true_and] at ih ⊢
        omega
      · have e1 : ¬ (i < c + 1) := by omega
        simp only [hlt, e1, false_and, if_false] at ih ⊢
        omega

theorem used_slots_eq_cap_iff (ids : Nat → Nat) : ∀ c : Nat,
    used_slots ids c = c ↔ ∀ j, j < c → ids j ≠ 0
  | 0 => by simp [used_slots]
  | c + 1 => by
    rw [used_slots_succ]
    have hle := used_slots_le ids c
    have ih := used_slots_eq_cap_iff ids c
    constructor
    · intro h j hj
      by_cases hc : ids c = 0
      · rw [if_neg (by simpa using hc)] at h
        omega
      · rw [if_pos hc] at h
        by_cases e : j = c
        · rw [e]; exact hc
        · exact ih.1 (by omega) j (by omega)
    · intro h
      rw [if_pos (h c (by omega)), ih.2 (fun j hj => h j (by omega))]

theorem used_slots_pos (ids : Nat → Nat) (c j : Nat) (hj : j < c) (h : ids j ≠ 0) :
    0 < used_slots ids c := by
  unfold used_slots
  apply List.length_pos_of_mem (a := j)
  simp [hj, h]

/-! ## The slot-table invariant -/

theorem usize_succ (c : Nat) (h : c + 1 < 18446744073709551616) : usize (c + 1) = c + 1 := by
  unfold usize
  exact Nat.mod_eq_of_lt h

theorem usize_pred (c : Nat) (h0 : 0 < c) : usize_dec c = c - 1 := by
  unfold usize_dec
  rw [if_neg (by omega)]

theorem vectorInv_create (dimension capacity : Nat) (index : nty_vector_index_t)
    (hs : capacity * dimension * 4 < 18446744073709551616)
    (h : nty_vector_index_create dimension capacity = some index) : VectorInv index := by
  unfold nty_vector_index_create at h
  by_cases h0 : dimension = 0 ∨ capacity = 0
  · rw [if_pos h0] at h; cases h
  · rw [if_neg h0] at h
    cases h
    push_neg at h0
    refine ⟨?_, ?_, ?_⟩
    · show capacity < 18446744073709551616
      have : capacity * 1 ≤ capacity * dimension := Nat.mul_le_mul_left _ (by omega)
      omega
    · intro i j _ _ hi
      exact absurd rfl hi
    · show 0 = used_slots (fun _ => 0) capacity
      unfold used_slots
      simp

theorem find_zero_iff_count (index : nty_vector_index_t) (h : VectorInv index) :
    nty_vector_index_find index 0 = index.capacity ↔ index.count = index.capacity := by
  rw [h.count_eq, used_slots_eq_cap_iff]
  constructor
  · intro e j hj h0
    have := (find_ne_cap_iff index 0).2 ⟨j, hj, h0⟩
    exact this e
  · intro e
    exact find_eq_cap index 0 e

theorem count_le_cap (index : nty_vector_index_t) (h : VectorInv index) :
    index.count ≤ index.capacity := by
  rw [h.count_eq]; exact used_slots_le _ _

theorem vectorInv_set (index : nty_vector_index_t) (h : VectorInv index) (id : Nat)
    (v : Nat → Nat) : VectorInv (nty_vector_index_set index id v).2 := by
  by_cases hid : id = 0
  · rw [hid, set_zero]; exact h
  by_cases hf : nty_vector_index_find index id = index.capacity
  swap
  · rw [set_present index id v hid hf]
    exact ⟨h.cap_lt, h.inj, h.count_eq⟩
  by_cases h0 : nty_vector_index_find index 0 = index.capacity
  · rw [set_full index id v hf h0]; exact h
  rw [set_free index id v hid hf h0]
  rcases find_spec index 0 with ⟨e, -⟩ | ⟨s1, s2, s3⟩
  · exact absurd e h0
  rcases find_spec index id with ⟨-, f2⟩ | ⟨f1, -, -⟩
  swap
  · omega
  have hcl := count_le_cap index h
  have hne : index.count ≠ index.capacity := fun e => h0 ((find_zero_iff_count index h).2 e)
  have hcap := h.cap_lt
  refine ⟨h.cap_lt, ?_, ?_⟩
  · intro i j hi hj hi0 hij
    simp only at hi hj hi0 hij
    by_cases ei : i = nty_vector_index_find index 0
    · by_cases ej : j = nty_vector_index_find index 0
      · rw [ei, ej]
      · rw [ei, Function.update_same, Function.update_noteq ej] at hij
        exact absurd hij.symm (f2 j hj)
    · by_cases ej : j = nty_vector_index_find index 0
      · rw [ej, Function.update_same, Function.update_noteq ei] at hij
        exact absurd hij (f2 i hi)
      · rw [Function.update_noteq ei] at hi0 hij
        rw [Function.update_noteq ej] at hij
        exact h.inj i j hi hj hi0 hij
  · show usize (index.count + 1) =
      used_slots (Function.update index.ids (nty_vector_index_find index 0) id) index.capacity
    have hu := used_slots_update index.ids (nty_vector_index_find index 0) id index.capacity
    rw [if_neg (by rintro ⟨-, c⟩; exact c s2), if_pos ⟨s1, hid⟩, ← h.count_eq] at hu
    rw [usize_succ _ (by omega)]
    omega

theorem vectorInv_remove (index : nty_vector_index_t) (h : VectorInv index) (id : Nat) :
    VectorInv (nty_vector_index_remove index id).2 := by
  by_cases hid : id = 0
  · rw [remove_absent index id (Or.inl hid)]; exact h
  by_cases hf : nty_vector_index_find index id = index.capacity
  · rw [remove_absent index id (Or.inr hf)]; exact h
  rw [remove_present index id hid hf]
  rcases find_spec index id with ⟨e, -⟩ | ⟨s1, s2, s3⟩
  · exact absurd e hf
  have hcap := h.cap_lt
  have hcl := count_le_cap index h
  have hpos : 0 < index.count := by
    rw [h.count_eq]
    exact used_slots_pos _ _ _ s1 (by rw [s2]; exact hid)
  refine ⟨h.cap_lt, ?_, ?_⟩
  · intro i j hi hj hi0 hij
    simp only at hi hj hi0 hij
    by_cases ei : i = nty_vector_index_find index id
    · rw [ei, Function.update_same] at hi0
      exact absurd rfl hi0
    · rw [Function.update_noteq ei] at hi0 hij
      by_cases ej : j = nty_vector_index_find index id
      · rw [ej, Function.update_same] at hij
        exact absurd hij hi0
      · rw [Function.update_noteq ej] at hij
        exact h.inj i j hi hj hi0 hij
  · show usize_dec index.count =
      used_slots (Function.update index.ids (nty_vector_index_find index id) 0) index.capacity
    have hu := used_slots_update index.ids (nty_vector_index_find index id) 0 index.capacity
    rw [if_pos ⟨s1, by rw [s2]; exact hid⟩, if_neg (by rintro ⟨-, c⟩; exact c rfl),
      ← h.count_eq] at hu
    rw [usize_pred _ hpos]
    omega

theorem vectorReachable_inv {index : nty_vector_index_t} (hr : VectorReachable index) :
    VectorInv index := by
  induction hr with
  | init d c ix hs h => exact vectorInv_create d c ix hs h
  | step ix ix' _ hs ih =>
    cases hs with
    | set id v => exact vectorInv_set ix ih id v
    | remove id => exact vectorInv_remove ix ih id

/-! ## Vector index: set, get, remove -/

theorem ex_w0_reachable : VectorReachable ex_w0 :=
  VectorReachable.init 1 1 ex_w0 (by decide) rfl

theorem ex_w1_reachable : VectorReachable ex_w1 :=
  VectorReachable.step ex_w0 ex_w1 ex_w0_reachable (VectorStep.set ex_w0 5 (vec_of [F32_ONE]))

theorem ex_v0_reachable : VectorReachable ex_v0 :=
  VectorReachable.init 2 4 ex_v0 (by decide) rfl

theorem ex_v3_reachable : VectorReachable ex_v3 :=
  VectorReachable.step _ _
    (VectorReachable.step _ _
      (VectorReachable.step _ _ ex_v0_reachable (VectorStep.set ex_v0 1 (vec_of [0, 0])))
      (VectorStep.set ex_v1 3 (vec_of [F32_ONE, 0])))
    (VectorStep.set ex_v2 2 (vec_of [F32_MINUS_ONE, 0]))

theorem set_fst_iff (index : nty_vector_index_t) (id : Nat) (v : Nat → Nat) :
    (nty_vector_index_set index id v).1 = true ↔
      id ≠ 0 ∧ (nty_vector_index_find index id ≠ index.capacity ∨
        nty_vector_index_find index 0 ≠ index.capacity) := by
  by_cases hid : id = 0
  · rw [hid, set_zero]; simp
  by_cases hf : nty_vector_index_find index id = index.capacity
  · by_cases h0 : nty_vector_index_find index 0 = index.capacity
    · rw [set_full index id v hf h0]; simp [hf, h0]
    · rw [set_free index id v hid hf h0]; simp [hid, h0]
  · rw [set_present index id v hid hf]; simp [hid, hf]

/-- After a successful `nty_vector_index_set` the search finds the identifier in the slot
whose row received the vector. -/
theorem set_find (index : nty_vector_index_t) (id : Nat) (v : Nat → Nat)
    (h : (nty_vector_index_set index id v).1 = true) :
    nty_vector_index_find (nty_vector_index_set index id v).2 id ≠
        (nty_vector_index_set index id v).2.capacity ∧
      (nty_vector_index_set index id v).2.dimension = index.dimension ∧
      ∀ d, d < index.dimension →
        (nty_vector_index_set index id v).2.data
          (nty_vector_index_find (nty_vector_index_set index id v).2 id * index.dimension + d) =
          v d := by
  obtain ⟨hid, hcase⟩ := (set_fst_iff index id v).1 h
  by_cases hf : nty_vector_index_find index id = index.capacity
  · have h0 := hcase.resolve_left (fun c => c hf)
    rw [set_free index id v hid hf h0]
    rcases find_spec index 0 with ⟨e, -⟩ | ⟨s1, s2, s3⟩
    · exact absurd e h0
    rcases find_spec index id with ⟨-, f2⟩ | ⟨f1, -, -⟩
    swap
    · omega
    have hfind : nty_vector_index_find
        { index with
          ids := Function.update index.ids (nty_vector_index_find index 0) id
          count := usize (index.count + 1)
          data := memcpy_f32 index.data (nty_vector_index_find index 0 * index.dimension) v 0
            index.dimension } id = nty_vector_index_find index 0 := by
      apply find_eq_of_first
      · exact s1
      · exact Function.update_same _ _ _
      · intro j hj
        show Function.update index.ids (nty_vector_index_find index 0) id j ≠ id
        rw [Function.update_noteq (by omega)]
        exact f2 j (by omega)
    refine ⟨?_, rfl, ?_⟩
    · rw [hfind]
      show nty_vector_index_find index 0 ≠ index.capacity
      exact h0
    · intro d hd
      rw [hfind]
      exact memcpy_write _ _ _ _ _ hd
  · rw [set_present index id v hid hf]
    have hfind : nty_vector_index_find
        { index with
          data := memcpy_f32 index.data (nty_vector_index_find index id * index.dimension) v 0
            index.dimension } id = nty_vector_index_find index id :=
      find_congr index _ id rfl (fun _ _ => rfl)
    refine ⟨?_, rfl, ?_⟩
    · rw [hfind]
      exact hf
    · intro d hd
      rw [hfind]
      exact memcpy_write _ _ _ _ _ hd

/-- C17. Vector set/get round trip: in any index, if `nty_vector_index_set(id, v)` returns
true then `nty_vector_index_get(id)` on the resulting index returns true and the first
`dimension` entries of the output array are those of `v`, whether or not `id` was present
before; the entries of the output array beyond the dimension are not written. -/
theorem C17_set_get_round_trip (index : nty_vector_index_t) (node_id : Nat)
    (vector out_vector : Nat → Nat)
    (h : (nty_vector_index_set index node_id vector).1 = true) :
    (nty_vector_index_get (nty_vector_index_set index node_id vector).2 node_id
        out_vector).1 = true ∧
      (∀ d, d < nty_vector_index_dimension index →
        (nty_vector_index_get (nty_vector_index_set index node_id vector).2 node_id
          out_vector).2 d = vector d) ∧
      (∀ d, nty_vector_index_dimension index ≤ d →
        (nty_vector_index_get (nty_vector_index_set index node_id vector).2 node_id
          out_vector).2 d = out_vector d) ∧
      stored_vector (nty_vector_index_set index node_id vector).2 node_id =
        some ((List.range (nty_vector_index_dimension index)).map vector) := by
  obtain ⟨h1, h2, h3⟩ := set_find index node_id vector h
  have hid := ((set_fst_iff index node_id vector).1 h).1
  have hg : ∀ out, nty_vector_index_get (nty_vector_index_set index node_id vector).2 node_id
      out = (true, memcpy_f32 out 0 (nty_vector_index_set index node_id vector).2.data
        (nty_vector_index_find (nty_vector_index_set index node_id vector).2 node_id *
          index.dimension) index.dimension) := by
    intro out
    rw [get_present _ node_id out hid h1, h2]
  have hread : ∀ out d, d < index.dimension →
      (nty_vector_index_get (nty_vector_index_set index node_id vector).2 node_id out).2 d =
        vector d := by
    intro out d hd
    rw [hg]
    show memcpy_f32 out 0 _ _ _ d = vector d
    rw [memcpy_read _ _ _ _ _ hd]
    exact h3 d hd
  unfold nty_vector_index_dimension
  refine ⟨by rw [hg], hread _, ?_, ?_⟩
  · intro d hd
    rw [hg]
    show memcpy_f32 out_vector 0 _ _ _ d = out_vector d
    unfold memcpy_f32
    rw [if_neg (by omega)]
  · unfold stored_vector
    rw [if_pos (by rw [hg]), h2]
    congr 1
    apply List.map_congr_left
    intro d hd
    exact hread _ d (List.mem_range.1 hd)

/-- Witness for C17: `test_set_get_update`, on an index of dimension 3 and capacity 4:
`set(10, (1, 2, 3))`, then `set(10, (4, 5, 6))`, then `get(10)` copies out `(4, 5, 6)`. -/
theorem C17_set_get_round_trip_witness :
    (nty_vector_index_set
        (nty_vector_index_set
          { dimension := 3, capacity := 4, count := 0, ids := fun _ => 0, data := fun _ => 0 }
          10 (vec_of [1065353216, 1073741824, 1077936128])).2
        10 (vec_of [1082130432, 1084227584, 1086324736])).1 = true ∧
      stored_vector
        (nty_vector_index_set
          (nty_vector_index_set
            { dimension := 3, capacity := 4, count := 0, ids := fun _ => 0, data := fun _ => 0 }
            10 (vec_of [1065353216, 1073741824, 1077936128])).2
          10 (vec_of [1082130432, 1084227584, 1086324736])).2 10 =
        some [1082130432, 1084227584, 1086324736] :=
  ⟨by decide,
    (C17_set_get_round_trip
      (nty_vector_index_set
        { dimension := 3, capacity := 4, count := 0, ids := fun _ => 0, data := fun _ => 0 }
        10 (vec_of [1065353216, 1073741824, 1077936128])).2
      10 (vec_of [1082130432, 1084227584, 1086324736]) (fun _ => 0) (by decide)).2.2.2⟩

/-- C18. Upsert in place: in any index, if `nty_vector_index_get(id)` succeeds then
`nty_vector_index_set(id, v)` returns true, leaves the count, the capacity and the whole
slot table unchanged, so `id` stays in its slot, whether or not the index is full. -/
theorem C18_upsert_in_place (index : nty_vector_index_t) (node_id : Nat)
    (vector out_vector : Nat → Nat)
    (h : (nty_vector_index_get index node_id out_vector).1 = true) :
    (nty_vector_index_set index node_id vector).1 = true ∧
      nty_vector_index_count (nty_vector_index_set index node_id vector).2 =
        nty_vector_index_count index ∧
      nty_vector_index_capacity (nty_vector_index_set index node_id vector).2 =
        nty_vector_index_capacity index ∧
      (nty_vector_index_set index node_id vector).2.ids = index.ids ∧
      nty_vector_index_find (nty_vector_index_set index node_id vector).2 node_id =
        nty_vector_index_find index node_id := by
  obtain ⟨hid, hf⟩ := (get_fst_iff index node_id out_vector).1 h
  rw [set_present index node_id vector hid hf]
  exact ⟨rfl, rfl, rfl, rfl, find_congr index _ node_id rfl (fun _ _ => rfl)⟩

/-- Witness for C18: the one-slot index that holds identifier 5 is full (count 1, capacity
1), and `set(5, (-1))` succeeds with the count still 1. -/
theorem C18_upsert_in_place_witness :
    nty_vector_index_count ex_w1 = 1 ∧ nty_vector_index_capacity ex_w1 = 1 ∧
      stored_vector (nty_vector_index_set ex_w1 5 (vec_of [F32_MINUS_ONE])).2 5 =
        some [F32_MINUS_ONE] ∧
      ((nty_vector_index_set ex_w1 5 (vec_of [F32_MINUS_ONE])).1 = true ∧
        nty_vector_index_count (nty_vector_index_set ex_w1 5 (vec_of [F32_MINUS_ONE])).2 =
          nty_vector_index_count ex_w1 ∧
        nty_vector_index_capacity (nty_vector_index_set ex_w1 5 (vec_of [F32_MINUS_ONE])).2 =
          nty_vector_index_capacity ex_w1 ∧
        (nty_vector_index_set ex_w1 5 (vec_of [F32_MINUS_ONE])).2.ids = ex_w1.ids ∧
        nty_vector_index_find (nty_vector_index_set ex_w1 5 (vec_of [F32_MINUS_ONE])).2 5 =
          nty_vector_index_find ex_w1 5) :=
  ⟨by decide, by decide, by decide,
    C18_upsert_in_place ex_w1 5 (vec_of [F32_MINUS_ONE]) (fun _ => 0) (by decide)⟩

/-- C19. Vector insert at capacity: in a reachable index, for a non-zero identifier that
`nty_vector_index_get` does not find, `nty_vector_index_set` returns true exactly when the
count is below the capacity; on success the identifier is in the lowest-numbered slot that
was free, every other slot is unchanged and the count has grown by 1; on failure the index
is unchanged. -/
theorem C19_insert_at_capacity (index : nty_vector_index_t) (hr : VectorReachable index)
    (node_id : Nat) (vector out_vector : Nat → Nat) (hid : node_id ≠ 0)
    (hn : (nty_vector_index_get index node_id out_vector).1 = false) :
    ((nty_vector_index_set index node_id vector).1 = true ↔
        nty_vector_index_count index < nty_vector_index_capacity index) ∧
      ((nty_vector_index_set index node_id vector).1 = true →
        ∃ slot, slot < nty_vector_index_capacity index ∧ index.ids slot = 0 ∧
          (∀ j, j < slot → index.ids j ≠ 0) ∧
          nty_vector_index_find (nty_vector_index_set index node_id vector).2 node_id = slot ∧
          (nty_vector_index_set index node_id vector).2.ids =
            Function.update index.ids slot node_id ∧
          nty_vector_index_count (nty_vector_index_set index node_id vector).2 =
            nty_vector_index_count index + 1) ∧
      ((nty_vector_index_set index node_id vector).1 = false →
        (nty_vector_index_set index node_id vector).2 = index) := by
  have hinv := vectorReachable_inv hr
  have hf : nty_vector_index_find index node_id = index.capacity := by
    by_contra c
    have := (get_fst_iff index node_id out_vector).2 ⟨hid, c⟩
    rw [hn] at this
    cases this
  have hcl := count_le_cap index hinv
  have hcap := hinv.cap_lt
  unfold nty_vector_index_count nty_vector_index_capacity
  by_cases h0 : nty_vector_index_find index 0 = index.capacity
  · have hc := (find_zero_iff_count index hinv).1 h0
    rw [set_full index node_id vector hf h0]
    refine ⟨?_, ?_, fun _ => rfl⟩
    · constructor
      · intro c; cases c
      · intro c; omega
    · intro c; cases c
  · have hc : index.count ≠ index.capacity := fun e => h0 ((find_zero_iff_count index hinv).2 e)
    have hs := set_find index node_id vector
      ((set_fst_iff index node_id vector).2 ⟨hid, Or.inr h0⟩)
    rcases find_spec index 0 with ⟨e, -⟩ | ⟨s1, s2, s3⟩
    · exact absurd e h0
    rcases find_spec index node_id with ⟨-, f2⟩ | ⟨f1, -, -⟩
    swap
    · omega
    rw [set_free index node_id vector hid hf h0]
    refine ⟨?_, ?_, ?_⟩
    · constructor
      · intro _; omega
      · intro _; rfl
    · intro _
      refine ⟨nty_vector_index_find index 0, s1, s2, s3, ?_, rfl, ?_⟩
      · apply find_eq_of_first
        · exact s1
        · exact Function.update_same _ _ _
        · intro j hj
          show Function.update index.ids (nty_vector_index_find index 0) node_id j ≠ node_id
          rw [Function.update_noteq (by omega)]
          exact f2 j (by omega)
      · show usize (index.count + 1) = index.count + 1
        exact usize_succ _ (by omega)
    · intro c; cases c

/-- Witness for C19: the full one-slot index rejects the new identifier 6, and the index of
`test_knn_tiebreak` (slots 1, 3, 2 and one free slot) puts the new identifier 7 in slot 3
and its count goes from 3 to 4. -/
theorem C19_insert_at_capacity_witness :
    (nty_vector_index_set ex_w1 6 (vec_of [0])).1 = false ∧
      (nty_vector_index_set ex_v3 7 (vec_of [0, 0])).1 = true ∧
      nty_vector_index_find (nty_vector_index_set ex_v3 7 (vec_of [0, 0])).2 7 = 3 ∧
      nty_vector_index_count ex_v3 = 3 ∧
      nty_vector_index_count (nty_vector_index_set ex_v3 7 (vec_of [0, 0])).2 = 4 ∧
      (((nty_vector_index_set ex_w1 6 (vec_of [0])).1 = true ↔
          nty_vector_index_count ex_w1 < nty_vector_index_capacity ex_w1) ∧
        ((nty_vector_index_set ex_w1 6 (vec_of [0])).1 = true →
          ∃ slot, slot < nty_vector_index_capacity ex_w1 ∧ ex_w1.ids slot = 0 ∧
            (∀ j, j < slot → ex_w1.ids j ≠ 0) ∧
            nty_vector_index_find (nty_vector_index_set ex_w1 6 (vec_of [0])).2 6 = slot ∧
            (nty_vector_index_set ex_w1 6 (vec_of [0])).2.ids =
              Function.update ex_w1.ids slot 6 ∧
            nty_vector_index_count (nty_vector_index_set ex_w1 6 (vec_of [0])).2 =
              nty_vector_index_count ex_w1 + 1) ∧
        ((nty_vector_index_set ex_w1 6 (vec_of [0])).1 = false →
          (nty_vector_index_set ex_w1 6 (vec_of [0])).2 = ex_w1)) :=
  ⟨by decide, by decide, by decide, by decide, by decide,
    C19_insert_at_capacity ex_w1 ex_w1_reachable 6 (vec_of [0]) (fun _ => 0) (by decide)
      (by decide)⟩

/-- C20. Vector remove: in a reachable index `nty_vector_index_remove(id)` returns true
exactly when `id` is non-zero and `nty_vector_index_get(id)` succeeds; after a true return
`nty_vector_index_get(id)` fails, the count is lower by exactly 1, the slot that held `id`
holds 0 and its row is all zeros; after a false return the index is unchanged. -/
theorem C20_vector_remove (index : nty_vector_index_t) (hr : VectorReachable index)
    (node_id : Nat) (out_vector : Nat → Nat) :
    ((nty_vector_index_remove index node_id).1 = true ↔
        node_id ≠ 0 ∧ (nty_vector_index_get index node_id out_vector).1 = true) ∧
      ((nty_vector_index_remove index node_id).1 = true →
        (nty_vector_index_get (nty_vector_index_remove index node_id).2 node_id
          out_vector).1 = false ∧
        nty_vector_index_count (nty_vector_index_remove index node_id).2 + 1 =
          nty_vector_index_count index ∧
        (nty_vector_index_remove index node_id).2.ids
          (nty_vector_index_find index node_id) = 0 ∧
        ∀ d, d < nty_vector_index_dimension index →
          (nty_vector_index_remove index node_id).2.data
            (nty_vector_index_find index node_id * nty_vector_index_dimension index + d) =
            0) ∧
      ((nty_vector_index_remove index node_id).1 = false →
        (nty_vector_index_remove index node_id).2 = index) := by
  have hinv := vectorReachable_inv hr
  unfold nty_vector_index_count nty_vector_index_dimension
  by_cases hid : node_id = 0
  · rw [remove_absent index node_id (Or.inl hid)]
    refine ⟨?_, ?_, fun _ => rfl⟩
    · constructor
      · intro c; cases c
      · intro c; exact absurd hid c.1
    · intro c; cases c
  by_cases hf : nty_vector_index_find index node_id = index.capacity
  · rw [remove_absent index node_id (Or.inr hf)]
    refine ⟨?_, ?_, fun _ => rfl⟩
    · constructor
      · intro c; cases c
      · intro c
        exact absurd hf ((get_fst_iff index node_id out_vector).1 c.2).2
    · intro c; cases c
  rcases find_spec index node_id with ⟨e, -⟩ | ⟨s1, s2, s3⟩
  · exact absurd e hf
  have hpos : 0 < index.count := by
    rw [hinv.count_eq]
    exact used_slots_pos _ _ _ s1 (by rw [s2]; exact hid)
  rw [remove_present index node_id hid hf]
  refine ⟨?_, ?_, ?_⟩
  · constructor
    · intro _
      exact ⟨hid, (get_fst_iff index node_id out_vector).2 ⟨hid, hf⟩⟩
    · intro _; rfl
  · intro _
    refine ⟨?_, ?_, ?_, ?_⟩
    · have hgone : nty_vector_index_find
          { index with
            ids := Function.update index.ids (nty_vector_index_find index node_id) 0
            data := memset_f32 index.data
              (nty_vector_index_find index node_id * index.dimension) index.dimension
            count := usize_dec index.count } node_id = index.capacity := by
        apply find_eq_cap
        intro j hj
        show Function.update index.ids (nty_vector_index_find index node_id) 0 j ≠ node_id
        by_cases e : j = nty_vector_index_find index node_id
        · rw [e, Function.update_same]
          exact Ne.symm hid
        · rw [Function.update_noteq e]
          intro c
          apply e
          have := hinv.inj j (nty_vector_index_find index node_id) hj s1
            (by rw [c]; exact hid) (by rw [c, s2])
          exact this
      rw [get_absent _ node_id out_vector (Or.inr hgone)]
    · show usize_dec index.count + 1 = index.count
      rw [usize_pred _ hpos]
      omega
    · exact Function.update_same _ _ _
    · intro d hd
      exact memset_zero _ _ _ _ hd
  · intro c; cases c

/-- Witness for C20: `test_remove`, with identifier 5 on the one-slot index: the count goes
from 1 to 0, `get(5)` fails afterwards, and removing 5 a second time returns false. -/
theorem C20_vector_remove_witness :
    nty_vector_index_count ex_w1 = 1 ∧ (nty_vector_index_remove ex_w1 5).1 = true ∧
      nty_vector_index_count (nty_vector_index_remove ex_w1 5).2 = 0 ∧
      stored_vector (nty_vector_index_remove ex_w1 5).2 5 = none ∧
      (nty_vector_index_remove (nty_vector_index_remove ex_w1 5).2 5).1 = false ∧
      (((nty_vector_index_remove ex_w1 5).1 = true ↔
          5 ≠ 0 ∧ (nty_vector_index_get ex_w1 5 (fun _ => 0)).1 = true) ∧
        ((nty_vector_index_remove ex_w1 5).1 = true →
          (nty_vector_index_get (nty_vector_index_remove ex_w1 5).2 5 (fun _ => 0)).1 =
            false ∧
          nty_vector_index_count (nty_vector_index_remove ex_w1 5).2 + 1 =
            nty_vector_index_count ex_w1 ∧
          (nty_vector_index_remove ex_w1 5).2.ids (nty_vector_index_find ex_w1 5) = 0 ∧
          ∀ d, d < nty_vector_index_dimension ex_w1 →
            (nty_vector_index_remove ex_w1 5).2.data
              (nty_vector_index_find ex_w1 5 * nty_vector_index_dimension ex_w1 + d) = 0) ∧
        ((nty_vector_index_remove ex_w1 5).1 = false →
          (nty_vector_index_remove ex_w1 5).2 = ex_w1)) :=
  ⟨by decide, by decide, by decide, by decide, by decide,
    C20_vector_remove ex_w1 ex_w1_reachable 5 (fun _ => 0)⟩

/-! ## Vector index: the candidates of a search -/

theorem knn_distance_not_nan (index : nty_vector_index_t) (query : Nat → Nat) (i : Nat) :
    f32_isnan (knn_distance index query i) = false := by
  unfold knn_distance
  split
  · decide
  · rename_i h
    simpa using h

theorem dist_loop_eq_foldl (vec query : Nat → Nat) : ∀ (n d dist : Nat),
    dist_loop vec query n d dist =
      (List.range' d n).foldl
        (fun acc d => f32_add acc (f32_mul (f32_sub (vec d) (query d))
          (f32_sub (vec d) (query d)))) dist
  | 0, _, _ => rfl
  | n + 1, d, dist => by
    unfold dist_loop
    rw [dist_loop_eq_foldl vec query n (d + 1)]
    rfl

theorem squared_euclidean_congr (x y query : Nat → Nat) (n : Nat)
    (h : ∀ d, d < n → x d = y d) :
    squared_euclidean x query n = squared_euclidean y query n := by
  unfold squared_euclidean
  apply List.foldl_ext
  intro acc d hd
  rw [h d (List.mem_range.1 hd)]

theorem dist_loop_eq (vec query : Nat → Nat) (n : Nat) :
    dist_loop vec query n 0 0 = squared_euclidean vec query n := by
  rw [dist_loop_eq_foldl, squared_euclidean, List.range_eq_range']

/-- The row of slot `i`, as the list `nty_vector_index_get` copies out. -/
theorem stored_vector_slot (index : nty_vector_index_t) (h : VectorInv index) (i : Nat)
    (hi : i < index.capacity) (h0 : index.ids i ≠ 0) :
    nty_vector_index_find index (index.ids i) = i ∧
      stored_vector index (index.ids i) =
        some ((List.range index.dimension).map (fun d => index.data (i * index.dimension + d))) := by
  have hfind : nty_vector_index_find index (index.ids i) = i := by
    apply find_eq_of_first index _ i hi rfl
    intro j hj c
    have := h.inj i j hi (by omega) h0 c.symm
    omega
  refine ⟨hfind, ?_⟩
  unfold stored_vector
  have hne : nty_vector_index_find index (index.ids i) ≠ index.capacity := by omega
  rw [get_present index _ _ h0 hne, hfind]
  simp only [if_true]
  congr 1
  apply List.map_congr_left
  intro d hd
  exact memcpy_read _ _ _ _ _ (List.mem_range.1 hd)

theorem stored_vector_some (index : nty_vector_index_t) (id : Nat) (v : List Nat)
    (h : stored_vector index id = some v) :
    id ≠ 0 ∧ nty_vector_index_find index id < index.capacity ∧
      index.ids (nty_vector_index_find index id) = id := by
  unfold stored_vector at h
  by_cases hg : (nty_vector_index_get index id (fun _ => 0)).1 = true
  · obtain ⟨hid, hf⟩ := (get_fst_iff index id _).1 hg
    rcases find_spec index id with ⟨e, -⟩ | ⟨s1, s2, -⟩
    · exact absurd e hf
    · exact ⟨hid, s1, s2⟩
  · rw [if_neg hg] at h
    cases h

theorem knn_distance_eq_reported (index : nty_vector_index_t) (query : Nat → Nat) (i : Nat) :
    knn_distance index query i =
      reported_distance
        ((List.range index.dimension).map (fun d => index.data (i * index.dimension + d)))
        query := by
  unfold knn_distance reported_distance
  rw [dist_loop_eq]
  have e : squared_euclidean
      (fun d => ((List.range index.dimension).map
        (fun d => index.data (i * index.dimension + d))).getD d 0) query
      ((List.range index.dimension).map
        (fun d => index.data (i * index.dimension + d))).length =
      squared_euclidean (fun d => index.data (i * index.dimension + d)) query
        index.dimension := by
    rw [List.length_map, List.length_range]
    apply squared_euclidean_congr
    intro d hd
    simp [List.getD_eq_getElem?_getD, hd]
  rw [e]

theorem mem_occupied_iff (index : nty_vector_index_t) (query : Nat → Nat)
    (c : nty_candidate_t) :
    c ∈ occupied_candidates index query ↔
      ∃ i, i < index.capacity ∧ index.ids i ≠ 0 ∧
        c = { id := index.ids i, distance := knn_distance index query i } := by
  unfold occupied_candidates
  simp only [List.mem_map, List.mem_filter, List.mem_range, decide_eq_true_eq]
  constructor
  · rintro ⟨i, ⟨h1, h2⟩, h3⟩
    exact ⟨i, h1, h2, h3.symm⟩
  · rintro ⟨i, h1, h2, h3⟩
    exact ⟨i, ⟨h1, h2⟩, h3.symm⟩

/-- A candidate is collected exactly when its identifier is stored and its distance is the
one reported for the stored vector: the candidates depend on the mapping only. -/
theorem mem_occupied_iff_stored (index : nty_vector_index_t) (h : VectorInv index)
    (query : Nat → Nat) (c : nty_candidate_t) :
    c ∈ occupied_candidates index query ↔
      ∃ v, stored_vector index c.id = some v ∧ c.distance = reported_distance v query := by
  rw [mem_occupied_iff]
  constructor
  · rintro ⟨i, hi, h0, rfl⟩
    exact ⟨_, (stored_vector_slot index h i hi h0).2, knn_distance_eq_reported index query i⟩
  · rintro ⟨v, hv, hd⟩
    obtain ⟨hid, hlt, hids⟩ := stored_vector_some index c.id v hv
    refine ⟨nty_vector_index_find index c.id, hlt, by rw [hids]; exact hid, ?_⟩
    have hs := (stored_vector_slot index h _ hlt (by rw [hids]; exact hid)).2
    rw [hids, hv] at hs
    cases hs
    cases c
    simp only at hids hd ⊢
    rw [hids, hd, knn_distance_eq_reported]

theorem occupied_ids_nodup (index : nty_vector_index_t) (h : VectorInv index)
    (query : Nat → Nat) :
    ((occupied_candidates index query).map (fun c => c.id)).Nodup := by
  unfold occupied_candidates
  rw [List.map_map]
  apply List.Nodup.map_on
  · intro x hx y hy hxy
    simp only [List.mem_filter, List.mem_range, decide_eq_true_eq] at hx hy
    exact h.inj x y hx.1 hy.1 hx.2 hxy
  · exact List.Nodup.filter _ (List.nodup_range _)

theorem occupied_length (index : nty_vector_index_t) (h : VectorInv index)
    (query : Nat → Nat) : (occupied_candidates index query).length = index.count := by
  unfold occupied_candidates
  rw [List.length_map, h.count_eq]
  rfl

theorem occupied_not_nan (index : nty_vector_index_t) (query : Nat → Nat)
    (c : nty_candidate_t) (hc : c ∈ occupied_candidates index query) :
    f32_isnan c.distance = false := by
  obtain ⟨i, -, -, rfl⟩ := (mem_occupied_iff index query c).1 hc
  exact knn_distance_not_nan index query i

theorem knn_loop_spec (index : nty_vector_index_t) (query : Nat → Nat) :
    ∀ (n i : Nat) (cands : List nty_candidate_t),
    cands.length + ((List.range' i n).filter (fun i => decide (index.ids i ≠ 0))).length
      ≤ index.count →
    knn_loop index query n i cands =
      some (cands ++ ((List.range' i n).filter (fun i => decide (index.ids i ≠ 0))).map
        (fun i => { id := index.ids i, distance := knn_distance index query i }))
  | 0, i, cands, _ => by simp [knn_loop]
  | n + 1, i, cands, h => by
    unfold knn_loop
    rw [List.range'_succ] at h ⊢
    by_cases h0 : index.ids i = 0
    · rw [if_pos h0]
      have e : decide (index.ids i ≠ 0) = false := by simp [h0]
      rw [List.filter_cons_of_neg (by simp [h0])] at h ⊢
      exact knn_loop_spec index query n (i + 1) cands h
    · rw [if_neg h0]
      rw [List.filter_cons_of_pos (by simp [h0])] at h ⊢
      rw [List.length_cons] at h
      rw [if_neg (by omega)]
      rw [knn_loop_spec index query n (i + 1) _ (by rw [List.length_append, List.length_singleton]; omega)]
      simp

theorem knn_loop_eq (index : nty_vector_index_t) (h : VectorInv index) (query : Nat → Nat) :
    knn_loop index query index.capacity 0 [] = some (occupied_candidates index query) := by
  rw [knn_loop_spec index query index.capacity 0 []]
  · rw [List.nil_append, ← List.range_eq_range']
    rfl
  · rw [← List.range_eq_range', h.count_eq]
    simp [used_slots]

/-! ## Sorting the candidates -/

theorem cmp_le_iff (a b : nty_candidate_t) (ha : f32_isnan a.distance = false)
    (hb : f32_isnan b.distance = false) : nty_candidate_cmp a b ≤ 0 ↔ KeyLe a b := by
  have e1 : f32_lt a.distance b.distance = true ↔ f32_key a.distance < f32_key b.distance := by
    unfold f32_lt
    simp [ha, hb]
  have e2 : f32_lt b.distance a.distance = true ↔ f32_key b.distance < f32_key a.distance := by
    unfold f32_lt
    simp [ha, hb]
  unfold nty_candidate_cmp KeyLe
  by_cases h1 : f32_lt a.distance b.distance = true
  · rw [if_pos h1]
    have := e1.1 h1
    exact ⟨fun _ => Or.inl this, fun _ => by decide⟩
  · rw [if_neg h1]
    have n1 : ¬ f32_key a.distance < f32_key b.distance := fun c => h1 (e1.2 c)
    by_cases h2 : f32_lt b.distance a.distance = true
    · rw [if_pos h2]
      have := e2.1 h2
      constructor
      · intro c; exact absurd c (by decide)
      · intro c; exfalso; omega
    · rw [if_neg h2]
      have n2 : ¬ f32_key b.distance < f32_key a.distance := fun c => h2 (e2.2 c)
      have e : f32_key a.distance = f32_key b.distance := by omega
      by_cases h3 : a.id < b.id
      · rw [if_pos h3]
        exact ⟨fun _ => Or.inr ⟨e, by omega⟩, fun _ => by decide⟩
      · rw [if_neg h3]
        by_cases h4 : a.id > b.id
        · rw [if_pos h4]
          constructor
          · intro c; exact absurd c (by decide)
          · intro c; exfalso; omega
        · rw [if_neg h4]
          exact ⟨fun _ => Or.inr ⟨e, by omega⟩, fun _ => by decide⟩

theorem keyLt_of_keyLe (a b : nty_candidate_t) (ha : f32_isnan a.distance = false)
    (hb : f32_isnan b.distance = false) (hle : KeyLe a b) (hne : a.id ≠ b.id) : KeyLt a b := by
  unfold KeyLe at hle
  unfold KeyLt f32_lt f32_eq
  simp only [ha, hb, Bool.not_false, Bool.true_and, decide_eq_true_eq]
  rcases hle with h | ⟨h1, h2⟩
  · left; exact h
  · right; exact ⟨h1, by omega⟩

theorem keyLt_asymm (a b : nty_candidate_t) (h1 : KeyLt a b) (h2 : KeyLt b a) : False := by
  unfold KeyLt f32_lt f32_eq at h1 h2
  simp only [Bool.and_eq_true, Bool.not_eq_true', decide_eq_true_eq] at h1 h2
  rcases h1 with ⟨-, h1⟩ | ⟨⟨-, h1⟩, h1'⟩ <;> rcases h2 with ⟨-, h2⟩ | ⟨⟨-, h2⟩, h2'⟩ <;> omega

theorem orderedInsert_congr {α : Type} (r r' : α → α → Prop) [DecidableRel r]
    [DecidableRel r'] (a : α) : ∀ (l : List α), (∀ b ∈ l, r a b ↔ r' a b) →
    List.orderedInsert r a l = List.orderedInsert r' a l
  | [], _ => rfl
  | b :: l, h => by
    simp only [List.orderedInsert]
    have hb := h b (List.mem_cons_self _ _)
    by_cases c : r a b
    · rw [if_pos c, if_pos (hb.1 c)]
    · rw [if_neg c, if_neg (fun c' => c (hb.2 c'))]
      rw [orderedInsert_congr r r' a l (fun x hx => h x (List.mem_cons_of_mem _ hx))]

theorem insertionSort_congr {α : Type} (r r' : α → α → Prop) [DecidableRel r]
    [DecidableRel r'] : ∀ (l : List α), (∀ a ∈ l, ∀ b ∈ l, r a b ↔ r' a b) →
    List.insertionSort r l = List.insertionSort r' l
  | [], _ => rfl
  | a :: l, h => by
    simp only [List.insertionSort]
    rw [insertionSort_congr r r' l
      (fun x hx y hy => h x (List.mem_cons_of_mem _ hx) y (List.mem_cons_of_mem _ hy))]
    apply orderedInsert_congr
    intro b hb
    have hb' : b ∈ l := (List.perm_insertionSort r' l).subset hb
    exact h a (List.mem_cons_self _ _) b (List.mem_cons_of_mem _ hb')

theorem qsort_perm (l : List nty_candidate_t) : (qsort_candidates l).Perm l :=
  List.perm_insertionSort _ l

theorem qsort_pairwise_le (l : List nty_candidate_t)
    (hnan : ∀ c ∈ l, f32_isnan c.distance = false) :
    (qsort_candidates l).Pairwise KeyLe := by
  unfold qsort_candidates
  rw [insertionSort_congr _ KeyLe l (fun a ha b hb => cmp_le_iff a b (hnan a ha) (hnan b hb))]
  have ht : IsTotal nty_candidate_t KeyLe := ⟨by
    intro a b
    unfold KeyLe
    omega⟩
  have htr : IsTrans nty_candidate_t KeyLe := ⟨by
    intro a b c
    unfold KeyLe
    omega⟩
  exact List.sorted_insertionSort KeyLe l

/-- The sorted candidates are strictly increasing in the key order when no distance is a
NaN and no identifier occurs twice. -/
theorem qsort_pairwise_lt (l : List nty_candidate_t)
    (hnan : ∀ c ∈ l, f32_isnan c.distance = false)
    (hid : (l.map (fun c => c.id)).Nodup) :
    (qsort_candidates l).Pairwise KeyLt := by
  have hp := qsort_perm l
  have h1 := qsort_pairwise_le l hnan
  have h2 : ((qsort_candidates l).map (fun c => c.id)).Nodup :=
    (hp.map _).nodup_iff.2 hid
  have h3 : (qsort_candidates l).Pairwise (fun a b => a.id ≠ b.id) := List.pairwise_map.1 h2
  apply List.Pairwise.imp_of_mem _ (h1.and h3)
  intro a b ha hb hab
  exact keyLt_of_keyLe a b (hnan a (hp.subset ha)) (hnan b (hp.subset hb)) hab.1 hab.2

/-- A list of candidates has at most one arrangement that is strictly increasing in the key
order, so the result of `qsort` does not depend on the order of its input nor on the
sorting algorithm. -/
theorem keyLt_sorted_unique (l₁ l₂ : List nty_candidate_t) (hp : l₁.Perm l₂)
    (h1 : l₁.Pairwise KeyLt) (h2 : l₂.Pairwise KeyLt) : l₁ = l₂ := by
  have ha : IsAntisymm nty_candidate_t KeyLt :=
    ⟨fun a b x y => (keyLt_asymm a b x y).elim⟩
  exact List.eq_of_perm_of_sorted hp h1 h2

/-- Closed form of `nty_vector_index_knn` in a state that satisfies the invariant. -/
theorem knn_eq (index : nty_vector_index_t) (h : VectorInv index) (query : Nat → Nat)
    (k : Nat) :
    nty_vector_index_knn index query k =
      some ((qsort_candidates (occupied_candidates index query)).take k) := by
  unfold nty_vector_index_knn
  by_cases hk : k = 0
  · rw [if_pos hk, hk, List.take_zero]
  · rw [if_neg hk, knn_loop_eq index h query, Option.map_some']
    congr 1
    by_cases hlt : k < (occupied_candidates index query).length
    · rw [if_pos hlt]
    · rw [if_neg hlt]
      rw [List.take_of_length_le (by rw [(qsort_perm _).length_eq]),
        List.take_of_length_le (by rw [(qsort_perm _).length_eq]; omega)]

theorem knn_sorted (index : nty_vector_index_t) (h : VectorInv index) (query : Nat → Nat) :
    (qsort_candidates (occupied_candidates index query)).Pairwise KeyLt :=
  qsort_pairwise_lt _ (occupied_not_nan index query) (occupied_ids_nodup index h query)

/-! ## Vector index: the search -/

theorem ex_u5_reachable : VectorReachable ex_u5 :=
  VectorReachable.step _ _
    (VectorReachable.step _ _
      (VectorReachable.step _ _
        (VectorReachable.step _ _
          (VectorReachable.step _ _ ex_v0_reachable
            (VectorStep.set ex_v0 2 (vec_of [F32_MINUS_ONE, 0])))
          (VectorStep.set _ 9 (vec_of [F32_ONE, F32_ONE])))
        (VectorStep.set _ 3 (vec_of [F32_ONE, 0])))
      (VectorStep.set _ 1 (vec_of [0, 0])))
    (VectorStep.remove _ 9)

theorem ex_n1_reachable : VectorReachable ex_n1 :=
  VectorReachable.step ex_w0 ex_n1 ex_w0_reachable (VectorStep.set ex_w0 5 (vec_of [F32_NAN]))

theorem stored_vector_none (index : nty_vector_index_t) (id : Nat)
    (h : ∀ j, j < index.capacity → index.ids j ≠ id) : stored_vector index id = none := by
  unfold stored_vector
  rw [get_absent index id _ (Or.inr (find_eq_cap index id h))]
  simp

/-- The two example indexes hold the same mapping. -/
theorem ex_same_mapping (id : Nat) : stored_vector ex_v3 id = stored_vector ex_u5 id := by
  by_cases h1 : id = 1
  · subst h1; decide
  by_cases h2 : id = 2
  · subst h2; decide
  by_cases h3 : id = 3
  · subst h3; decide
  have a0 : ex_v3.ids 0 = 1 := by decide
  have a1 : ex_v3.ids 1 = 3 := by decide
  have a2 : ex_v3.ids 2 = 2 := by decide
  have a3 : ex_v3.ids 3 = 0 := by decide
  have b0 : ex_u5.ids 0 = 2 := by decide
  have b1 : ex_u5.ids 1 = 0 := by decide
  have b2 : ex_u5.ids 2 = 3 := by decide
  have b3 : ex_u5.ids 3 = 1 := by decide
  have c1 : ex_v3.capacity = 4 := by decide
  have c2 : ex_u5.capacity = 4 := by decide
  by_cases h0 : id = 0
  · subst h0; decide
  rw [stored_vector_none ex_v3 id, stored_vector_none ex_u5 id]
  · intro j hj
    rw [c2] at hj
    interval_cases j
    · rw [b0]; exact Ne.symm h2
    · rw [b1]; exact Ne.symm h0
    · rw [b2]; exact Ne.symm h3
    · rw [b3]; exact Ne.symm h1
  · intro j hj
    rw [c1] at hj
    interval_cases j
    · rw [a0]; exact Ne.symm h1
    · rw [a1]; exact Ne.symm h3
    · rw [a2]; exact Ne.symm h2
    · rw [a3]; exact Ne.symm h0

/-- C13. kNN ordering: in a reachable index, for every query and `k`, the search returns a
sequence in which each result is below the next one in the key order (distance smaller, or
distances equal and identifier smaller), in fact below every later one, and no identifier
occurs twice. -/
theorem C13_knn_ordering (index : nty_vector_index_t) (hr : VectorReachable index)
    (query : Nat → Nat) (k : Nat) :
    ∃ l, nty_vector_index_knn index query k = some l ∧ l.Chain' KeyLt ∧ l.Pairwise KeyLt ∧
      (l.map (fun c => c.id)).Nodup := by
  have h := vectorReachable_inv hr
  have hs := knn_sorted index h query
  have hsub := List.take_sublist k (qsort_candidates (occupied_candidates index query))
  refine ⟨_, knn_eq index h query k, ?_, hs.sublist hsub, ?_⟩
  · exact List.Pairwise.chain' (hs.sublist hsub)
  · have hn : ((qsort_candidates (occupied_candidates index query)).map
        (fun c => c.id)).Nodup :=
      ((qsort_perm _).map _).nodup_iff.2 (occupied_ids_nodup index h query)
    exact hn.sublist (hsub.map _)

/-- Witness for C13: `test_knn_tiebreak`: the query `(0, 0)` with `k = 3` returns the
identifiers 1, 2, 3 with distances 0, 1, 1; 2 and 3 tie and the smaller identifier is
first. -/
theorem C13_knn_ordering_witness :
    nty_vector_index_knn ex_v3 (vec_of [0, 0]) 3 =
        some [{ id := 1, distance := 0 }, { id := 2, distance := F32_ONE },
          { id := 3, distance := F32_ONE }] ∧
      ∃ l, nty_vector_index_knn ex_v3 (vec_of [0, 0]) 3 = some l ∧ l.Chain' KeyLt ∧
        l.Pairwise KeyLt ∧ (l.map (fun c => c.id)).Nodup :=
  ⟨by decide, C13_knn_ordering ex_v3 ex_v3_reachable (vec_of [0, 0]) 3⟩

/-- C14, as stated, fails when the computed distance is a NaN: the one-slot index holds
identifier 5 with the vector `(NaN)`; the squared distance to the query `(0)` is a NaN, and
the search reports identifier 5 with distance `INFINITY`. -/
theorem C14_knn_exactness_counterexample :
    VectorReachable ex_n1 ∧ stored_vector ex_n1 5 = some [F32_NAN] ∧
      squared_euclidean (vec_of [F32_NAN]) (vec_of [0]) 1 = F32_NAN ∧
      nty_vector_index_knn ex_n1 (vec_of [0]) 1 =
        some [{ id := 5, distance := F32_INFINITY }] ∧
      ¬∃ l, nty_vector_index_knn ex_n1 (vec_of [0]) 1 = some l ∧
        ∀ c ∈ l, ∃ v, stored_vector ex_n1 c.id = some v ∧
          c.distance = squared_euclidean (fun d => v.getD d 0) (vec_of [0]) v.length := by
  refine ⟨ex_n1_reachable, by decide, by decide, by decide, ?_⟩
  rintro ⟨l, hl, h⟩
  have e : nty_vector_index_knn ex_n1 (vec_of [0]) 1 =
      some [{ id := 5, distance := F32_INFINITY }] := by decide
  rw [e] at hl
  cases hl
  obtain ⟨v, hv, hd⟩ := h _ (List.mem_singleton.2 rfl)
  have e2 : stored_vector ex_n1 5 = some [F32_NAN] := by decide
  rw [e2] at hv
  cases hv
  revert hd
  decide

/-- C14, amended. kNN exactness: in a reachable index, for every query and `k`, each pair
the search returns is `(id, d)` where `id` is stored and `d` is the squared Euclidean
distance between the query and the stored vector computed in `float` arithmetic, or
`INFINITY` when that value is a NaN; and every stored identifier that is not returned has,
with the distance so reported for it, a key above the key of every returned pair. -/
theorem C14_knn_exactness (index : nty_vector_index_t) (hr : VectorReachable index)
    (query : Nat → Nat) (k : Nat) :
    ∃ l, nty_vector_index_knn index query k = some l ∧
      (∀ c ∈ l, ∃ v, stored_vector index c.id = some v ∧
        c.distance = reported_distance v query) ∧
      (∀ id v, stored_vector index id = some v → id ∉ l.map (fun c => c.id) →
        ∀ c ∈ l, KeyLt c { id := id, distance := reported_distance v query }) := by
  have h := vectorReachable_inv hr
  have hs := knn_sorted index h query
  refine ⟨_, knn_eq index h query k, ?_, ?_⟩
  · intro c hc
    have hc' : c ∈ occupied_candidates index query :=
      (qsort_perm _).subset (List.mem_of_mem_take hc)
    exact (mem_occupied_iff_stored index h query c).1 hc'
  · intro id v hv hnot c hc
    have hin : ({ id := id, distance := reported_distance v query } : nty_candidate_t) ∈
        qsort_candidates (occupied_candidates index query) :=
      (qsort_perm _).symm.subset
        ((mem_occupied_iff_stored index h query _).2 ⟨v, hv, rfl⟩)
    rw [← List.take_append_drop k (qsort_candidates (occupied_candidates index query))]
      at hin hs
    rcases List.mem_append.1 hin with hin | hin
    · exact absurd (List.mem_map_of_mem (fun c => c.id) hin) hnot
    · exact (List.pairwise_append.1 hs).2.2 c hc _ hin

/-- Witness for C14: in the index of `test_knn_tiebreak` the query `(0, 0)` with `k = 2`
returns identifiers 1 and 2 with distances 0 and 1; identifier 3, at distance 1, is not
returned. -/
theorem C14_knn_exactness_witness :
    nty_vector_index_knn ex_v3 (vec_of [0, 0]) 2 =
        some [{ id := 1, distance := 0 }, { id := 2, distance := F32_ONE }] ∧
      stored_vector ex_v3 3 = some [F32_ONE, 0] ∧
      reported_distance [F32_ONE, 0] (vec_of [0, 0]) = F32_ONE ∧
      ∃ l, nty_vector_index_knn ex_v3 (vec_of [0, 0]) 2 = some l ∧
        (∀ c ∈ l, ∃ v, stored_vector ex_v3 c.id = some v ∧
          c.distance = reported_distance v (vec_of [0, 0])) ∧
        (∀ id v, stored_vector ex_v3 id = some v → id ∉ l.map (fun c => c.id) →
          ∀ c ∈ l, KeyLt c { id := id, distance := reported_distance v (vec_of [0, 0]) }) :=
  ⟨by decide, by decide, by decide,
    C14_knn_exactness ex_v3 ex_v3_reachable (vec_of [0, 0]) 2⟩

/-- C15. kNN result length: in a reachable index, for every query and `k`, the search
returns exactly `min(k, count)` results, so exactly `count` results when `k` exceeds the
count. -/
theorem C15_knn_result_length (index : nty_vector_index_t) (hr : VectorReachable index)
    (query : Nat → Nat) (k : Nat) :
    ∃ l, nty_vector_index_knn index query k = some l ∧
      l.length = min k (nty_vector_index_count index) ∧
      (nty_vector_index_count index < k → l.length = nty_vector_index_count index) := by
  have h := vectorReachable_inv hr
  have hlen : ((qsort_candidates (occupied_candidates index query)).take k).length =
      min k index.count := by
    rw [List.length_take, (qsort_perm _).length_eq, occupied_length index h query]
  refine ⟨_, knn_eq index h query k, hlen, ?_⟩
  intro hk
  unfold nty_vector_index_count at hk ⊢
  rw [hlen]
  omega

/-- Witness for C15: the index of `test_knn_tiebreak` holds 3 vectors; `k = 2` returns 2
results and `k = 10` returns 3. -/
theorem C15_knn_result_length_witness :
    nty_vector_index_count ex_v3 = 3 ∧
      (nty_vector_index_knn ex_v3 (vec_of [0, 0]) 2).map List.length = some 2 ∧
      (nty_vector_index_knn ex_v3 (vec_of [0, 0]) 10).map List.length = some 3 ∧
      ∃ l, nty_vector_index_knn ex_v3 (vec_of [0, 0]) 10 = some l ∧
        l.length = min 10 (nty_vector_index_count ex_v3) ∧
        (nty_vector_index_count ex_v3 < 10 → l.length = nty_vector_index_count ex_v3) :=
  ⟨by decide, by decide, by decide,
    C15_knn_result_length ex_v3 ex_v3_reachable (vec_of [0, 0]) 10⟩

/-- C16. kNN determinism: two reachable indexes in which `nty_vector_index_get` copies out
the same vector for every identifier (and fails for the same identifiers) return the same
sequence of identifiers and distances for every query and every `k`, whatever slots the
identifiers occupy. -/
theorem C16_knn_determinism (index₁ index₂ : nty_vector_index_t)
    (hr₁ : VectorReachable index₁) (hr₂ : VectorReachable index₂)
    (hmap : ∀ id, stored_vector index₁ id = stored_vector index₂ id)
    (query : Nat → Nat) (k : Nat) :
    nty_vector_index_knn index₁ query k = nty_vector_index_knn index₂ query k ∧
      ∃ l, nty_vector_index_knn index₁ query k = some l := by
  have h1 := vectorReachable_inv hr₁
  have h2 := vectorReachable_inv hr₂
  have hmem : ∀ c, c ∈ occupied_candidates index₁ query ↔
      c ∈ occupied_candidates index₂ query := by
    intro c
    rw [mem_occupied_iff_stored index₁ h1, mem_occupied_iff_stored index₂ h2, hmap]
  have hperm : (occupied_candidates index₁ query).Perm (occupied_candidates index₂ query) :=
    (List.perm_ext_iff_of_nodup
      (List.Nodup.of_map _ (occupied_ids_nodup index₁ h1 query))
      (List.Nodup.of_map _ (occupied_ids_nodup index₂ h2 query))).2 hmem
  have hsort : qsort_candidates (occupied_candidates index₁ query) =
      qsort_candidates (occupied_candidates index₂ query) :=
    keyLt_sorted_unique _ _
      (((qsort_perm _).trans hperm).trans (qsort_perm _).symm)
      (knn_sorted index₁ h1 query) (knn_sorted index₂ h2 query)
  rw [knn_eq index₁ h1, knn_eq index₂ h2, hsort]
  exact ⟨rfl, _, rfl⟩

/-- Witness for C16: the index of `test_knn_tiebreak` has 1, 3, 2 in slots 0, 1, 2; a
second index with the same three vectors has 2, 3, 1 in slots 0, 2, 3; both answer the
query `(0, 0)` with identifiers 1, 2, 3. -/
theorem C16_knn_determinism_witness :
    (List.range 4).map ex_v3.ids = [1, 3, 2, 0] ∧
      (List.range 4).map ex_u5.ids = [2, 0, 3, 1] ∧
      nty_vector_index_knn ex_u5 (vec_of [0, 0]) 3 =
        some [{ id := 1, distance := 0 }, { id := 2, distance := F32_ONE },
          { id := 3, distance := F32_ONE }] ∧
      nty_vector_index_knn ex_v3 (vec_of [0, 0]) 3 =
          nty_vector_index_knn ex_u5 (vec_of [0, 0]) 3 ∧
        ∃ l, nty_vector_index_knn ex_v3 (vec_of [0, 0]) 3 = some l :=
  ⟨by decide, by decide, by decide,
    C16_knn_determinism ex_v3 ex_u5 ex_v3_reachable ex_u5_reachable ex_same_mapping
      (vec_of [0, 0]) 3⟩

/-! ## Vector index: the reserved identifier and NaN distances -/

theorem ex_m2_reachable : VectorReachable ex_m2 :=
  VectorReachable.step _ _
    (VectorReachable.step _ _ ex_v0_reachable (VectorStep.set ex_v0 1 (vec_of [F32_NAN, 0])))
    (VectorStep.set _ 2 (vec_of [F32_ONE, 0]))

/-- The candidate loop adds candidates with a non-zero identifier only, in any state. -/
theorem knn_loop_ids (index : nty_vector_index_t) (query : Nat → Nat) :
    ∀ (n i : Nat) (cands l : List nty_candidate_t),
    knn_loop index query n i cands = some l → ∀ c ∈ l, c ∈ cands ∨ c.id ≠ 0
  | 0, i, cands, l, h => by
    unfold knn_loop at h
    cases h
    intro c hc
    exact Or.inl hc
  | n + 1, i, cands, l, h => by
    unfold knn_loop at h
    by_cases h0 : index.ids i = 0
    · rw [if_pos h0] at h
      exact knn_loop_ids index query n (i + 1) cands l h
    · rw [if_neg h0] at h
      by_cases hc : index.count ≤ cands.length
      · rw [if_pos hc] at h
        cases h
      · rw [if_neg hc] at h
        intro c hcl
        rcases knn_loop_ids index query n (i + 1) _ l h c hcl with h1 | h1
        · rcases List.mem_append.1 h1 with h2 | h2
          · exact Or.inl h2
          · right
            rw [List.mem_singleton.1 h2]
            exact h0
        · exact Or.inr h1

/-- C21. Reserved identifier 0 in the vector index: in any index state
`nty_vector_index_set(0, v)`, `nty_vector_index_get(0)` and `nty_vector_index_remove(0)`
return false and leave the index and the output array as they were; no result of
`nty_vector_index_knn` has identifier 0; and in a reachable state the search does return a
result. -/
theorem C21_reserved_zero (index : nty_vector_index_t) (vector out_vector query : Nat → Nat)
    (k : Nat) :
    nty_vector_index_set index 0 vector = (false, index) ∧
      nty_vector_index_get index 0 out_vector = (false, out_vector) ∧
      nty_vector_index_remove index 0 = (false, index) ∧
      (∀ l, nty_vector_index_knn index query k = some l → ∀ c ∈ l, c.id ≠ 0) ∧
      (VectorReachable index → ∃ l, nty_vector_index_knn index query k = some l) := by
  refine ⟨set_zero index vector, get_absent index 0 out_vector (Or.inl rfl),
    remove_absent index 0 (Or.inl rfl), ?_, ?_⟩
  · intro l hl c hc
    unfold nty_vector_index_knn at hl
    by_cases hk : k = 0
    · rw [if_pos hk] at hl
      cases hl
      cases hc
    · rw [if_neg hk] at hl
      cases hloop : knn_loop index query index.capacity 0 [] with
      | none => rw [hloop] at hl; cases hl
      | some cands =>
        rw [hloop, Option.map_some'] at hl
        cases hl
        have hc' : c ∈ cands := (qsort_perm cands).subset (List.mem_of_mem_take hc)
        rcases knn_loop_ids index query _ _ _ _ hloop c hc' with h1 | h1
        · cases h1
        · exact h1
  · intro hr
    exact ⟨_, knn_eq index (vectorReachable_inv hr) query k⟩

/-- Witness for C21: the index of `test_knn_tiebreak` has a free slot, which holds 0, and
a search for all four slots returns the identifiers 1, 2, 3 only. -/
theorem C21_reserved_zero_witness :
    ex_v3.ids 3 = 0 ∧
      (nty_vector_index_knn ex_v3 (vec_of [0, 0]) 4).map (List.map (fun c => c.id)) =
        some [1, 2, 3] ∧
      (nty_vector_index_set ex_v3 0 (vec_of [0, 0]) = (false, ex_v3) ∧
        nty_vector_index_get ex_v3 0 (fun _ => 0) = (false, fun _ => 0) ∧
        nty_vector_index_remove ex_v3 0 = (false, ex_v3) ∧
        (∀ l, nty_vector_index_knn ex_v3 (vec_of [0, 0]) 4 = some l → ∀ c ∈ l, c.id ≠ 0) ∧
        (VectorReachable ex_v3 →
          ∃ l, nty_vector_index_knn ex_v3 (vec_of [0, 0]) 4 = some l)) :=
  ⟨by decide, by decide, C21_reserved_zero ex_v3 (vec_of [0, 0]) (fun _ => 0) (vec_of [0, 0]) 4⟩

theorem pair_sublist_or {α : Type} (a b : α) (hne : a ≠ b) : ∀ (l : List α), a ∈ l → b ∈ l →
    [a, b].Sublist l ∨ [b, a].Sublist l
  | [], ha, _ => by cases ha
  | x :: l, ha, hb => by
    by_cases hxa : x = a
    · subst hxa
      left
      have hb' : b ∈ l := by
        rcases List.mem_cons.1 hb with h | h
        · exact absurd h.symm hne
        · exact h
      exact List.Sublist.cons₂ _ (List.singleton_sublist.2 hb')
    · by_cases hxb : x = b
      · subst hxb
        right
        have ha' : a ∈ l := by
          rcases List.mem_cons.1 ha with h | h
          · exact absurd h hne
          · exact h
        exact List.Sublist.cons₂ _ (List.singleton_sublist.2 ha')
      · have ha' : a ∈ l := by
          rcases List.mem_cons.1 ha with h | h
          · exact absurd h.symm hxa
          · exact h
        have hb' : b ∈ l := by
          rcases List.mem_cons.1 hb with h | h
          · exact absurd h.symm hxb
          · exact h
        rcases pair_sublist_or a b hne l ha' hb' with h | h
        · exact Or.inl (List.Sublist.cons _ h)
        · exact Or.inr (List.Sublist.cons _ h)

theorem f32_finite_lt_infinity (x : Nat) (h : f32_isfinite x = true) :
    f32_lt x F32_INFINITY = true := by
  have hexp : f32_exp x ≠ 255 := by simpa [f32_isfinite] using h
  have hnan : f32_isnan x = false := by
    unfold f32_isnan
    simp [hexp]
  have hinf : f32_isnan F32_INFINITY = false := by decide
  have hk : f32_key F32_INFINITY = 2139095040 := by decide
  unfold f32_lt
  rw [hnan, hinf, hk]
  simp only [Bool.not_false, Bool.true_and, decide_eq_true_eq]
  unfold f32_exp at hexp
  unfold f32_key
  split <;> omega

/-- C22. NaN coercion in kNN: in a reachable index, for every query and `k`, a returned
entry whose squared distance computes to a NaN has distance `INFINITY`; no returned
distance is a NaN; every returned entry with a finite distance comes before every returned
entry with distance `INFINITY`; and of two returned entries with distance `INFINITY` the
earlier one has the smaller identifier. -/
theorem C22_nan_coercion (index : nty_vector_index_t) (hr : VectorReachable index)
    (query : Nat → Nat) (k : Nat) :
    ∃ l, nty_vector_index_knn index query k = some l ∧
      (∀ c ∈ l, ∀ v, stored_vector index c.id = some v →
        f32_isnan (squared_euclidean (fun d => v.getD d 0) query v.length) = true →
        c.distance = F32_INFINITY) ∧
      (∀ c ∈ l, f32_isnan c.distance = false) ∧
      (∀ a ∈ l, ∀ b ∈ l, f32_isfinite a.distance = true → b.distance = F32_INFINITY →
        [a, b].Sublist l) ∧
      (∀ a b, [a, b].Sublist l → a.distance = F32_INFINITY → b.distance = F32_INFINITY →
        a.id < b.id) := by
  have h := vectorReachable_inv hr
  have hs : ((qsort_candidates (occupied_candidates index query)).take k).Pairwise KeyLt :=
    (knn_sorted index h query).sublist (List.take_sublist _ _)
  have hocc : ∀ c ∈ (qsort_candidates (occupied_candidates index query)).take k,
      c ∈ occupied_candidates index query :=
    fun c hc => (qsort_perm _).subset (List.mem_of_mem_take hc)
  refine ⟨_, knn_eq index h query k, ?_, ?_, ?_, ?_⟩
  · intro c hc v hv hnan
    obtain ⟨v', hv', hd⟩ := (mem_occupied_iff_stored index h query c).1 (hocc c hc)
    rw [hv] at hv'
    cases hv'
    rw [hd]
    unfold reported_distance
    rw [if_pos hnan]
  · intro c hc
    exact occupied_not_nan index query c (hocc c hc)
  · intro a ha b hb hfin hinf
    have hlt : KeyLt a b := Or.inl (by rw [hinf]; exact f32_finite_lt_infinity _ hfin)
    have hne : a ≠ b := by
      intro e
      rw [e] at hlt
      exact keyLt_asymm b b hlt hlt
    rcases pair_sublist_or a b hne _ ha hb with hsub | hsub
    · exact hsub
    · have hp := hs.sublist hsub
      have hba : KeyLt b a := by
        simpa using hp
      exact (keyLt_asymm a b hlt hba).elim
  · intro a b hsub ha hb
    have hp := hs.sublist hsub
    have hab : KeyLt a b := by
      simpa using hp
    unfold KeyLt at hab
    rw [ha, hb] at hab
    rcases hab with h1 | ⟨-, h2⟩
    · exact absurd h1 (by decide)
    · exact h2

/-- Witness for C22: identifier 1 holds `(NaN, 0)` and identifier 2 holds `(1, 0)`; the
query `(0, 0)` returns 2 at distance 1 and then 1 at distance `INFINITY`. -/
theorem C22_nan_coercion_witness :
    stored_vector ex_m2 1 = some [F32_NAN, 0] ∧
      f32_isnan (squared_euclidean (vec_of [F32_NAN, 0]) (vec_of [0, 0]) 2) = true ∧
      nty_vector_index_knn ex_m2 (vec_of [0, 0]) 2 =
        some [{ id := 2, distance := F32_ONE }, { id := 1, distance := F32_INFINITY }] ∧
      ∃ l, nty_vector_index_knn ex_m2 (vec_of [0, 0]) 2 = some l ∧
        (∀ c ∈ l, ∀ v, stored_vector ex_m2 c.id = some v →
          f32_isnan (squared_euclidean (fun d => v.getD d 0) (vec_of [0, 0]) v.length) = true →
          c.distance = F32_INFINITY) ∧
        (∀ c ∈ l, f32_isnan c.distance = false) ∧
        (∀ a ∈ l, ∀ b ∈ l, f32_isfinite a.distance = true → b.distance = F32_INFINITY →
          [a, b].Sublist l) ∧
        (∀ a b, [a, b].Sublist l → a.distance = F32_INFINITY → b.distance = F32_INFINITY →
          a.id < b.id) :=
  ⟨by decide, by decide, by decide,
    C22_nan_coercion ex_m2 ex_m2_reachable (vec_of [0, 0]) 2⟩

/-! ## Arena: allocation policy -/

section slab
variable {α : Type} [Zero α]

/-- Which slot a successful allocation takes and how it moves the free list and the bump
pointer. -/
theorem alloc_policy (s : nty_slab_t α) (h : SlabInv s) (h0 : (nty_slab_alloc s).1 ≠ 0) :
    (nty_slab_alloc s).2.2.next_free = s.next_free ∧
      ((s.free_head ≠ NTY_SLAB_NO_FREE ∧ (nty_slab_alloc s).2.1 = s.free_head ∧
          (nty_slab_alloc s).2.2.free_head = s.next_free s.free_head ∧
          (nty_slab_alloc s).2.2.next_unused = s.next_unused) ∨
        (s.free_head = NTY_SLAB_NO_FREE ∧ (nty_slab_alloc s).2.1 = s.next_unused ∧
          (nty_slab_alloc s).2.2.free_head = NTY_SLAB_NO_FREE ∧
          (nty_slab_alloc s).2.2.next_unused = s.next_unused + 1)) := by
  have hcl := h.cap_lt
  have hnu := h.nu_le
  by_cases hf : s.free_head = NTY_SLAB_NO_FREE
  · by_cases hlt : s.next_unused < s.capacity
    · have hni : nty_slab_next_index s =
          (s.next_unused, { s with next_unused := u32 (s.next_unused + 1) }) := by
        unfold nty_slab_next_index
        rw [if_neg (by simpa using hf), if_pos hlt]
      have hu : u32 (s.next_unused + 1) = s.next_unused + 1 := by unfold u32; omega
      have hne : s.next_unused ≠ NTY_SLAB_NO_FREE := by
        show s.next_unused ≠ 4294967295
        omega
      unfold nty_slab_alloc
      rw [hni]
      simp only [hne, if_false]
      refine ⟨?_, Or.inr ⟨?_, ?_, ?_, ?_⟩⟩ <;> trivial
    · exfalso
      apply h0
      have hni : nty_slab_next_index s = (NTY_SLAB_NO_FREE, s) := by
        unfold nty_slab_next_index
        rw [if_neg (by simpa using hf), if_neg hlt]
      unfold nty_slab_alloc
      rw [hni]
      simp
  · have hni : nty_slab_next_index s =
        (s.free_head, { s with free_head := s.next_free s.free_head }) := by
      unfold nty_slab_next_index
      rw [if_pos hf]
    unfold nty_slab_alloc
    rw [hni]
    simp only [hf, if_false]
    refine ⟨?_, Or.inl ⟨?_, ?_, ?_, ?_⟩⟩ <;> trivial

/-- The free list threaded through the arena is `released`, its entries are vacant slots
below the bump pointer, and the slots below the bump pointer are those issued so far. -/
structure HistoryInv (s : nty_slab_t α) (released issued : List Nat) : Prop where
  inv : SlabInv s
  chain : FreeChain s.next_free s.free_head released
  vacant : ∀ i ∈ released, s.occupied i = false ∧ i < s.next_unused
  nodup : released.Nodup
  used : ∀ j, j < s.next_unused ↔ j ∈ issued.map nty_id_index

theorem historyInv_alloc (s : nty_slab_t α) (released issued : List Nat)
    (h : HistoryInv s released issued) (h0 : (nty_slab_alloc s).1 ≠ 0) :
    HistoryInv (nty_slab_alloc s).2.2
      (released.erase (nty_id_index (nty_slab_alloc s).1))
      (issued ++ [(nty_slab_alloc s).1]) ∧
      (∀ x rest, released = x :: rest → nty_id_index (nty_slab_alloc s).1 = x) ∧
      (released = [] → nty_id_index (nty_slab_alloc s).1 = s.next_unused) := by
  obtain ⟨a1, a2, a3, a4, a5, a6, a7, a8, a9, a10, a11⟩ := alloc_ok s h.inv h0
  obtain ⟨p1, p2⟩ := alloc_policy s h.inv h0
  have hocc := h.inv.occ_lt
  cases hrel : released with
  | nil =>
    have hch := h.chain
    rw [hrel] at hch
    have hfh : s.free_head = NTY_SLAB_NO_FREE := hch
    rcases p2 with ⟨q1, -⟩ | ⟨-, q2, q3, q4⟩
    · exact absurd hfh q1
    refine ⟨⟨alloc_inv s h.inv, ?_, ?_, List.nodup_nil, ?_⟩, ?_, ?_⟩
    · rw [p1, q3]; rfl
    · intro i hi; cases hi
    · intro j
      rw [q4, List.map_append, List.mem_append, ← h.used j, List.map_singleton,
        List.mem_singleton, a1, q2]
      omega
    · intro x rest e; cases e
    · intro _; rw [a1, q2]
  | cons x rest =>
    have hch := h.chain
    rw [hrel] at hch
    obtain ⟨c1, c2⟩ := hch
    have hx := h.vacant x (by rw [hrel]; exact List.mem_cons_self _ _)
    have hnd := h.nodup
    rw [hrel] at hnd
    have hxne : x ≠ NTY_SLAB_NO_FREE := by
      have := h.inv.nu_le
      have := h.inv.cap_lt
      show x ≠ 4294967295
      omega
    rcases p2 with ⟨-, q2, q3, q4⟩ | ⟨q1, -⟩
    swap
    · rw [c1] at q1; exact absurd q1 hxne
    have hidx : nty_id_index (nty_slab_alloc s).1 = x := by rw [a1, q2, c1]
    refine ⟨⟨alloc_inv s h.inv, ?_, ?_, ?_, ?_⟩, ?_, ?_⟩
    · rw [hidx, List.erase_cons_head, p1, q3, c1]
      exact c2
    · rw [hidx, List.erase_cons_head]
      intro i hi
      have hv := h.vacant i (by rw [hrel]; exact List.mem_cons_of_mem _ hi)
      have hne : i ≠ x := fun e => (List.nodup_cons.1 hnd).1 (e ▸ hi)
      rw [a7, q4, q2, c1, Function.update_noteq hne]
      exact hv
    · rw [hidx, List.erase_cons_head]
      exact (List.nodup_cons.1 hnd).2
    · intro j
      rw [q4, List.map_append, List.mem_append, ← h.used j, List.map_singleton,
        List.mem_singleton, hidx]
      constructor
      · intro hj; exact Or.inl hj
      · rintro (hj | hj)
        · exact hj
        · rw [hj]; exact hx.2
    · intro y rest' e
      cases e
      exact hidx
    · intro e; cases e

theorem historyInv_free (s : nty_slab_t α) (released issued : List Nat)
    (h : HistoryInv s released issued) (id : Nat) (hx : nty_slab_exists s id = true) :
    HistoryInv (nty_slab_free s id).2 (nty_id_index id :: released) issued := by
  have hi := free_inv s h.inv id
  rw [free_of_exists s id hx] at hi ⊢
  rw [exists_iff] at hx
  obtain ⟨x1, x2, x3, x4⟩ := hx
  have hnot : nty_id_index id ∉ released := by
    intro hm
    have := (h.vacant _ hm).1
    rw [x3] at this
    cases this
  refine ⟨hi, ?_, ?_, List.nodup_cons.2 ⟨hnot, h.nodup⟩, h.used⟩
  · refine ⟨rfl, ?_⟩
    show FreeChain (Function.update s.next_free (nty_id_index id) s.free_head)
      (Function.update s.next_free (nty_id_index id) s.free_head (nty_id_index id)) released
    rw [Function.update_same]
    exact (freeChain_update s.next_free _ _ released s.free_head hnot).2 h.chain
  · intro i hi'
    show Function.update s.occupied (nty_id_index id) false i = false ∧ i < s.next_unused
    rcases List.mem_cons.1 hi' with e | e
    · rw [e, Function.update_same]
      exact ⟨rfl, h.inv.occ_lt _ x3⟩
    · have hne : i ≠ nty_id_index id := fun c => hnot (c ▸ e)
      rw [Function.update_noteq hne]
      exact h.vacant i e

theorem historyInv_run : ∀ (ops : List SlabOp) (s : nty_slab_t α) (released issued : List Nat),
    HistoryInv s released issued →
    HistoryInv (slab_run s ops) (slab_released s ops released) (issued ++ slab_issued s ops)
  | [], s, released, issued, h => by
    simpa [slab_run, slab_released, slab_issued] using h
  | SlabOp.alloc :: ops, s, released, issued, h => by
    simp only [slab_run, slab_released, slab_issued, slab_step]
    by_cases h0 : (nty_slab_alloc s).1 = 0
    · rw [if_pos h0, if_pos h0]
      have hs := alloc_fail_state s h.inv h0
      apply historyInv_run ops
      rw [hs]
      exact h
    · rw [if_neg h0, if_neg h0]
      have := historyInv_run ops _ _ _ (historyInv_alloc s released issued h h0).1
      simpa using this
  | SlabOp.free id :: ops, s, released, issued, h => by
    simp only [slab_run, slab_released, slab_issued, slab_step]
    cases hx : nty_slab_exists s id
    · have hf := free_of_not_exists s id hx
      rw [hf]
      simp only [Bool.false_eq_true, if_false]
      exact historyInv_run ops s released issued h
    · have h1 : (nty_slab_free s id).1 = true := by rw [free_fst, hx]
      rw [if_pos h1]
      exact historyInv_run ops _ _ _ (historyInv_free s released issued h id hx)

theorem historyInv_init (item_size capacity : Nat) (s0 : nty_slab_t α)
    (hcap : capacity < 4294967296) (hinit : nty_slab_init item_size capacity = some s0) :
    HistoryInv s0 [] [] := by
  have hs := init_inv item_size capacity s0 hcap hinit
  unfold nty_slab_init at hinit
  split at hinit
  · cases hinit
  · cases hinit
    refine ⟨hs, rfl, ?_, List.nodup_nil, ?_⟩
    · intro i hi; cases hi
    · intro j
      simp

theorem slab_run_inv (item_size capacity : Nat) (s0 : nty_slab_t α) (ops : List SlabOp)
    (hcap : capacity < 4294967296) (hinit : nty_slab_init item_size capacity = some s0) :
    SlabInv (slab_run s0 ops) :=
  (historyInv_run ops s0 [] [] (historyInv_init item_size capacity s0 hcap hinit)).inv

theorem slabReachable_inv {s : nty_slab_t α} (h : SlabReachable s) : SlabInv s := by
  obtain ⟨item_size, capacity, s0, ops, hcap, hinit, rfl⟩ := h
  exact slab_run_inv item_size capacity s0 ops hcap hinit

/-- After releasing two live identifiers, the next two allocations take the slot of the
second and then the slot of the first. -/
theorem lifo_two (s : nty_slab_t α) (h : SlabInv s) (a b : Nat)
    (ha : nty_slab_exists s a = true) (hb : nty_slab_exists s b = true) (hne : a ≠ b) :
    (nty_slab_alloc (nty_slab_free (nty_slab_free s a).2 b).2).1 ≠ 0 ∧
      nty_id_index (nty_slab_alloc (nty_slab_free (nty_slab_free s a).2 b).2).1 =
        nty_id_index b ∧
      (nty_slab_alloc (nty_slab_alloc (nty_slab_free (nty_slab_free s a).2 b).2).2.2).1 ≠ 0 ∧
      nty_id_index
          (nty_slab_alloc (nty_slab_alloc (nty_slab_free (nty_slab_free s a).2 b).2).2.2).1 =
        nty_id_index a := by
  have hidx : nty_id_index a ≠ nty_id_index b := fun e => hne (exists_inj s a b ha hb e)
  have i1 := free_inv s h a
  have hb1 : nty_slab_exists (nty_slab_free s a).2 b = true :=
    (free_exists_iff s a ha b).2 ⟨hb, Ne.symm hne⟩
  have i2 := free_inv _ i1 b
  have f1 := free_of_exists s a ha
  have f2 := free_of_exists _ b hb1
  have c1 := (free_ok s h a ha).2.2.2.2.2.1
  have c2 := (free_ok _ i1 b hb1).2.2.2.2.2.1
  have cap1 := (free_ok s h a ha).2.2.2.2.1
  have cap2 := (free_ok _ i1 b hb1).2.2.2.2.1
  have hle := count_le_capacity h
  have hxa := (exists_iff s a).1 ha
  have hxb := (exists_iff s b).1 hb
  have hfh2 : (nty_slab_free (nty_slab_free s a).2 b).2.free_head = nty_id_index b := by
    rw [f2]
  have hnf2 : (nty_slab_free (nty_slab_free s a).2 b).2.next_free (nty_id_index b) =
      nty_id_index a := by
    rw [f2]
    simp only [Function.update_same]
    rw [f1]
  have hne1 : (nty_slab_alloc (nty_slab_free (nty_slab_free s a).2 b).2).1 ≠ 0 := by
    intro e
    have := (alloc_fail_iff _ i2).1 e
    omega
  obtain ⟨p1, p2⟩ := alloc_policy _ i2 hne1
  have hnb : nty_id_index b ≠ NTY_SLAB_NO_FREE := hxb.1
  have hna : nty_id_index a ≠ NTY_SLAB_NO_FREE := hxa.1
  rcases p2 with ⟨-, q2, q3, -⟩ | ⟨q1, -⟩
  swap
  · rw [hfh2] at q1; exact absurd q1 hnb
  have a1 := (alloc_ok _ i2 hne1).1
  have i3 := alloc_inv _ i2
  have cnt3 := (alloc_ok _ i2 hne1).2.2.2.2.2.2.2.2.1
  have cap3 := (alloc_ok _ i2 hne1).2.2.2.2.2.2.2.1
  have hne2 : (nty_slab_alloc
      (nty_slab_alloc (nty_slab_free (nty_slab_free s a).2 b).2).2.2).1 ≠ 0 := by
    intro e
    have := (alloc_fail_iff _ i3).1 e
    omega
  obtain ⟨r1, r2⟩ := alloc_policy _ i3 hne2
  have hfh3 : (nty_slab_alloc (nty_slab_free (nty_slab_free s a).2 b).2).2.2.free_head =
      nty_id_index a := by
    rw [q3, hfh2, hnf2]
  rcases r2 with ⟨-, t2, -, -⟩ | ⟨t1, -⟩
  swap
  · rw [hfh3] at t1; exact absurd t1 hna
  refine ⟨hne1, ?_, hne2, ?_⟩
  · rw [a1, q2, hfh2]
  · rw [(alloc_ok _ i3 hne2).1, t2, hfh3]

end slab

/-- C23. LIFO allocation policy: after any sequence of `nty_slab_alloc` and `nty_slab_free`
calls on an initialised arena, a successful allocation takes the slot released most
recently among those not issued again since, if there is one, and otherwise the slot
`next_unused`, which is the lowest slot index never issued; and after releasing two live
identifiers `a` then `b`, the next two allocations get the slot of `b` and then the slot of
`a`. -/
theorem C23_lifo_allocation {α : Type} [Zero α] (item_size capacity : Nat)
    (s0 : nty_slab_t α) (ops : List SlabOp) (hcap : capacity < 4294967296)
    (hinit : nty_slab_init item_size capacity = some s0) :
    ((nty_slab_alloc (slab_run s0 ops)).1 ≠ 0 →
      (∀ x rest, slab_released s0 ops [] = x :: rest →
        nty_id_index (nty_slab_alloc (slab_run s0 ops)).1 = x) ∧
      (slab_released s0 ops [] = [] →
        nty_id_index (nty_slab_alloc (slab_run s0 ops)).1 = (slab_run s0 ops).next_unused ∧
        ∀ j, j < (slab_run s0 ops).next_unused ↔
          j ∈ (slab_issued s0 ops).map nty_id_index)) ∧
    (∀ a b, nty_slab_exists (slab_run s0 ops) a = true →
      nty_slab_exists (slab_run s0 ops) b = true → a ≠ b →
      (nty_slab_alloc (nty_slab_free (nty_slab_free (slab_run s0 ops) a).2 b).2).1 ≠ 0 ∧
      nty_id_index
          (nty_slab_alloc (nty_slab_free (nty_slab_free (slab_run s0 ops) a).2 b).2).1 =
        nty_id_index b ∧
      (nty_slab_alloc
          (nty_slab_alloc
            (nty_slab_free (nty_slab_free (slab_run s0 ops) a).2 b).2).2.2).1 ≠ 0 ∧
      nty_id_index
          (nty_slab_alloc
            (nty_slab_alloc
              (nty_slab_free (nty_slab_free (slab_run s0 ops) a).2 b).2).2.2).1 =
        nty_id_index a) := by
  have hh := historyInv_run ops s0 [] [] (historyInv_init item_size capacity s0 hcap hinit)
  rw [List.nil_append] at hh
  refine ⟨?_, ?_⟩
  · intro h0
    obtain ⟨-, k2, k3⟩ := historyInv_alloc _ _ _ hh h0
    exact ⟨k2, fun e => ⟨k3 e, hh.used⟩⟩
  · intro a b ha hb hne
    exact lifo_two _ hh.inv a b ha hb hne

/-- Witness for C23: on a three-slot arena, allocate `a` (slot 0) and `b` (slot 1), free
`a`, free `b`: the released slots are 1, 0; the next allocation takes slot 1, the one after
it slot 0, and the third, with nothing released left, slot 2 = `next_unused`. -/
theorem C23_lifo_allocation_witness :
    nty_slab_init 40 3 = some ex_slab3 ∧ slab_released ex_slab3 ex_ops [] = [1, 0] ∧
      nty_id_index (nty_slab_alloc (slab_run ex_slab3 ex_ops)).1 = 1 ∧
      nty_id_index (nty_slab_alloc (slab_run ex_slab3 (ex_ops ++ [SlabOp.alloc]))).1 = 0 ∧
      slab_released ex_slab3 (ex_ops ++ [SlabOp.alloc, SlabOp.alloc]) [] = [] ∧
      (slab_run ex_slab3 (ex_ops ++ [SlabOp.alloc, SlabOp.alloc])).next_unused = 2 ∧
      nty_id_index
        (nty_slab_alloc (slab_run ex_slab3 (ex_ops ++ [SlabOp.alloc, SlabOp.alloc]))).1 = 2 ∧
      ((nty_slab_alloc (slab_run ex_slab3 ex_ops)).1 ≠ 0 →
        (∀ x rest, slab_released ex_slab3 ex_ops [] = x :: rest →
          nty_id_index (nty_slab_alloc (slab_run ex_slab3 ex_ops)).1 = x) ∧
        (slab_released ex_slab3 ex_ops [] = [] →
          nty_id_index (nty_slab_alloc (slab_run ex_slab3 ex_ops)).1 =
            (slab_run ex_slab3 ex_ops).next_unused ∧
          ∀ j, j < (slab_run ex_slab3 ex_ops).next_unused ↔
            j ∈ (slab_issued ex_slab3 ex_ops).map nty_id_index)) :=
  ⟨rfl, by decide, by decide, by decide, by decide, by decide, by decide,
    (C23_lifo_allocation 40 3 ex_slab3 ex_ops (by decide) rfl).1⟩

/-! ## Arena: exhaustion, validation, generations, encoding -/

section slab
variable {α : Type} [Zero α]

theorem slab_run_capacity : ∀ (ops : List SlabOp) (s : nty_slab_t α), SlabInv s →
    (slab_run s ops).capacity = s.capacity
  | [], _, _ => rfl
  | SlabOp.alloc :: ops, s, h => by
    simp only [slab_run, slab_step]
    rw [slab_run_capacity ops _ (alloc_inv s h), alloc_capacity s h]
  | SlabOp.free id :: ops, s, h => by
    simp only [slab_run, slab_step]
    rw [slab_run_capacity ops _ (free_inv s h id), free_capacity s id]

theorem init_capacity (item_size capacity : Nat) (s0 : nty_slab_t α)
    (hinit : nty_slab_init item_size capacity = some s0) :
    s0.capacity = capacity ∧ ∀ i, s0.generation i = 0 := by
  unfold nty_slab_init at hinit
  split at hinit
  · cases hinit
  · cases hinit
    exact ⟨rfl, fun _ => rfl⟩

omit [Zero α] in
/-- The validation reads the slot table below the capacity only. -/
theorem exists_local (s t : nty_slab_t α) (id : Nat) (hc : t.capacity = s.capacity)
    (h : ∀ i, i < s.capacity → t.occupied i = s.occupied i ∧ t.generation i = s.generation i) :
    nty_slab_exists t id = nty_slab_exists s id := by
  unfold nty_slab_exists
  rw [hc]
  by_cases h1 : nty_id_index id = UINT32_MAX ∨ nty_id_index id ≥ s.capacity
  · rw [if_pos h1, if_pos h1]
  · rw [if_neg h1, if_neg h1]
    push_neg at h1
    rw [(h _ h1.2).1, (h _ h1.2).2]

theorem last_issued_append (l : List Nat) (x i : Nat) :
    last_issued (l ++ [x]) i = if nty_id_index x = i then some x else last_issued l i := by
  unfold last_issued
  rw [List.reverse_append, List.reverse_singleton, List.singleton_append, List.find?_cons]
  by_cases h : nty_id_index x = i
  · simp [h]
  · simp [h]

/-- The generation stored for a slot is the generation of the latest identifier issued for
it, and 0 when none was issued. -/
theorem generation_history : ∀ (ops : List SlabOp) (s : nty_slab_t α) (issued : List Nat),
    SlabInv s →
    (∀ i, s.generation i = ((last_issued issued i).map nty_id_generation).getD 0) →
    ∀ i, (slab_run s ops).generation i =
      ((last_issued (issued ++ slab_issued s ops) i).map nty_id_generation).getD 0
  | [], s, issued, _, hg => by
    simpa [slab_run, slab_issued] using hg
  | SlabOp.alloc :: ops, s, issued, h, hg => by
    simp only [slab_run, slab_issued, slab_step]
    by_cases h0 : (nty_slab_alloc s).1 = 0
    · rw [if_pos h0]
      have hs := alloc_fail_state s h h0
      rw [hs]
      exact generation_history ops s issued h hg
    · rw [if_neg h0]
      obtain ⟨a1, a2, a3, a4, a5, a6, -⟩ := alloc_ok s h h0
      have := generation_history ops (nty_slab_alloc s).2.2 (issued ++ [(nty_slab_alloc s).1])
        (alloc_inv s h) (by
          intro i
          rw [last_issued_append, a6, a1]
          by_cases hi : (nty_slab_alloc s).2.1 = i
          · rw [if_pos hi, ← hi, Function.update_same, ← a2]
            rfl
          · rw [if_neg hi, Function.update_noteq (Ne.symm hi)]
            exact hg i)
      simpa using this
  | SlabOp.free id :: ops, s, issued, h, hg => by
    simp only [slab_run, slab_issued, slab_step]
    exact generation_history ops _ issued (free_inv s h id)
      (by intro i; rw [free_generation]; exact hg i)

end slab

/-- C24. Exhaustion: after any sequence of `nty_slab_alloc` and `nty_slab_free` calls on an
arena initialised with capacity `capacity`, `nty_slab_alloc` returns 0 exactly when the
live count equals the capacity; below the capacity it returns a non-zero identifier and
the live count grows by exactly 1; the live count never exceeds the capacity; and a failed
allocation leaves the arena unchanged. -/
theorem C24_exhaustion {α : Type} [Zero α] (item_size capacity : Nat)
    (s0 : nty_slab_t α) (ops : List SlabOp) (hcap : capacity < 4294967296)
    (hinit : nty_slab_init item_size capacity = some s0) :
    (slab_run s0 ops).capacity = capacity ∧
      ((nty_slab_alloc (slab_run s0 ops)).1 = 0 ↔ (slab_run s0 ops).count = capacity) ∧
      ((slab_run s0 ops).count < capacity →
        (nty_slab_alloc (slab_run s0 ops)).1 ≠ 0 ∧
        (nty_slab_alloc (slab_run s0 ops)).2.2.count = (slab_run s0 ops).count + 1) ∧
      (slab_run s0 ops).count ≤ capacity ∧
      ((nty_slab_alloc (slab_run s0 ops)).1 = 0 →
        (nty_slab_alloc (slab_run s0 ops)).2.2 = slab_run s0 ops) := by
  have h0 := init_inv item_size capacity s0 hcap hinit
  have h := slab_run_inv item_size capacity s0 ops hcap hinit
  have hc : (slab_run s0 ops).capacity = capacity := by
    rw [slab_run_capacity ops s0 h0, (init_capacity item_size capacity s0 hinit).1]
  have hiff := alloc_fail_iff _ h
  rw [hc] at hiff
  refine ⟨hc, hiff, ?_, ?_, alloc_fail_state _ h⟩
  · intro hlt
    have hne : (nty_slab_alloc (slab_run s0 ops)).1 ≠ 0 := fun e => by
      have := hiff.1 e
      omega
    exact ⟨hne, (alloc_ok _ h hne).2.2.2.2.2.2.2.2.1⟩
  · rw [← hc]
    exact count_le_capacity h

/-- Witness for C24: the single-slot arena is empty after initialisation and its first
allocation succeeds; after that allocation it is full and the next one returns 0. -/
theorem C24_exhaustion_witness :
    (nty_slab_alloc (slab_run ex_slab [])).1 = 4294967297 ∧
      (nty_slab_alloc (slab_run ex_slab [SlabOp.alloc])).1 = 0 ∧
      ((slab_run ex_slab [SlabOp.alloc]).capacity = 1 ∧
        ((nty_slab_alloc (slab_run ex_slab [SlabOp.alloc])).1 = 0 ↔
          (slab_run ex_slab [SlabOp.alloc]).count = 1) ∧
        ((slab_run ex_slab [SlabOp.alloc]).count < 1 →
          (nty_slab_alloc (slab_run ex_slab [SlabOp.alloc])).1 ≠ 0 ∧
          (nty_slab_alloc (slab_run ex_slab [SlabOp.alloc])).2.2.count =
            (slab_run ex_slab [SlabOp.alloc]).count + 1) ∧
        (slab_run ex_slab [SlabOp.alloc]).count ≤ 1 ∧
        ((nty_slab_alloc (slab_run ex_slab [SlabOp.alloc])).1 = 0 →
          (nty_slab_alloc (slab_run ex_slab [SlabOp.alloc])).2.2 =
            slab_run ex_slab [SlabOp.alloc])) :=
  ⟨by decide, by decide, C24_exhaustion 40 1 ex_slab [SlabOp.alloc] (by decide) rfl⟩

/-- C25. Arena validation: after any sequence of calls on an initialised arena and for
every identifier, `nty_slab_free` returns true exactly when `nty_slab_exists` holds, which
is exactly when `nty_slab_get` returns a record; a successful free makes the identifier
invalid, lowers the live count by exactly 1, and a second free of it returns false; a
failed free changes nothing; an identifier whose slot index is the sentinel or at or beyond
the capacity is rejected; and the three answers depend on the slot table below the capacity
only. -/
theorem C25_arena_validation {α : Type} [Zero α] (item_size capacity : Nat)
    (s0 : nty_slab_t α) (ops : List SlabOp) (hcap : capacity < 4294967296)
    (hinit : nty_slab_init item_size capacity = some s0) (id : Nat) :
    ((nty_slab_free (slab_run s0 ops) id).1 = true ↔
        nty_slab_exists (slab_run s0 ops) id = true) ∧
      (nty_slab_exists (slab_run s0 ops) id = true ↔
        ∃ p, nty_slab_get (slab_run s0 ops) id = some p) ∧
      (nty_slab_exists (slab_run s0 ops) id = true →
        nty_slab_exists (nty_slab_free (slab_run s0 ops) id).2 id = false ∧
        (nty_slab_free (slab_run s0 ops) id).2.count + 1 = (slab_run s0 ops).count ∧
        (nty_slab_free (nty_slab_free (slab_run s0 ops) id).2 id).1 = false) ∧
      (nty_slab_exists (slab_run s0 ops) id = false →
        nty_slab_free (slab_run s0 ops) id = (false, slab_run s0 ops)) ∧
      (nty_id_index id = UINT32_MAX ∨ capacity ≤ nty_id_index id →
        nty_slab_exists (slab_run s0 ops) id = false) ∧
      (∀ t : nty_slab_t α, t.capacity = capacity →
        (∀ i, i < capacity → t.occupied i = (slab_run s0 ops).occupied i ∧
          t.generation i = (slab_run s0 ops).generation i) →
        nty_slab_exists t id = nty_slab_exists (slab_run s0 ops) id ∧
        (nty_slab_free t id).1 = (nty_slab_free (slab_run s0 ops) id).1 ∧
        nty_slab_get t id = nty_slab_get (slab_run s0 ops) id) := by
  have h0 := init_inv item_size capacity s0 hcap hinit
  have h := slab_run_inv item_size capacity s0 ops hcap hinit
  have hc : (slab_run s0 ops).capacity = capacity := by
    rw [slab_run_capacity ops s0 h0, (init_capacity item_size capacity s0 hinit).1]
  refine ⟨by rw [free_fst], ?_, ?_, free_of_not_exists _ id, ?_, ?_⟩
  · constructor
    · intro hx
      exact ⟨_, get_eq_some _ id hx⟩
    · rintro ⟨p, hp⟩
      cases hx : nty_slab_exists (slab_run s0 ops) id
      · rw [get_eq_none _ id hx] at hp
        cases hp
      · rfl
  · intro hx
    have hgone : nty_slab_exists (nty_slab_free (slab_run s0 ops) id).2 id = false := by
      cases hx' : nty_slab_exists (nty_slab_free (slab_run s0 ops) id).2 id
      · rfl
      · exact absurd rfl ((free_exists_iff _ id hx id).1 hx').2
    refine ⟨hgone, (free_ok _ h id hx).2.2.2.2.2.1, ?_⟩
    rw [free_fst, hgone]
  · intro hbad
    unfold nty_slab_exists
    rw [hc, if_pos hbad]
  · intro t htc hloc
    have e : nty_slab_exists t id = nty_slab_exists (slab_run s0 ops) id :=
      exists_local _ t id (by rw [htc, hc]) (by rw [hc]; exact hloc)
    refine ⟨e, by rw [free_fst, free_fst, e], ?_⟩
    unfold nty_slab_get
    rw [e]

/-- Witness for C25: on the single-slot arena after one allocation the identifier
`0x1_0000_0001` is valid and can be freed once; 0, the same slot with generation 2, and an
identifier of slot 1 are all rejected. -/
theorem C25_arena_validation_witness :
    nty_slab_exists (slab_run ex_slab [SlabOp.alloc]) 4294967297 = true ∧
      nty_slab_exists (slab_run ex_slab [SlabOp.alloc]) 0 = false ∧
      nty_slab_exists (slab_run ex_slab [SlabOp.alloc]) 8589934593 = false ∧
      nty_slab_exists (slab_run ex_slab [SlabOp.alloc]) 4294967298 = false ∧
      (nty_slab_exists (slab_run ex_slab [SlabOp.alloc]) 4294967297 = true →
        nty_slab_exists (nty_slab_free (slab_run ex_slab [SlabOp.alloc]) 4294967297).2
          4294967297 = false ∧
        (nty_slab_free (slab_run ex_slab [SlabOp.alloc]) 4294967297).2.count + 1 =
          (slab_run ex_slab [SlabOp.alloc]).count ∧
        (nty_slab_free (nty_slab_free (slab_run ex_slab [SlabOp.alloc]) 4294967297).2
          4294967297).1 = false) :=
  ⟨by decide, by decide, by decide, by decide,
    (C25_arena_validation 40 1 ex_slab [SlabOp.alloc] (by decide) rfl 4294967297).2.2.1⟩

/-- C26, as stated, fails when a slot's 32-bit generation wraps: on the single-slot arena,
after 2^32 - 2 rounds of allocating and freeing, the next allocation issues generation
`0xFFFFFFFF` for slot 0, and after that identifier is freed the following allocation of
slot 0 issues generation 0, not `0x1_0000_0000`. -/
theorem C26_generation_policy_counterexample :
    nty_slab_init 40 1 = some ex_slab ∧
      nty_id_index (nty_slab_alloc (alloc_free_cycle^[4294967294] ex_slab)).1 = 0 ∧
      nty_id_generation (nty_slab_alloc (alloc_free_cycle^[4294967294] ex_slab)).1 =
        4294967295 ∧
      nty_id_index
        (nty_slab_alloc (alloc_free_cycle (alloc_free_cycle^[4294967294] ex_slab))).1 = 0 ∧
      nty_id_generation
        (nty_slab_alloc (alloc_free_cycle (alloc_free_cycle^[4294967294] ex_slab))).1 = 0 := by
  have hi : SlabInv ex_slab := init_inv 40 1 ex_slab (by decide) rfl
  have e1 := cycle_alloc_id ex_slab hi rfl rfl rfl 4294967294
  have e2 := cycle_alloc_id ex_slab hi rfl rfl rfl (4294967294 + 1)
  rw [Function.iterate_succ_apply'] at e2
  have v1 : 4294967296 * ((4294967294 + 1) % 4294967296) + 1 = 18446744069414584321 := by
    norm_num
  have v2 : 4294967296 * ((4294967294 + 1 + 1) % 4294967296) + 1 = 1 := by norm_num
  rw [v1] at e1
  rw [v2] at e2
  rw [e1, e2]
  exact ⟨rfl, by decide, by decide, by decide, by decide⟩

/-- C26, amended. Generation policy: after any sequence of calls on an initialised arena, a
successful allocation of a slot for which no identifier was issued before issues generation
1; a successful allocation of a slot issued before issues the generation of the latest
identifier issued for that slot plus 1 modulo 2^32; the slot then stores the issued
generation; and `nty_slab_free` never changes a stored generation. -/
theorem C26_generation_policy {α : Type} [Zero α] (item_size capacity : Nat)
    (s0 : nty_slab_t α) (ops : List SlabOp) (hcap : capacity < 4294967296)
    (hinit : nty_slab_init item_size capacity = some s0) :
    ((nty_slab_alloc (slab_run s0 ops)).1 ≠ 0 →
      (last_issued (slab_issued s0 ops) (nty_id_index (nty_slab_alloc (slab_run s0 ops)).1) =
          none →
        nty_id_generation (nty_slab_alloc (slab_run s0 ops)).1 = 1) ∧
      (∀ prev,
        last_issued (slab_issued s0 ops) (nty_id_index (nty_slab_alloc (slab_run s0 ops)).1) =
          some prev →
        nty_id_generation (nty_slab_alloc (slab_run s0 ops)).1 =
          (nty_id_generation prev + 1) % 4294967296) ∧
      (nty_slab_alloc (slab_run s0 ops)).2.2.generation
          (nty_id_index (nty_slab_alloc (slab_run s0 ops)).1) =
        nty_id_generation (nty_slab_alloc (slab_run s0 ops)).1) ∧
    (∀ id, (nty_slab_free (slab_run s0 ops) id).2.generation =
      (slab_run s0 ops).generation) := by
  have h0 := init_inv item_size capacity s0 hcap hinit
  have h := slab_run_inv item_size capacity s0 ops hcap hinit
  have hg := generation_history ops s0 [] h0 (by
    intro i
    rw [(init_capacity item_size capacity s0 hinit).2 i]
    rfl)
  rw [List.nil_append] at hg
  refine ⟨?_, fun id => free_generation _ id⟩
  intro hne
  obtain ⟨a1, a2, -, -, -, a6, -⟩ := alloc_ok _ h hne
  refine ⟨?_, ?_, ?_⟩
  · intro hnone
    rw [a2, ← a1, hg, hnone]
    rfl
  · intro prev hprev
    rw [a2, ← a1, hg, hprev, next_generation_eq]
    rfl
  · rw [a6, a1, Function.update_same, a2]

/-- Witness for the amended C26: allocate twice, free the first identifier, allocate again;
slot 0 was last issued with generation 1 and is now issued with generation 2, while the
first allocation of slot 1 had generation 1. -/
theorem C26_generation_policy_witness :
    slab_issued ex_slab3 [SlabOp.alloc, SlabOp.alloc, SlabOp.free ex_a] =
        [4294967297, 4294967298] ∧
      (nty_slab_alloc (slab_run ex_slab3 [SlabOp.alloc, SlabOp.alloc, SlabOp.free ex_a])).1 =
        8589934593 ∧
      nty_id_generation 8589934593 = 2 ∧ nty_id_index 8589934593 = 0 ∧
      nty_id_generation 4294967298 = 1 ∧
      ((nty_slab_alloc
          (slab_run ex_slab3 [SlabOp.alloc, SlabOp.alloc, SlabOp.free ex_a])).1 ≠ 0 →
        (last_issued (slab_issued ex_slab3 [SlabOp.alloc, SlabOp.alloc, SlabOp.free ex_a])
            (nty_id_index (nty_slab_alloc
              (slab_run ex_slab3 [SlabOp.alloc, SlabOp.alloc, SlabOp.free ex_a])).1) = none →
          nty_id_generation (nty_slab_alloc
            (slab_run ex_slab3 [SlabOp.alloc, SlabOp.alloc, SlabOp.free ex_a])).1 = 1) ∧
        (∀ prev,
          last_issued (slab_issued ex_slab3 [SlabOp.alloc, SlabOp.alloc, SlabOp.free ex_a])
            (nty_id_index (nty_slab_alloc
              (slab_run ex_slab3 [SlabOp.alloc, SlabOp.alloc, SlabOp.free ex_a])).1) =
            some prev →
          nty_id_generation (nty_slab_alloc
            (slab_run ex_slab3 [SlabOp.alloc, SlabOp.alloc, SlabOp.free ex_a])).1 =
            (nty_id_generation prev + 1) % 4294967296) ∧
        (nty_slab_alloc
            (slab_run ex_slab3 [SlabOp.alloc, SlabOp.alloc, SlabOp.free ex_a])).2.2.generation
            (nty_id_index (nty_slab_alloc
              (slab_run ex_slab3 [SlabOp.alloc, SlabOp.alloc, SlabOp.free ex_a])).1) =
          nty_id_generation (nty_slab_alloc
            (slab_run ex_slab3 [SlabOp.alloc, SlabOp.alloc, SlabOp.free ex_a])).1) :=
  ⟨by decide, by decide, by decide, by decide, by decide,
    (C26_generation_policy 40 3 ex_slab3 [SlabOp.alloc, SlabOp.alloc, SlabOp.free ex_a]
      (by decide) rfl).1⟩

/-- C27. Identifier encoding: after any sequence of calls on an initialised arena, an
allocation made while the live count is below the capacity returns the identifier
`(generation << 32) | (slot_index + 1)` of the slot it occupies and of the generation that
slot now stores; the identifier is not 0 and decodes back to that slot index and that
generation; and `nty_id_index` maps every identifier whose low 32 bits are zero, 0
included, to `UINT32_MAX`. -/
theorem C27_identifier_encoding {α : Type} [Zero α] (item_size capacity : Nat)
    (s0 : nty_slab_t α) (ops : List SlabOp) (hcap : capacity < 4294967296)
    (hinit : nty_slab_init item_size capacity = some s0) :
    ((slab_run s0 ops).count < (slab_run s0 ops).capacity →
      (nty_slab_alloc (slab_run s0 ops)).1 ≠ 0 ∧
      (nty_slab_alloc (slab_run s0 ops)).1 =
        ((nty_slab_alloc (slab_run s0 ops)).2.2.generation
            (nty_slab_alloc (slab_run s0 ops)).2.1 <<< NTY_ID_INDEX_BITS) |||
          ((nty_slab_alloc (slab_run s0 ops)).2.1 + 1) ∧
      nty_slab_get (nty_slab_alloc (slab_run s0 ops)).2.2 (nty_slab_alloc (slab_run s0 ops)).1 =
        some (nty_slab_alloc (slab_run s0 ops)).2.1 ∧
      nty_id_index (nty_slab_alloc (slab_run s0 ops)).1 =
        (nty_slab_alloc (slab_run s0 ops)).2.1 ∧
      nty_id_generation (nty_slab_alloc (slab_run s0 ops)).1 =
        (nty_slab_alloc (slab_run s0 ops)).2.2.generation
          (nty_slab_alloc (slab_run s0 ops)).2.1) ∧
    (∀ id, id &&& NTY_ID_INDEX_MASK = 0 → nty_id_index id = UINT32_MAX) ∧
    nty_id_index 0 = UINT32_MAX := by
  have h := slab_run_inv item_size capacity s0 ops hcap hinit
  refine ⟨?_, ?_, nty_id_index_zero⟩
  · intro hlt
    rcases alloc_spec _ h with ⟨h1, -⟩ | ⟨-, p, fh, nu, hp, -, h2, -⟩
    · omega
    have hp' : p < 4294967295 := by have := h.cap_lt; omega
    have hne : (nty_slab_alloc (slab_run s0 ops)).1 ≠ 0 := by
      rw [h2]
      exact make_id_ne_zero _ p hp'
    obtain ⟨a1, a2, -, -, -, a6, -⟩ := alloc_ok _ h hne
    have hu : u32 (p + 1) = p + 1 := by unfold u32; omega
    have hslot : (nty_slab_alloc (slab_run s0 ops)).2.1 = p := by rw [h2]
    have hgen : (nty_slab_alloc (slab_run s0 ops)).2.2.generation p =
        next_generation ((slab_run s0 ops).generation p) := by
      rw [a6, hslot, Function.update_same]
    refine ⟨hne, ?_, ?_, a1, ?_⟩
    · rw [hslot, hgen]
      conv_lhs => rw [h2]
      show _ ||| u32 (p + 1) = _
      rw [hu]
    · rw [get_eq_some _ _ ((alloc_exists_iff _ h hne _).2 (Or.inl rfl)), a1]
    · rw [a2, hslot, hgen]
  · intro id hid
    unfold nty_id_index
    rw [if_pos hid]

/-- Witness for C27: the first allocation on the single-slot arena occupies slot 0 with
generation 1 and returns `(1 << 32) | 1 = 0x1_0000_0001`; the identifiers 0 and
`0x5_0000_0000` have no slot. -/
theorem C27_identifier_encoding_witness :
    (nty_slab_alloc (slab_run ex_slab [])).1 = 4294967297 ∧
      (1 <<< 32) ||| (0 + 1) = 4294967297 ∧ nty_id_index 21474836480 = UINT32_MAX ∧
      ((slab_run ex_slab []).count < (slab_run ex_slab []).capacity →
        (nty_slab_alloc (slab_run ex_slab [])).1 ≠ 0 ∧
        (nty_slab_alloc (slab_run ex_slab [])).1 =
          ((nty_slab_alloc (slab_run ex_slab [])).2.2.generation
              (nty_slab_alloc (slab_run ex_slab [])).2.1 <<< NTY_ID_INDEX_BITS) |||
            ((nty_slab_alloc (slab_run ex_slab [])).2.1 + 1) ∧
        nty_slab_get (nty_slab_alloc (slab_run ex_slab [])).2.2
            (nty_slab_alloc (slab_run ex_slab [])).1 =
          some (nty_slab_alloc (slab_run ex_slab [])).2.1 ∧
        nty_id_index (nty_slab_alloc (slab_run ex_slab [])).1 =
          (nty_slab_alloc (slab_run ex_slab [])).2.1 ∧
        nty_id_generation (nty_slab_alloc (slab_run ex_slab [])).1 =
          (nty_slab_alloc (slab_run ex_slab [])).2.2.generation
            (nty_slab_alloc (slab_run ex_slab [])).2.1) :=
  ⟨by decide, by decide, by decide,
    (C27_identifier_encoding 40 1 ex_slab [] (by decide) rfl).1⟩

/-! ## Round trips of creation and the independence of properties -/

/-- What `nty_property_*` observe depends on the property arena and its order array only. -/
theorem property_observations {g g' : nty_graph_t} (h1 : g'.properties = g.properties)
    (h2 : g'.property_order = g.property_order)
    (h3 : g'.property_order_len = g.property_order_len) :
    (∀ p, nty_property_exists g' p = nty_property_exists g p) ∧
      (∀ p, nty_property_get g' p = nty_property_get g p) ∧
      nty_graph_property_count g' = nty_graph_property_count g ∧
      property_iteration g' = property_iteration g := by
  refine ⟨?_, ?_, ?_, ?_⟩
  · intro p; unfold nty_property_exists; rw [h1]
  · intro p; unfold nty_property_get; rw [h1]
  · unfold nty_graph_property_count; rw [h1]
  · unfold property_iteration nty_graph_properties
    rw [h3]
    congr 1
    funext it
    unfold nty_property_iter_next
    rw [h1, h2, h3]

theorem node_create_props {g : nty_graph_t} (h : GraphInv g) :
    (nty_node_create g).2.properties = g.properties ∧
      (nty_node_create g).2.property_order = g.property_order ∧
      (nty_node_create g).2.property_order_len = g.property_order_len := by
  by_cases hc : (nty_slab_alloc g.nodes).1 = 0
  · rw [node_create_full h hc]; exact ⟨rfl, rfl, rfl⟩
  · rw [node_create_form h hc]; exact ⟨rfl, rfl, rfl⟩

theorem edge_create_props {g : nty_graph_t} (h : GraphInv g) (f t ty w ts : Nat) :
    (nty_edge_create g f t ty w ts).2.properties = g.properties ∧
      (nty_edge_create g f t ty w ts).2.property_order = g.property_order ∧
      (nty_edge_create g f t ty w ts).2.property_order_len = g.property_order_len := by
  by_cases hne : (nty_edge_create g f t ty w ts).1 = 0
  swap
  · obtain ⟨hf, ht, hc⟩ := edge_create_nonzero h f t ty w ts hne
    obtain ⟨N, E, hr⟩ := recordsOnly_edge_linked g (nty_slab_alloc g.edges) f t ty w ts
      (nty_id_index f) (nty_id_index t)
    rw [edge_create_form h f t ty w ts hf ht hc, hr]
    exact ⟨rfl, rfl, rfl⟩
  · by_cases hf : nty_slab_exists g.nodes f = true
    swap
    · rw [edge_create_no_node g f t ty w ts (Or.inl (by simpa using hf))]
      exact ⟨rfl, rfl, rfl⟩
    by_cases ht : nty_slab_exists g.nodes t = true
    swap
    · rw [edge_create_no_node g f t ty w ts (Or.inr (by simpa using ht))]
      exact ⟨rfl, rfl, rfl⟩
    by_cases hc : (nty_slab_alloc g.edges).1 = 0
    · rw [edge_create_full h f t ty w ts hc]
      exact ⟨rfl, rfl, rfl⟩
    · exfalso
      rw [edge_create_form h f t ty w ts hf ht hc] at hne
      exact hc hne

theorem edge_destroy_props (g : nty_graph_t) (e : Nat) :
    (nty_edge_destroy g e).2.properties = g.properties ∧
      (nty_edge_destroy g e).2.property_order = g.property_order ∧
      (nty_edge_destroy g e).2.property_order_len = g.property_order_len := by
  obtain ⟨-, f2, -, f4, -, f6, -⟩ := edge_destroy_frame g e
  exact ⟨f2, f4, f6⟩

theorem node_destroy_props {g : nty_graph_t} (h : GraphInv g) (fuel n : Nat)
    (r : Bool × nty_graph_t) (hr : nty_node_destroy fuel g n = some r) :
    r.2.properties = g.properties ∧ r.2.property_order = g.property_order ∧
      r.2.property_order_len = g.property_order_len := by
  cases hn : nty_slab_exists g.nodes n
  · rw [node_destroy_absent fuel g n hn] at hr
    cases hr
    exact ⟨rfl, rfl, rfl⟩
  · obtain ⟨g2, -, c2, -, -, -, c6⟩ := node_destroy_spec h fuel n r hn hr
    obtain ⟨-, f2, -, f4, -, f6, -⟩ := c2
    rw [c6]
    exact ⟨f2, f4, f6⟩

theorem node_destroy_returns {g : nty_graph_t} (h : GraphInv g) (fuel n : Nat)
    (hf : g.edges.count < fuel) : ∃ r, nty_node_destroy fuel g n = some r := by
  have h1 := out_list_length_le h n
  have h2 := in_list_length_le h n
  exact node_destroy_terminates h fuel n (by omega) (by omega)

theorem neighbor_iters_of_get (g : nty_graph_t) (id : Nat) (r : nty_node_t)
    (h : nty_node_get g id = some r) :
    nty_node_out_edges g id = { current := r.out_head, outgoing := true } ∧
      nty_node_in_edges g id = { current := r.in_head, outgoing := false } := by
  unfold nty_node_get at h
  unfold nty_node_out_edges nty_node_in_edges nty_graph_get_node_const
  cases hp : nty_slab_get g.nodes id with
  | none => rw [hp] at h; cases h
  | some p =>
    rw [hp] at h
    simp only [Option.map_some', Option.some.injEq] at h
    simp only
    rw [h]
    exact ⟨rfl, rfl⟩

theorem neighbor_collect_zero (g : nty_graph_t) (outgoing : Bool) : ∀ fuel : Nat,
    neighbor_collect g fuel { current := 0, outgoing := outgoing } = []
  | 0 => rfl
  | fuel + 1 => by
    unfold neighbor_collect nty_neighbor_iter_next
    simp

/-- C28. Create/get round trip: in a reachable state, if `nty_edge_create` returns a
non-zero identifier then `nty_edge_get` of it succeeds with the `id`, `from`, `to`, `type`,
`weight` and `timestamp` of the call, and if `nty_property_create` returns a non-zero
identifier then `nty_property_get` of it succeeds with the `id`, `owner`, `key` and `value`
of the call, for every owner value. -/
theorem C28_create_get_round_trip (g : nty_graph_t) (hr : Reachable g) :
    (∀ from_ to_ type weight timestamp,
      (nty_edge_create g from_ to_ type weight timestamp).1 ≠ 0 →
      ∃ r, nty_edge_get (nty_edge_create g from_ to_ type weight timestamp).2
          (nty_edge_create g from_ to_ type weight timestamp).1 = some r ∧
        r.id = (nty_edge_create g from_ to_ type weight timestamp).1 ∧ r.from_ = from_ ∧
        r.to_ = to_ ∧ r.type = type ∧ r.weight = weight ∧ r.timestamp = timestamp) ∧
    (∀ owner key value,
      (nty_property_create g owner key value).1 ≠ 0 →
      nty_property_get (nty_property_create g owner key value).2
          (nty_property_create g owner key value).1 =
        some { id := (nty_property_create g owner key value).1, owner := owner, key := key,
               value := value }) := by
  have h := reachable_inv hr
  refine ⟨?_, ?_⟩
  · intro f t ty w ts hne
    obtain ⟨hf, ht, hc⟩ := edge_create_nonzero h f t ty w ts hne
    have hid : (nty_edge_create g f t ty w ts).1 = (nty_slab_alloc g.edges).1 := by
      rw [edge_create_form h f t ty w ts hf ht hc]
    have hx : nty_slab_exists (nty_edge_create g f t ty w ts).2.edges
        (nty_slab_alloc g.edges).1 = true :=
      (edge_create_exists_edges h f t ty w ts hf ht hc _).2 (Or.inl rfl)
    rw [hid, edge_get_eq _ hx, edge_create_edge_rec_new h f t ty w ts hf ht hc]
    exact ⟨_, rfl, rfl, rfl, rfl, rfl, rfl, rfl⟩
  · intro o k v hne
    have hc : (nty_slab_alloc g.properties).1 ≠ 0 := by
      intro hc
      rw [prop_create_full h o k v hc] at hne
      exact hne rfl
    have hao := alloc_ok g.properties h.props_inv hc
    have hx : nty_slab_exists (nty_slab_alloc g.properties).2.2
        (nty_slab_alloc g.properties).1 = true :=
      (alloc_exists_iff g.properties h.props_inv hc _).2 (Or.inl rfl)
    rw [prop_create_form h o k v hc]
    unfold nty_property_get
    simp only
    have hx' : nty_slab_exists
        { (nty_slab_alloc g.properties).2.2 with
          data := Function.update g.properties.data (nty_slab_alloc g.properties).2.1
            { id := (nty_slab_alloc g.properties).1, owner := o, key := k, value := v } }
        (nty_slab_alloc g.properties).1 = true := hx
    rw [get_eq_some _ _ hx', hao.1]
    simp

/-- Witness for C28: in the example store `nty_edge_create(b, c, 3, 0.5, 30)` returns the
edge of slot 2 and `nty_edge_get` copies out the arguments; `nty_property_create(99, 7, 0)`
with an owner that names nothing returns the property of slot 0. -/
theorem C28_create_get_round_trip_witness :
    (nty_edge_create ex_g5 ex_b ex_c 3 4602678819172646912 30).1 = ex_c ∧
      (nty_property_create ex_g5 99 7 0).1 = ex_a ∧
      nty_node_exists ex_g5 99 = false ∧ nty_edge_exists ex_g5 99 = false ∧
      ((∀ from_ to_ type weight timestamp,
        (nty_edge_create ex_g5 from_ to_ type weight timestamp).1 ≠ 0 →
        ∃ r, nty_edge_get (nty_edge_create ex_g5 from_ to_ type weight timestamp).2
            (nty_edge_create ex_g5 from_ to_ type weight timestamp).1 = some r ∧
          r.id = (nty_edge_create ex_g5 from_ to_ type weight timestamp).1 ∧
          r.from_ = from_ ∧ r.to_ = to_ ∧ r.type = type ∧ r.weight = weight ∧
          r.timestamp = timestamp) ∧
      (∀ owner key value,
        (nty_property_create ex_g5 owner key value).1 ≠ 0 →
        nty_property_get (nty_property_create ex_g5 owner key value).2
            (nty_property_create ex_g5 owner key value).1 =
          some { id := (nty_property_create ex_g5 owner key value).1, owner := owner,
                 key := key, value := value })) :=
  ⟨by decide, by decide, by decide, by decide,
    C28_create_get_round_trip ex_g5 ex_g5_reachable⟩

/-- C29. Nodes are created empty: in a reachable state, if `nty_node_create` returns a
non-zero identifier then `nty_node_get` of it succeeds with that `id` and with `out_head`,
`out_tail`, `in_head` and `in_tail` all 0, and both neighbor iterations of the new node
yield nothing, whatever the slot held before. -/
theorem C29_node_created_empty (g : nty_graph_t) (hr : Reachable g)
    (hne : (nty_node_create g).1 ≠ 0) :
    nty_node_get (nty_node_create g).2 (nty_node_create g).1 =
        some { id := (nty_node_create g).1, out_head := 0, out_tail := 0, in_head := 0,
               in_tail := 0 } ∧
      (∀ fuel, neighbor_collect (nty_node_create g).2 fuel
        (nty_node_out_edges (nty_node_create g).2 (nty_node_create g).1) = []) ∧
      (∀ fuel, neighbor_collect (nty_node_create g).2 fuel
        (nty_node_in_edges (nty_node_create g).2 (nty_node_create g).1) = []) := by
  have h := reachable_inv hr
  have hc : (nty_slab_alloc g.nodes).1 ≠ 0 := by
    intro hc
    rw [node_create_full h hc] at hne
    exact hne rfl
  have hao := alloc_ok g.nodes h.nodes_inv hc
  have hx : nty_slab_exists (nty_slab_alloc g.nodes).2.2 (nty_slab_alloc g.nodes).1 = true :=
    (alloc_exists_iff g.nodes h.nodes_inv hc _).2 (Or.inl rfl)
  have hx' : nty_slab_exists
      { (nty_slab_alloc g.nodes).2.2 with
        data := Function.update g.nodes.data (nty_slab_alloc g.nodes).2.1
          { id := (nty_slab_alloc g.nodes).1, out_head := 0, out_tail := 0, in_head := 0,
            in_tail := 0 } }
      (nty_slab_alloc g.nodes).1 = true := hx
  have hget : nty_node_get (nty_node_create g).2 (nty_node_create g).1 =
      some { id := (nty_node_create g).1, out_head := 0, out_tail := 0, in_head := 0,
             in_tail := 0 } := by
    rw [node_create_form h hc]
    unfold nty_node_get
    simp only
    rw [get_eq_some _ _ hx', hao.1]
    simp
  obtain ⟨e1, e2⟩ := neighbor_iters_of_get _ _ _ hget
  refine ⟨hget, ?_, ?_⟩
  · intro fuel
    rw [e1]
    exact neighbor_collect_zero _ true fuel
  · intro fuel
    rw [e2]
    exact neighbor_collect_zero _ false fuel

/-- Witness for C29: in the example store node `c` (slot 2) has the incoming edge `a -> c`;
after `nty_node_destroy(c)` the next `nty_node_create` reuses slot 2 and the new node has
no links. -/
theorem C29_node_created_empty_witness :
    neighbor_collect ex_g5 3 (nty_node_in_edges ex_g5 ex_c) = [ex_b] ∧
      (nty_node_create ex_g6).1 = 8589934595 ∧ nty_id_index 8589934595 = nty_id_index ex_c ∧
      nty_node_get (nty_node_create ex_g6).2 (nty_node_create ex_g6).1 =
          some { id := (nty_node_create ex_g6).1, out_head := 0, out_tail := 0, in_head := 0,
                 in_tail := 0 } ∧
        (∀ fuel, neighbor_collect (nty_node_create ex_g6).2 fuel
          (nty_node_out_edges (nty_node_create ex_g6).2 (nty_node_create ex_g6).1) = []) ∧
        (∀ fuel, neighbor_collect (nty_node_create ex_g6).2 fuel
          (nty_node_in_edges (nty_node_create ex_g6).2 (nty_node_create ex_g6).1) = []) :=
  ⟨by decide, by decide, by decide,
    C29_node_created_empty ex_g6 ex_g6_reachable (by decide)⟩

/-- C30. Property independence: in a reachable state, after `nty_node_create`, a finished
`nty_node_destroy`, `nty_edge_create` or `nty_edge_destroy`, successful or not, every
property identifier exists iff it did before, `nty_property_get` returns what it returned
before, and the property count and the property iteration sequence are unchanged; and
`nty_node_destroy` does finish when given more fuel than there are edges. -/
theorem C30_property_independence (g g' : nty_graph_t) (hr : Reachable g)
    (hop : g' = (nty_node_create g).2 ∨
      (∃ fuel id r, nty_node_destroy fuel g id = some r ∧ g' = r.2) ∨
      (∃ from_ to_ type weight timestamp,
        g' = (nty_edge_create g from_ to_ type weight timestamp).2) ∨
      (∃ id, g' = (nty_edge_destroy g id).2)) :
    ((∀ p, nty_property_exists g' p = nty_property_exists g p) ∧
      (∀ p, nty_property_get g' p = nty_property_get g p) ∧
      nty_graph_property_count g' = nty_graph_property_count g ∧
      property_iteration g' = property_iteration g) ∧
    (∀ fuel id, nty_graph_edge_count g < fuel → ∃ r, nty_node_destroy fuel g id = some r) := by
  have h := reachable_inv hr
  refine ⟨?_, fun fuel id hf => node_destroy_returns h fuel id hf⟩
  rcases hop with e | ⟨fuel, id, r, hd, e⟩ | ⟨f, t, ty, w, ts, e⟩ | ⟨id, e⟩
  · obtain ⟨p1, p2, p3⟩ := node_create_props h
    rw [e]
    exact property_observations p1 p2 p3
  · obtain ⟨p1, p2, p3⟩ := node_destroy_props h fuel id r hd
    rw [e]
    exact property_observations p1 p2 p3
  · obtain ⟨p1, p2, p3⟩ := edge_create_props h f t ty w ts
    rw [e]
    exact property_observations p1 p2 p3
  · obtain ⟨p1, p2, p3⟩ := edge_destroy_props g id
    rw [e]
    exact property_observations p1 p2 p3

theorem ex_g7_reachable : Reachable ex_g7 :=
  Reachable.step ex_g6 ex_g7 ex_g6_reachable (Step.property_create ex_g6 ex_a 7 0)

/-- Witness for C30: the store holds a property owned by node `a`; destroying `a` (and
with it the edge `a -> b`) leaves the property in place with the same owner, key and
value. -/
theorem C30_property_independence_witness :
    nty_property_get ex_g7 ex_a = some { id := ex_a, owner := ex_a, key := 7, value := 0 } ∧
      (nty_node_destroy 3 ex_g7 ex_a).map
          (fun r => (r.1, nty_node_exists r.2 ex_a, nty_graph_edge_count r.2,
            nty_property_get r.2 ex_a, property_iteration r.2)) =
        some (true, false, 0, some { id := ex_a, owner := ex_a, key := 7, value := 0 },
          [ex_a]) ∧
      ((∀ p, nty_property_exists ((nty_node_destroy 3 ex_g7 ex_a).getD (false, ex_g7)).2 p =
          nty_property_exists ex_g7 p) ∧
        (∀ p, nty_property_get ((nty_node_destroy 3 ex_g7 ex_a).getD (false, ex_g7)).2 p =
          nty_property_get ex_g7 p) ∧
        nty_graph_property_count ((nty_node_destroy 3 ex_g7 ex_a).getD (false, ex_g7)).2 =
          nty_graph_property_count ex_g7 ∧
        property_iteration ((nty_node_destroy 3 ex_g7 ex_a).getD (false, ex_g7)).2 =
          property_iteration ex_g7) :=
  ⟨by decide, by decide,
    (C30_property_independence ex_g7 ((nty_node_destroy 3 ex_g7 ex_a).getD (false, ex_g7)).2
      ex_g7_reachable
      (Or.inr (Or.inl ⟨3, ex_a, (nty_node_destroy 3 ex_g7 ex_a).getD (false, ex_g7), rfl,
        rfl⟩))).1⟩

/-! ## Capacities -/

theorem step_order_caps {g g' : nty_graph_t} (h : GraphInv g) (hs : Step g g') :
    g'.node_order_cap = g.node_order_cap ∧ g'.edge_order_cap = g.edge_order_cap ∧
      g'.property_order_cap = g.property_order_cap := by
  cases hs with
  | node_create =>
    by_cases hc : (nty_slab_alloc g.nodes).1 = 0
    · rw [node_create_full h hc]; exact ⟨rfl, rfl, rfl⟩
    · rw [node_create_form h hc]; exact ⟨rfl, rfl, rfl⟩
  | node_destroy fuel id r hr =>
    cases hn : nty_slab_exists g.nodes id
    · rw [node_destroy_absent fuel g id hn] at hr
      cases hr
      exact ⟨rfl, rfl, rfl⟩
    · obtain ⟨g2, -, c2, -, -, -, c6⟩ := node_destroy_spec h fuel id r hn hr
      obtain ⟨-, -, -, -, -, -, f7, f8, f9⟩ := c2
      rw [c6]
      exact ⟨f7, f8, f9⟩
  | edge_create f t ty w ts =>
    by_cases hne : (nty_edge_create g f t ty w ts).1 = 0
    swap
    · obtain ⟨hf, ht, hc⟩ := edge_create_nonzero h f t ty w ts hne
      obtain ⟨N, E, hr⟩ := recordsOnly_edge_linked g (nty_slab_alloc g.edges) f t ty w ts
        (nty_id_index f) (nty_id_index t)
      rw [edge_create_form h f t ty w ts hf ht hc, hr]
      exact ⟨rfl, rfl, rfl⟩
    · by_cases hf : nty_slab_exists g.nodes f = true
      swap
      · rw [edge_create_no_node g f t ty w ts (Or.inl (by simpa using hf))]
        exact ⟨rfl, rfl, rfl⟩
      by_cases ht : nty_slab_exists g.nodes t = true
      swap
      · rw [edge_create_no_node g f t ty w ts (Or.inr (by simpa using ht))]
        exact ⟨rfl, rfl, rfl⟩
      by_cases hc : (nty_slab_alloc g.edges).1 = 0
      · rw [edge_create_full h f t ty w ts hc]
        exact ⟨rfl, rfl, rfl⟩
      · exfalso
        rw [edge_create_form h f t ty w ts hf ht hc] at hne
        exact hc hne
  | edge_destroy id =>
    obtain ⟨-, -, -, -, -, -, f7, f8, f9⟩ := edge_destroy_frame g id
    exact ⟨f7, f8, f9⟩
  | property_create o k v =>
    by_cases hc : (nty_slab_alloc g.properties).1 = 0
    · rw [prop_create_full h o k v hc]; exact ⟨rfl, rfl, rfl⟩
    · rw [prop_create_form h o k v hc]; exact ⟨rfl, rfl, rfl⟩
  | property_destroy id =>
    cases hx : nty_slab_exists g.properties id
    · rw [prop_destroy_absent g id hx]; exact ⟨rfl, rfl, rfl⟩
    · rw [prop_destroy_form g id hx]; exact ⟨rfl, rfl, rfl⟩

/-- Public calls change no capacity. -/
theorem stepsWhile_caps {P : nty_graph_t → Prop} {g g' : nty_graph_t}
    (hw : StepsWhile P g g') (h : GraphInv g) :
    GraphInv g' ∧ g'.nodes.capacity = g.nodes.capacity ∧
      g'.edges.capacity = g.edges.capacity ∧
      g'.properties.capacity = g.properties.capacity ∧
      g'.node_order_cap = g.node_order_cap ∧ g'.edge_order_cap = g.edge_order_cap ∧
      g'.property_order_cap = g.property_order_cap := by
  induction hw with
  | refl => exact ⟨h, rfl, rfl, rfl, rfl, rfl, rfl⟩
  | step g1 g2 _ hs _ ih =>
    obtain ⟨i0, i1, i2, i3, i4, i5, i6⟩ := ih
    obtain ⟨a1, a2, a3⟩ := step_arena i0 hs
    obtain ⟨c1, c2, c3⟩ := step_order_caps i0 hs
    exact ⟨step_inv i0 hs, a1.1.trans i1, a2.1.trans i2, a3.1.trans i3, c1.trans i4,
      c2.trans i5, c3.trans i6⟩

theorem graph_create_caps (nc ec pc : Nat) (g : nty_graph_t)
    (h : nty_graph_create nc ec pc = some g) :
    g.nodes.capacity = nc % 4294967296 ∧ g.edges.capacity = ec % 4294967296 ∧
      g.properties.capacity = pc % 4294967296 ∧ g.node_order_cap = nc ∧
      g.edge_order_cap = ec ∧ g.property_order_cap = pc := by
  unfold nty_graph_create at h
  cases hn : (nty_slab_init 40 (u32 nc) : Option (nty_slab_t nty_node_t)) with
  | none => rw [hn] at h; cases h
  | some n =>
    cases he : (nty_slab_init 80 (u32 ec) : Option (nty_slab_t nty_edge_t)) with
    | none => rw [hn, he] at h; cases h
    | some e =>
      cases hp : (nty_slab_init 32 (u32 pc) : Option (nty_slab_t nty_property_t)) with
      | none => rw [hn, he, hp] at h; cases h
      | some p =>
        rw [hn, he, hp] at h
        cases h
        exact ⟨(init_capacity _ _ n hn).1, (init_capacity _ _ e he).1,
          (init_capacity _ _ p hp).1, rfl, rfl, rfl⟩

theorem node_create_nonzero_iff {g : nty_graph_t} (h : GraphInv g) :
    (nty_node_create g).1 ≠ 0 ↔ g.nodes.count < g.nodes.capacity := by
  have hle := count_le_capacity h.nodes_inv
  have hiff := alloc_fail_iff g.nodes h.nodes_inv
  by_cases hc : (nty_slab_alloc g.nodes).1 = 0
  · rw [node_create_full h hc]
    have := hiff.1 hc
    constructor
    · intro c; exact absurd rfl c
    · intro c; omega
  · rw [node_create_form h hc]
    constructor
    · intro _
      have : g.nodes.count ≠ g.nodes.capacity := fun e => hc (hiff.2 e)
      omega
    · intro _; exact hc

theorem property_create_nonzero_iff {g : nty_graph_t} (h : GraphInv g) (o k v : Nat) :
    (nty_property_create g o k v).1 ≠ 0 ↔ g.properties.count < g.properties.capacity := by
  have hle := count_le_capacity h.props_inv
  have hiff := alloc_fail_iff g.properties h.props_inv
  by_cases hc : (nty_slab_alloc g.properties).1 = 0
  · rw [prop_create_full h o k v hc]
    have := hiff.1 hc
    constructor
    · intro c; exact absurd rfl c
    · intro c; omega
  · rw [prop_create_form h o k v hc]
    constructor
    · intro _
      have : g.properties.count ≠ g.properties.capacity := fun e => hc (hiff.2 e)
      omega
    · intro _; exact hc

/-- Capacities of a created store: whenever `nty_graph_create` returns a store, then in
every state reached from it each arena's capacity is the `(uint32_t)` cast of the requested
capacity and each order array's capacity is the requested capacity, so the two agree with
the request when it is below 2^32; the live counts never exceed the arena capacities, and
`nty_node_create` (resp. `nty_property_create`) succeeds exactly while the live count is
below the arena capacity. -/
theorem graph_capacities (node_capacity edge_capacity property_capacity : Nat)
    (g0 g : nty_graph_t)
    (hc : nty_graph_create node_capacity edge_capacity property_capacity = some g0)
    (hs : StepsWhile (fun _ => True) g0 g) :
    (g.nodes.capacity = node_capacity % 4294967296 ∧ g.node_order_cap = node_capacity ∧
      g.edges.capacity = edge_capacity % 4294967296 ∧ g.edge_order_cap = edge_capacity ∧
      g.properties.capacity = property_capacity % 4294967296 ∧
      g.property_order_cap = property_capacity) ∧
    (node_capacity < 4294967296 → g.nodes.capacity = node_capacity) ∧
    (edge_capacity < 4294967296 → g.edges.capacity = edge_capacity) ∧
    (property_capacity < 4294967296 → g.properties.capacity = property_capacity) ∧
    (nty_graph_node_count g ≤ g.nodes.capacity ∧ nty_graph_edge_count g ≤ g.edges.capacity ∧
      nty_graph_property_count g ≤ g.properties.capacity) ∧
    ((nty_node_create g).1 ≠ 0 ↔ nty_graph_node_count g < g.nodes.capacity) ∧
    (∀ owner key value, (nty_property_create g owner key value).1 ≠ 0 ↔
      nty_graph_property_count g < g.properties.capacity) := by
  have h0 := graph_create_inv _ _ _ g0 hc
  obtain ⟨k1, k2, k3, k4, k5, k6⟩ := graph_create_caps _ _ _ g0 hc
  obtain ⟨hg, c1, c2, c3, c4, c5, c6⟩ := stepsWhile_caps hs h0
  have e1 : g.nodes.capacity = node_capacity % 4294967296 := c1.trans k1
  have e2 : g.edges.capacity = edge_capacity % 4294967296 := c2.trans k2
  have e3 : g.properties.capacity = property_capacity % 4294967296 := c3.trans k3
  refine ⟨⟨e1, c4.trans k4, e2, c5.trans k5, e3, c6.trans k6⟩, ?_, ?_, ?_, ?_, ?_, ?_⟩
  · intro hlt; rw [e1, Nat.mod_eq_of_lt hlt]
  · intro hlt; rw [e2, Nat.mod_eq_of_lt hlt]
  · intro hlt; rw [e3, Nat.mod_eq_of_lt hlt]
  · exact ⟨count_le_capacity hg.nodes_inv, count_le_capacity hg.edges_inv,
      count_le_capacity hg.props_inv⟩
  · exact node_create_nonzero_iff hg
  · intro o k v
    exact property_create_nonzero_iff hg o k v

/-- C31. Capacity agreement fails in the code at `nty_graph_create(2^32 + 1, 8, 8)`: the
node arena is initialised with `(uint32_t)node_capacity = 1` while `node_order_cap` keeps
`2^32 + 1`, so the arena and its order array disagree; the first `nty_node_create` succeeds
and the second returns 0, so one node can be live, not `2^32 + 1`. With the request
`2^32` the cast gives 0 and no store is returned. -/
theorem C31_capacity_agreement_failing_input :
    (nty_graph_create 4294967297 8 8).map
        (fun g => (g.nodes.capacity, g.node_order_cap, (nty_node_create g).1,
          (nty_node_create (nty_node_create g).2).1)) =
      some (1, 4294967297, 4294967297, 0) ∧
    nty_graph_create 4294967296 8 8 = none :=
  ⟨by decide, rfl⟩

/-- C40. Zero capacities are rejected: `nty_slab_init` fails when `item_size` or `capacity`
is 0 and succeeds otherwise; `nty_vector_index_create` returns no index when `dimension` or
`capacity` is 0 and an index otherwise; and `nty_graph_create` returns no graph when any
of the three capacities is 0. -/
theorem C40_zero_capacities_rejected {α : Type} [Zero α]
    (item_size capacity dimension node_capacity edge_capacity property_capacity : Nat) :
    ((nty_slab_init item_size capacity : Option (nty_slab_t α)) = none ↔
        item_size = 0 ∨ capacity = 0) ∧
      (nty_vector_index_create dimension capacity = none ↔ dimension = 0 ∨ capacity = 0) ∧
      (node_capacity = 0 ∨ edge_capacity = 0 ∨ property_capacity = 0 →
        nty_graph_create node_capacity edge_capacity property_capacity = none) := by
  refine ⟨?_, ?_, ?_⟩
  · unfold nty_slab_init
    by_cases h : item_size = 0 ∨ capacity = 0
    · rw [if_pos h]; simp [h]
    · rw [if_neg h]; simp [h]
  · unfold nty_vector_index_create
    by_cases h : dimension = 0 ∨ capacity = 0
    · rw [if_pos h]; simp [h]
    · rw [if_neg h]; simp [h]
  · intro h
    cases hc : nty_graph_create node_capacity edge_capacity property_capacity with
    | none => rfl
    | some g =>
      exfalso
      obtain ⟨k1, k2, k3, -⟩ := graph_create_caps _ _ _ g hc
      have hg := graph_create_inv _ _ _ g hc
      have p1 := hg.nodes_inv.cap_pos
      have p2 := hg.edges_inv.cap_pos
      have p3 := hg.props_inv.cap_pos
      rcases h with h | h | h
      · rw [k1, h] at p1; exact absurd p1 (by decide)
      · rw [k2, h] at p2; exact absurd p2 (by decide)
      · rw [k3, h] at p3; exact absurd p3 (by decide)

/-- Witness for C40: `nty_graph_create(8, 8, 0)` returns no graph although the node and
edge capacities are positive, while `nty_graph_create(8, 8, 8)` returns one. -/
theorem C40_zero_capacities_rejected_witness :
    nty_graph_create 8 8 8 = some ex_g0 ∧ nty_vector_index_create 2 4 = some ex_v0 ∧
      (nty_slab_init 40 0 : Option (nty_slab_t nty_node_t)) = none ∧
      nty_vector_index_create 0 0 = none ∧ nty_graph_create 8 8 0 = none :=
  ⟨rfl, rfl,
    ((@C40_zero_capacities_rejected nty_node_t _ 40 0 0 8 8 0).1).2 (Or.inr rfl),
    ((@C40_zero_capacities_rejected nty_node_t _ 40 0 0 8 8 0).2.1).2 (Or.inl rfl),
    (@C40_zero_capacities_rejected nty_node_t _ 40 0 0 8 8 0).2.2 (Or.inr (Or.inr rfl))⟩

/-! ## Cascading delete and single edge removal -/

theorem edge_destroy_count {g : nty_graph_t} (h : GraphInv g) (e : Nat)
    (he : nty_slab_exists g.edges e = true) :
    (nty_edge_destroy g e).2.edges.count + 1 = g.edges.count := by
  rw [edge_count_eq_length (edge_destroy_inv h e), edge_count_eq_length h,
    edge_destroy_edge_list e he, List.length_erase_of_mem ((edge_list_mem h e).2 he)]
  have : 0 < (edge_list g).length := List.length_pos_of_mem ((edge_list_mem h e).2 he)
  omega

/-- One iteration of the first cascade loop. -/
theorem out_loop_iteration {g : nty_graph_t} (hr : Reachable g) (n : Nat)
    (hn : nty_slab_exists g.nodes n = true) (h0 : (node_rec g n).out_head ≠ 0) :
    nty_slab_exists g.edges (node_rec g n).out_head = true ∧
      (nty_edge_destroy g (node_rec g n).out_head).1 = true ∧
      (nty_edge_destroy g (node_rec g n).out_head).2.edges.count + 1 = g.edges.count ∧
      (out_list (nty_edge_destroy g (node_rec g n).out_head).2 n).length + 1 =
        (out_list g n).length ∧
      (in_list (nty_edge_destroy g (node_rec g n).out_head).2 n).length ≤
        (in_list g n).length ∧
      nty_slab_exists (nty_edge_destroy g (node_rec g n).out_head).2.nodes n = true ∧
      Reachable (nty_edge_destroy g (node_rec g n).out_head).2 := by
  have h := reachable_inv hr
  have hm : (node_rec g n).out_head ∈ out_list g n := by
    have hh := h.out_head n hn
    rcases headD_mem_or (out_list g n) with c | c
    · rw [← hh] at c; exact absurd c h0
    · rw [← hh] at c; exact c
  have he := ((mem_out_list h _ n).1 hm).1
  refine ⟨he, edge_destroy_fst _ he, edge_destroy_count h _ he, ?_, ?_, ?_,
    Reachable.step _ _ hr (Step.edge_destroy g _)⟩
  · rw [edge_destroy_out_list h _ he, List.length_erase_of_mem hm]
    have : 0 < (out_list g n).length := List.length_pos_of_mem hm
    omega
  · rw [edge_destroy_in_list h _ he]
    exact (List.erase_sublist _ _).length_le
  · rw [edge_destroy_exists_nodes _ he]; exact hn

/-- One iteration of the second cascade loop. -/
theorem in_loop_iteration {g : nty_graph_t} (hr : Reachable g) (n : Nat)
    (hn : nty_slab_exists g.nodes n = true) (h0 : (node_rec g n).in_head ≠ 0) :
    nty_slab_exists g.edges (node_rec g n).in_head = true ∧
      (nty_edge_destroy g (node_rec g n).in_head).1 = true ∧
      (nty_edge_destroy g (node_rec g n).in_head).2.edges.count + 1 = g.edges.count ∧
      (in_list (nty_edge_destroy g (node_rec g n).in_head).2 n).length + 1 =
        (in_list g n).length ∧
      nty_slab_exists (nty_edge_destroy g (node_rec g n).in_head).2.nodes n = true ∧
      Reachable (nty_edge_destroy g (node_rec g n).in_head).2 := by
  have h := reachable_inv hr
  have hm : (node_rec g n).in_head ∈ in_list g n := by
    have hh := h.in_head n hn
    rcases headD_mem_or (in_list g n) with c | c
    · rw [← hh] at c; exact absurd c h0
    · rw [← hh] at c; exact c
  have he := ((mem_in_list h _ n).1 hm).1
  refine ⟨he, edge_destroy_fst _ he, edge_destroy_count h _ he, ?_, ?_,
    Reachable.step _ _ hr (Step.edge_destroy g _)⟩
  · rw [edge_destroy_in_list h _ he, List.length_erase_of_mem hm]
    have : 0 < (in_list g n).length := List.length_pos_of_mem hm
    omega
  · rw [edge_destroy_exists_nodes _ he]; exact hn

/-- The two cascade loops of a live node end within one condition test more than the
number of outgoing, resp. remaining incoming, edges. -/
theorem cascade_loops_bound {g : nty_graph_t} (h : GraphInv g) (n : Nat)
    (hn : nty_slab_exists g.nodes n = true) :
    ∃ g1, destroy_out_loop ((out_list g n).length + 1) g (nty_id_index n) = some g1 ∧
      (in_list g1 n).length ≤ (in_list g n).length ∧
      ∃ g2, destroy_in_loop ((in_list g1 n).length + 1) g1 (nty_id_index n) = some g2 := by
  obtain ⟨g1, hg1⟩ := destroy_out_loop_terminates n _ g h hn (Nat.lt_succ_self _)
  obtain ⟨a1, a2, a3, a4⟩ := destroy_out_loop_spec n _ g g1 h hn hg1
  have hn1 : nty_slab_exists g1.nodes n = true := by
    rw [edgeOpFrame_exists_nodes a2]; exact hn
  have hlen : (in_list g1 n).length ≤ (in_list g n).length := by
    have : in_list g1 n = (in_list g n).filter
        (fun x => !decide ((edge_rec g x).from_ = n)) := by
      unfold in_list
      have e1 : List.filter (fun e => decide ((edge_rec g1 e).to_ = n)) (edge_list g1) =
          List.filter (fun e => decide ((edge_rec g e).to_ = n)) (edge_list g1) := by
        apply List.filter_congr
        intro x hx
        rw [(a4 x hx).2.2.1]
      rw [e1, a3, List.filter_filter, List.filter_filter]
      apply List.filter_congr
      intro x _
      exact Bool.and_comm _ _
    rw [this]
    exact List.length_filter_le _ _
  obtain ⟨g2, hg2⟩ := destroy_in_loop_terminates n _ g1 a1 hn1 (Nat.lt_succ_self _)
  exact ⟨g1, hg1, hlen, g2, hg2⟩

/-- C32. Termination of cascading delete: in a reachable state and for every identifier,
`nty_node_destroy` returns once the fuel exceeds the numbers of outgoing and incoming
edges of the node; for a live node the first loop ends within one condition test more than
its number of outgoing edges and the second within one more than the remaining incoming
edges; and in every reachable state with a live node whose `out_head` (resp. `in_head`) is
not 0, that head is a live edge, `nty_edge_destroy` on it returns `true`, the live edge
count drops by exactly 1, the node's list shortens by one, and the state after is again
reachable with the node still live. -/
theorem C32_cascade_termination (g : nty_graph_t) (hr : Reachable g) (id : Nat) :
    (∀ fuel, (out_list g id).length < fuel → (in_list g id).length < fuel →
      ∃ r, nty_node_destroy fuel g id = some r) ∧
    (nty_node_exists g id = true →
      ∃ g1, destroy_out_loop ((out_list g id).length + 1) g (nty_id_index id) = some g1 ∧
        (in_list g1 id).length ≤ (in_list g id).length ∧
        ∃ g2, destroy_in_loop ((in_list g1 id).length + 1) g1 (nty_id_index id) = some g2) ∧
    (nty_node_exists g id = true → (node_rec g id).out_head ≠ 0 →
      nty_edge_exists g (node_rec g id).out_head = true ∧
      (nty_edge_destroy g (node_rec g id).out_head).1 = true ∧
      nty_graph_edge_count (nty_edge_destroy g (node_rec g id).out_head).2 + 1 =
        nty_graph_edge_count g ∧
      (out_list (nty_edge_destroy g (node_rec g id).out_head).2 id).length + 1 =
        (out_list g id).length ∧
      (in_list (nty_edge_destroy g (node_rec g id).out_head).2 id).length ≤
        (in_list g id).length ∧
      nty_node_exists (nty_edge_destroy g (node_rec g id).out_head).2 id = true ∧
      Reachable (nty_edge_destroy g (node_rec g id).out_head).2) ∧
    (nty_node_exists g id = true → (node_rec g id).in_head ≠ 0 →
      nty_edge_exists g (node_rec g id).in_head = true ∧
      (nty_edge_destroy g (node_rec g id).in_head).1 = true ∧
      nty_graph_edge_count (nty_edge_destroy g (node_rec g id).in_head).2 + 1 =
        nty_graph_edge_count g ∧
      (in_list (nty_edge_destroy g (node_rec g id).in_head).2 id).length + 1 =
        (in_list g id).length ∧
      nty_node_exists (nty_edge_destroy g (node_rec g id).in_head).2 id = true ∧
      Reachable (nty_edge_destroy g (node_rec g id).in_head).2) :=
  ⟨fun fuel h1 h2 => node_destroy_terminates (reachable_inv hr) fuel id h1 h2,
    fun hn => cascade_loops_bound (reachable_inv hr) id hn,
    fun hn h0 => out_loop_iteration hr id hn h0,
    fun hn h0 => in_loop_iteration hr id hn h0⟩

/-- Witness for C32: node `a` of the example store has two outgoing edges; its destruction
returns with fuel 3 and the first loop iteration destroys the edge `a -> b`. -/
theorem C32_cascade_termination_witness :
    Reachable ex_g5 ∧ (out_list ex_g5 ex_a).length < 3 ∧ (in_list ex_g5 ex_a).length < 3 ∧
      nty_node_exists ex_g5 ex_a = true ∧ (node_rec ex_g5 ex_a).out_head ≠ 0 ∧
      (∃ r, nty_node_destroy 3 ex_g5 ex_a = some r) ∧
      (nty_edge_destroy ex_g5 (node_rec ex_g5 ex_a).out_head).1 = true :=
  ⟨ex_g5_reachable, by decide, by decide, by decide, by decide,
    (C32_cascade_termination ex_g5 ex_g5_reachable ex_a).1 3 (by decide) (by decide),
    ((C32_cascade_termination ex_g5 ex_g5_reachable ex_a).2.2.1 (by decide) (by decide)).2.1⟩

/-- C33. `nty_edge_destroy` removes exactly one edge: in a reachable state,
`nty_edge_destroy(e)` returns `true` if and only if `nty_edge_exists(e)` held before; after
`true` the edge no longer exists, `nty_graph_edge_count` has dropped by exactly 1, every
other edge and every node exists exactly if it did before, and for every live node the
outgoing (resp. incoming) walk is the previous walk with `e` deleted when the node is
`e.from` (resp. `e.to`) and the previous walk otherwise. -/
theorem C33_edge_destroy_exact (g : nty_graph_t) (hr : Reachable g) (e : Nat) :
    ((nty_edge_destroy g e).1 = true ↔ nty_edge_exists g e = true) ∧
    (∀ r, nty_edge_get g e = some r →
      nty_edge_exists (nty_edge_destroy g e).2 e = false ∧
      nty_graph_edge_count (nty_edge_destroy g e).2 + 1 = nty_graph_edge_count g ∧
      (∀ x, x ≠ e →
        nty_edge_exists (nty_edge_destroy g e).2 x = nty_edge_exists g x) ∧
      (∀ n, nty_node_exists (nty_edge_destroy g e).2 n = nty_node_exists g n) ∧
      ∀ fuel n, nty_graph_edge_count g < fuel → nty_node_exists g n = true →
        neighbor_collect (nty_edge_destroy g e).2 fuel
            (nty_node_out_edges (nty_edge_destroy g e).2 n) =
          (if n = r.from_ then (neighbor_collect g fuel (nty_node_out_edges g n)).erase e
            else neighbor_collect g fuel (nty_node_out_edges g n)) ∧
        neighbor_collect (nty_edge_destroy g e).2 fuel
            (nty_node_in_edges (nty_edge_destroy g e).2 n) =
          (if n = r.to_ then (neighbor_collect g fuel (nty_node_in_edges g n)).erase e
            else neighbor_collect g fuel (nty_node_in_edges g n)) ∧
        (n = r.from_ → (neighbor_collect g fuel (nty_node_out_edges g n)).count e = 1) ∧
        (n = r.to_ → (neighbor_collect g fuel (nty_node_in_edges g n)).count e = 1)) := by
  have h := reachable_inv hr
  constructor
  · cases he : nty_slab_exists g.edges e
    · rw [edge_destroy_absent g e he]
      simp [nty_edge_exists, he]
    · simp [nty_edge_exists, he, edge_destroy_fst e he]
  · intro r hget
    obtain ⟨he, hrec⟩ := (edge_get_some_iff e r).1 hget
    have h2 := edge_destroy_inv h e
    have hx := edge_destroy_exists_edges e he
    refine ⟨?_, edge_destroy_count h e he, ?_, ?_, ?_⟩
    · show nty_slab_exists (nty_edge_destroy g e).2.edges e = false
      cases hc : nty_slab_exists (nty_edge_destroy g e).2.edges e
      · rfl
      · exact absurd rfl ((hx e).1 hc).2
    · intro x hxe
      show nty_slab_exists (nty_edge_destroy g e).2.edges x = nty_slab_exists g.edges x
      cases hc : nty_slab_exists g.edges x
      · cases hc' : nty_slab_exists (nty_edge_destroy g e).2.edges x
        · rfl
        · have := ((hx x).1 hc').1
          rw [hc] at this; cases this
      · exact (hx x).2 ⟨hc, hxe⟩
    · intro n
      exact edge_destroy_exists_nodes e he n
    · intro fuel n hf hn
      have hf' : g.edges.count < fuel := hf
      have hn2 : nty_slab_exists (nty_edge_destroy g e).2.nodes n = true := by
        rw [edge_destroy_exists_nodes e he]; exact hn
      have hc2 := edge_destroy_count h e he
      have l1 := out_list_length_le h n
      have l2 := in_list_length_le h n
      have l3 := out_list_length_le h2 n
      have l4 := in_list_length_le h2 n
      rw [out_walk_eq h n hn fuel (by omega), in_walk_eq h n hn fuel (by omega),
        out_walk_eq h2 n hn2 fuel (by omega), in_walk_eq h2 n hn2 fuel (by omega)]
      refine ⟨?_, ?_, ?_, ?_⟩
      · by_cases c : n = r.from_
        · rw [if_pos c]; exact edge_destroy_out_list h e he n
        · rw [if_neg c]
          exact edge_destroy_out_list_other h e he n (by rw [hrec]; exact c)
      · by_cases c : n = r.to_
        · rw [if_pos c]; exact edge_destroy_in_list h e he n
        · rw [if_neg c]
          exact edge_destroy_in_list_other h e he n (by rw [hrec]; exact c)
      · intro c
        exact List.count_eq_one_of_mem (out_list_nodup h n)
          ((mem_out_list h e n).2 ⟨he, by rw [hrec]; exact c.symm⟩)
      · intro c
        exact List.count_eq_one_of_mem (in_list_nodup h n)
          ((mem_in_list h e n).2 ⟨he, by rw [hrec]; exact c.symm⟩)

/-- Witness for C33: destroying the edge `a -> b` of the example store leaves `a` with the
single outgoing edge `a -> c`. -/
theorem C33_edge_destroy_exact_witness :
    Reachable ex_g5 ∧ nty_edge_get ex_g5 ex_a = some (edge_rec ex_g5 ex_a) ∧
      nty_graph_edge_count ex_g5 < 3 ∧ nty_node_exists ex_g5 ex_a = true ∧
      (edge_rec ex_g5 ex_a).from_ = ex_a ∧
      neighbor_collect ex_g5 3 (nty_node_out_edges ex_g5 ex_a) = [ex_a, ex_b] ∧
      neighbor_collect (nty_edge_destroy ex_g5 ex_a).2 3
          (nty_node_out_edges (nty_edge_destroy ex_g5 ex_a).2 ex_a) =
        (if ex_a = (edge_rec ex_g5 ex_a).from_ then
          (neighbor_collect ex_g5 3 (nty_node_out_edges ex_g5 ex_a)).erase ex_a
          else neighbor_collect ex_g5 3 (nty_node_out_edges ex_g5 ex_a)) :=
  ⟨ex_g5_reachable, by decide, by decide, by decide, by decide, by decide,
    (((C33_edge_destroy_exact ex_g5 ex_g5_reachable ex_a).2 (edge_rec ex_g5 ex_a)
      (by decide)).2.2.2.2 3 ex_a (by decide) (by decide)).1⟩

/-! ## Well-formedness of the adjacency lists -/

theorem prev_aux_of_next (l : List Nat) (hnd : l.Nodup) (e x : Nat) (hx : next_in l e = x)
    (hne : x ≠ 0) : ∀ p, prev_aux p l x = e := by
  induction l with
  | nil => exact absurd hx.symm hne
  | cons a as ih =>
    intro p
    have hc := List.nodup_cons.mp hnd
    by_cases hae : a = e
    · simp only [next_in, hae, if_true] at hx
      cases as with
      | nil => exact absurd hx.symm hne
      | cons b bs =>
        simp only [List.headD_cons] at hx
        have hab : a ≠ b := fun c => hc.1 (by rw [c]; exact List.mem_cons_self _ _)
        have hax : a ≠ x := by rw [← hx]; exact hab
        simp only [prev_aux, hax, if_false, hx, if_true]
        exact hae
    · simp only [next_in, hae, if_false] at hx
      have hm : x ∈ as := by
        rcases next_in_mem_or as e with c | c
        · rw [hx] at c; exact absurd c hne
        · rw [hx] at c; exact c
      have hax : a ≠ x := fun c => hc.1 (by rw [c]; exact hm)
      simp only [prev_aux, hax, if_false]
      exact ih hc.2 hx a

theorem node_get_eq {g : nty_graph_t} (n : Nat) (hn : nty_slab_exists g.nodes n = true) :
    nty_node_get g n = some (node_rec g n) := by
  unfold nty_node_get
  rw [get_eq_some _ _ hn]
  rfl

theorem node_get_some_iff {g : nty_graph_t} (n : Nat) (r : nty_node_t) :
    nty_node_get g n = some r ↔ (nty_slab_exists g.nodes n = true ∧ node_rec g n = r) := by
  cases hn : nty_slab_exists g.nodes n
  · rw [node_get_none n hn]; simp
  · rw [node_get_eq n hn]; simp

theorem getLast_eq_getLastD (l : List Nat) (x : Nat) (h : l.getLast? = some x) :
    ∀ d, l.getLastD d = x ∧ x ∈ l := by
  induction l with
  | nil => cases h
  | cons a as ih =>
    intro d
    rw [getLastD_cons]
    cases as with
    | nil =>
      simp only [List.getLast?_singleton, Option.some.injEq] at h
      subst h
      exact ⟨rfl, List.mem_singleton.2 rfl⟩
    | cons b bs =>
      rw [List.getLast?_cons_cons] at h
      obtain ⟨i1, i2⟩ := ih h a
      exact ⟨i1, List.mem_cons_of_mem _ i2⟩

/-- The `out_*` links of a live edge. -/
theorem out_links_wf {g : nty_graph_t} (h : GraphInv g) (e : Nat)
    (he : nty_slab_exists g.edges e = true) :
    ((edge_rec g e).out_prev = 0 ↔ (node_rec g (edge_rec g e).from_).out_head = e) ∧
      ((edge_rec g e).out_next = 0 ↔ (node_rec g (edge_rec g e).from_).out_tail = e) ∧
      ((edge_rec g e).out_next ≠ 0 →
        nty_slab_exists g.edges (edge_rec g e).out_next = true ∧
        (edge_rec g (edge_rec g e).out_next).from_ = (edge_rec g e).from_ ∧
        (edge_rec g (edge_rec g e).out_next).out_prev = e) := by
  have hf := h.edge_from e he
  have hm := self_mem_out_list h e he
  have h0 := zero_not_mem_out_list h (edge_rec g e).from_
  have hnd := out_list_nodup h (edge_rec g e).from_
  refine ⟨?_, ?_, ?_⟩
  · rw [h.out_prev e he, h.out_head _ hf]
    exact prev_in_eq_zero_iff _ h0 e hm
  · rw [h.out_next e he, h.out_tail _ hf]
    exact next_in_eq_zero_iff _ hnd h0 e hm 0
  · intro hne
    rw [h.out_next e he] at hne ⊢
    have hx : next_in (out_list g (edge_rec g e).from_) e ∈ out_list g (edge_rec g e).from_ := by
      rcases next_in_mem_or (out_list g (edge_rec g e).from_) e with c | c
      · exact absurd c hne
      · exact c
    obtain ⟨k1, k2⟩ := (mem_out_list h _ _).1 hx
    refine ⟨k1, k2, ?_⟩
    rw [h.out_prev _ k1, k2]
    exact prev_aux_of_next _ hnd e _ rfl hne 0

/-- The `in_*` links of a live edge. -/
theorem in_links_wf {g : nty_graph_t} (h : GraphInv g) (e : Nat)
    (he : nty_slab_exists g.edges e = true) :
    ((edge_rec g e).in_prev = 0 ↔ (node_rec g (edge_rec g e).to_).in_head = e) ∧
      ((edge_rec g e).in_next = 0 ↔ (node_rec g (edge_rec g e).to_).in_tail = e) ∧
      ((edge_rec g e).in_next ≠ 0 →
        nty_slab_exists g.edges (edge_rec g e).in_next = true ∧
        (edge_rec g (edge_rec g e).in_next).to_ = (edge_rec g e).to_ ∧
        (edge_rec g (edge_rec g e).in_next).in_prev = e) := by
  have hf := h.edge_to e he
  have hm := self_mem_in_list h e he
  have h0 := zero_not_mem_in_list h (edge_rec g e).to_
  have hnd := in_list_nodup h (edge_rec g e).to_
  refine ⟨?_, ?_, ?_⟩
  · rw [h.in_prev e he, h.in_head _ hf]
    exact prev_in_eq_zero_iff _ h0 e hm
  · rw [h.in_next e he, h.in_tail _ hf]
    exact next_in_eq_zero_iff _ hnd h0 e hm 0
  · intro hne
    rw [h.in_next e he] at hne ⊢
    have hx : next_in (in_list g (edge_rec g e).to_) e ∈ in_list g (edge_rec g e).to_ := by
      rcases next_in_mem_or (in_list g (edge_rec g e).to_) e with c | c
      · exact absurd c hne
      · exact c
    obtain ⟨k1, k2⟩ := (mem_in_list h _ _).1 hx
    refine ⟨k1, k2, ?_⟩
    rw [h.in_prev _ k1, k2]
    exact prev_aux_of_next _ hnd e _ rfl hne 0

/-- Head and tail of a live node are 0 together. -/
theorem head_tail_zero {g : nty_graph_t} (h : GraphInv g) (n : Nat)
    (hn : nty_slab_exists g.nodes n = true) :
    ((node_rec g n).out_head = 0 ↔ (node_rec g n).out_tail = 0) ∧
      ((node_rec g n).in_head = 0 ↔ (node_rec g n).in_tail = 0) := by
  rw [h.out_head n hn, h.out_tail n hn, h.in_head n hn, h.in_tail n hn,
    headD_eq_zero_iff _ (zero_not_mem_out_list h n),
    getLastD_eq_zero_iff _ (zero_not_mem_out_list h n),
    headD_eq_zero_iff _ (zero_not_mem_in_list h n),
    getLastD_eq_zero_iff _ (zero_not_mem_in_list h n)]
  exact ⟨Iff.rfl, Iff.rfl⟩

/-- The outgoing walk of a live node ends at a 0 link without repetition. -/
theorem out_walk_wf {g : nty_graph_t} (h : GraphInv g) (n fuel : Nat)
    (hn : nty_slab_exists g.nodes n = true) (hf : g.edges.count < fuel) :
    (neighbor_collect g fuel (nty_node_out_edges g n)).Nodup ∧
      (neighbor_collect g fuel (nty_node_out_edges g n)).length < fuel ∧
      (∀ x ∈ neighbor_collect g fuel (nty_node_out_edges g n),
        nty_slab_exists g.edges x = true ∧ (edge_rec g x).from_ = n) ∧
      (∀ x, (neighbor_collect g fuel (nty_node_out_edges g n)).getLast? = some x →
        (edge_rec g x).out_next = 0) ∧
      (neighbor_collect g fuel (nty_node_out_edges g n) = [] ↔ (node_rec g n).out_head = 0) := by
  have l1 := out_list_length_le h n
  rw [out_walk_eq h n hn fuel (by omega)]
  refine ⟨out_list_nodup h n, by omega, fun x hx => (mem_out_list h x n).1 hx, ?_, ?_⟩
  · intro x hx
    obtain ⟨i1, i2⟩ := getLast_eq_getLastD _ x hx 0
    obtain ⟨k1, k2⟩ := (mem_out_list h x n).1 i2
    rw [h.out_next x k1, k2]
    exact (next_in_eq_zero_iff _ (out_list_nodup h n) (zero_not_mem_out_list h n) x i2 0).2 i1
  · rw [h.out_head n hn, headD_eq_zero_iff _ (zero_not_mem_out_list h n)]

/-- The incoming walk of a live node ends at a 0 link without repetition. -/
theorem in_walk_wf {g : nty_graph_t} (h : GraphInv g) (n fuel : Nat)
    (hn : nty_slab_exists g.nodes n = true) (hf : g.edges.count < fuel) :
    (neighbor_collect g fuel (nty_node_in_edges g n)).Nodup ∧
      (neighbor_collect g fuel (nty_node_in_edges g n)).length < fuel ∧
      (∀ x ∈ neighbor_collect g fuel (nty_node_in_edges g n),
        nty_slab_exists g.edges x = true ∧ (edge_rec g x).to_ = n) ∧
      (∀ x, (neighbor_collect g fuel (nty_node_in_edges g n)).getLast? = some x →
        (edge_rec g x).in_next = 0) ∧
      (neighbor_collect g fuel (nty_node_in_edges g n) = [] ↔ (node_rec g n).in_head = 0) := by
  have l1 := in_list_length_le h n
  rw [in_walk_eq h n hn fuel (by omega)]
  refine ⟨in_list_nodup h n, by omega, fun x hx => (mem_in_list h x n).1 hx, ?_, ?_⟩
  · intro x hx
    obtain ⟨i1, i2⟩ := getLast_eq_getLastD _ x hx 0
    obtain ⟨k1, k2⟩ := (mem_in_list h x n).1 i2
    rw [h.in_next x k1, k2]
    exact (next_in_eq_zero_iff _ (in_list_nodup h n) (zero_not_mem_in_list h n) x i2 0).2 i1
  · rw [h.in_head n hn, headD_eq_zero_iff _ (zero_not_mem_in_list h n)]

/-- C34. Doubly-linked list well-formedness: in a reachable state, for every existing edge
`e` with record `r`, the `from` node exists and `r.out_prev = 0` iff that node's `out_head`
is `e`, `r.out_next = 0` iff its `out_tail` is `e`, and a non-zero `r.out_next` is an
existing edge with the same `from` whose `out_prev` is `e`; symmetrically for
`in_prev`/`in_next`/`in_head`/`in_tail` and the `to` node; a live node's `out_head` is 0
iff its `out_tail` is 0 (same for `in`); and with fuel above the live edge count the walk
of a live node's list by `nty_neighbor_iter_next` has no repetition, ends before the fuel
does, yields only live edges of that node, ends in an edge whose next link is 0 and is
empty exactly when the head is 0. -/
theorem C34_list_well_formed (g : nty_graph_t) (hr : Reachable g) :
    (∀ e r, nty_edge_get g e = some r →
      (∃ nf, nty_node_get g r.from_ = some nf ∧ (r.out_prev = 0 ↔ nf.out_head = e) ∧
        (r.out_next = 0 ↔ nf.out_tail = e)) ∧
      (r.out_next ≠ 0 → ∃ rx, nty_edge_get g r.out_next = some rx ∧ rx.from_ = r.from_ ∧
        rx.out_prev = e) ∧
      (∃ nt, nty_node_get g r.to_ = some nt ∧ (r.in_prev = 0 ↔ nt.in_head = e) ∧
        (r.in_next = 0 ↔ nt.in_tail = e)) ∧
      (r.in_next ≠ 0 → ∃ rx, nty_edge_get g r.in_next = some rx ∧ rx.to_ = r.to_ ∧
        rx.in_prev = e)) ∧
    (∀ n nr, nty_node_get g n = some nr →
      (nr.out_head = 0 ↔ nr.out_tail = 0) ∧ (nr.in_head = 0 ↔ nr.in_tail = 0)) ∧
    (∀ n nr fuel, nty_node_get g n = some nr → nty_graph_edge_count g < fuel →
      ((neighbor_collect g fuel (nty_node_out_edges g n)).Nodup ∧
        (neighbor_collect g fuel (nty_node_out_edges g n)).length < fuel ∧
        (∀ x ∈ neighbor_collect g fuel (nty_node_out_edges g n),
          ∃ rx, nty_edge_get g x = some rx ∧ rx.from_ = n) ∧
        (∀ x, (neighbor_collect g fuel (nty_node_out_edges g n)).getLast? = some x →
          ∃ rx, nty_edge_get g x = some rx ∧ rx.out_next = 0) ∧
        (neighbor_collect g fuel (nty_node_out_edges g n) = [] ↔ nr.out_head = 0)) ∧
      ((neighbor_collect g fuel (nty_node_in_edges g n)).Nodup ∧
        (neighbor_collect g fuel (nty_node_in_edges g n)).length < fuel ∧
        (∀ x ∈ neighbor_collect g fuel (nty_node_in_edges g n),
          ∃ rx, nty_edge_get g x = some rx ∧ rx.to_ = n) ∧
        (∀ x, (neighbor_collect g fuel (nty_node_in_edges g n)).getLast? = some x →
          ∃ rx, nty_edge_get g x = some rx ∧ rx.in_next = 0) ∧
        (neighbor_collect g fuel (nty_node_in_edges g n) = [] ↔ nr.in_head = 0))) := by
  have h := reachable_inv hr
  refine ⟨?_, ?_, ?_⟩
  · intro e r hget
    obtain ⟨he, hrec⟩ := (edge_get_some_iff e r).1 hget
    subst hrec
    obtain ⟨o1, o2, o3⟩ := out_links_wf h e he
    obtain ⟨i1, i2, i3⟩ := in_links_wf h e he
    refine ⟨⟨_, node_get_eq _ (h.edge_from e he), o1, o2⟩, ?_,
      ⟨_, node_get_eq _ (h.edge_to e he), i1, i2⟩, ?_⟩
    · intro hne
      obtain ⟨k1, k2, k3⟩ := o3 hne
      exact ⟨_, edge_get_eq _ k1, k2, k3⟩
    · intro hne
      obtain ⟨k1, k2, k3⟩ := i3 hne
      exact ⟨_, edge_get_eq _ k1, k2, k3⟩
  · intro n nr hget
    obtain ⟨hn, hrec⟩ := (node_get_some_iff n nr).1 hget
    subst hrec
    exact head_tail_zero h n hn
  · intro n nr fuel hget hf
    obtain ⟨hn, hrec⟩ := (node_get_some_iff n nr).1 hget
    subst hrec
    obtain ⟨a1, a2, a3, a4, a5⟩ := out_walk_wf h n fuel hn hf
    obtain ⟨b1, b2, b3, b4, b5⟩ := in_walk_wf h n fuel hn hf
    refine ⟨⟨a1, a2, ?_, ?_, a5⟩, ⟨b1, b2, ?_, ?_, b5⟩⟩
    · intro x hx
      exact ⟨_, edge_get_eq x (a3 x hx).1, (a3 x hx).2⟩
    · intro x hx
      obtain ⟨-, i2⟩ := getLast_eq_getLastD _ x hx 0
      exact ⟨_, edge_get_eq x (a3 x i2).1, a4 x hx⟩
    · intro x hx
      exact ⟨_, edge_get_eq x (b3 x hx).1, (b3 x hx).2⟩
    · intro x hx
      obtain ⟨-, i2⟩ := getLast_eq_getLastD _ x hx 0
      exact ⟨_, edge_get_eq x (b3 x i2).1, b4 x hx⟩

/-- Witness for C34: in the example store the edge `a -> b` is the head of `a`'s outgoing
list and its `out_next` is the edge `a -> c`, whose `out_prev` points back. -/
theorem C34_list_well_formed_witness :
    Reachable ex_g5 ∧ nty_edge_get ex_g5 ex_a = some (edge_rec ex_g5 ex_a) ∧
      (edge_rec ex_g5 ex_a).out_next = ex_b ∧ (edge_rec ex_g5 ex_a).out_next ≠ 0 ∧
      (∃ rx, nty_edge_get ex_g5 (edge_rec ex_g5 ex_a).out_next = some rx ∧
        rx.from_ = (edge_rec ex_g5 ex_a).from_ ∧ rx.out_prev = ex_a) :=
  ⟨ex_g5_reachable, by decide, by decide, by decide,
    ((C34_list_well_formed ex_g5 ex_g5_reachable).1 ex_a (edge_rec ex_g5 ex_a)
      (by decide)).2.1 (by decide)⟩

/-! ## Edge payload and self-loops -/

theorem edge_get_congr {g g' : nty_graph_t} (he : g'.edges = g.edges) (e : Nat) :
    nty_edge_get g' e = nty_edge_get g e := by
  unfold nty_edge_get
  rw [he]

/-- A surviving edge whose record keeps its payload is returned by `nty_edge_get` with the
same payload. -/
theorem edge_get_payload {g g' : nty_graph_t} (e : Nat) (r : nty_edge_t)
    (hget : nty_edge_get g e = some r) (he : nty_slab_exists g'.edges e = true)
    (hp : SamePayload (edge_rec g e) (edge_rec g' e)) :
    ∃ r', nty_edge_get g' e = some r' ∧ SamePayload r r' := by
  obtain ⟨-, hrec⟩ := (edge_get_some_iff e r).1 hget
  subst hrec
  exact ⟨_, edge_get_eq e he, hp⟩

theorem node_create_edges {g : nty_graph_t} (h : GraphInv g) :
    (nty_node_create g).2.edges = g.edges := by
  by_cases hc : (nty_slab_alloc g.nodes).1 = 0
  · rw [node_create_full h hc]
  · rw [node_create_form h hc]

theorem prop_create_edges {g : nty_graph_t} (h : GraphInv g) (o k v : Nat) :
    (nty_property_create g o k v).2.edges = g.edges := by
  by_cases hc : (nty_slab_alloc g.properties).1 = 0
  · rw [prop_create_full h o k v hc]
  · rw [prop_create_form h o k v hc]

theorem prop_destroy_edges (g : nty_graph_t) (id : Nat) :
    (nty_property_destroy g id).2.edges = g.edges := by
  cases hx : nty_slab_exists g.properties id
  · rw [prop_destroy_absent g id hx]
  · rw [prop_destroy_form g id hx]

theorem edge_create_keeps {g : nty_graph_t} (h : GraphInv g) (f t ty w ts e : Nat)
    (he : nty_slab_exists g.edges e = true) :
    nty_slab_exists (nty_edge_create g f t ty w ts).2.edges e = true ∧
      SamePayload (edge_rec g e) (edge_rec (nty_edge_create g f t ty w ts).2 e) := by
  by_cases hf : nty_slab_exists g.nodes f = true
  swap
  · rw [edge_create_no_node g f t ty w ts (Or.inl (by simpa using hf))]
    exact ⟨he, samePayload_refl _⟩
  by_cases ht : nty_slab_exists g.nodes t = true
  swap
  · rw [edge_create_no_node g f t ty w ts (Or.inr (by simpa using ht))]
    exact ⟨he, samePayload_refl _⟩
  by_cases hc : (nty_slab_alloc g.edges).1 = 0
  · rw [edge_create_full h f t ty w ts hc]
    exact ⟨he, samePayload_refl _⟩
  · refine ⟨(edge_create_exists_edges h f t ty w ts hf ht hc e).2 (Or.inr he), ?_⟩
    rw [edge_create_edge_rec_old h f t ty w ts hf ht hc e he]
    exact ⟨rfl, rfl, rfl, rfl, rfl, rfl⟩

theorem node_destroy_keeps {g : nty_graph_t} (h : GraphInv g) (fuel n e : Nat)
    (res : Bool × nty_graph_t) (he : nty_slab_exists g.edges e = true)
    (h1 : (edge_rec g e).from_ ≠ n) (h2 : (edge_rec g e).to_ ≠ n)
    (hres : nty_node_destroy fuel g n = some res) :
    nty_slab_exists res.2.edges e = true ∧ SamePayload (edge_rec g e) (edge_rec res.2 e) := by
  cases hn : nty_slab_exists g.nodes n
  · rw [node_destroy_absent fuel g n hn] at hres
    cases hres
    exact ⟨he, samePayload_refl _⟩
  · obtain ⟨g2, c1, -, c3, c4, -, c6⟩ := node_destroy_spec h fuel n res hn hres
    have hm : e ∈ edge_list g2 := by
      rw [c3, List.mem_filter, edge_list_mem h]
      simp only [Bool.and_eq_true, Bool.not_eq_true', decide_eq_false_iff_not]
      exact ⟨he, h1, h2⟩
    rw [c6]
    exact ⟨(edge_list_mem c1 e).1 hm, c4 e hm⟩

/-- C35. Edge payload is immutable: in a reachable state with an existing edge `e` whose
record is `r`, after `nty_node_create`, any `nty_edge_create`, any `nty_property_create`
or `nty_property_destroy`, `nty_edge_destroy` of another identifier, or `nty_node_destroy`
of an identifier that is neither `r.from` nor `r.to`, `nty_edge_get(e)` still succeeds and
returns the same id, from, to, type, weight and timestamp. -/
theorem C35_edge_payload_immutable (g : nty_graph_t) (hr : Reachable g) (e : Nat)
    (r : nty_edge_t) (hget : nty_edge_get g e = some r) :
    (∃ r1, nty_edge_get (nty_node_create g).2 e = some r1 ∧ SamePayload r r1) ∧
    (∀ from_ to_ type weight timestamp, ∃ r1,
      nty_edge_get (nty_edge_create g from_ to_ type weight timestamp).2 e = some r1 ∧
        SamePayload r r1) ∧
    (∀ owner key value, ∃ r1,
      nty_edge_get (nty_property_create g owner key value).2 e = some r1 ∧
        SamePayload r r1) ∧
    (∀ id, ∃ r1, nty_edge_get (nty_property_destroy g id).2 e = some r1 ∧
      SamePayload r r1) ∧
    (∀ x, x ≠ e → ∃ r1, nty_edge_get (nty_edge_destroy g x).2 e = some r1 ∧
      SamePayload r r1) ∧
    (∀ n fuel res, n ≠ r.from_ → n ≠ r.to_ → nty_node_destroy fuel g n = some res →
      ∃ r1, nty_edge_get res.2 e = some r1 ∧ SamePayload r r1) := by
  have h := reachable_inv hr
  obtain ⟨he, hrec⟩ := (edge_get_some_iff e r).1 hget
  refine ⟨?_, ?_, ?_, ?_, ?_, ?_⟩
  · exact ⟨r, by rw [edge_get_congr (node_create_edges h)]; exact hget, samePayload_refl r⟩
  · intro f t ty w ts
    obtain ⟨k1, k2⟩ := edge_create_keeps h f t ty w ts e he
    exact edge_get_payload e r hget k1 k2
  · intro o k v
    exact ⟨r, by rw [edge_get_congr (prop_create_edges h o k v)]; exact hget,
      samePayload_refl r⟩
  · intro id
    exact ⟨r, by rw [edge_get_congr (prop_destroy_edges g id)]; exact hget,
      samePayload_refl r⟩
  · intro x hx
    cases hxe : nty_slab_exists g.edges x
    · rw [edge_destroy_absent g x hxe]
      exact ⟨r, hget, samePayload_refl r⟩
    · exact edge_get_payload e r hget ((edge_destroy_exists_edges x hxe e).2 ⟨he, hx.symm⟩)
        (edge_destroy_payload h x hxe e he hx.symm)
  · intro n fuel res n1 n2 hres
    obtain ⟨k1, k2⟩ := node_destroy_keeps h fuel n e res he
      (by rw [hrec]; exact fun c => n1 c.symm) (by rw [hrec]; exact fun c => n2 c.symm) hres
    exact edge_get_payload e r hget k1 k2

/-- Witness for C35: the edge `a -> b` of the example store keeps its payload when a third
edge `b -> c` is created. -/
theorem C35_edge_payload_immutable_witness :
    Reachable ex_g5 ∧ nty_edge_get ex_g5 ex_a = some (edge_rec ex_g5 ex_a) ∧
      ∃ r1, nty_edge_get (nty_edge_create ex_g5 ex_b ex_c 3 0 30).2 ex_a = some r1 ∧
        SamePayload (edge_rec ex_g5 ex_a) r1 :=
  ⟨ex_g5_reachable, by decide,
    (C35_edge_payload_immutable ex_g5 ex_g5_reachable ex_a (edge_rec ex_g5 ex_a)
      (by decide)).2.1 ex_b ex_c 3 0 30⟩

/-- Creation of a self-loop on a live node with a free edge slot. -/
theorem self_loop_create {g : nty_graph_t} (h : GraphInv g) (n ty w ts : Nat)
    (hn : nty_slab_exists g.nodes n = true) (hc : g.edges.count < g.edges.capacity) :
    (nty_edge_create g n n ty w ts).1 ≠ 0 ∧
      nty_slab_exists (nty_edge_create g n n ty w ts).2.edges
        (nty_edge_create g n n ty w ts).1 = true ∧
      (edge_rec (nty_edge_create g n n ty w ts).2 (nty_edge_create g n n ty w ts).1).from_ = n ∧
      (edge_rec (nty_edge_create g n n ty w ts).2 (nty_edge_create g n n ty w ts).1).to_ = n ∧
      out_list (nty_edge_create g n n ty w ts).2 n =
        out_list g n ++ [(nty_edge_create g n n ty w ts).1] ∧
      in_list (nty_edge_create g n n ty w ts).2 n =
        in_list g n ++ [(nty_edge_create g n n ty w ts).1] ∧
      (nty_edge_create g n n ty w ts).2.edges.count = g.edges.count + 1 := by
  have ha : (nty_slab_alloc g.edges).1 ≠ 0 := by
    intro c
    have := (alloc_fail_iff g.edges h.edges_inv).1 c
    omega
  have h1 := edge_create_inv h n n ty w ts
  have e1 : (nty_edge_create g n n ty w ts).1 = (nty_slab_alloc g.edges).1 := by
    rw [edge_create_form h n n ty w ts hn hn ha]
  have hcount : (nty_edge_create g n n ty w ts).2.edges.count = g.edges.count + 1 := by
    rw [edge_count_eq_length h1, edge_count_eq_length h,
      edge_create_edge_list h n n ty w ts hn hn ha, List.length_append, List.length_singleton]
  rw [e1]
  refine ⟨ha, (edge_create_exists_edges h n n ty w ts hn hn ha _).2 (Or.inl rfl), ?_, ?_, ?_,
    ?_, hcount⟩
  · rw [edge_create_edge_rec_new h n n ty w ts hn hn ha]
  · rw [edge_create_edge_rec_new h n n ty w ts hn hn ha]
  · rw [edge_create_out_list h n n ty w ts hn hn ha n, if_pos rfl]
  · rw [edge_create_in_list h n n ty w ts hn hn ha n, if_pos rfl]

/-- Destruction of a node with a self-loop `e`: the first loop removes `e`, the second
never meets it, and the call returns `true` in a well-formed state. -/
theorem self_loop_cascade {g : nty_graph_t} (hr : Reachable g) (n e fuel : Nat)
    (hn : nty_slab_exists g.nodes n = true) (hfrom : (edge_rec g e).from_ = n)
    (hf : g.edges.count < fuel) :
    ∃ ga gb g3, destroy_out_loop fuel g (nty_id_index n) = some ga ∧
      nty_slab_exists ga.edges e = false ∧ e ∉ in_list ga n ∧
      destroy_in_loop fuel ga (nty_id_index n) = some gb ∧
      nty_node_destroy fuel g n = some (true, g3) ∧ GraphInv g3 ∧ Reachable g3 ∧
      nty_slab_exists g3.edges e = false ∧
      edge_list g3 = (edge_list g).filter
        (fun x => !decide ((edge_rec g x).from_ = n) && !decide ((edge_rec g x).to_ = n)) := by
  have h := reachable_inv hr
  obtain ⟨g2, c1, -, c3, -, -, c6⟩ := node_destroy_total h fuel n hn hf
  obtain ⟨ga, gb, d1, d2, -⟩ := node_destroy_form fuel g n _ hn c6
  obtain ⟨a1, -, a3, -⟩ := destroy_out_loop_spec n fuel g ga h hn d1
  have hea : e ∉ edge_list ga := by
    rw [a3, List.mem_filter]
    simp only [Bool.not_eq_true', decide_eq_false_iff_not, not_and, not_not]
    exact fun _ => hfrom
  have hxa : nty_slab_exists ga.edges e = false := by
    cases hc : nty_slab_exists ga.edges e
    · rfl
    · exact absurd ((edge_list_mem a1 e).2 hc) hea
  have he2 : e ∉ edge_list g2 := by
    rw [c3, List.mem_filter]
    simp only [Bool.and_eq_true, Bool.not_eq_true', decide_eq_false_iff_not, not_and, not_not]
    exact fun _ c => absurd hfrom c
  refine ⟨ga, gb, _, d1, hxa, ?_, d2, c6, node_destroy_inv h fuel n _ c6,
    Reachable.step _ _ hr (Step.node_destroy g fuel n _ c6), ?_, c3⟩
  · intro hm
    rw [mem_in_list a1, hxa] at hm
    cases hm.1
  · show nty_slab_exists g2.edges e = false
    cases hc : nty_slab_exists g2.edges e
    · rfl
    · exact absurd ((edge_list_mem c1 e).2 hc) he2

/-- C36. Self-loops: in a reachable state with a live node `n` and a free edge slot,
`nty_edge_create(n, n, ...)` returns a non-zero edge `e` with `from = to = n` that appears
exactly once in `n`'s outgoing walk and exactly once in its incoming walk, each walk being
the previous one followed by `e`; `nty_edge_destroy(e)` returns `true` and the walks are
the previous ones again, without `e`; and `nty_node_destroy(n)` returns `true`: its first
loop ends in a state where `e` no longer exists and is absent from `n`'s incoming list, its
second loop returns, and the final state is reachable and well-formed, `e` does not exist
and the edges are those not incident to `n`, in order. -/
theorem C36_self_loops (g : nty_graph_t) (hr : Reachable g) (n type weight timestamp : Nat)
    (fuel e : Nat) (g1 : nty_graph_t) (hn : nty_node_exists g n = true)
    (hc : nty_graph_edge_count g < g.edges.capacity)
    (hf : nty_graph_edge_count g + 1 < fuel)
    (hcreate : nty_edge_create g n n type weight timestamp = (e, g1)) :
    e ≠ 0 ∧
    (∃ r, nty_edge_get g1 e = some r ∧ r.from_ = n ∧ r.to_ = n) ∧
    (neighbor_collect g1 fuel (nty_node_out_edges g1 n) =
        neighbor_collect g fuel (nty_node_out_edges g n) ++ [e] ∧
      neighbor_collect g1 fuel (nty_node_in_edges g1 n) =
        neighbor_collect g fuel (nty_node_in_edges g n) ++ [e] ∧
      (neighbor_collect g1 fuel (nty_node_out_edges g1 n)).count e = 1 ∧
      (neighbor_collect g1 fuel (nty_node_in_edges g1 n)).count e = 1) ∧
    ((nty_edge_destroy g1 e).1 = true ∧
      neighbor_collect (nty_edge_destroy g1 e).2 fuel
          (nty_node_out_edges (nty_edge_destroy g1 e).2 n) =
        neighbor_collect g fuel (nty_node_out_edges g n) ∧
      neighbor_collect (nty_edge_destroy g1 e).2 fuel
          (nty_node_in_edges (nty_edge_destroy g1 e).2 n) =
        neighbor_collect g fuel (nty_node_in_edges g n) ∧
      e ∉ neighbor_collect (nty_edge_destroy g1 e).2 fuel
          (nty_node_out_edges (nty_edge_destroy g1 e).2 n) ∧
      e ∉ neighbor_collect (nty_edge_destroy g1 e).2 fuel
          (nty_node_in_edges (nty_edge_destroy g1 e).2 n) ∧
      GraphInv (nty_edge_destroy g1 e).2) ∧
    (∃ ga gb g3, destroy_out_loop fuel g1 (nty_id_index n) = some ga ∧
      nty_edge_exists ga e = false ∧ e ∉ in_list ga n ∧
      destroy_in_loop fuel ga (nty_id_index n) = some gb ∧
      nty_node_destroy fuel g1 n = some (true, g3) ∧ GraphInv g3 ∧ Reachable g3 ∧
      nty_edge_exists g3 e = false ∧
      edge_iteration g3 = (edge_iteration g1).filter
        (fun x => !decide (edge_from_id g1 x = some n) && !decide (edge_to_id g1 x = some n))) := by
  have h := reachable_inv hr
  have hn' : nty_slab_exists g.nodes n = true := hn
  have hc' : g.edges.count < g.edges.capacity := hc
  have hf' : g.edges.count + 1 < fuel := hf
  obtain ⟨s1, s2, s3, s4, s5, s6, s7⟩ := self_loop_create h n type weight timestamp hn' hc'
  have hr1 : Reachable (nty_edge_create g n n type weight timestamp).2 :=
    Reachable.step _ _ hr (Step.edge_create g n n type weight timestamp)
  have hn1 : nty_slab_exists (nty_edge_create g n n type weight timestamp).2.nodes n = true := by
    have ha : (nty_slab_alloc g.edges).1 ≠ 0 := by
      intro c
      have := (alloc_fail_iff g.edges h.edges_inv).1 c
      omega
    rw [edge_create_exists_nodes h n n type weight timestamp hn' hn' ha]
    exact hn'
  rw [hcreate] at s1 s2 s3 s4 s5 s6 s7 hr1 hn1
  simp only at s1 s2 s3 s4 s5 s6 s7 hr1 hn1
  have h1 := reachable_inv hr1
  have h2 := edge_destroy_inv h1 e
  have hn2 : nty_slab_exists (nty_edge_destroy g1 e).2.nodes n = true := by
    rw [edge_destroy_exists_nodes e s2]; exact hn1
  have l1 := out_list_length_le h n
  have l2 := in_list_length_le h n
  have l3 := out_list_length_le h1 n
  have l4 := in_list_length_le h1 n
  have l5 := out_list_length_le h2 n
  have l6 := in_list_length_le h2 n
  have l7 := edge_destroy_count h1 e s2
  have nd1 := out_list_nodup h1 n
  have nd2 := in_list_nodup h1 n
  have m1 : e ∈ out_list g1 n := (mem_out_list h1 e n).2 ⟨s2, s3⟩
  have m2 : e ∈ in_list g1 n := (mem_in_list h1 e n).2 ⟨s2, s4⟩
  have x1 : e ∉ out_list g n := by
    intro c
    rw [s5] at nd1
    exact (List.nodup_append.1 nd1).2.2 c (List.mem_singleton.2 rfl)
  have x2 : e ∉ in_list g n := by
    intro c
    rw [s6] at nd2
    exact (List.nodup_append.1 nd2).2.2 c (List.mem_singleton.2 rfl)
  have o2 : out_list (nty_edge_destroy g1 e).2 n = out_list g n := by
    rw [edge_destroy_out_list h1 e s2, s5, List.erase_append_right _ x1]
    simp
  have i2 : in_list (nty_edge_destroy g1 e).2 n = in_list g n := by
    rw [edge_destroy_in_list h1 e s2, s6, List.erase_append_right _ x2]
    simp
  rw [out_walk_eq h n hn' fuel (by omega), in_walk_eq h n hn' fuel (by omega),
    out_walk_eq h1 n hn1 fuel (by omega), in_walk_eq h1 n hn1 fuel (by omega),
    out_walk_eq h2 n hn2 fuel (by omega), in_walk_eq h2 n hn2 fuel (by omega)]
  refine ⟨s1, ⟨_, edge_get_eq e s2, s3, s4⟩,
    ⟨s5, s6, List.count_eq_one_of_mem nd1 m1, List.count_eq_one_of_mem nd2 m2⟩,
    ⟨edge_destroy_fst e s2, o2, i2, by rw [o2]; exact x1, by rw [i2]; exact x2, h2⟩, ?_⟩
  obtain ⟨ga, gb, g3, k1, k2, k3, k4, k5, k6, k7, k8, k9⟩ :=
    self_loop_cascade hr1 n e fuel hn1 s3 (by omega)
  refine ⟨ga, gb, g3, k1, k2, k3, k4, k5, k6, k7, k8, ?_⟩
  rw [edge_iteration_eq k6, edge_iteration_eq h1, k9]
  apply List.filter_congr
  intro x hx
  have hxl := (edge_list_mem h1 x).1 hx
  have f1 := edge_from_id_eq_some (g := g1) x n
  have f2 := edge_to_id_eq_some (g := g1) x n
  simp only [hxl, true_and] at f1 f2
  simp only [f1, f2]

/-- Witness for C36: a self-loop on node `a` of the store holding the single node `a`. -/
theorem C36_self_loops_witness :
    Reachable ex_g1 ∧ nty_node_exists ex_g1 ex_a = true ∧
      nty_graph_edge_count ex_g1 < ex_g1.edges.capacity ∧ nty_graph_edge_count ex_g1 + 1 < 2 ∧
      nty_edge_create ex_g1 ex_a ex_a 1 0 0 = (ex_a, ex_loop) ∧
      (neighbor_collect ex_loop 2 (nty_node_out_edges ex_loop ex_a)).count ex_a = 1 ∧
      (neighbor_collect ex_loop 2 (nty_node_in_edges ex_loop ex_a)).count ex_a = 1 ∧
      (nty_edge_destroy ex_loop ex_a).1 = true :=
  ⟨Reachable.step _ _ (Reachable.init 8 8 8 ex_g0 rfl) (Step.node_create ex_g0),
    by decide, by decide, by decide, rfl,
    (C36_self_loops ex_g1 (Reachable.step _ _ (Reachable.init 8 8 8 ex_g0 rfl)
      (Step.node_create ex_g0)) ex_a 1 0 0 2 ex_a ex_loop (by decide) (by decide) (by decide)
      rfl).2.2.1.2.2.1,
    (C36_self_loops ex_g1 (Reachable.step _ _ (Reachable.init 8 8 8 ex_g0 rfl)
      (Step.node_create ex_g0)) ex_a 1 0 0 2 ex_a ex_loop (by decide) (by decide) (by decide)
      rfl).2.2.1.2.2.2,
    (C36_self_loops ex_g1 (Reachable.step _ _ (Reachable.init 8 8 8 ex_g0 rfl)
      (Step.node_create ex_g0)) ex_a 1 0 0 2 ex_a ex_loop (by decide) (by decide) (by decide)
      rfl).2.2.2.1.1⟩

/-! ## Frames of the vector index and of the arena -/

theorem find_congr_iff (index index' : nty_vector_index_t) (j : Nat)
    (hc : index'.capacity = index.capacity)
    (hids : ∀ k, k < index.capacity → (index'.ids k = j ↔ index.ids k = j)) :
    nty_vector_index_find index' j = nty_vector_index_find index j := by
  rcases find_spec index j with ⟨e, hall⟩ | ⟨hlt, hid, hfirst⟩
  · rw [e, ← hc]
    apply find_eq_cap
    intro k hk
    rw [hc] at hk
    exact fun c => hall k hk ((hids k hk).1 c)
  · apply find_eq_of_first index' j _ (by rw [hc]; exact hlt) ((hids _ hlt).2 hid)
    intro k hk c
    exact hfirst k hk ((hids k (by omega)).1 c)

/-- The outcome of `nty_vector_index_get(j)` depends only on the capacity, the dimension,
the slot found for `j` and the components stored in that slot. -/
theorem get_congr (index index' : nty_vector_index_t) (j : Nat) (out : Nat → Nat)
    (hc : index'.capacity = index.capacity) (hd : index'.dimension = index.dimension)
    (hf : j ≠ 0 → nty_vector_index_find index' j = nty_vector_index_find index j)
    (hdata : j ≠ 0 → nty_vector_index_find index j ≠ index.capacity →
      ∀ d, d < index.dimension →
        index'.data (nty_vector_index_find index j * index.dimension + d) =
          index.data (nty_vector_index_find index j * index.dimension + d)) :
    nty_vector_index_get index' j out = nty_vector_index_get index j out := by
  unfold nty_vector_index_get
  by_cases hj : j = 0
  · rw [if_pos hj, if_pos hj]
  · rw [if_neg hj, if_neg hj, hf hj, hc, hd]
    by_cases hx : nty_vector_index_find index j = index.capacity
    · rw [if_pos hx, if_pos hx]
    · rw [if_neg hx, if_neg hx]
      congr 1
      funext i
      unfold memcpy_f32
      by_cases hi : 0 ≤ i ∧ i < 0 + index.dimension
      · rw [if_pos hi, if_pos hi]
        exact hdata hj hx (i - 0) (by omega)
      · rw [if_neg hi, if_neg hi]

theorem find_slot (index : nty_vector_index_t) (id : Nat)
    (h : nty_vector_index_find index id ≠ index.capacity) :
    nty_vector_index_find index id < index.capacity ∧
      index.ids (nty_vector_index_find index id) = id := by
  rcases find_spec index id with ⟨e, -⟩ | ⟨hlt, hid, -⟩
  · exact absurd e h
  · exact ⟨hlt, hid⟩

theorem set_frame (index : nty_vector_index_t) (id j : Nat) (v out : Nat → Nat)
    (hne : id ≠ j) :
    (nty_vector_index_set index id v).2.dimension = index.dimension ∧
      nty_vector_index_get (nty_vector_index_set index id v).2 j out =
        nty_vector_index_get index j out := by
  by_cases hid : id = 0
  · rw [hid, set_zero]
    exact ⟨rfl, rfl⟩
  by_cases hp : nty_vector_index_find index id = index.capacity
  swap
  · rw [set_present index id v hid hp]
    obtain ⟨p1, p2⟩ := find_slot index id hp
    refine ⟨rfl, get_congr _ _ j out rfl rfl (fun _ => find_congr _ _ j rfl (fun _ _ => rfl)) ?_⟩
    intro _ hx d hd
    obtain ⟨q1, q2⟩ := find_slot index j hx
    exact memcpy_other _ _ _ _ _ d (fun c => hne (by rw [← p2, ← q2, c])) hd
  by_cases h0 : nty_vector_index_find index 0 = index.capacity
  · rw [set_full index id v hp h0]
    exact ⟨rfl, rfl⟩
  · rw [set_free index id v hid hp h0]
    obtain ⟨p1, p2⟩ := find_slot index 0 h0
    refine ⟨rfl, get_congr _ _ j out rfl rfl ?_ ?_⟩
    · intro hj
      refine find_congr_iff index _ j rfl ?_
      intro k _
      show Function.update index.ids (nty_vector_index_find index 0) id k = j ↔ _
      by_cases hk : k = nty_vector_index_find index 0
      · rw [hk, Function.update_same, p2]
        exact ⟨fun c => absurd c hne, fun c => absurd c.symm hj⟩
      · rw [Function.update_noteq hk]
    · intro hj hx d hd
      obtain ⟨q1, q2⟩ := find_slot index j hx
      exact memcpy_other _ _ _ _ _ d (fun c => hj (by rw [← q2, c, p2])) hd

theorem remove_frame (index : nty_vector_index_t) (id j : Nat) (out : Nat → Nat)
    (hne : id ≠ j) :
    (nty_vector_index_remove index id).2.dimension = index.dimension ∧
      nty_vector_index_get (nty_vector_index_remove index id).2 j out =
        nty_vector_index_get index j out := by
  by_cases hid : id = 0
  · rw [remove_absent index id (Or.inl hid)]
    exact ⟨rfl, rfl⟩
  by_cases hp : nty_vector_index_find index id = index.capacity
  · rw [remove_absent index id (Or.inr hp)]
    exact ⟨rfl, rfl⟩
  · rw [remove_present index id hid hp]
    obtain ⟨p1, p2⟩ := find_slot index id hp
    refine ⟨rfl, get_congr _ _ j out rfl rfl ?_ ?_⟩
    · intro hj
      refine find_congr_iff index _ j rfl ?_
      intro k _
      show Function.update index.ids (nty_vector_index_find index id) 0 k = j ↔ _
      by_cases hk : k = nty_vector_index_find index id
      · rw [hk, Function.update_same, p2]
        exact ⟨fun c => absurd c.symm hj, fun c => absurd c hne⟩
      · rw [Function.update_noteq hk]
    · intro _ hx d hd
      obtain ⟨q1, q2⟩ := find_slot index j hx
      exact memset_other _ _ _ _ d (fun c => hne (by rw [← p2, ← q2, c])) hd

theorem stored_vector_congr (index index' : nty_vector_index_t) (j : Nat)
    (hd : index'.dimension = index.dimension)
    (hg : nty_vector_index_get index' j (fun _ => 0) =
      nty_vector_index_get index j (fun _ => 0)) :
    stored_vector index' j = stored_vector index j := by
  unfold stored_vector
  rw [hg, hd]

/-- C37. Vector index slot-table invariant: in every state reachable from
`nty_vector_index_create` by `nty_vector_index_set` and `nty_vector_index_remove`, each
non-zero identifier occupies at most one slot, `nty_vector_index_count` equals the number
of slots holding a non-zero identifier and does not exceed the capacity; the collection
loop of `nty_vector_index_knn` finishes without a write past the `count`-sized candidate
buffer, having collected exactly `count` candidates, and `nty_vector_index_knn` returns for
every `k`. -/
theorem C37_slot_table_invariant (index : nty_vector_index_t) (hr : VectorReachable index)
    (query : Nat → Nat) :
    (∀ i j, i < index.capacity → j < index.capacity → index.ids i ≠ 0 →
      index.ids i = index.ids j → i = j) ∧
    nty_vector_index_count index = used_slots index.ids index.capacity ∧
    nty_vector_index_count index ≤ index.capacity ∧
    (∃ candidates, knn_loop index query index.capacity 0 [] = some candidates ∧
      candidates.length = nty_vector_index_count index) ∧
    (∀ k, ∃ result, nty_vector_index_knn index query k = some result) :=
  ⟨(vectorReachable_inv hr).inj, (vectorReachable_inv hr).count_eq,
    count_le_cap index (vectorReachable_inv hr),
    ⟨_, knn_loop_eq index (vectorReachable_inv hr) query,
      occupied_length index (vectorReachable_inv hr) query⟩,
    fun k => ⟨_, knn_eq index (vectorReachable_inv hr) query k⟩⟩

/-- Witness for C37: the index of `test_knn_tiebreak`, which holds three vectors in four
slots. -/
theorem C37_slot_table_invariant_witness :
    VectorReachable ex_v3 ∧ nty_vector_index_count ex_v3 = 3 ∧
      used_slots ex_v3.ids ex_v3.capacity = 3 ∧
      nty_vector_index_count ex_v3 = used_slots ex_v3.ids ex_v3.capacity ∧
      nty_vector_index_count ex_v3 ≤ ex_v3.capacity :=
  ⟨ex_v3_reachable, by decide, by decide,
    (C37_slot_table_invariant ex_v3 ex_v3_reachable (vec_of [0, 0])).2.1,
    (C37_slot_table_invariant ex_v3 ex_v3_reachable (vec_of [0, 0])).2.2.1⟩

/-- C38. Vector frame: for every index state (reachable or not) and distinct identifiers
`id` and `j`, after `nty_vector_index_set(id, v)` and after `nty_vector_index_remove(id)`,
whatever they return, `nty_vector_index_get(j)` returns the same flag and leaves the same
output array as before, so `j` is stored afterwards iff it was stored before, with the
same vector. -/
theorem C38_vector_frame (index : nty_vector_index_t) (id j : Nat) (v out : Nat → Nat)
    (hne : id ≠ j) :
    nty_vector_index_get (nty_vector_index_set index id v).2 j out =
        nty_vector_index_get index j out ∧
      nty_vector_index_get (nty_vector_index_remove index id).2 j out =
        nty_vector_index_get index j out ∧
      stored_vector (nty_vector_index_set index id v).2 j = stored_vector index j ∧
      stored_vector (nty_vector_index_remove index id).2 j = stored_vector index j :=
  ⟨(set_frame index id j v out hne).2, (remove_frame index id j out hne).2,
    stored_vector_congr _ _ j (set_frame index id j v (fun _ => 0) hne).1
      (set_frame index id j v (fun _ => 0) hne).2,
    stored_vector_congr _ _ j (remove_frame index id j (fun _ => 0) hne).1
      (remove_frame index id j (fun _ => 0) hne).2⟩

/-- Witness for C38: in the index of `test_knn_tiebreak`, overwriting the vector of 1 and
removing 1 leave the vector `(-1, 0)` of 2 as it was. -/
theorem C38_vector_frame_witness :
    VectorReachable ex_v3 ∧ (1 : Nat) ≠ 2 ∧
      stored_vector ex_v3 2 = some [F32_MINUS_ONE, 0] ∧
      stored_vector (nty_vector_index_set ex_v3 1 (vec_of [F32_ONE, F32_ONE])).2 2 =
        stored_vector ex_v3 2 ∧
      stored_vector (nty_vector_index_remove ex_v3 1).2 2 = stored_vector ex_v3 2 :=
  ⟨ex_v3_reachable, by decide, by decide,
    (C38_vector_frame ex_v3 1 2 (vec_of [F32_ONE, F32_ONE]) (fun _ => 0) (by decide)).2.2.1,
    (C38_vector_frame ex_v3 1 2 (vec_of [F32_ONE, F32_ONE]) (fun _ => 0) (by decide)).2.2.2⟩

section slab
variable {α : Type} [Zero α]

theorem alloc_frame (s : nty_slab_t α) (h : SlabInv s) (j : Nat)
    (hj : nty_slab_exists s j = true) :
    nty_slab_exists (nty_slab_alloc s).2.2 j = true ∧
      nty_slab_get (nty_slab_alloc s).2.2 j = nty_slab_get s j ∧
      (nty_slab_alloc s).2.2.data (nty_id_index j) = s.data (nty_id_index j) ∧
      ((nty_slab_alloc s).1 ≠ 0 →
        (nty_slab_alloc s).1 ≠ j ∧ nty_slab_exists s (nty_slab_alloc s).1 = false ∧
        nty_slab_get (nty_slab_alloc s).2.2 (nty_slab_alloc s).1 =
          some (nty_slab_alloc s).2.1 ∧
        s.occupied (nty_slab_alloc s).2.1 = false ∧
        (nty_slab_alloc s).2.1 ≠ nty_id_index j) := by
  by_cases h0 : (nty_slab_alloc s).1 = 0
  · rw [alloc_fail_state s h h0]
    exact ⟨hj, rfl, rfl, fun c => absurd h0 c⟩
  · have hx : nty_slab_exists (nty_slab_alloc s).2.2 j = true :=
      (alloc_exists_iff s h h0 j).2 (Or.inr hj)
    obtain ⟨a1, -, -, a4, a5, -⟩ := alloc_ok s h h0
    have hocc := ((exists_iff s j).1 hj).2.2.1
    have hp : (nty_slab_alloc s).2.1 ≠ nty_id_index j := by
      intro c
      rw [c, hocc] at a4
      cases a4
    have hfresh := alloc_fresh s h h0
    refine ⟨hx, ?_, ?_, fun _ => ⟨?_, hfresh, ?_, a4, hp⟩⟩
    · rw [get_eq_some _ _ hx, get_eq_some _ _ hj]
    · rw [a5, Function.update_noteq (fun c => hp c.symm)]
    · intro c
      rw [c, hj] at hfresh
      cases hfresh
    · rw [get_eq_some _ _ ((alloc_exists_iff s h h0 _).2 (Or.inl rfl)), a1]

theorem free_frame (s : nty_slab_t α) (h : SlabInv s) (j id : Nat)
    (hj : nty_slab_exists s j = true) (hne : id ≠ j) :
    nty_slab_exists (nty_slab_free s id).2 j = true ∧
      nty_slab_get (nty_slab_free s id).2 j = nty_slab_get s j ∧
      (nty_slab_free s id).2.data (nty_id_index j) = s.data (nty_id_index j) := by
  cases hid : nty_slab_exists s id
  · rw [free_of_not_exists s id hid]
    exact ⟨hj, rfl, rfl⟩
  · have hx : nty_slab_exists (nty_slab_free s id).2 j = true :=
      (free_exists_iff s id hid j).2 ⟨hj, fun c => hne c.symm⟩
    refine ⟨hx, ?_, ?_⟩
    · rw [get_eq_some _ _ hx, get_eq_some _ _ hj]
    · rw [(free_ok s h id hid).2.1, Function.update_noteq]
      exact fun c => hne (exists_inj s id j hid hj c.symm)

end slab

/-- C39. Arena frame: take the arena after any sequence of `nty_slab_alloc` and
`nty_slab_free` calls on an initialised arena, its records holding arbitrary contents, and
an identifier `j` that `nty_slab_exists` accepts. After `nty_slab_alloc`, and after
`nty_slab_free(id)` with `id` other than `j`, `nty_slab_exists(j)` still holds,
`nty_slab_get(j)` returns the same record and that record has the same contents. A
successful allocation returns an identifier other than `j` that was not accepted before,
and its record occupies a slot that was not occupied and is not the slot of `j`. -/
theorem C39_arena_frame {α : Type} [Zero α] (item_size capacity : Nat)
    (s0 s : nty_slab_t α) (ops : List SlabOp) (contents : Nat → α) (j : Nat)
    (hcap : capacity < 4294967296) (hinit : nty_slab_init item_size capacity = some s0)
    (hs : s = { slab_run s0 ops with data := contents })
    (hj : nty_slab_exists s j = true) :
    (nty_slab_exists (nty_slab_alloc s).2.2 j = true ∧
      nty_slab_get (nty_slab_alloc s).2.2 j = nty_slab_get s j ∧
      (nty_slab_get s j).map (nty_slab_alloc s).2.2.data = (nty_slab_get s j).map s.data ∧
      (nty_slab_alloc s).2.2.data (nty_id_index j) = contents (nty_id_index j)) ∧
    ((nty_slab_alloc s).1 ≠ 0 →
      (nty_slab_alloc s).1 ≠ j ∧ nty_slab_exists s (nty_slab_alloc s).1 = false ∧
      nty_slab_get (nty_slab_alloc s).2.2 (nty_slab_alloc s).1 =
        some (nty_slab_alloc s).2.1 ∧
      s.occupied (nty_slab_alloc s).2.1 = false ∧
      (nty_slab_alloc s).2.1 ≠ nty_id_index j) ∧
    (∀ id, id ≠ j →
      nty_slab_exists (nty_slab_free s id).2 j = true ∧
      nty_slab_get (nty_slab_free s id).2 j = nty_slab_get s j ∧
      (nty_slab_get s j).map (nty_slab_free s id).2.data = (nty_slab_get s j).map s.data ∧
      (nty_slab_free s id).2.data (nty_id_index j) = contents (nty_id_index j)) := by
  have h : SlabInv s := by
    rw [hs]
    exact slabInv_data _ contents (slab_run_inv item_size capacity s0 ops hcap hinit)
  have hd : s.data = contents := by rw [hs]
  obtain ⟨a1, a2, a3, a4⟩ := alloc_frame s h j hj
  refine ⟨⟨a1, a2, ?_, by rw [a3, hd]⟩, a4, ?_⟩
  · rw [get_eq_some _ _ hj]
    show some _ = some _
    rw [a3]
  · intro id hne
    obtain ⟨f1, f2, f3⟩ := free_frame s h j id hj hne
    refine ⟨f1, f2, ?_, by rw [f3, hd]⟩
    rw [get_eq_some _ _ hj]
    show some _ = some _
    rw [f3]

/-- Witness for C39: the three-slot arena after two allocations, with the record of the
first identifier holding a node record; a third allocation and the release of the second
identifier leave that record as it is. -/
theorem C39_arena_frame_witness :
    nty_slab_init 40 3 = some ex_slab3 ∧
      nty_slab_exists (slab_run ex_slab3 [SlabOp.alloc, SlabOp.alloc]) ex_a = true ∧
      ex_b ≠ ex_a ∧
      (nty_slab_alloc
          { slab_run ex_slab3 [SlabOp.alloc, SlabOp.alloc] with
            data := fun _ => (⟨ex_a, 7, 7, 0, 0⟩ : nty_node_t) }).2.2.data
          (nty_id_index ex_a) = (⟨ex_a, 7, 7, 0, 0⟩ : nty_node_t) ∧
      (nty_slab_free
          { slab_run ex_slab3 [SlabOp.alloc, SlabOp.alloc] with
            data := fun _ => (⟨ex_a, 7, 7, 0, 0⟩ : nty_node_t) } ex_b).2.data
          (nty_id_index ex_a) = (⟨ex_a, 7, 7, 0, 0⟩ : nty_node_t) :=
  ⟨rfl, by decide, by decide,
    (C39_arena_frame 40 3 ex_slab3 _ [SlabOp.alloc, SlabOp.alloc]
      (fun _ => (⟨ex_a, 7, 7, 0, 0⟩ : nty_node_t))
      ex_a (by decide) rfl rfl (by decide)).1.2.2.2,
    ((C39_arena_frame 40 3 ex_slab3 _ [SlabOp.alloc, SlabOp.alloc]
      (fun _ => (⟨ex_a, 7, 7, 0, 0⟩ : nty_node_t))
      ex_a (by decide) rfl rfl (by decide)).2.2 ex_b (by decide)).2.2.2⟩

/-! ## Repeated reuse of a slot -/

section slab
variable {α : Type} [Zero α]

omit [Zero α] in
theorem slotStep_of_gen_eq (s s' : nty_slab_t α) (hg : s'.generation = s.generation)
    (hocc : ∀ i, s'.occupied i = true → s.occupied i = true) : SlotStep s s' := by
  intro i
  rw [if_neg, hg]
  rintro ⟨h1, h2⟩
  rw [hocc i h2] at h1
  cases h1

omit [Zero α] in
theorem slotStep_refl (s : nty_slab_t α) : SlotStep s s :=
  slotStep_of_gen_eq s s rfl (fun _ h => h)

omit [Zero α] in
theorem slotStep_data (s : nty_slab_t α) (d : Nat → α) : SlotStep s { s with data := d } :=
  slotStep_of_gen_eq _ _ rfl (fun _ h => h)

theorem free_occupied (s : nty_slab_t α) (id i : Nat)
    (hi : (nty_slab_free s id).2.occupied i = true) : s.occupied i = true := by
  cases hx : nty_slab_exists s id
  · rw [free_of_not_exists s id hx] at hi
    exact hi
  · rw [free_of_exists s id hx] at hi
    simp only at hi
    by_cases hp : i = nty_id_index id
    · rw [hp, Function.update_same] at hi
      cases hi
    · rw [Function.update_noteq hp] at hi
      exact hi

theorem slotStep_free (s : nty_slab_t α) (id : Nat) (d : Nat → α) :
    SlotStep s { (nty_slab_free s id).2 with data := d } :=
  slotStep_of_gen_eq _ _ (free_generation s id) (fun i hi => free_occupied s id i hi)

theorem slotStep_free_data (s : nty_slab_t α) (id : Nat) (d : Nat → α) :
    SlotStep s (nty_slab_free { s with data := d } id).2 :=
  slotStep_of_gen_eq _ _ (free_generation _ id)
    (fun i hi => free_occupied ({ s with data := d } : nty_slab_t α) id i hi)

theorem slotStep_alloc (s : nty_slab_t α) (h : SlabInv s) (d : Nat → α) :
    SlotStep s { (nty_slab_alloc s).2.2 with data := d } := by
  by_cases h0 : (nty_slab_alloc s).1 = 0
  · rw [alloc_fail_state s h h0]
    exact slotStep_data s d
  · obtain ⟨-, -, -, a4, -, a6, a7, -⟩ := alloc_ok s h h0
    intro i
    show (nty_slab_alloc s).2.2.generation i =
      if s.occupied i = false ∧ (nty_slab_alloc s).2.2.occupied i = true then
        next_generation (s.generation i) else s.generation i
    rw [a6, a7]
    by_cases hp : i = (nty_slab_alloc s).2.1
    · rw [hp, Function.update_same, Function.update_same, if_pos ⟨a4, rfl⟩]
    · rw [Function.update_noteq hp, Function.update_noteq hp, if_neg]
      rintro ⟨h1, h2⟩
      rw [h1] at h2
      cases h2

omit [Zero α] in
/-- If every identifier the later arena accepts was accepted by the earlier one, a slot
occupied later was occupied before. -/
theorem occupied_of_exists_mono (s s' : nty_slab_t α) (h' : SlabInv s')
    (hx : ∀ y, nty_slab_exists s' y = true → nty_slab_exists s y = true) (i : Nat)
    (ho : s'.occupied i = true) : s.occupied i = true := by
  cases hc : s.occupied i
  · have := idle_not_occupied s' h' i
      (fun y hy => idle_of_not_occupied s i hc y (hx y hy))
    rw [ho] at this
    cases this
  · rfl

omit [Zero α] in
/-- An identifier whose slot holds its generation advanced by `m` steps, `m` below 2^32
and positive when the slot is occupied, is rejected. -/
theorem slab_rejects (s : nty_slab_t α) (id m : Nat)
    (hgen : s.generation (nty_id_index id) = (nty_id_generation id + m) % 4294967296)
    (hm : m < 4294967296) (hocc : s.occupied (nty_id_index id) = true → 1 ≤ m) :
    nty_slab_exists s id = false := by
  cases hc : nty_slab_exists s id
  · rfl
  · exfalso
    obtain ⟨-, -, h3, h4⟩ := (exists_iff s id).1 hc
    have := hocc h3
    rw [hgen] at h4
    omega

/-- An allocation that reuses the slot of a released identifier after that slot has been
taken into use `m` more times, `m + 1` below 2^32, issues a different identifier, and the
arena then rejects the old one. -/
theorem stale_core_gen (s : nty_slab_t α) (h : SlabInv s) (id m : Nat)
    (hg : s.generation (nty_id_index id) = (nty_id_generation id + m) % 4294967296)
    (hm : m + 1 < 4294967296)
    (h0 : (nty_slab_alloc s).1 ≠ 0)
    (hi : nty_id_index (nty_slab_alloc s).1 = nty_id_index id) (d : Nat → α) :
    StaleRejected { (nty_slab_alloc s).2.2 with data := d } id (nty_slab_alloc s).1 := by
  obtain ⟨a1, a2, a3, -, -, a6, -⟩ := alloc_ok s h h0
  have hp : (nty_slab_alloc s).2.1 = nty_id_index id := by rw [← a1, hi]
  have hnext : next_generation (s.generation (nty_id_index id)) ≠ nty_id_generation id := by
    rw [next_generation_eq, hg]
    omega
  have hne : (nty_slab_alloc s).1 ≠ id := by
    intro e
    rw [e, hp] at a2
    exact hnext a2.symm
  have hx : nty_slab_exists ({ (nty_slab_alloc s).2.2 with data := d } : nty_slab_t α) id =
      false := by
    cases hc : nty_slab_exists ({ (nty_slab_alloc s).2.2 with data := d } : nty_slab_t α) id
    · rfl
    · have hc' : nty_slab_exists (nty_slab_alloc s).2.2 id = true := hc
      rw [exists_iff, a6, ← hp, Function.update_same, hp] at hc'
      exact absurd hc'.2.2.2 hnext
  have hx' : nty_slab_exists ({ (nty_slab_alloc s).2.2 with data := d } : nty_slab_t α)
      (nty_slab_alloc s).1 = true :=
    (alloc_exists_iff s h h0 _).2 (Or.inl rfl)
  refine ⟨hne, hx, get_eq_none _ _ hx, ?_, ?_, hx', get_eq_some _ _ hx'⟩
  · rw [free_fst]; exact hx
  · rw [free_of_not_exists _ _ hx]

/-- A successful allocation takes exactly the slot of the returned identifier into use. -/
theorem alloc_flip (s : nty_slab_t α) (h : SlabInv s) (d : Nat → α) (i : Nat) :
    (s.occupied i = false ∧
        ({ (nty_slab_alloc s).2.2 with data := d } : nty_slab_t α).occupied i = true) ↔
      ((nty_slab_alloc s).1 ≠ 0 ∧ nty_id_index (nty_slab_alloc s).1 = i) := by
  by_cases h0 : (nty_slab_alloc s).1 = 0
  · rw [alloc_fail_state s h h0]
    constructor
    · rintro ⟨h1, h2⟩
      have h2' : s.occupied i = true := h2
      rw [h1] at h2'
      cases h2'
    · rintro ⟨h1, -⟩
      exact absurd h0 h1
  · obtain ⟨a1, -, -, a4, -, -, a7, -⟩ := alloc_ok s h h0
    show (s.occupied i = false ∧ (nty_slab_alloc s).2.2.occupied i = true) ↔ _
    rw [a7, a1]
    by_cases hp : i = (nty_slab_alloc s).2.1
    · rw [hp, Function.update_same]
      exact ⟨fun _ => ⟨h0, rfl⟩, fun _ => ⟨a4, rfl⟩⟩
    · rw [Function.update_noteq hp]
      constructor
      · rintro ⟨h1, h2⟩
        rw [h1] at h2
        cases h2
      · rintro ⟨-, h2⟩
        exact absurd h2.symm hp

end slab

/-- What a public call does to the generations of the three arenas. -/
theorem step_slot {g g' : nty_graph_t} (h : GraphInv g) (hs : Step g g') :
    SlotStep g.nodes g'.nodes ∧ SlotStep g.edges g'.edges ∧
      SlotStep g.properties g'.properties := by
  cases hs with
  | node_create =>
    by_cases hc : (nty_slab_alloc g.nodes).1 = 0
    · rw [node_create_full h hc]
      exact ⟨slotStep_refl _, slotStep_refl _, slotStep_refl _⟩
    · rw [node_create_form h hc]
      exact ⟨slotStep_alloc _ h.nodes_inv _, slotStep_refl _, slotStep_refl _⟩
  | node_destroy fuel id r hr =>
    cases hn : nty_slab_exists g.nodes id
    · rw [node_destroy_absent fuel g id hn] at hr
      cases hr
      exact ⟨slotStep_refl _, slotStep_refl _, slotStep_refl _⟩
    · obtain ⟨g1, g2, l1, l2, l3⟩ := node_destroy_form fuel g id r hn hr
      obtain ⟨c1, c2, c3, -, -⟩ := cascade_edges id fuel h hn l1 l2
      obtain ⟨o1, -⟩ := destroy_out_loop_arena fuel g g1 _ l1
      obtain ⟨i1, -⟩ := destroy_in_loop_arena fuel g1 g2 _ l2
      have hn' : r.2.nodes = (nty_slab_free g2.nodes id).2 := by
        rw [l3]; simp only; split <;> rfl
      have he' : r.2.edges = g2.edges := by
        rw [l3]; simp only; split <;> rfl
      have hp' : r.2.properties = g2.properties := by
        rw [l3]; simp only; split <;> rfl
      refine ⟨?_, ?_, ?_⟩
      · rw [hn', c2.1]
        exact slotStep_free_data g.nodes id _
      · rw [he']
        apply slotStep_of_gen_eq _ _ (i1.trans o1)
        apply occupied_of_exists_mono _ _ c1.edges_inv
        intro y hy
        have hm := (edge_list_mem c1 y).2 hy
        rw [c3] at hm
        exact (edge_list_mem h y).1 (List.mem_of_mem_filter hm)
      · rw [hp', c2.2.1]
        exact slotStep_refl _
  | edge_create f t ty w ts =>
    by_cases hf : nty_slab_exists g.nodes f = true
    swap
    · rw [edge_create_no_node g f t ty w ts (Or.inl (by simpa using hf))]
      exact ⟨slotStep_refl _, slotStep_refl _, slotStep_refl _⟩
    by_cases ht : nty_slab_exists g.nodes t = true
    swap
    · rw [edge_create_no_node g f t ty w ts (Or.inr (by simpa using ht))]
      exact ⟨slotStep_refl _, slotStep_refl _, slotStep_refl _⟩
    by_cases hc : (nty_slab_alloc g.edges).1 = 0
    · rw [edge_create_full h f t ty w ts hc]
      exact ⟨slotStep_refl _, slotStep_refl _, slotStep_refl _⟩
    obtain ⟨N, E, hr⟩ := recordsOnly_edge_linked g (nty_slab_alloc g.edges) f t ty w ts
      (nty_id_index f) (nty_id_index t)
    rw [edge_create_form h f t ty w ts hf ht hc, hr]
    exact ⟨slotStep_data _ _, slotStep_alloc _ h.edges_inv _, slotStep_refl _⟩
  | edge_destroy id =>
    cases he : nty_slab_exists g.edges id
    · rw [edge_destroy_absent g id he]
      exact ⟨slotStep_refl _, slotStep_refl _, slotStep_refl _⟩
    · rw [edge_destroy_form g id he]
      exact ⟨slotStep_data _ _, slotStep_free _ _ _, slotStep_refl _⟩
  | property_create o k v =>
    by_cases hc : (nty_slab_alloc g.properties).1 = 0
    · rw [prop_create_full h o k v hc]
      exact ⟨slotStep_refl _, slotStep_refl _, slotStep_refl _⟩
    · rw [prop_create_form h o k v hc]
      exact ⟨slotStep_refl _, slotStep_refl _, slotStep_alloc _ h.props_inv _⟩
  | property_destroy id =>
    cases hp : nty_slab_exists g.properties id
    · rw [prop_destroy_absent g id hp]
      exact ⟨slotStep_refl _, slotStep_refl _, slotStep_refl _⟩
    · rw [prop_destroy_form g id hp]
      exact ⟨slotStep_refl _, slotStep_refl _,
        slotStep_of_gen_eq _ _ (free_generation _ _) (fun i hi => free_occupied _ id i hi)⟩

theorem getLastD_cons_graph (a d : nty_graph_t) (l : List nty_graph_t) :
    (a :: l).getLastD d = l.getLastD a := by
  cases l <;> rfl

/-- Along a chain of public calls the generation of a slot advances by the number of calls
that take the slot into use, modulo 2^32. -/
theorem chain_arena {α : Type} [Zero α] (arena : nty_graph_t → nty_slab_t α)
    (hstep : ∀ g g', GraphInv g → Step g g' → SlotStep (arena g) (arena g'))
    (hinv : ∀ g, GraphInv g → SlabInv (arena g)) (i : Nat) :
    ∀ (trace : List nty_graph_t) (g : nty_graph_t), GraphInv g → StepChain g trace →
      GraphInv (trace.getLastD g) ∧
      (arena (trace.getLastD g)).generation i =
        ((arena g).generation i + slot_uses (fun x => (arena x).occupied) i g trace) %
          4294967296 ∧
      ((arena g).occupied i = false → (arena (trace.getLastD g)).occupied i = true →
        1 ≤ slot_uses (fun x => (arena x).occupied) i g trace)
  | [], g, h, _ => by
    refine ⟨h, ?_, ?_⟩
    · show (arena g).generation i = ((arena g).generation i + 0) % 4294967296
      have := (hinv g h).gen_lt i
      omega
    · intro h1 h2
      have h2' : (arena g).occupied i = true := h2
      rw [h1] at h2'
      cases h2'
  | g' :: rest, g, h, hc => by
    obtain ⟨hs, hrest⟩ := hc
    obtain ⟨i1, i2, i3⟩ := chain_arena arena hstep hinv i rest g' (step_inv h hs) hrest
    have hst := hstep g g' h hs i
    have hlt := (hinv g h).gen_lt i
    rw [getLastD_cons_graph]
    refine ⟨i1, ?_, ?_⟩
    · rw [i2, hst]
      show _ = ((arena g).generation i +
        ((if (arena g).occupied i = false ∧ (arena g').occupied i = true then 1 else 0) +
          slot_uses (fun x => (arena x).occupied) i g' rest)) % 4294967296
      by_cases hf : (arena g).occupied i = false ∧ (arena g').occupied i = true
      · rw [if_pos hf, if_pos hf, next_generation_eq]
        omega
      · rw [if_neg hf, if_neg hf]
        omega
    · intro h1 h2
      show 1 ≤ (if (arena g).occupied i = false ∧ (arena g').occupied i = true then 1 else 0) +
          slot_uses (fun x => (arena x).occupied) i g' rest
      by_cases hf : (arena g).occupied i = false ∧ (arena g').occupied i = true
      · rw [if_pos hf]
        omega
      · rw [if_neg hf]
        have h3 : (arena g').occupied i = false := by
          cases hc' : (arena g').occupied i
          · rfl
          · exact absurd ⟨h1, hc'⟩ hf
        have := i3 h3 h2
        omega

/-- After an identifier stopped existing through a public call, it stays rejected by the
arena along every chain of calls that takes its slot into use fewer than 2^32 times, and
the generation of its slot is known. -/
theorem chain_rejects {α : Type} [Zero α] (arena : nty_graph_t → nty_slab_t α)
    (hstep : ∀ g g', GraphInv g → Step g g' → SlotStep (arena g) (arena g'))
    (hinv : ∀ g, GraphInv g → SlabInv (arena g))
    (hA : ∀ g g', GraphInv g → Step g g' → ArenaStep (arena g) (arena g'))
    (g g1 : nty_graph_t) (trace : List nty_graph_t) (id : Nat) (h : GraphInv g)
    (hs : Step g g1) (hc : StepChain g1 trace)
    (hx : nty_slab_exists (arena g) id = true) (hnx : nty_slab_exists (arena g1) id = false) :
    GraphInv (trace.getLastD g1) ∧
      (arena (trace.getLastD g1)).generation (nty_id_index id) =
        (nty_id_generation id +
          slot_uses (fun x => (arena x).occupied) (nty_id_index id) g1 trace) % 4294967296 ∧
      (slot_uses (fun x => (arena x).occupied) (nty_id_index id) g1 trace < 4294967296 →
        nty_slab_exists (arena (trace.getLastD g1)) id = false) := by
  have h1 := step_inv h hs
  obtain ⟨d1, d2⟩ := destroyed_slot _ _ (hA g g1 h hs) id hx hnx
  obtain ⟨i1, i2, i3⟩ := chain_arena arena hstep hinv (nty_id_index id) trace g1 h1 hc
  rw [d2] at i2
  exact ⟨i1, i2, fun hm => slab_rejects _ id _ i2 hm (i3 d1)⟩

/-! ## Stale handles after repeated reuse -/

theorem node_create_uses {g : nty_graph_t} (h : GraphInv g) (i : Nat) :
    slot_uses (fun x => x.nodes.occupied) i g [(nty_node_create g).2] =
      if (nty_node_create g).1 ≠ 0 ∧ nty_id_index (nty_node_create g).1 = i then 1 else 0 := by
  show (if g.nodes.occupied i = false ∧ (nty_node_create g).2.nodes.occupied i = true
    then 1 else 0) + 0 = _
  rw [Nat.add_zero]
  by_cases hc : (nty_slab_alloc g.nodes).1 = 0
  · rw [node_create_full h hc, if_neg, if_neg]
    · exact fun c => c.1 rfl
    · rintro ⟨h1, h2⟩
      have h2' : g.nodes.occupied i = true := h2
      rw [h1] at h2'
      cases h2'
  · rw [node_create_form h hc]
    have hiff := alloc_flip g.nodes h.nodes_inv
      (Function.update g.nodes.data (nty_slab_alloc g.nodes).2.1
        { id := (nty_slab_alloc g.nodes).1, out_head := 0, out_tail := 0, in_head := 0,
          in_tail := 0 }) i
    by_cases hb : (nty_slab_alloc g.nodes).1 ≠ 0 ∧ nty_id_index (nty_slab_alloc g.nodes).1 = i
    · rw [if_pos hb, if_pos (hiff.2 hb)]
    · rw [if_neg hb, if_neg (fun c => hb (hiff.1 c))]

theorem edge_create_uses {g : nty_graph_t} (h : GraphInv g) (f t ty w ts i : Nat) :
    slot_uses (fun x => x.edges.occupied) i g [(nty_edge_create g f t ty w ts).2] =
      if (nty_edge_create g f t ty w ts).1 ≠ 0 ∧
        nty_id_index (nty_edge_create g f t ty w ts).1 = i then 1 else 0 := by
  show (if g.edges.occupied i = false ∧
      (nty_edge_create g f t ty w ts).2.edges.occupied i = true then 1 else 0) + 0 = _
  rw [Nat.add_zero]
  have hfail : nty_edge_create g f t ty w ts = (0, g) →
      (if g.edges.occupied i = false ∧
        (nty_edge_create g f t ty w ts).2.edges.occupied i = true then 1 else 0) =
      if (nty_edge_create g f t ty w ts).1 ≠ 0 ∧
        nty_id_index (nty_edge_create g f t ty w ts).1 = i then 1 else 0 := by
    intro e
    rw [e, if_neg, if_neg]
    · exact fun c => c.1 rfl
    · rintro ⟨h1, h2⟩
      have h2' : g.edges.occupied i = true := h2
      rw [h1] at h2'
      cases h2'
  by_cases hf : nty_slab_exists g.nodes f = true
  swap
  · exact hfail (edge_create_no_node g f t ty w ts (Or.inl (by simpa using hf)))
  by_cases ht : nty_slab_exists g.nodes t = true
  swap
  · exact hfail (edge_create_no_node g f t ty w ts (Or.inr (by simpa using ht)))
  by_cases hc : (nty_slab_alloc g.edges).1 = 0
  · exact hfail (edge_create_full h f t ty w ts hc)
  obtain ⟨N, E, hr⟩ := recordsOnly_edge_linked g (nty_slab_alloc g.edges) f t ty w ts
    (nty_id_index f) (nty_id_index t)
  rw [edge_create_form h f t ty w ts hf ht hc, hr]
  have hiff := alloc_flip g.edges h.edges_inv E i
  by_cases hb : (nty_slab_alloc g.edges).1 ≠ 0 ∧ nty_id_index (nty_slab_alloc g.edges).1 = i
  · rw [if_pos hb, if_pos (hiff.2 hb)]
  · rw [if_neg hb, if_neg (fun c => hb (hiff.1 c))]

theorem property_create_uses {g : nty_graph_t} (h : GraphInv g) (o k v i : Nat) :
    slot_uses (fun x => x.properties.occupied) i g [(nty_property_create g o k v).2] =
      if (nty_property_create g o k v).1 ≠ 0 ∧
        nty_id_index (nty_property_create g o k v).1 = i then 1 else 0 := by
  show (if g.properties.occupied i = false ∧
      (nty_property_create g o k v).2.properties.occupied i = true then 1 else 0) + 0 = _
  rw [Nat.add_zero]
  by_cases hc : (nty_slab_alloc g.properties).1 = 0
  · rw [prop_create_full h o k v hc, if_neg, if_neg]
    · exact fun c => c.1 rfl
    · rintro ⟨h1, h2⟩
      have h2' : g.properties.occupied i = true := h2
      rw [h1] at h2'
      cases h2'
  · rw [prop_create_form h o k v hc]
    have hiff := alloc_flip g.properties h.props_inv
      (Function.update g.properties.data (nty_slab_alloc g.properties).2.1
        { id := (nty_slab_alloc g.properties).1, owner := o, key := k, value := v }) i
    by_cases hb : (nty_slab_alloc g.properties).1 ≠ 0 ∧
        nty_id_index (nty_slab_alloc g.properties).1 = i
    · rw [if_pos hb, if_pos (hiff.2 hb)]
    · rw [if_neg hb, if_neg (fun c => hb (hiff.1 c))]

/-- Stale node identifiers after any number of reuses below 2^32. -/
theorem node_stale {g g1 : nty_graph_t} (trace : List nty_graph_t) (id : Nat)
    (h : GraphInv g) (hs : Step g g1) (hc : StepChain g1 trace)
    (hx : nty_node_exists g id = true) (hnx : nty_node_exists g1 id = false) :
    (slot_uses (fun x => x.nodes.occupied) (nty_id_index id) g1 trace < 4294967296 →
      NodeRejected (trace.getLastD g1) id) ∧
    (slot_uses (fun x => x.nodes.occupied) (nty_id_index id) g1 trace + 1 < 4294967296 →
      (nty_node_create (trace.getLastD g1)).1 ≠ 0 →
      nty_id_index (nty_node_create (trace.getLastD g1)).1 = nty_id_index id →
      NodeHandleStale (nty_node_create (trace.getLastD g1)).2 id
        (nty_node_create (trace.getLastD g1)).1) := by
  have key : GraphInv (trace.getLastD g1) ∧
      (trace.getLastD g1).nodes.generation (nty_id_index id) =
        (nty_id_generation id +
          slot_uses (fun x => x.nodes.occupied) (nty_id_index id) g1 trace) % 4294967296 ∧
      (slot_uses (fun x => x.nodes.occupied) (nty_id_index id) g1 trace < 4294967296 →
        nty_slab_exists (trace.getLastD g1).nodes id = false) :=
    chain_rejects (fun x => x.nodes) (fun _ _ ha hb => (step_slot ha hb).1)
      (fun _ ha => ha.nodes_inv) (fun _ _ ha hb => (step_arena ha hb).1) g g1 trace id h hs hc
      hx hnx
  obtain ⟨i1, i2, i3⟩ := key
  refine ⟨?_, ?_⟩
  · intro hm
    have hx' := i3 hm
    exact ⟨hx', get_eq_none _ _ hx', free_of_not_exists _ _ hx', hx', node_get_none id hx',
      fun fuel => node_destroy_absent fuel _ id hx'⟩
  · intro hm h0 hi
    have hc : (nty_slab_alloc (trace.getLastD g1).nodes).1 ≠ 0 := by
      intro e
      rw [node_create_full i1 e] at h0
      exact h0 rfl
    have h3 := node_create_inv i1
    rw [node_create_form i1 hc] at hi h3 ⊢
    simp only at hi h3 ⊢
    have hst := stale_core_gen (trace.getLastD g1).nodes i1.nodes_inv id _ i2 hm hc hi
      (Function.update (trace.getLastD g1).nodes.data
        (nty_slab_alloc (trace.getLastD g1).nodes).2.1
        { id := (nty_slab_alloc (trace.getLastD g1).nodes).1, out_head := 0, out_tail := 0,
          in_head := 0, in_tail := 0 })
    refine ⟨hst, hst.2.1, node_get_none id hst.2.1,
      fun fuel => node_destroy_absent fuel _ id hst.2.1, hst.2.2.2.2.2.1,
      node_get_isSome _ hst.2.2.2.2.2.1, ?_⟩
    intro fuel hf
    obtain ⟨g', -, -, -, -, -, c6⟩ := node_destroy_total h3 fuel _ hst.2.2.2.2.2.1 hf
    exact ⟨_, c6⟩

/-- Stale edge identifiers after any number of reuses below 2^32. -/
theorem edge_stale {g g1 : nty_graph_t} (trace : List nty_graph_t) (id : Nat)
    (h : GraphInv g) (hs : Step g g1) (hc : StepChain g1 trace)
    (hx : nty_edge_exists g id = true) (hnx : nty_edge_exists g1 id = false) :
    (slot_uses (fun x => x.edges.occupied) (nty_id_index id) g1 trace < 4294967296 →
      EdgeRejected (trace.getLastD g1) id) ∧
    (slot_uses (fun x => x.edges.occupied) (nty_id_index id) g1 trace + 1 < 4294967296 →
      ∀ f t ty w ts, (nty_edge_create (trace.getLastD g1) f t ty w ts).1 ≠ 0 →
      nty_id_index (nty_edge_create (trace.getLastD g1) f t ty w ts).1 = nty_id_index id →
      EdgeHandleStale (nty_edge_create (trace.getLastD g1) f t ty w ts).2 id
        (nty_edge_create (trace.getLastD g1) f t ty w ts).1) := by
  have key : GraphInv (trace.getLastD g1) ∧
      (trace.getLastD g1).edges.generation (nty_id_index id) =
        (nty_id_generation id +
          slot_uses (fun x => x.edges.occupied) (nty_id_index id) g1 trace) % 4294967296 ∧
      (slot_uses (fun x => x.edges.occupied) (nty_id_index id) g1 trace < 4294967296 →
        nty_slab_exists (trace.getLastD g1).edges id = false) :=
    chain_rejects (fun x => x.edges) (fun _ _ ha hb => (step_slot ha hb).2.1)
      (fun _ ha => ha.edges_inv) (fun _ _ ha hb => (step_arena ha hb).2.1) g g1 trace id h hs
      hc hx hnx
  obtain ⟨i1, i2, i3⟩ := key
  refine ⟨?_, ?_⟩
  · intro hm
    have hx' := i3 hm
    exact ⟨hx', get_eq_none _ _ hx', free_of_not_exists _ _ hx', hx', edge_get_none id hx',
      edge_destroy_absent _ id hx'⟩
  · intro hm f t ty w ts h0 hi
    obtain ⟨hf, ht, hc⟩ := edge_create_nonzero i1 f t ty w ts h0
    obtain ⟨N, E, hro⟩ := recordsOnly_edge_linked (trace.getLastD g1)
      (nty_slab_alloc (trace.getLastD g1).edges) f t ty w ts (nty_id_index f) (nty_id_index t)
    rw [edge_create_form i1 f t ty w ts hf ht hc, hro] at hi ⊢
    simp only at hi ⊢
    have hst := stale_core_gen (trace.getLastD g1).edges i1.edges_inv id _ i2 hm hc hi E
    refine ⟨hst, hst.2.1, edge_get_none id hst.2.1, edge_destroy_absent _ id hst.2.1,
      hst.2.2.2.2.2.1, ?_, edge_destroy_fst _ hst.2.2.2.2.2.1⟩
    rw [edge_get_eq _ hst.2.2.2.2.2.1]
    rfl

/-- Stale property identifiers after any number of reuses below 2^32. -/
theorem property_stale {g g1 : nty_graph_t} (trace : List nty_graph_t) (id : Nat)
    (h : GraphInv g) (hs : Step g g1) (hc : StepChain g1 trace)
    (hx : nty_property_exists g id = true) (hnx : nty_property_exists g1 id = false) :
    (slot_uses (fun x => x.properties.occupied) (nty_id_index id) g1 trace < 4294967296 →
      PropertyRejected (trace.getLastD g1) id) ∧
    (slot_uses (fun x => x.properties.occupied) (nty_id_index id) g1 trace + 1 < 4294967296 →
      ∀ o k v, (nty_property_create (trace.getLastD g1) o k v).1 ≠ 0 →
      nty_id_index (nty_property_create (trace.getLastD g1) o k v).1 = nty_id_index id →
      PropertyHandleStale (nty_property_create (trace.getLastD g1) o k v).2 id
        (nty_property_create (trace.getLastD g1) o k v).1) := by
  have key : GraphInv (trace.getLastD g1) ∧
      (trace.getLastD g1).properties.generation (nty_id_index id) =
        (nty_id_generation id +
          slot_uses (fun x => x.properties.occupied) (nty_id_index id) g1 trace) %
            4294967296 ∧
      (slot_uses (fun x => x.properties.occupied) (nty_id_index id) g1 trace < 4294967296 →
        nty_slab_exists (trace.getLastD g1).properties id = false) :=
    chain_rejects (fun x => x.properties) (fun _ _ ha hb => (step_slot ha hb).2.2)
      (fun _ ha => ha.props_inv) (fun _ _ ha hb => (step_arena ha hb).2.2) g g1 trace id h hs
      hc hx hnx
  obtain ⟨i1, i2, i3⟩ := key
  refine ⟨?_, ?_⟩
  · intro hm
    have hx' := i3 hm
    exact ⟨hx', get_eq_none _ _ hx', free_of_not_exists _ _ hx', hx',
      property_get_none id hx', prop_destroy_absent _ id hx'⟩
  · intro hm o k v h0 hi
    have hc : (nty_slab_alloc (trace.getLastD g1).properties).1 ≠ 0 := by
      intro e
      rw [prop_create_full i1 o k v e] at h0
      exact h0 rfl
    rw [prop_create_form i1 o k v hc] at hi ⊢
    simp only at hi ⊢
    have hst := stale_core_gen (trace.getLastD g1).properties i1.props_inv id _ i2 hm hc hi
      (Function.update (trace.getLastD g1).properties.data
        (nty_slab_alloc (trace.getLastD g1).properties).2.1
        { id := (nty_slab_alloc (trace.getLastD g1).properties).1, owner := o, key := k,
          value := v })
    refine ⟨hst, hst.2.1, property_get_none id hst.2.1, prop_destroy_absent _ id hst.2.1,
      hst.2.2.2.2.2.1, property_get_isSome _ hst.2.2.2.2.2.1, ?_⟩
    rw [prop_destroy_form _ _ hst.2.2.2.2.2.1]

/-- One create/destroy round on a store with a single node slot and no node or edge:
the store is again of that kind and the generation of the slot has advanced by one. -/
theorem node_create_destroy_spec (g : nty_graph_t) (hr : Reachable g)
    (hc : g.nodes.capacity = 1) (h0 : g.nodes.count = 0) (he : g.edges.count = 0) :
    Reachable (node_create_destroy g) ∧ (node_create_destroy g).nodes.capacity = 1 ∧
      (node_create_destroy g).nodes.count = 0 ∧ (node_create_destroy g).edges.count = 0 ∧
      (node_create_destroy g).nodes.generation 0 =
        (g.nodes.generation 0 + 1) % 4294967296 := by
  have h := reachable_inv hr
  have ha : (nty_slab_alloc g.nodes).1 ≠ 0 := by
    intro c
    have := (alloc_fail_iff g.nodes h.nodes_inv).1 c
    omega
  obtain ⟨a1, -, a3, -, -, a6, -, a8, a9, -⟩ := alloc_ok g.nodes h.nodes_inv ha
  have hp : (nty_slab_alloc g.nodes).2.1 = 0 := by omega
  have hr1 : Reachable (nty_node_create g).2 := Reachable.step _ _ hr (Step.node_create g)
  have h1 := reachable_inv hr1
  have e1 : (nty_node_create g).1 = (nty_slab_alloc g.nodes).1 := by
    rw [node_create_form h ha]
  have en : (nty_node_create g).2.nodes.generation = (nty_slab_alloc g.nodes).2.2.generation ∧
      (nty_node_create g).2.nodes.capacity = (nty_slab_alloc g.nodes).2.2.capacity ∧
      (nty_node_create g).2.nodes.count = (nty_slab_alloc g.nodes).2.2.count ∧
      (nty_node_create g).2.edges = g.edges := by
    rw [node_create_form h ha]
    exact ⟨rfl, rfl, rfl, rfl⟩
  have hx1 : nty_slab_exists (nty_node_create g).2.nodes (nty_node_create g).1 = true := by
    rw [node_create_form h ha]
    exact (alloc_exists_iff g.nodes h.nodes_inv ha _).2 (Or.inl rfl)
  have hf : (nty_node_create g).2.edges.count < 1 := by rw [en.2.2.2, he]; exact Nat.one_pos
  obtain ⟨g2, c1, c2, c3, -, -, c6⟩ :=
    node_destroy_total h1 1 (nty_node_create g).1 hx1 hf
  have hx2 : nty_slab_exists g2.nodes (nty_node_create g).1 = true := by
    rw [edgeOpFrame_exists_nodes c2]; exact hx1
  have hfo := free_ok g2.nodes c1.nodes_inv _ hx2
  have hn2 : g2.nodes.generation = (nty_node_create g).2.nodes.generation ∧
      g2.nodes.capacity = (nty_node_create g).2.nodes.capacity ∧
      g2.nodes.count = (nty_node_create g).2.nodes.count := by
    rw [c2.1]
    exact ⟨rfl, rfl, rfl⟩
  have hcd : node_create_destroy g =
      { g2 with
        nodes := (nty_slab_free g2.nodes (nty_node_create g).1).2
        node_order := (nty_order_remove g2.node_order g2.node_order_len
          (nty_node_create g).1).1
        node_order_len := (nty_order_remove g2.node_order g2.node_order_len
          (nty_node_create g).1).2 } := by
    unfold node_create_destroy
    rw [c6]
    rfl
  have hr2 : Reachable (node_create_destroy g) := by
    rw [hcd]
    exact Reachable.step _ _ hr1 (Step.node_destroy _ 1 _ _ c6)
  have h2 := reachable_inv hr2
  refine ⟨hr2, ?_, ?_, ?_, ?_⟩
  · rw [hcd]
    show (nty_slab_free g2.nodes (nty_node_create g).1).2.capacity = 1
    rw [hfo.2.2.2.2.1, hn2.2.1, en.2.1, a8, hc]
  · rw [hcd]
    show (nty_slab_free g2.nodes (nty_node_create g).1).2.count = 0
    have k1 := hfo.2.2.2.2.2.1
    rw [hn2.2.2, en.2.2.1, a9, h0] at k1
    omega
  · have k1 := edge_count_eq_length h2
    have k2 : edge_list (node_create_destroy g) = edge_list g2 := by rw [hcd]; rfl
    have k3 := edge_count_eq_length h1
    rw [k1, k2, c3]
    have k4 : (edge_list (nty_node_create g).2).length = 0 := by
      rw [← k3, en.2.2.2, he]
    have k5 := List.length_filter_le
      (fun x => !decide ((edge_rec (nty_node_create g).2 x).from_ = (nty_node_create g).1) &&
        !decide ((edge_rec (nty_node_create g).2 x).to_ = (nty_node_create g).1))
      (edge_list (nty_node_create g).2)
    omega
  · rw [hcd]
    show (nty_slab_free g2.nodes (nty_node_create g).1).2.generation 0 = _
    rw [hfo.2.2.1, hn2.1, en.1, a6, hp, Function.update_same, next_generation_eq]

theorem node_create_destroy_iterate (g : nty_graph_t) (hr : Reachable g)
    (hc : g.nodes.capacity = 1) (h0 : g.nodes.count = 0) (he : g.edges.count = 0)
    (hg : g.nodes.generation 0 = 0) : ∀ n : Nat,
    Reachable (node_create_destroy^[n] g) ∧ (node_create_destroy^[n] g).nodes.capacity = 1 ∧
      (node_create_destroy^[n] g).nodes.count = 0 ∧
      (node_create_destroy^[n] g).edges.count = 0 ∧
      (node_create_destroy^[n] g).nodes.generation 0 = n % 4294967296
  | 0 => ⟨hr, hc, h0, he, by rw [Function.iterate_zero, id_eq, hg]⟩
  | n + 1 => by
    obtain ⟨i1, i2, i3, i4, i5⟩ := node_create_destroy_iterate g hr hc h0 he hg n
    obtain ⟨j1, j2, j3, j4, j5⟩ := node_create_destroy_spec _ i1 i2 i3 i4
    rw [Function.iterate_succ_apply']
    refine ⟨j1, j2, j3, j4, ?_⟩
    rw [j5, i5]
    omega

/-- The identifier that `nty_node_create` returns after `n` create/destroy rounds on a store
with a single node slot, and its acceptance. -/
theorem node_cycle_create (g : nty_graph_t) (hr : Reachable g)
    (hc : g.nodes.capacity = 1) (h0 : g.nodes.count = 0) (he : g.edges.count = 0)
    (hg : g.nodes.generation 0 = 0) (n : Nat) :
    (nty_node_create (node_create_destroy^[n] g)).1 =
        4294967296 * ((n + 1) % 4294967296) + 1 ∧
      nty_node_exists (nty_node_create (node_create_destroy^[n] g)).2
        (nty_node_create (node_create_destroy^[n] g)).1 = true := by
  obtain ⟨i1, i2, i3, i4, i5⟩ := node_create_destroy_iterate g hr hc h0 he hg n
  have h := reachable_inv i1
  have ha : (nty_slab_alloc (node_create_destroy^[n] g).nodes).1 ≠ 0 := by
    intro c
    have := (alloc_fail_iff _ h.nodes_inv).1 c
    omega
  obtain ⟨a1, a2, a3, -⟩ := alloc_ok _ h.nodes_inv ha
  have hp : (nty_slab_alloc (node_create_destroy^[n] g).nodes).2.1 = 0 := by omega
  rw [node_create_form h ha]
  refine ⟨?_, (alloc_exists_iff _ h.nodes_inv ha _).2 (Or.inl rfl)⟩
  show (nty_slab_alloc (node_create_destroy^[n] g).nodes).1 = _
  rw [hp] at a1 a2
  rw [i5, next_generation_eq] at a2
  have := id_of_index_generation _ 0 _ a1 (by norm_num) a2
  rw [this]
  omega

theorem ex_one_reachable : Reachable ex_one := Reachable.init 1 1 1 ex_one rfl

theorem node_cycle_after (g : nty_graph_t) (hr : Reachable g)
    (hc : g.nodes.capacity = 1) (h0 : g.nodes.count = 0) (he : g.edges.count = 0)
    (hg : g.nodes.generation 0 = 0) (n : Nat) :
    Reachable (node_create_destroy^[n] (node_create_destroy g)) ∧
      (nty_node_create (node_create_destroy^[n] (node_create_destroy g))).1 =
        4294967296 * ((n + 2) % 4294967296) + 1 ∧
      nty_node_exists (nty_node_create (node_create_destroy^[n] (node_create_destroy g))).2
        (nty_node_create (node_create_destroy^[n] (node_create_destroy g))).1 = true := by
  rw [← Function.iterate_succ_apply]
  exact ⟨(node_create_destroy_iterate g hr hc h0 he hg (n + 1)).1,
    node_cycle_create g hr hc h0 he hg (n + 1)⟩

/-- C5, as stated, fails when the 32-bit generation of a slot wraps: in the store of
`nty_graph_create(1, 1, 1)` the first `nty_node_create` returns `0x1_0000_0001`, and
`nty_node_destroy` of it makes it stale; after 2^32 - 1 further rounds of creating and
destroying a node, the next `nty_node_create` reuses the slot and returns `0x1_0000_0001`
again, so the new identifier equals the old one and the old one is accepted. -/
theorem C5_stale_handle_rejection_counterexample :
    nty_graph_create 1 1 1 = some ex_one ∧ (nty_node_create ex_one).1 = ex_a ∧
      nty_node_exists (nty_node_create ex_one).2 ex_a = true ∧
      nty_node_exists (node_create_destroy ex_one) ex_a = false ∧
      Reachable (node_create_destroy^[4294967295] (node_create_destroy ex_one)) ∧
      (nty_node_create (node_create_destroy^[4294967295] (node_create_destroy ex_one))).1 =
        ex_a ∧
      nty_node_exists
        (nty_node_create (node_create_destroy^[4294967295] (node_create_destroy ex_one))).2
        ex_a = true := by
  have key := node_cycle_after ex_one ex_one_reachable rfl rfl rfl rfl 4294967295
  have e : (nty_node_create
      (node_create_destroy^[4294967295] (node_create_destroy ex_one))).1 = ex_a :=
    key.2.1.trans (by norm_num)
  refine ⟨rfl, by decide, by decide, by decide, key.1, e, ?_⟩
  have k3 := key.2.2
  rw [e] at k3
  exact k3

/-- C5, amended. Stale-handle rejection: let a node (resp. edge, property) identifier `id`
exist in a reachable state and stop existing through one public call, and let any chain of
public calls follow. If the calls of the chain take the slot of `id` into use fewer than
2^32 times, `id` is rejected at the end of the chain by `nty_*_exists`, `nty_*_get` and
`nty_*_destroy` and, in the arena, by `nty_slab_exists`, `nty_slab_get` and
`nty_slab_free`. If a `nty_node_create` (resp. `nty_edge_create`, `nty_property_create`)
at the end of the chain succeeds and returns an identifier `id'` in that slot, and the
slot is thereby taken into use fewer than 2^32 times since `id` stopped existing, then
`id'` differs from `id`, `id` is rejected and `id'` is accepted. A successful create takes
exactly the slot of the identifier it returns into use. -/
theorem C5_stale_handle_rejection (g g1 : nty_graph_t) (trace : List nty_graph_t) (id : Nat)
    (hr : Reachable g) (hs : Step g g1) (hc : StepChain g1 trace) :
    (nty_node_exists g id = true → nty_node_exists g1 id = false →
      (slot_uses (fun x => x.nodes.occupied) (nty_id_index id) g1 trace < 4294967296 →
        NodeRejected (trace.getLastD g1) id) ∧
      (slot_uses (fun x => x.nodes.occupied) (nty_id_index id) g1 trace + 1 < 4294967296 →
        (nty_node_create (trace.getLastD g1)).1 ≠ 0 →
        nty_id_index (nty_node_create (trace.getLastD g1)).1 = nty_id_index id →
        NodeHandleStale (nty_node_create (trace.getLastD g1)).2 id
          (nty_node_create (trace.getLastD g1)).1)) ∧
    (nty_edge_exists g id = true → nty_edge_exists g1 id = false →
      (slot_uses (fun x => x.edges.occupied) (nty_id_index id) g1 trace < 4294967296 →
        EdgeRejected (trace.getLastD g1) id) ∧
      (slot_uses (fun x => x.edges.occupied) (nty_id_index id) g1 trace + 1 < 4294967296 →
        ∀ from_ to_ type weight timestamp,
        (nty_edge_create (trace.getLastD g1) from_ to_ type weight timestamp).1 ≠ 0 →
        nty_id_index (nty_edge_create (trace.getLastD g1) from_ to_ type weight timestamp).1 =
          nty_id_index id →
        EdgeHandleStale (nty_edge_create (trace.getLastD g1) from_ to_ type weight timestamp).2
          id (nty_edge_create (trace.getLastD g1) from_ to_ type weight timestamp).1)) ∧
    (nty_property_exists g id = true → nty_property_exists g1 id = false →
      (slot_uses (fun x => x.properties.occupied) (nty_id_index id) g1 trace < 4294967296 →
        PropertyRejected (trace.getLastD g1) id) ∧
      (slot_uses (fun x => x.properties.occupied) (nty_id_index id) g1 trace + 1 <
          4294967296 →
        ∀ owner key value,
        (nty_property_create (trace.getLastD g1) owner key value).1 ≠ 0 →
        nty_id_index (nty_property_create (trace.getLastD g1) owner key value).1 =
          nty_id_index id →
        PropertyHandleStale (nty_property_create (trace.getLastD g1) owner key value).2 id
          (nty_property_create (trace.getLastD g1) owner key value).1)) ∧
    (∀ i, slot_uses (fun x => x.nodes.occupied) i g [(nty_node_create g).2] =
      if (nty_node_create g).1 ≠ 0 ∧ nty_id_index (nty_node_create g).1 = i then 1 else 0) ∧
    (∀ i from_ to_ type weight timestamp,
      slot_uses (fun x => x.edges.occupied) i g
          [(nty_edge_create g from_ to_ type weight timestamp).2] =
        if (nty_edge_create g from_ to_ type weight timestamp).1 ≠ 0 ∧
          nty_id_index (nty_edge_create g from_ to_ type weight timestamp).1 = i then 1
        else 0) ∧
    (∀ i owner key value,
      slot_uses (fun x => x.properties.occupied) i g
          [(nty_property_create g owner key value).2] =
        if (nty_property_create g owner key value).1 ≠ 0 ∧
          nty_id_index (nty_property_create g owner key value).1 = i then 1 else 0) :=
  ⟨fun hx hnx => node_stale trace id (reachable_inv hr) hs hc hx hnx,
    fun hx hnx => edge_stale trace id (reachable_inv hr) hs hc hx hnx,
    fun hx hnx => property_stale trace id (reachable_inv hr) hs hc hx hnx,
    fun i => node_create_uses (reachable_inv hr) i,
    fun i f t ty w ts => edge_create_uses (reachable_inv hr) f t ty w ts i,
    fun i o k v => property_create_uses (reachable_inv hr) o k v i⟩

theorem ex_chain : StepChain ex_g6 [ex_g7, ex_g8, ex_g9] :=
  ⟨Step.property_create ex_g6 ex_a 7 0, Step.node_create ex_g7,
    Step.node_destroy ex_g8 3 ex_c2 ((nty_node_destroy 3 ex_g8 ex_c2).getD (false, ex_g8)) rfl,
    trivial⟩

/-- Witness for the amended C5: in the example store node `c` (slot 2, generation 1) is
destroyed; a property is created, a node is created in slot 2 with generation 2 and
destroyed again; the next `nty_node_create` reuses slot 2 a second time and returns the
identifier of generation 3, and the identifier of generation 1 is still rejected. -/
theorem C5_stale_handle_rejection_witness :
    Reachable ex_g5 ∧ Step ex_g5 ex_g6 ∧ StepChain ex_g6 [ex_g7, ex_g8, ex_g9] ∧
      nty_node_exists ex_g5 ex_c = true ∧ nty_node_exists ex_g6 ex_c = false ∧
      (nty_node_create ex_g7).1 = ex_c2 ∧
      slot_uses (fun x => x.nodes.occupied) (nty_id_index ex_c) ex_g6 [ex_g7, ex_g8, ex_g9] =
        1 ∧
      (nty_node_create ex_g9).1 = ex_c3 ∧ nty_id_index ex_c3 = nty_id_index ex_c ∧
      NodeRejected ex_g9 ex_c ∧
      NodeHandleStale (nty_node_create ex_g9).2 ex_c (nty_node_create ex_g9).1 :=
  ⟨ex_g5_reachable, ex_g6_step, ex_chain, by decide, by decide, by decide, by decide,
    by decide, by decide,
    ((C5_stale_handle_rejection ex_g5 ex_g6 [ex_g7, ex_g8, ex_g9] ex_c ex_g5_reachable
      ex_g6_step ex_chain).1 (by decide) (by decide)).1 (by decide),
    ((C5_stale_handle_rejection ex_g5 ex_g6 [ex_g7, ex_g8, ex_g9] ex_c ex_g5_reachable
      ex_g6_step ex_chain).1 (by decide) (by decide)).2 (by decide) (by decide) (by decide)⟩

end Nautylus
